import Mathlib

/-!
# Interview queue service: ordering, wait estimation, conflict resolution

A shallow embedding of `Backend/services/queue.go` (with the row type of
`Backend/models/queue.go`).

Modelling conventions.

* The `queue_entries` table is a list of rows in primary-key order; `db.Save`
  replaces the row that carries the primary key of the saved struct by the
  whole struct, and leaves every other row alone.
* Instants (`time.Time`) and durations are integers counted in nanoseconds,
  as in Go; `Minute` and `Hour` are the Go constants.  Storage is taken to keep
  instants exactly.
* Go `int` values are mathematical integers: the quantities involved (ranks,
  minutes) stay far inside the 64-bit range.
* `status` is a free-form string in the source; the four values the program
  ever writes or tests are the constructors of `EntryStatus`.
* `ORDER BY is_high_priority DESC, priority_set_time ASC, join_time ASC` is
  the MySQL order (the driver opened in `database.go`): `NULL` sorts first
  under `ASC`.  Rows that agree on all three keys are returned in primary-key
  order (a stable sort of the table).
* Each service call reads the clock once: every `time.Now()` inside one call
  is the same instant `now`.  The one exception is `JoinQueue`: it stores its
  reading as the join time of the new row, and the conflict resolution it runs
  several statements later compares that join time with a fresh reading, so the
  two readings are kept apart (`now` and `resolveNow`).
* Notifications through the websocket hub and the debug prints change no row
  and are left out; the result of a wait computation records whether
  `ResolveConflicts` ran on the way.
-/

namespace QueueService

/-- Values of the `status` column. -/
inductive EntryStatus where
  | waiting
  | interviewing
  | completed
  | left
deriving DecidableEq, Repr

/-- Row of the `queue_entries` table (`models.QueueEntry`), without the
preloaded associations and the bookkeeping timestamps. -/
structure QueueEntry where
  ID : Nat
  CandidateID : Nat
  PositionID : Nat
  QueuePosition : Int
  IsHighPriority : Bool
  PrioritySetTime : Option Int
  JoinTime : Int
  EstimatedTime : Option Int
  IsActive : Bool
  Status : EntryStatus
  JumpAheadUsed : Bool
  DelayUsed : Int
deriving DecidableEq, Repr

/-- The singleton row of `models.ActivityControl` read by `s.db.First(&activity)`. -/
structure ActivityControl where
  StartTime : Int
  EndTime : Int
  ActiveQueueLimit : Int
  HighPriorityQuota : Int
  AverageInterviewTime : Int
  BufferTime : Int
deriving DecidableEq, Repr

/-- The `queue_entries` table, in primary-key order. -/
abbrev Rows := List QueueEntry

/-- Go's `time.Minute`, in nanoseconds. -/
def Minute : Int := 60000000000

/-- Go's `time.Hour`, in nanoseconds. -/
def Hour : Int := 60 * Minute

/-! ## The `ORDER BY` of the two ranking queries -/

/-- First sort key, `is_high_priority DESC`: priority rows come first. -/
def priorityKey (e : QueueEntry) : Int := if e.IsHighPriority then 0 else 1

/-- Second sort key, `priority_set_time ASC`, first half: `NULL` before any instant. -/
def nullKey (e : QueueEntry) : Int :=
  match e.PrioritySetTime with
  | none => 0
  | some _ => 1

/-- Second sort key, `priority_set_time ASC`, second half: the instant itself. -/
def setTimeKey (e : QueueEntry) : Int :=
  match e.PrioritySetTime with
  | none => 0
  | some t => t

/-- Row `a` may precede row `b` under
`ORDER BY is_high_priority DESC, priority_set_time ASC, join_time ASC`. -/
def orderLE (a b : QueueEntry) : Prop :=
  priorityKey a < priorityKey b ∨ (priorityKey a = priorityKey b ∧
    (nullKey a < nullKey b ∨ (nullKey a = nullKey b ∧
      (setTimeKey a < setTimeKey b ∨ (setTimeKey a = setTimeKey b ∧
        a.JoinTime ≤ b.JoinTime)))))

instance : DecidableRel orderLE := fun a b =>
  inferInstanceAs (Decidable
    (priorityKey a < priorityKey b ∨ (priorityKey a = priorityKey b ∧
      (nullKey a < nullKey b ∨ (nullKey a = nullKey b ∧
        (setTimeKey a < setTimeKey b ∨ (setTimeKey a = setTimeKey b ∧
          a.JoinTime ≤ b.JoinTime)))))))

instance : IsTotal QueueEntry orderLE := ⟨fun a b => by
  unfold orderLE; omega⟩

instance : IsTrans QueueEntry orderLE := ⟨fun a b c => by
  unfold orderLE; omega⟩

/-- `WHERE position_id = ? AND status = 'waiting'`. -/
def waitingIn (rows : Rows) (positionID : Nat) : List QueueEntry :=
  rows.filter (fun e => e.PositionID = positionID ∧ e.Status = EntryStatus.waiting)

/-- The query shared by `updateQueuePositions` and `getQueuePosition`:
the waiting rows of a position in ranking order. -/
def orderedWaiting (rows : Rows) (positionID : Nat) : List QueueEntry :=
  (waitingIn rows positionID).insertionSort orderLE

/-- `s.db.Save(&entry)`: overwrite the row with the same primary key. -/
def save (rows : Rows) (entry : QueueEntry) : Rows :=
  rows.map (fun r => if r.ID = entry.ID then entry else r)

/-- Loop of `updateQueuePositions`: `entry.QueuePosition = i + 1; s.db.Save(&entry)`
for the entries from index `i` on. -/
def updateLoop : Nat → List QueueEntry → Rows → Rows
  | _, [], rows => rows
  | i, entry :: rest, rows =>
    updateLoop (i + 1) rest (save rows { entry with QueuePosition := (i : Int) + 1 })

/-- `QueueService.updateQueuePositions`. -/
def updateQueuePositions (rows : Rows) (positionID : Nat) : Rows :=
  updateLoop 0 (orderedWaiting rows positionID) rows

/-- Loop of `getQueuePosition`: `i + 1` for the first entry of the candidate,
`0` when the loop runs out. -/
def positionScan (candidateID : Nat) : Nat → List QueueEntry → Int
  | _, [] => 0
  | i, entry :: rest =>
    if entry.CandidateID = candidateID then (i : Int) + 1
    else positionScan candidateID (i + 1) rest

/-- `QueueService.getQueuePosition`. -/
def getQueuePosition (rows : Rows) (positionID candidateID : Nat) : Int :=
  positionScan candidateID 0 (orderedWaiting rows positionID)

/-- `QueueService.getQueueLength`. -/
def getQueueLength (rows : Rows) (positionID : Nat) : Int :=
  ((waitingIn rows positionID).length : Int)

/-! ## Wait estimates by rank -/

/-- `QueueService.estimateWaitTime`. -/
def estimateWaitTime (position avgInterviewTime : Int) : Int :=
  if position ≤ 0 then 0 else (position - 1) * avgInterviewTime

/-- `QueueService.estimateWaitTimeWithDelay`. -/
def estimateWaitTimeWithDelay (position avgInterviewTime : Int) (entry : QueueEntry) : Int :=
  let baseWaitTime := if position > 1 then (position - 1) * avgInterviewTime else 0
  let delayMinutes := entry.DelayUsed * 10
  baseWaitTime + delayMinutes

/-! ## Conflict resolution -/

/-- `WHERE candidate_id = ? AND status = 'waiting'`, in table order. -/
def candidateWaiting (rows : Rows) (candidateID : Nat) : List QueueEntry :=
  rows.filter (fun e => e.CandidateID = candidateID ∧ e.Status = EntryStatus.waiting)

/-- The local `conflictInfo` record of `ResolveConflicts`.  `Entry` is a pointer
to an element of the loaded slice in the source; each record points to its own
element, so the record carries the element. -/
structure conflictInfo where
  Entry : QueueEntry
  EstimatedTime : Int
  EndTime : Int
  QueuePosition : Int
deriving DecidableEq, Repr

/-- One rescheduling message: the position, the start that was computed and
the start that was written (the source formats these three into a sentence). -/
structure ConflictMessage where
  PositionID : Nat
  oldStartTime : Int
  newStartTime : Int
deriving DecidableEq, Repr

/-- Body of the first loop of `ResolveConflicts`: the naive start and end of one entry. -/
def naiveInfo (rows : Rows) (activity : ActivityControl) (now : Int) (candidateID : Nat)
    (entry : QueueEntry) : conflictInfo :=
  let queuePos := getQueuePosition rows entry.PositionID candidateID
  let waitTime := (queuePos - 1) * activity.AverageInterviewTime
  let waitTime := if waitTime < 0 then 0 else waitTime
  let queueBasedStartTime := now + waitTime * Minute
  let delayedStartTime :=
    if entry.JoinTime < now then entry.JoinTime + 24 * Hour else entry.JoinTime
  let startTime :=
    if queueBasedStartTime > delayedStartTime then queueBasedStartTime else delayedStartTime
  let endTime := startTime + activity.AverageInterviewTime * Minute
  { Entry := entry, EstimatedTime := startTime, EndTime := endTime, QueuePosition := queuePos }

/-- The comparator handed to `sort.Slice`. -/
def conflictLess (a b : conflictInfo) : Bool :=
  if a.Entry.IsHighPriority != b.Entry.IsHighPriority then a.Entry.IsHighPriority
  else decide (a.EstimatedTime < b.EstimatedTime)

/-- Order produced by sorting with `conflictLess`: `a` may stay before `b`. -/
def conflictLE (a b : conflictInfo) : Prop := conflictLess b a = false

instance : DecidableRel conflictLE := fun a b =>
  inferInstanceAs (Decidable (conflictLess b a = false))

/-- `sort.Slice(conflicts, less)`.  For the at most twelve entries a candidate
holds Go sorts by insertion, which keeps the load order of entries the
comparator does not separate; this is the stable insertion sort. -/
def sortConflicts (conflicts : List conflictInfo) : List conflictInfo :=
  conflicts.insertionSort conflictLE

/-- Variables carried by the second loop of `ResolveConflicts`; `conflicts`
is the part of the sorted slice already visited, as the loop leaves it. -/
structure WalkState where
  rows : Rows
  hasConflicts : Bool
  conflictMessages : List ConflictMessage
  lastEndTime : Int
  conflicts : List conflictInfo
deriving DecidableEq, Repr

/-- Body of the second loop of `ResolveConflicts` for an index `i > 0`. -/
def walkStep (activity : ActivityControl) (st : WalkState) (c : conflictInfo) : WalkState :=
  let earliestStartTime := st.lastEndTime + activity.BufferTime * Minute
  if c.EstimatedTime < earliestStartTime then
    let newStartTime := st.lastEndTime + activity.BufferTime * Minute
    let entry := { c.Entry with EstimatedTime := some newStartTime }
    let oldStartTime := c.EstimatedTime
    let endTime := newStartTime + activity.AverageInterviewTime * Minute
    let msg : ConflictMessage :=
      { PositionID := entry.PositionID, oldStartTime := oldStartTime,
        newStartTime := newStartTime }
    { rows := updateQueuePositions (save st.rows entry) entry.PositionID
      hasConflicts := true
      conflictMessages := st.conflictMessages ++ [msg]
      lastEndTime := endTime
      conflicts := st.conflicts ++
        [{ c with Entry := entry, EstimatedTime := newStartTime, EndTime := endTime }] }
  else
    { st with lastEndTime := c.EndTime, conflicts := st.conflicts ++ [c] }

/-- The second loop of `ResolveConflicts` over the sorted slice. -/
def walk (activity : ActivityControl) (rows : Rows) : List conflictInfo → WalkState
  | [] =>
    { rows := rows, hasConflicts := false, conflictMessages := [], lastEndTime := 0,
      conflicts := [] }
  | first :: rest =>
    rest.foldl (walkStep activity)
      { rows := rows, hasConflicts := false, conflictMessages := [],
        lastEndTime := first.EndTime, conflicts := [first] }

/-- State of `ResolveConflicts` when it returns, for a candidate it does not
dismiss at the `len(entries) <= 1` test. -/
def resolveWalk (rows : Rows) (activity : ActivityControl) (now : Int) (candidateID : Nat) :
    WalkState :=
  walk activity rows
    (sortConflicts ((candidateWaiting rows candidateID).map
      (naiveInfo rows activity now candidateID)))

/-- `QueueService.ResolveConflicts`: the two results and the table afterwards. -/
def ResolveConflicts (rows : Rows) (activity : ActivityControl) (now : Int)
    (candidateID : Nat) : Bool × List ConflictMessage × Rows :=
  if (candidateWaiting rows candidateID).length ≤ 1 then (false, [], rows)
  else
    let st := resolveWalk rows activity now candidateID
    (st.hasConflicts, st.conflictMessages, st.rows)

/-- The body of `ResolveConflicts` after its load, for the loaded slice `entries`
in the order the storage returned it (the query has no `ORDER BY`).
`ResolveConflicts` is this function at `candidateWaiting`, the primary-key order. -/
def resolveLoaded (rows : Rows) (activity : ActivityControl) (now : Int) (candidateID : Nat)
    (entries : List QueueEntry) : Bool × List ConflictMessage × Rows :=
  if entries.length ≤ 1 then (false, [], rows)
  else
    let st := walk activity rows
      (sortConflicts (entries.map (naiveInfo rows activity now candidateID)))
    (st.hasConflicts, st.conflictMessages, st.rows)

/-! ## Smart wait estimate -/

/-- `int(d.Minutes())` for a duration `d` in nanoseconds: the whole minutes,
rounded toward zero.  (`Minutes` goes through `float64`; for durations of less
than a month, all an activity window produces, the conversion loses nothing.) -/
def wholeMinutes (d : Int) : Int := Int.tdiv d Minute

/-- Result of a wait computation: the minutes returned, the table afterwards,
and the pair `ResolveConflicts` returned to `calculateActualWaitTime` (which the
source prints) when that function ran, `none` when it did not. -/
structure WaitResult where
  wait : Int
  rows : Rows
  resolved : Option (Bool × List ConflictMessage)
deriving DecidableEq, Repr

/-- The `ActualWaitTime` computed for one entry in `calculateActualWaitTime`. -/
def actualWait (rows : Rows) (now : Int) (candidateID : Nat) (avgInterviewTime : Int)
    (cq : QueueEntry) : Int :=
  let queuePos := getQueuePosition rows cq.PositionID candidateID
  match cq.EstimatedTime with
  | some estimated =>
    let waitDuration := estimated - now
    if waitDuration > 0 then wholeMinutes waitDuration else 0
  | none => if queuePos > 1 then (queuePos - 1) * avgInterviewTime else 0

/-- `QueueService.calculateActualWaitTime`. -/
def calculateActualWaitTime (rows : Rows) (activity : ActivityControl) (now : Int)
    (positionID candidateID : Nat) (avgInterviewTime : Int) : WaitResult :=
  let (hasConflicts, messages, rows1) := ResolveConflicts rows activity now candidateID
  let candidateQueues := candidateWaiting rows1 candidateID
  let wait : Int :=
    if candidateQueues.length ≤ 1 then
      match candidateQueues with
      | [only] =>
        match only.EstimatedTime with
        | some estimated =>
          let waitDuration := estimated - now
          if waitDuration > 0 then wholeMinutes waitDuration else 0
        | none =>
          let queuePos := getQueuePosition rows1 positionID candidateID
          if queuePos ≤ 1 then 0 else (queuePos - 1) * avgInterviewTime
      | _ =>
        let queuePos := getQueuePosition rows1 positionID candidateID
        if queuePos ≤ 1 then 0 else (queuePos - 1) * avgInterviewTime
    else
      match candidateQueues.find? (fun cq => cq.PositionID = positionID) with
      | some cq => actualWait rows1 now candidateID avgInterviewTime cq
      | none => 0
  { wait := wait, rows := rows1, resolved := some (hasConflicts, messages) }

/-- The map `baseWaitTimes` of `calculateSmartWaitTime`, keyed by position; a
missing key reads as `0`. -/
def baseWaitTimes (rows : Rows) (candidateID : Nat) (avgInterviewTime : Int)
    (candidateQueues : List QueueEntry) : Nat → Int :=
  candidateQueues.foldl
    (fun m entry => fun k =>
      if k = entry.PositionID then
        (getQueuePosition rows entry.PositionID candidateID - 1) * avgInterviewTime
      else m k)
    (fun _ => 0)

/-- The counter `simultaneousCount`: the candidate's entries of other positions
whose base wait equals `currentWait`. -/
def simultaneousCount (base : Nat → Int) (positionID : Nat) (currentWait : Int)
    (candidateQueues : List QueueEntry) : Nat :=
  candidateQueues.countP
    (fun otherEntry => otherEntry.PositionID ≠ positionID ∧
      base otherEntry.PositionID = currentWait)

/-- The loop of case 1 of `calculateSmartWaitTime` over the candidate's entries:
`some true` when it returns through `calculateActualWaitTime`, `some false` when
it returns `currentWait`, `none` when it runs out. -/
def regularScan (activity : ActivityControl) (avgInterviewTime : Int) (base : Nat → Int)
    (positionID : Nat) (candidateQueues : List QueueEntry) : List QueueEntry → Option Bool
  | [] => none
  | entry :: rest =>
    if entry.IsHighPriority then
      let priorityWait := base entry.PositionID
      let currentWait := base positionID
      if currentWait + avgInterviewTime + activity.BufferTime ≤ priorityWait then
        if simultaneousCount base positionID currentWait candidateQueues > 0 then some true
        else some false
      else regularScan activity avgInterviewTime base positionID candidateQueues rest
    else regularScan activity avgInterviewTime base positionID candidateQueues rest

/-- The flag `currentEntry.IsHighPriority` of `calculateSmartWaitTime`:
`currentEntry` is the first of the candidate's entries at the queried position,
and the zero value (not high priority) when there is none. -/
def currentIsHighPriority (positionID : Nat) (candidateQueues : List QueueEntry) : Bool :=
  match candidateQueues.find? (fun entry => entry.PositionID = positionID) with
  | some currentEntry => currentEntry.IsHighPriority
  | none => false

/-- `QueueService.calculateSmartWaitTime`. -/
def calculateSmartWaitTime (rows : Rows) (activity : ActivityControl) (now : Int)
    (positionID candidateID : Nat) (avgInterviewTime : Int) : WaitResult :=
  let candidateQueues := candidateWaiting rows candidateID
  if candidateQueues.length ≤ 1 then
    let queuePos := getQueuePosition rows positionID candidateID
    if queuePos ≤ 0 then { wait := 0, rows := rows, resolved := none }
    else { wait := (queuePos - 1) * avgInterviewTime, rows := rows, resolved := none }
  else
    let base := baseWaitTimes rows candidateID avgInterviewTime candidateQueues
    let fallBack :=
      calculateActualWaitTime rows activity now positionID candidateID avgInterviewTime
    let case1 : Option Bool :=
      if currentIsHighPriority positionID candidateQueues = false then
        regularScan activity avgInterviewTime base positionID candidateQueues candidateQueues
      else none
    match case1 with
    | some true => fallBack
    | some false => { wait := base positionID, rows := rows, resolved := none }
    | none =>
      if currentIsHighPriority positionID candidateQueues = true then
        let currentWait := base positionID
        if simultaneousCount base positionID currentWait candidateQueues > 0 then fallBack
        else { wait := base positionID, rows := rows, resolved := none }
      else fallBack

/-- The record `QueueInfo` returned per entry by `GetCandidateQueues`; the
preloaded position is represented by its key. -/
structure QueueInfo where
  PositionID : Nat
  QueuePosition : Int
  TotalInQueue : Int
  IsHighPriority : Bool
  EstimatedWaitTime : Int
  Status : EntryStatus
  CanSetPriority : Bool
  JoinedAt : Int
deriving DecidableEq, Repr

/-- Loop of `GetCandidateQueues` over the loaded entries; the table is threaded
through the wait computations. -/
def candidateQueuesLoop (activity : ActivityControl) (now : Int) (candidateID : Nat)
    (canSetPriority : Bool) : List QueueEntry → Rows → List QueueInfo × Rows
  | [], rows => ([], rows)
  | entry :: rest, rows =>
    let totalInQueue := getQueueLength rows entry.PositionID
    let queuePos := getQueuePosition rows entry.PositionID candidateID
    let r := calculateSmartWaitTime rows activity now entry.PositionID candidateID
      activity.AverageInterviewTime
    let (queues, rows2) := candidateQueuesLoop activity now candidateID canSetPriority rest r.rows
    ({ PositionID := entry.PositionID
       QueuePosition := queuePos
       TotalInQueue := totalInQueue
       IsHighPriority := entry.IsHighPriority
       EstimatedWaitTime := r.wait
       Status := entry.Status
       CanSetPriority := canSetPriority && !entry.IsHighPriority
       JoinedAt := entry.JoinTime } :: queues, rows2)

/-- `QueueService.GetCandidateQueues`: the list returned and the table afterwards. -/
def GetCandidateQueues (rows : Rows) (activity : ActivityControl) (now : Int)
    (candidateID : Nat) : List QueueInfo × Rows :=
  let entries := rows.filter (fun e => e.CandidateID = candidateID ∧
    e.Status ≠ EntryStatus.completed ∧ e.Status ≠ EntryStatus.left)
  let canSetPriority : Bool := decide (activity.EndTime - now ≥ 30 * Minute)
  candidateQueuesLoop activity now candidateID canSetPriority entries rows

/-! ## Optimization advisor -/

/-- The local `queueDetail` record of `CheckQueueOptimization`. -/
structure queueDetail where
  Entry : QueueEntry
  Position : Int
  WaitTime : Int
  IsPriority : Bool
deriving DecidableEq, Repr

/-- The suggestion map returned by `CheckQueueOptimization`, without the texts. -/
structure Suggestion where
  priorityPositionID : Nat
  priorityWaitTime : Int
  regularPositionID : Nat
  regularWaitTime : Int
  timeSaved : Int
deriving DecidableEq, Repr

/-- First loop of `CheckQueueOptimization`: one `queueDetail` per entry, the
table being threaded through the wait computations. -/
def collectDetails (activity : ActivityControl) (now : Int) (candidateID : Nat) :
    List QueueEntry → Rows → List queueDetail × Rows
  | [], rows => ([], rows)
  | cq :: rest, rows =>
    let pos := getQueuePosition rows cq.PositionID candidateID
    let r := calculateSmartWaitTime rows activity now cq.PositionID candidateID
      activity.AverageInterviewTime
    let (details, rows2) := collectDetails activity now candidateID rest r.rows
    ({ Entry := cq, Position := pos, WaitTime := r.wait, IsPriority := cq.IsHighPriority }
      :: details, rows2)

/-- Inner loop of the pair search, from index `j` on, for the priority entry at index `i`. -/
def findRegular (i : Nat) (priorityQueue : queueDetail) :
    Nat → List queueDetail → Option queueDetail
  | _, [] => none
  | j, regularQueue :: rest =>
    if regularQueue.IsPriority ∨ i = j then findRegular i priorityQueue (j + 1) rest
    else if regularQueue.WaitTime = 0 ∧ priorityQueue.WaitTime > 0 then some regularQueue
    else findRegular i priorityQueue (j + 1) rest

/-- Outer loop of the pair search, from index `i` on. -/
def findPair (queues : List queueDetail) :
    Nat → List queueDetail → Option (queueDetail × queueDetail)
  | _, [] => none
  | i, priorityQueue :: rest =>
    if priorityQueue.IsPriority then
      match findRegular i priorityQueue 0 queues with
      | some regularQueue => some (priorityQueue, regularQueue)
      | none => findPair queues (i + 1) rest
    else findPair queues (i + 1) rest

/-- `QueueService.CheckQueueOptimization`: the flag, the suggestion and the
table afterwards. -/
def CheckQueueOptimization (rows : Rows) (activity : ActivityControl) (now : Int)
    (candidateID : Nat) : Bool × Option Suggestion × Rows :=
  let candidateQueues := candidateWaiting rows candidateID
  if candidateQueues.length < 2 then (false, none, rows)
  else
    let (queues, rows1) := collectDetails activity now candidateID candidateQueues rows
    match findPair queues 0 queues with
    | some (priorityQueue, regularQueue) =>
      (true,
        some { priorityPositionID := priorityQueue.Entry.PositionID
               priorityWaitTime := priorityQueue.WaitTime
               regularPositionID := regularQueue.Entry.PositionID
               regularWaitTime := regularQueue.WaitTime
               timeSaved := priorityQueue.WaitTime },
        rows1)
    | none => (false, none, rows1)

/-- Errors of `ApplyQueueOptimization`. -/
inductive OptimizationError where
  | regularNotFound
  | priorityNotFound
  | notHighPriority
  | notBeneficial
deriving DecidableEq, Repr

/-- `Where("candidate_id = ? AND position_id = ? AND status = ?", .., "waiting").First`. -/
def findWaiting (rows : Rows) (candidateID positionID : Nat) : Option QueueEntry :=
  rows.find? (fun e => e.CandidateID = candidateID ∧ e.PositionID = positionID ∧
    e.Status = EntryStatus.waiting)

/-- `QueueService.ApplyQueueOptimization`: the error (`none` for `nil`) and the
table afterwards. -/
def ApplyQueueOptimization (rows : Rows) (activity : ActivityControl) (now : Int)
    (candidateID regularPositionID priorityPositionID : Nat) :
    Option OptimizationError × Rows :=
  match findWaiting rows candidateID regularPositionID with
  | none => (some OptimizationError.regularNotFound, rows)
  | some regularEntry =>
    match findWaiting rows candidateID priorityPositionID with
    | none => (some OptimizationError.priorityNotFound, rows)
    | some priorityEntry =>
      if priorityEntry.IsHighPriority = false then
        (some OptimizationError.notHighPriority, rows)
      else
        let r1 := calculateSmartWaitTime rows activity now regularPositionID candidateID
          activity.AverageInterviewTime
        let r2 := calculateSmartWaitTime r1.rows activity now priorityPositionID candidateID
          activity.AverageInterviewTime
        if r1.wait ≥ r2.wait then (some OptimizationError.notBeneficial, r2.rows)
        else
          let tempTime := regularEntry.JoinTime
          let regularEntry := { regularEntry with JoinTime := priorityEntry.JoinTime }
          let priorityEntry := { priorityEntry with
            JoinTime := tempTime +
              (activity.AverageInterviewTime + activity.BufferTime) * Minute }
          let rows3 := save (save r2.rows regularEntry) priorityEntry
          let rows4 := updateQueuePositions rows3 regularPositionID
          (none, updateQueuePositions rows4 priorityPositionID)

/-! ## Coordinator operations -/

/-- `status NOT IN ('completed', 'left')`. -/
def nonTerminal (e : QueueEntry) : Prop :=
  e.Status ≠ EntryStatus.completed ∧ e.Status ≠ EntryStatus.left

instance (e : QueueEntry) : Decidable (nonTerminal e) :=
  inferInstanceAs (Decidable (e.Status ≠ EntryStatus.completed ∧ e.Status ≠ EntryStatus.left))

/-- The primary key `db.Create` assigns: one more than the largest key in the
table (auto-increment; no row is ever deleted). -/
def nextID (rows : Rows) : Nat :=
  (rows.map (fun e => e.ID)).foldl max 0 + 1

/-- Errors of `JoinQueue`. -/
inductive JoinError where
  | alreadyInQueue
deriving DecidableEq, Repr

/-- The count `activeCount` of `JoinQueue`. -/
def activeCount (rows : Rows) (candidateID : Nat) : Int :=
  ((rows.filter (fun e => e.CandidateID = candidateID ∧ e.IsActive = true ∧
    nonTerminal e)).length : Int)

/-- `QueueService.JoinQueue`: the error (`none` for `nil`) and the table
afterwards.  `now` is the clock reading stored as the join time, `resolveNow` the
reading of the conflict resolution at the end of the call. -/
def JoinQueue (rows : Rows) (activity : ActivityControl) (now resolveNow : Int)
    (candidateID positionID : Nat) : Option JoinError × Rows :=
  match rows.find? (fun e => e.CandidateID = candidateID ∧ e.PositionID = positionID ∧
      nonTerminal e) with
  | some _ => (some JoinError.alreadyInQueue, rows)
  | none =>
    let isActive : Bool := decide (activeCount rows candidateID < activity.ActiveQueueLimit)
    let entry : QueueEntry :=
      { ID := nextID rows
        CandidateID := candidateID
        PositionID := positionID
        QueuePosition := 0
        IsHighPriority := false
        PrioritySetTime := none
        JoinTime := now
        EstimatedTime := none
        IsActive := isActive
        Status := EntryStatus.waiting
        JumpAheadUsed := false
        DelayUsed := 0 }
    let rows1 := rows ++ [entry]
    let rows2 := updateQueuePositions rows1 positionID
    (none, (ResolveConflicts rows2 activity resolveNow candidateID).2.2)

/-- Errors of `SetHighPriority`. -/
inductive PriorityError where
  | windowClosing
  | quotaExceeded
  | notInQueue
  | alreadyPriority
deriving DecidableEq, Repr

/-- The count `usedCount` of `SetHighPriority`. -/
def usedCount (rows : Rows) (candidateID : Nat) : Int :=
  ((rows.filter (fun e => e.CandidateID = candidateID ∧ e.IsHighPriority = true ∧
    nonTerminal e)).length : Int)

/-- `QueueService.SetHighPriority`: the error (`none` for `nil`) and the table afterwards. -/
def SetHighPriority (rows : Rows) (activity : ActivityControl) (now : Int)
    (candidateID positionID : Nat) : Option PriorityError × Rows :=
  if activity.EndTime - now < 30 * Minute then (some PriorityError.windowClosing, rows)
  else if usedCount rows candidateID ≥ activity.HighPriorityQuota then
    (some PriorityError.quotaExceeded, rows)
  else
    match findWaiting rows candidateID positionID with
    | none => (some PriorityError.notInQueue, rows)
    | some entry =>
      if entry.IsHighPriority = true then (some PriorityError.alreadyPriority, rows)
      else
        let entry := { entry with
          IsHighPriority := true, PrioritySetTime := some now, IsActive := true }
        let rows1 := save rows entry
        let rows2 := updateQueuePositions rows1 positionID
        let checked := CheckQueueOptimization rows2 activity now candidateID
        let canOptimize := checked.1
        let rows3 := checked.2.2
        if canOptimize = false then
          (none, (ResolveConflicts rows3 activity now candidateID).2.2)
        else (none, rows3)

/-- The handler `QueueHandler.LeaveQueue`: every waiting row of the pair gets
status `left`; `false` is the answer `Not in queue for this position` given when
no row was affected. -/
def LeaveQueue (rows : Rows) (candidateID positionID : Nat) : Bool × Rows :=
  let rowsAffected := (rows.filter (fun e => e.CandidateID = candidateID ∧
    e.PositionID = positionID ∧ e.Status = EntryStatus.waiting)).length
  let rows1 := rows.map (fun e =>
    if e.CandidateID = candidateID ∧ e.PositionID = positionID ∧
        e.Status = EntryStatus.waiting then
      { e with Status := EntryStatus.left }
    else e)
  if rowsAffected = 0 then (false, rows1) else (true, rows1)

/-- Loop of `ProcessDelay` over the entries loaded at the start. -/
def delayLoop (minutes : Int) : List QueueEntry → Rows → Rows
  | [], rows => rows
  | entry :: rest, rows =>
    let entry := { entry with
      JoinTime := entry.JoinTime + minutes * Minute, DelayUsed := entry.DelayUsed + 1 }
    delayLoop minutes rest (updateQueuePositions (save rows entry) entry.PositionID)

/-- `QueueService.ProcessDelay` (it always returns `nil`): the table afterwards. -/
def ProcessDelay (rows : Rows) (candidateID : Nat) (minutes : Int) : Rows :=
  delayLoop minutes (candidateWaiting rows candidateID) rows

/-- Messages of `ProcessJumpAhead`. -/
inductive JumpMessage where
  | notInQueue
  | alreadyUsed
  | alreadyAtFront
  | successful
  | noBetterPosition
deriving DecidableEq, Repr

/-- `ORDER BY queue_position DESC`: `a` may precede `b`. -/
def rankDescLE (a b : QueueEntry) : Prop := b.QueuePosition ≤ a.QueuePosition

instance : DecidableRel rankDescLE := fun a b =>
  inferInstanceAs (Decidable (b.QueuePosition ≤ a.QueuePosition))

/-- The query of `ProcessJumpAhead`: the waiting rows of the position whose
stored rank is below `currentPos`, by stored rank descending. -/
def entriesAhead (rows : Rows) (positionID : Nat) (currentPos : Int) : List QueueEntry :=
  (rows.filter (fun e => e.PositionID = positionID ∧ e.Status = EntryStatus.waiting ∧
    e.QueuePosition < currentPos)).insertionSort rankDescLE

/-- Loop of `ProcessJumpAhead` computing `betterPos` (`0` when no entry qualifies). -/
def findBetterPos (activity : ActivityControl) (currentPos threshold : Int) :
    List QueueEntry → Int
  | [] => 0
  | e :: rest =>
    let timeSaved := (currentPos - e.QueuePosition) * activity.AverageInterviewTime
    if timeSaved ≥ threshold then e.QueuePosition + 1
    else findBetterPos activity currentPos threshold rest

/-- `QueueService.ProcessJumpAhead`: the two results and the table afterwards. -/
def ProcessJumpAhead (rows : Rows) (activity : ActivityControl)
    (candidateID positionID : Nat) : Bool × JumpMessage × Rows :=
  match findWaiting rows candidateID positionID with
  | none => (false, JumpMessage.notInQueue, rows)
  | some entry =>
    if entry.JumpAheadUsed = true then (false, JumpMessage.alreadyUsed, rows)
    else
      let threshold := activity.AverageInterviewTime + activity.BufferTime
      let currentPos := getQueuePosition rows positionID candidateID
      if currentPos ≤ 1 then (false, JumpMessage.alreadyAtFront, rows)
      else
        let betterPos := findBetterPos activity currentPos threshold
          (entriesAhead rows positionID currentPos)
        if betterPos > 0 ∧ betterPos < currentPos then
          let entry := { entry with QueuePosition := betterPos, JumpAheadUsed := true }
          (true, JumpMessage.successful,
            updateQueuePositions (save rows entry) positionID)
        else (false, JumpMessage.noBetterPosition, rows)

/-- The handler `InterviewHandler.StartInterview`, its effect on the queue table
once the position and the candidate were found and the interview record was
created: every row of the pair gets status `interviewing`. -/
def StartInterview (rows : Rows) (candidateID positionID : Nat) : Rows :=
  rows.map (fun e =>
    if e.CandidateID = candidateID ∧ e.PositionID = positionID then
      { e with Status := EntryStatus.interviewing }
    else e)

/-- The handler `InterviewHandler.EndInterview`, its effect on the queue table
for an interview record of the pair: every row of the pair gets status
`completed`. -/
def EndInterview (rows : Rows) (candidateID positionID : Nat) : Rows :=
  rows.map (fun e =>
    if e.CandidateID = candidateID ∧ e.PositionID = positionID then
      { e with Status := EntryStatus.completed }
    else e)

/-! ## The service as a transition system -/

/-- One request to the queue service, with the activity settings and the clock
reading it sees. -/
inductive Operation where
  | joinQueue (activity : ActivityControl) (now resolveNow : Int)
      (candidateID positionID : Nat)
  | setHighPriority (activity : ActivityControl) (now : Int) (candidateID positionID : Nat)
  | leave (candidateID positionID : Nat)
  | processDelay (candidateID : Nat) (minutes : Int)
  | processJumpAhead (activity : ActivityControl) (candidateID positionID : Nat)
  | applyQueueOptimization (activity : ActivityControl) (now : Int)
      (candidateID regularPositionID priorityPositionID : Nat)
  | resolveConflicts (activity : ActivityControl) (now : Int) (candidateID : Nat)
  | startInterview (candidateID positionID : Nat)
  | endInterview (candidateID positionID : Nat)

/-- The table after one request. -/
def step (rows : Rows) : Operation → Rows
  | Operation.joinQueue activity now resolveNow candidateID positionID =>
    (JoinQueue rows activity now resolveNow candidateID positionID).2
  | Operation.setHighPriority activity now candidateID positionID =>
    (SetHighPriority rows activity now candidateID positionID).2
  | Operation.leave candidateID positionID => (LeaveQueue rows candidateID positionID).2
  | Operation.processDelay candidateID minutes => ProcessDelay rows candidateID minutes
  | Operation.processJumpAhead activity candidateID positionID =>
    (ProcessJumpAhead rows activity candidateID positionID).2.2
  | Operation.applyQueueOptimization activity now candidateID regularPositionID
      priorityPositionID =>
    (ApplyQueueOptimization rows activity now candidateID regularPositionID
      priorityPositionID).2
  | Operation.resolveConflicts activity now candidateID =>
    (ResolveConflicts rows activity now candidateID).2.2
  | Operation.startInterview candidateID positionID =>
    StartInterview rows candidateID positionID
  | Operation.endInterview candidateID positionID =>
    EndInterview rows candidateID positionID

/-- The table after a sequence of requests. -/
def run (rows : Rows) (ops : List Operation) : Rows :=
  ops.foldl step rows

/-! ## Auxiliary definitions for the proofs -/

/-- Rank of the row with primary key `id` in the ranking order of a position. -/
def rankOf (rows : Rows) (positionID id : Nat) : Int :=
  ((((orderedWaiting rows positionID).map (fun e => e.ID)).indexOf id : Nat) : Int) + 1

/-- Effect of `updateQueuePositions` on one row. -/
def reRank (rows : Rows) (positionID : Nat) (r : QueueEntry) : QueueEntry :=
  if r.PositionID = positionID ∧ r.Status = EntryStatus.waiting then
    { r with QueuePosition := rankOf rows positionID r.ID }
  else r

/-- A row with the two columns conflict resolution and ranking write blanked:
what the queries of the service can tell apart. -/
def core (e : QueueEntry) : QueueEntry :=
  { e with QueuePosition := 0, EstimatedTime := none }

/-- The reschedulings the second loop of `ResolveConflicts` makes from a given
`lastEndTime` on: each rescheduled record with the start written for it. -/
def reschedule (activity : ActivityControl) : Int → List conflictInfo → List (conflictInfo × Int)
  | _, [] => []
  | lastEndTime, c :: rest =>
    if c.EstimatedTime < lastEndTime + activity.BufferTime * Minute then
      (c, lastEndTime + activity.BufferTime * Minute) ::
        reschedule activity
          (lastEndTime + activity.BufferTime * Minute + activity.AverageInterviewTime * Minute)
          rest
    else reschedule activity c.EndTime rest

/-- The slice `conflicts` as the second loop leaves it, from a given `lastEndTime` on. -/
def resolvedSlice (activity : ActivityControl) : Int → List conflictInfo → List conflictInfo
  | _, [] => []
  | lastEndTime, c :: rest =>
    if c.EstimatedTime < lastEndTime + activity.BufferTime * Minute then
      { c with
        Entry := { c.Entry with
          EstimatedTime := some (lastEndTime + activity.BufferTime * Minute) }
        EstimatedTime := lastEndTime + activity.BufferTime * Minute
        EndTime := lastEndTime + activity.BufferTime * Minute +
          activity.AverageInterviewTime * Minute } ::
        resolvedSlice activity
          (lastEndTime + activity.BufferTime * Minute + activity.AverageInterviewTime * Minute)
          rest
    else c :: resolvedSlice activity c.EndTime rest

/-- The table writes of one rescheduling: save the entry, re-rank its position. -/
def commit (rows : Rows) (d : conflictInfo × Int) : Rows :=
  updateQueuePositions (save rows { d.1.Entry with EstimatedTime := some d.2 })
    d.1.Entry.PositionID

/-- The message appended for one rescheduling. -/
def messageOf (d : conflictInfo × Int) : ConflictMessage :=
  { PositionID := d.1.Entry.PositionID, oldStartTime := d.1.EstimatedTime, newStartTime := d.2 }

/-- Primary key, position and new start of each rescheduling. -/
def decisionKeys (D : List (conflictInfo × Int)) : List (Nat × Nat × Int) :=
  D.map (fun d => (d.1.Entry.ID, d.1.Entry.PositionID, d.2))

/-- First half of the effect of a list of reschedulings on one row: the new
start is written on a rescheduled row. -/
def writeStart (K : List (Nat × Nat × Int)) (r : QueueEntry) : QueueEntry :=
  match K.find? (fun k => k.1 = r.ID) with
  | some k => { r with EstimatedTime := some k.2.2 }
  | none => r

/-- Second half: the rank is rewritten on every waiting row of a position in `T`. -/
def rankTouched (rank : Nat → Nat → Int) (T : List Nat) (r : QueueEntry) : QueueEntry :=
  if r.Status = EntryStatus.waiting ∧ r.PositionID ∈ T then
    { r with QueuePosition := rank r.PositionID r.ID }
  else r

/-- Effect of a list of reschedulings on one row. -/
def resolvedRow (rank : Nat → Nat → Int) (K : List (Nat × Nat × Int)) (r : QueueEntry) :
    QueueEntry :=
  rankTouched rank (K.map (fun k => k.2.1)) (writeStart K r)

/-- The sorted slice of `ResolveConflicts`. -/
def sortedConflicts (rows : Rows) (activity : ActivityControl) (now : Int) (candidateID : Nat) :
    List conflictInfo :=
  sortConflicts ((candidateWaiting rows candidateID).map
    (naiveInfo rows activity now candidateID))

/-- The reschedulings `ResolveConflicts` makes for a candidate. -/
def decisions (rows : Rows) (activity : ActivityControl) (now : Int) (candidateID : Nat) :
    List (conflictInfo × Int) :=
  match sortedConflicts rows activity now candidateID with
  | [] => []
  | first :: rest => reschedule activity first.EndTime rest

/-- Replace the entry a record points to. -/
def liftEntry (f : QueueEntry → QueueEntry) (c : conflictInfo) : conflictInfo :=
  { c with Entry := f c.Entry }

/-- Base wait of the candidate at a position: `(rank - 1) * avgInterviewTime`. -/
def baseWait (rows : Rows) (candidateID : Nat) (avgInterviewTime : Int) (positionID : Nat) :
    Int :=
  (getQueuePosition rows positionID candidateID - 1) * avgInterviewTime

/-- The `queueDetail` record `CheckQueueOptimization` builds for one entry, with
rank and smart wait computed on the table `rows`. -/
def detailOf (rows : Rows) (activity : ActivityControl) (now : Int) (candidateID : Nat)
    (cq : QueueEntry) : queueDetail :=
  { Entry := cq
    Position := getQueuePosition rows cq.PositionID candidateID
    WaitTime := (calculateSmartWaitTime rows activity now cq.PositionID candidateID
      activity.AverageInterviewTime).wait
    IsPriority := cq.IsHighPriority }

/-- The test of the inner loop of the pair search, for a fixed priority record. -/
def pairTest (priorityQueue regularQueue : queueDetail) : Bool :=
  !regularQueue.IsPriority && decide (regularQueue.WaitTime = 0 ∧ priorityQueue.WaitTime > 0)

/-- A row with every column blanked that some operation rewrites on an existing
row without touching identity, priority, status or the jump-ahead flag: stored
rank, estimated start, join time, delay count. -/
def skeleton (e : QueueEntry) : QueueEntry :=
  { e with QueuePosition := 0, EstimatedTime := none, JoinTime := 0, DelayUsed := 0 }

/-- The columns the ranking query and the per-candidate query read. -/
def keys (e : QueueEntry) : Nat × Nat × Nat × EntryStatus × Bool × Option Int × Int :=
  (e.ID, e.CandidateID, e.PositionID, e.Status, e.IsHighPriority, e.PrioritySetTime, e.JoinTime)

/-- The data-model invariant of a row: it has a priority-set time exactly when it
is high priority. -/
def PriorityTimed (e : QueueEntry) : Prop :=
  e.IsHighPriority = true ↔ e.PrioritySetTime ≠ none

/-- Row `b` is a later state of row `a`: same key, candidate and position; a
high-priority row stays high priority with its priority-set time; a used
jump-ahead stays used. -/
def Evolves (a b : QueueEntry) : Prop :=
  b.ID = a.ID ∧ b.CandidateID = a.CandidateID ∧ b.PositionID = a.PositionID
    ∧ (a.IsHighPriority = true →
        b.IsHighPriority = true ∧ b.PrioritySetTime = a.PrioritySetTime)
    ∧ (a.JumpAheadUsed = true → b.JumpAheadUsed = true)

/-- The row `JoinQueue` creates. -/
def joinedEntry (rows : Rows) (activity : ActivityControl) (now : Int)
    (candidateID positionID : Nat) : QueueEntry :=
  { ID := nextID rows
    CandidateID := candidateID
    PositionID := positionID
    QueuePosition := 0
    IsHighPriority := false
    PrioritySetTime := none
    JoinTime := now
    EstimatedTime := none
    IsActive := decide (activeCount rows candidateID < activity.ActiveQueueLimit)
    Status := EntryStatus.waiting
    JumpAheadUsed := false
    DelayUsed := 0 }

/-- The row `SetHighPriority` saves for the entry it loaded. -/
def prioritized (entry : QueueEntry) (now : Int) : QueueEntry :=
  { entry with IsHighPriority := true, PrioritySetTime := some now, IsActive := true }

/-- Every row of `rows` has a later state in `rows2`. -/
def Later (rows rows2 : Rows) : Prop :=
  ∀ a ∈ rows, ∃ b ∈ rows2, Evolves a b

/-- Table `rows2` is a sound successor of table `rows`: its primary keys are
distinct, every row of `rows` has a later state in it, and it keeps the
data-model invariant when `rows` has it. -/
def Advances (rows rows2 : Rows) : Prop :=
  (rows2.map (fun e => e.ID)).Nodup ∧ Later rows rows2
    ∧ ((∀ e ∈ rows, PriorityTimed e) → ∀ e ∈ rows2, PriorityTimed e)

/-- The stored ranks of position `positionID` are the ranks of the ordering rule:
every waiting row of the position stores its place in the ranking order. -/
def Ranked (rows : Rows) (positionID : Nat) : Prop :=
  ∀ r ∈ rows, r.PositionID = positionID → r.Status = EntryStatus.waiting →
    r.QueuePosition = rankOf rows positionID r.ID

/-- The request runs under the high-priority quota `q` (only `SetHighPriority`
reads the quota). -/
def Operation.underQuota (q : Int) : Operation → Prop
  | Operation.setHighPriority activity _ _ _ => activity.HighPriorityQuota = q
  | _ => True

/-- The request is one of the interview handlers. -/
def Operation.isInterview : Operation → Prop
  | Operation.startInterview _ _ => True
  | Operation.endInterview _ _ => True
  | _ => False

instance (q : Int) : (op : Operation) → Decidable (op.underQuota q)
  | Operation.joinQueue _ _ _ _ _ => isTrue trivial
  | Operation.setHighPriority activity _ _ _ =>
    inferInstanceAs (Decidable (activity.HighPriorityQuota = q))
  | Operation.leave _ _ => isTrue trivial
  | Operation.processDelay _ _ => isTrue trivial
  | Operation.processJumpAhead _ _ _ => isTrue trivial
  | Operation.applyQueueOptimization _ _ _ _ _ => isTrue trivial
  | Operation.resolveConflicts _ _ _ => isTrue trivial
  | Operation.startInterview _ _ => isTrue trivial
  | Operation.endInterview _ _ => isTrue trivial

instance : (op : Operation) → Decidable op.isInterview
  | Operation.joinQueue _ _ _ _ _ => isFalse (fun h => h)
  | Operation.setHighPriority _ _ _ _ => isFalse (fun h => h)
  | Operation.leave _ _ => isFalse (fun h => h)
  | Operation.processDelay _ _ => isFalse (fun h => h)
  | Operation.processJumpAhead _ _ _ => isFalse (fun h => h)
  | Operation.applyQueueOptimization _ _ _ _ _ => isFalse (fun h => h)
  | Operation.resolveConflicts _ _ _ => isFalse (fun h => h)
  | Operation.startInterview _ _ => isTrue trivial
  | Operation.endInterview _ _ => isTrue trivial

/-- The columns `ProcessDelay` rewrites on the rows whose primary key is in `L`. -/
def bump (minutes : Int) (L : List Nat) (r : QueueEntry) : QueueEntry :=
  if r.ID ∈ L then
    { r with JoinTime := r.JoinTime + minutes * Minute, DelayUsed := r.DelayUsed + 1 }
  else r

/-- The effect of `ProcessDelay` on one row, ranks apart: a waiting row of the
candidate gets `minutes` more minutes of join time and one more delay. -/
def delayedRow (minutes : Int) (candidateID : Nat) (r : QueueEntry) : QueueEntry :=
  if r.CandidateID = candidateID ∧ r.Status = EntryStatus.waiting then
    { r with JoinTime := r.JoinTime + minutes * Minute, DelayUsed := r.DelayUsed + 1 }
  else r

/-- The variables of the second loop of `ResolveConflicts` after index 0: nothing
written, `lastEndTime` the end of the first record. -/
def walkStart (rows : Rows) (first : conflictInfo) : WalkState :=
  { rows := rows, hasConflicts := false, conflictMessages := [],
    lastEndTime := first.EndTime, conflicts := [first] }

/-- The row `JoinQueue` creates, with the rank 1 it gets in a position where
nobody waits. -/
def joinedFront (rows : Rows) (activity : ActivityControl) (now : Int)
    (candidateID positionID : Nat) : QueueEntry :=
  { joinedEntry rows activity now candidateID positionID with QueuePosition := 1 }

/-! ## Example tables -/

/-- A waiting row with no stored rank, no estimated start and nothing used. -/
def waitingRow (id candidateID positionID : Nat) (isHighPriority : Bool)
    (prioritySetTime : Option Int) (joinTime : Int) : QueueEntry :=
  { ID := id, CandidateID := candidateID, PositionID := positionID, QueuePosition := 0,
    IsHighPriority := isHighPriority, PrioritySetTime := prioritySetTime,
    JoinTime := joinTime, EstimatedTime := none, IsActive := true,
    Status := EntryStatus.waiting, JumpAheadUsed := false, DelayUsed := 0 }

/-- Three candidates wait at position 10 (candidate 2 with priority), candidate 1
also waits at position 20. -/
def exampleTable : Rows :=
  [waitingRow 1 1 10 false none (5 * Minute), waitingRow 2 2 10 true (some (7 * Minute)) (9 * Minute),
   waitingRow 3 3 10 false none (2 * Minute), waitingRow 4 1 20 false none (3 * Minute)]

/-- The activity settings seeded by `database.go`: six active queues, quota 2,
interviews of 8 minutes, buffer of 5 minutes; the window ends after 1000 minutes. -/
def seededActivity : ActivityControl :=
  { StartTime := 0, EndTime := 1000 * Minute, ActiveQueueLimit := 6, HighPriorityQuota := 2,
    AverageInterviewTime := 8, BufferTime := 5 }

/-- Candidate 2 holds one waiting entry, second at position 10, and has used one delay. -/
def delayedTable : Rows :=
  [waitingRow 1 1 10 false none (1 * Minute),
   { waitingRow 2 2 10 false none (12 * Minute) with DelayUsed := 1 }]

/-- Candidate 1 holds a high-priority entry at position 10, third behind two
other priority entries, and a regular entry at position 20, first there. -/
def optimizationTable : Rows :=
  [waitingRow 1 2 10 true (some (1 * Minute)) (1 * Minute),
   waitingRow 2 3 10 true (some (2 * Minute)) (2 * Minute),
   waitingRow 3 1 10 true (some (3 * Minute)) (3 * Minute),
   waitingRow 4 1 20 false none (4 * Minute)]

/-- The seeded activity with interviews of 5 minutes (and the buffer of 5 minutes). -/
def boundaryActivity : ActivityControl :=
  { seededActivity with AverageInterviewTime := 5 }

/-- Candidate 1 joined position 20 first (minute 1, regular, now first there,
ahead of candidate 4 who joined at minute 50) and position 10 later (minute 100,
high priority, third behind two other priority entries). -/
def swapTable : Rows :=
  [waitingRow 1 2 10 true (some (101 * Minute)) (50 * Minute),
   waitingRow 2 3 10 true (some (102 * Minute)) (60 * Minute),
   waitingRow 3 1 10 true (some (103 * Minute)) (100 * Minute),
   waitingRow 4 1 20 false none (1 * Minute),
   waitingRow 5 4 20 false none (50 * Minute)]

/-- Candidate 1 is fourth at position 10 (high priority, joined at minute 50,
behind three other priority entries) and second at position 20 (regular,
joined at minute 60, behind candidate 4 who joined at minute 1). -/
def secondInLineTable : Rows :=
  [waitingRow 1 2 10 true (some (101 * Minute)) (10 * Minute),
   waitingRow 2 3 10 true (some (102 * Minute)) (20 * Minute),
   waitingRow 3 5 10 true (some (103 * Minute)) (30 * Minute),
   waitingRow 4 1 10 true (some (104 * Minute)) (50 * Minute),
   waitingRow 5 4 20 false none (1 * Minute),
   waitingRow 6 1 20 false none (60 * Minute)]

/-- The example table with the ranks `updateQueuePositions` stores for positions
10 and 20: at position 10 candidate 2 (priority) is first, candidate 3 second,
candidate 1 third. -/
def rankedTable : Rows :=
  [{ waitingRow 1 1 10 false none (5 * Minute) with QueuePosition := 3 },
   { waitingRow 2 2 10 true (some (7 * Minute)) (9 * Minute) with QueuePosition := 1 },
   { waitingRow 3 3 10 false none (2 * Minute) with QueuePosition := 2 },
   { waitingRow 4 1 20 false none (3 * Minute) with QueuePosition := 1 }]

/-- Candidates 1, 2 and 3 joined position 10 at minutes 1, 2 and 3, as
`JoinQueue` leaves the table. -/
def joinedTable : Rows :=
  [{ waitingRow 1 1 10 false none (1 * Minute) with QueuePosition := 1 },
   { waitingRow 2 2 10 false none (2 * Minute) with QueuePosition := 2 },
   { waitingRow 3 3 10 false none (3 * Minute) with QueuePosition := 3 }]

/-- Candidate 1 joined position 10 at minute 1, left, and joined again at
minute 5: row 1 is `left`, row 2 is waiting. -/
def rejoinedTable : Rows :=
  [{ waitingRow 1 1 10 false none (1 * Minute) with
      QueuePosition := 1, Status := EntryStatus.left },
   { waitingRow 2 1 10 false none (5 * Minute) with QueuePosition := 1 }]

/-- Candidate 1 is alone, hence first, at positions 10 and 20; the two entries
were joined an hour apart (minute 0 and minute 60). -/
def twoFrontTable : Rows :=
  [{ waitingRow 1 1 10 false none 0 with QueuePosition := 1 },
   { waitingRow 2 1 20 false none (60 * Minute) with QueuePosition := 1 }]

/-- Candidate 1 is alone, hence first, at positions 10 and 20; the two entries
were joined five minutes apart (minute 0 and minute 5). -/
def closeFrontTable : Rows :=
  [{ waitingRow 1 1 10 false none 0 with QueuePosition := 1 },
   { waitingRow 2 1 20 false none (5 * Minute) with QueuePosition := 1 }]

/-- Candidate 1 is alone at positions 10 and 20 and joined both at minute 0. -/
def tieTable : Rows :=
  [{ waitingRow 1 1 10 false none 0 with QueuePosition := 1 },
   { waitingRow 2 1 20 false none 0 with QueuePosition := 1 }]

/-- Candidate 1 waits third at position 10 behind two priority entries, not yet
with priority, and is alone at positions 20 and 30, which the candidate joined
three minutes apart (minutes 100 and 103). -/
def pendingTable : Rows :=
  [{ waitingRow 1 2 10 true (some (1 * Minute)) (1 * Minute) with QueuePosition := 1 },
   { waitingRow 2 3 10 true (some (2 * Minute)) (2 * Minute) with QueuePosition := 2 },
   { waitingRow 3 1 10 false none (3 * Minute) with QueuePosition := 3 },
   { waitingRow 4 1 20 false none (100 * Minute) with QueuePosition := 1 },
   { waitingRow 5 1 30 false none (103 * Minute) with QueuePosition := 1 }]

/-- The pending table after candidate 1 was granted priority at position 10 at
minute 200 and the ranks of the position were recomputed. -/
def grantedTable : Rows :=
  [{ waitingRow 1 2 10 true (some (1 * Minute)) (1 * Minute) with QueuePosition := 1 },
   { waitingRow 2 3 10 true (some (2 * Minute)) (2 * Minute) with QueuePosition := 2 },
   { waitingRow 3 1 10 true (some (200 * Minute)) (3 * Minute) with QueuePosition := 3 },
   { waitingRow 4 1 20 false none (100 * Minute) with QueuePosition := 1 },
   { waitingRow 5 1 30 false none (103 * Minute) with QueuePosition := 1 }]

/-- Candidate 1 joined position 10 at minute 0 and position 20 at minute 5, both
empty, as the two `JoinQueue` calls leave the table: the conflict resolution of
the second call gave row 2 an estimated start. -/
def closeJoinedTable : Rows :=
  [{ waitingRow 1 1 10 false none 0 with QueuePosition := 1 },
   { waitingRow 2 1 20 false none (5 * Minute) with
      QueuePosition := 1, EstimatedTime := some (24 * Hour + 13 * Minute) }]

/-! ## Facts about `save` and the ranking query -/

theorem save_map_ID (rows : Rows) (entry : QueueEntry) :
    (save rows entry).map (fun e => e.ID) = rows.map (fun e => e.ID) := by
  unfold save
  rw [List.map_map]
  apply List.map_congr_left
  intro r _
  by_cases h : r.ID = entry.ID <;> simp [h]

theorem eq_of_ID_eq {rows : Rows} (hid : (rows.map (fun e => e.ID)).Nodup)
    {a b : QueueEntry} (ha : a ∈ rows) (hb : b ∈ rows) (h : a.ID = b.ID) : a = b :=
  List.inj_on_of_nodup_map hid ha hb h

theorem updateLoop_eq_map : ∀ (S : List QueueEntry) (k : Nat) (rows : Rows),
    (rows.map (fun e => e.ID)).Nodup → (∀ e ∈ S, e ∈ rows) →
    (S.map (fun e => e.ID)).Nodup →
    updateLoop k S rows = rows.map (fun r =>
      if r.ID ∈ S.map (fun e => e.ID) then
        { r with QueuePosition :=
            (((k + (S.map (fun e => e.ID)).indexOf r.ID : Nat) : Int)) + 1 }
      else r) := by
  intro S
  induction S with
  | nil => intro k rows _ _ _; simp [updateLoop]
  | cons e S ih =>
    intro k rows hid hmem hS
    have hS2 : e.ID ∉ S.map (fun e => e.ID) ∧ (S.map (fun e => e.ID)).Nodup := by
      rw [List.map_cons] at hS
      exact List.nodup_cons.mp hS
    have heS : ∀ x ∈ S, x.ID ≠ e.ID := by
      intro x hx hxe
      apply hS2.1
      rw [← hxe]
      exact List.mem_map_of_mem _ hx
    have he : e ∈ rows := hmem e (List.mem_cons_self _ _)
    rw [updateLoop, ih (k + 1)]
    · unfold save
      rw [List.map_map]
      apply List.map_congr_left
      intro r hr
      by_cases hre : r.ID = e.ID
      · have : r = e := eq_of_ID_eq hid hr he hre
        subst this
        have hnot : r.ID ∉ S.map (fun e => e.ID) := hS2.1
        simp [hnot]
        intro x hx hxe
        exact absurd hxe (heS x hx)
      · have hne : e.ID ≠ r.ID := fun h => hre h.symm
        simp only [Function.comp, hre, if_false, List.map_cons, List.mem_cons, false_or]
        by_cases hin : r.ID ∈ S.map (fun e => e.ID)
        · rw [if_pos hin, if_pos hin, List.indexOf_cons_ne _ hne]
          congr 1
          push_cast
          omega
        · rw [if_neg hin, if_neg hin]
    · rw [save_map_ID]; exact hid
    · intro x hx
      have hxr : x ∈ rows := hmem x (List.mem_cons_of_mem _ hx)
      unfold save
      refine List.mem_map.mpr ⟨x, hxr, ?_⟩
      simp [heS x hx]
    · exact hS2.2

theorem mem_waitingIn {rows : Rows} {positionID : Nat} {e : QueueEntry} :
    e ∈ waitingIn rows positionID ↔
      e ∈ rows ∧ e.PositionID = positionID ∧ e.Status = EntryStatus.waiting := by
  simp [waitingIn]

theorem mem_orderedWaiting {rows : Rows} {positionID : Nat} {e : QueueEntry} :
    e ∈ orderedWaiting rows positionID ↔
      e ∈ rows ∧ e.PositionID = positionID ∧ e.Status = EntryStatus.waiting := by
  unfold orderedWaiting
  rw [List.mem_insertionSort, mem_waitingIn]

theorem nodup_waitingIn {rows : Rows} (hid : (rows.map (fun e => e.ID)).Nodup)
    (positionID : Nat) : ((waitingIn rows positionID).map (fun e => e.ID)).Nodup :=
  List.Nodup.sublist (List.Sublist.map _ (List.filter_sublist _)) hid

theorem nodup_orderedWaiting {rows : Rows} (hid : (rows.map (fun e => e.ID)).Nodup)
    (positionID : Nat) : ((orderedWaiting rows positionID).map (fun e => e.ID)).Nodup :=
  (List.Perm.nodup_iff (List.Perm.map _ (List.perm_insertionSort orderLE _))).mpr
    (nodup_waitingIn hid positionID)

theorem updateQueuePositions_eq_map {rows : Rows} (hid : (rows.map (fun e => e.ID)).Nodup)
    (positionID : Nat) :
    updateQueuePositions rows positionID = rows.map (reRank rows positionID) := by
  unfold updateQueuePositions
  rw [updateLoop_eq_map _ 0 rows hid (fun e he => (mem_orderedWaiting.mp he).1)
    (nodup_orderedWaiting hid positionID)]
  apply List.map_congr_left
  intro r hr
  unfold reRank rankOf
  by_cases ht : r.PositionID = positionID ∧ r.Status = EntryStatus.waiting
  · have hin : r.ID ∈ (orderedWaiting rows positionID).map (fun e => e.ID) :=
      List.mem_map_of_mem _ (mem_orderedWaiting.mpr ⟨hr, ht⟩)
    rw [if_pos hin, if_pos ht]
    simp
  · have hin : r.ID ∉ (orderedWaiting rows positionID).map (fun e => e.ID) := by
      intro h
      obtain ⟨e, he, hee⟩ := List.mem_map.mp h
      have hm := mem_orderedWaiting.mp he
      have : e = r := eq_of_ID_eq hid hm.1 hr hee
      subst this
      exact ht hm.2
    rw [if_neg hin, if_neg ht]

theorem core_ID {a b : QueueEntry} (h : core a = core b) : a.ID = b.ID :=
  show (core a).ID = (core b).ID from congrArg QueueEntry.ID h

theorem core_CandidateID {a b : QueueEntry} (h : core a = core b) :
    a.CandidateID = b.CandidateID := show (core a).CandidateID = (core b).CandidateID from congrArg QueueEntry.CandidateID h

theorem core_PositionID {a b : QueueEntry} (h : core a = core b) :
    a.PositionID = b.PositionID := show (core a).PositionID = (core b).PositionID from congrArg QueueEntry.PositionID h

theorem core_Status {a b : QueueEntry} (h : core a = core b) : a.Status = b.Status :=
  show (core a).Status = (core b).Status from congrArg QueueEntry.Status h

theorem core_IsHighPriority {a b : QueueEntry} (h : core a = core b) :
    a.IsHighPriority = b.IsHighPriority := show (core a).IsHighPriority = (core b).IsHighPriority from congrArg QueueEntry.IsHighPriority h

theorem core_PrioritySetTime {a b : QueueEntry} (h : core a = core b) :
    a.PrioritySetTime = b.PrioritySetTime := show (core a).PrioritySetTime = (core b).PrioritySetTime from congrArg QueueEntry.PrioritySetTime h

theorem core_JoinTime {a b : QueueEntry} (h : core a = core b) : a.JoinTime = b.JoinTime :=
  show (core a).JoinTime = (core b).JoinTime from congrArg QueueEntry.JoinTime h

theorem core_orderLE {a b a2 b2 : QueueEntry} (ha : core a2 = core a) (hb : core b2 = core b) :
    orderLE a b ↔ orderLE a2 b2 := by
  unfold orderLE priorityKey nullKey setTimeKey
  rw [core_IsHighPriority ha, core_IsHighPriority hb, core_PrioritySetTime ha,
    core_PrioritySetTime hb, core_JoinTime ha, core_JoinTime hb]

theorem waitingIn_map {rows : Rows} {f : QueueEntry → QueueEntry}
    (hf : ∀ r ∈ rows, core (f r) = core r) (positionID : Nat) :
    waitingIn (rows.map f) positionID = (waitingIn rows positionID).map f := by
  unfold waitingIn
  rw [List.filter_map]
  congr 1
  apply List.filter_congr
  intro r hr
  simp only [Function.comp, core_PositionID (hf r hr), core_Status (hf r hr)]

theorem orderedWaiting_map {rows : Rows} {f : QueueEntry → QueueEntry}
    (hf : ∀ r ∈ rows, core (f r) = core r) (positionID : Nat) :
    orderedWaiting (rows.map f) positionID = (orderedWaiting rows positionID).map f := by
  unfold orderedWaiting
  rw [waitingIn_map hf]
  symm
  apply List.map_insertionSort
  intro a ha b hb
  exact core_orderLE (hf a (mem_waitingIn.mp ha).1) (hf b (mem_waitingIn.mp hb).1)

theorem positionScan_map (candidateID : Nat) (f : QueueEntry → QueueEntry) :
    ∀ (S : List QueueEntry) (k : Nat), (∀ r ∈ S, core (f r) = core r) →
      positionScan candidateID k (S.map f) = positionScan candidateID k S := by
  intro S
  induction S with
  | nil => intro k _; rfl
  | cons e S ih =>
    intro k hf
    simp only [List.map_cons, positionScan]
    rw [core_CandidateID (hf e (List.mem_cons_self _ _)),
      ih (k + 1) (fun r hr => hf r (List.mem_cons_of_mem _ hr))]

theorem getQueuePosition_map {rows : Rows} {f : QueueEntry → QueueEntry}
    (hf : ∀ r ∈ rows, core (f r) = core r) (positionID candidateID : Nat) :
    getQueuePosition (rows.map f) positionID candidateID =
      getQueuePosition rows positionID candidateID := by
  unfold getQueuePosition
  rw [orderedWaiting_map hf]
  exact positionScan_map candidateID f _ 0
    (fun r hr => hf r (mem_orderedWaiting.mp hr).1)

theorem rankOf_map {rows : Rows} {f : QueueEntry → QueueEntry}
    (hf : ∀ r ∈ rows, core (f r) = core r) (positionID id : Nat) :
    rankOf (rows.map f) positionID id = rankOf rows positionID id := by
  unfold rankOf
  rw [orderedWaiting_map hf, List.map_map]
  have : (orderedWaiting rows positionID).map ((fun e => e.ID) ∘ f) =
      (orderedWaiting rows positionID).map (fun e => e.ID) := by
    apply List.map_congr_left
    intro r hr
    exact core_ID (hf r (mem_orderedWaiting.mp hr).1)
  rw [this]

theorem core_reRank (rows : Rows) (positionID : Nat) (r : QueueEntry) :
    core (reRank rows positionID r) = core r := by
  unfold reRank
  split <;> rfl

theorem indexOf_map_self : ∀ (l : List Nat), l.Nodup →
    l.map (fun x => l.indexOf x) = List.range l.length := by
  intro l
  induction l with
  | nil => intro _; rfl
  | cons a l ih =>
    intro h
    have h2 := List.nodup_cons.mp h
    rw [List.map_cons, List.indexOf_cons_self, List.length_cons, List.range_succ_eq_map]
    congr 1
    rw [← ih h2.2, List.map_map]
    apply List.map_congr_left
    intro x hx
    have hne : a ≠ x := fun hax => h2.1 (hax ▸ hx)
    simp [List.indexOf_cons_ne _ hne]

/-- After `updateQueuePositions`, reading the stored ranks along the ranking
order of the position gives `1, 2, .., N`. -/
theorem orderedWaiting_update_ranks {rows : Rows} (hid : (rows.map (fun e => e.ID)).Nodup)
    (positionID : Nat) :
    (orderedWaiting (updateQueuePositions rows positionID) positionID).map
        (fun e => e.QueuePosition) =
      (List.range (waitingIn rows positionID).length).map (fun n => ((n : Nat) : Int) + 1) := by
  rw [updateQueuePositions_eq_map hid,
    orderedWaiting_map (fun r _ => core_reRank rows positionID r), List.map_map]
  have h1 : (orderedWaiting rows positionID).map
      ((fun e => e.QueuePosition) ∘ reRank rows positionID) =
      ((orderedWaiting rows positionID).map (fun e => e.ID)).map
        (fun id => rankOf rows positionID id) := by
    rw [List.map_map]
    apply List.map_congr_left
    intro r hr
    have ht := (mem_orderedWaiting.mp hr).2
    simp [reRank, ht]
  rw [h1]
  have h2 := indexOf_map_self _ (nodup_orderedWaiting hid positionID)
  have h3 : ((orderedWaiting rows positionID).map (fun e => e.ID)).map
      (fun id => rankOf rows positionID id) =
      (((orderedWaiting rows positionID).map (fun e => e.ID)).map
        (fun x => ((orderedWaiting rows positionID).map (fun e => e.ID)).indexOf x)).map
        (fun n => ((n : Nat) : Int) + 1) := by
    simp only [List.map_map]
    apply List.map_congr_left
    intro r _
    rfl
  rw [h3, h2, List.length_map]
  unfold orderedWaiting
  rw [List.length_insertionSort]

theorem updateQueuePositions_map_ID {rows : Rows} (hid : (rows.map (fun e => e.ID)).Nodup)
    (positionID : Nat) :
    (updateQueuePositions rows positionID).map (fun e => e.ID) = rows.map (fun e => e.ID) := by
  rw [updateQueuePositions_eq_map hid, List.map_map]
  apply List.map_congr_left
  intro r _
  exact core_ID (core_reRank rows positionID r)

theorem rel_of_indexOf_lt {r : QueueEntry → QueueEntry → Prop} :
    ∀ (S : List QueueEntry), (S.map (fun e => e.ID)).Nodup → S.Pairwise r →
      ∀ x ∈ S, ∀ y ∈ S,
        (S.map (fun e => e.ID)).indexOf x.ID < (S.map (fun e => e.ID)).indexOf y.ID →
        r x y := by
  intro S
  induction S with
  | nil => intro _ _ x hx; cases hx
  | cons h t ih =>
    intro hnd hp x hx y hy hlt
    rw [List.map_cons] at hnd hlt
    have hnd2 := List.nodup_cons.mp hnd
    have hp2 := List.pairwise_cons.mp hp
    have hidt : ∀ z ∈ t, h.ID ≠ z.ID := fun z hz hEq =>
      hnd2.1 (hEq ▸ List.mem_map_of_mem (fun e => e.ID) hz)
    by_cases hy0 : h.ID = y.ID
    · rw [List.indexOf_cons_eq _ hy0] at hlt
      exact absurd hlt (Nat.not_lt_zero _)
    · have hyt : y ∈ t := by
        rcases List.mem_cons.mp hy with rfl | h1
        · exact absurd rfl hy0
        · exact h1
      by_cases hx0 : h.ID = x.ID
      · have hxh : x = h := by
          rcases List.mem_cons.mp hx with h1 | h1
          · exact h1
          · exact absurd hx0 (hidt x h1)
        rw [hxh]
        exact hp2.1 y hyt
      · have hxt : x ∈ t := by
          rcases List.mem_cons.mp hx with rfl | h1
          · exact absurd rfl hx0
          · exact h1
        rw [List.indexOf_cons_ne _ hx0, List.indexOf_cons_ne _ hy0] at hlt
        exact ih hnd2.2 hp2.2 x hxt y hyt (Nat.lt_of_succ_lt_succ hlt)

theorem positionScan_unique :
    ∀ (S : List QueueEntry) (k : Nat) (e : QueueEntry), (S.map (fun e => e.ID)).Nodup →
      e ∈ S → (∀ x ∈ S, x.CandidateID = e.CandidateID → x = e) →
      positionScan e.CandidateID k S =
        (((k + (S.map (fun e => e.ID)).indexOf e.ID : Nat)) : Int) + 1 := by
  intro S
  induction S with
  | nil => intro k e _ he; cases he
  | cons h t ih =>
    intro k e hnd he huniq
    rw [List.map_cons] at hnd
    have hnd2 := List.nodup_cons.mp hnd
    by_cases hc : h.CandidateID = e.CandidateID
    · have hhe : h = e := huniq h (List.mem_cons_self _ _) hc
      subst hhe
      simp [positionScan]
    · have het : e ∈ t := by
        rcases List.mem_cons.mp he with rfl | h1
        · exact absurd rfl hc
        · exact h1
      have hne : h.ID ≠ e.ID := fun hEq =>
        hnd2.1 (hEq ▸ List.mem_map_of_mem (fun e => e.ID) het)
      rw [positionScan, if_neg hc, List.map_cons, List.indexOf_cons_ne _ hne,
        ih (k + 1) e hnd2.2 het (fun x hx => huniq x (List.mem_cons_of_mem _ hx))]
      push_cast
      omega

theorem mem_update_waiting {rows : Rows} (hid : (rows.map (fun e => e.ID)).Nodup)
    {positionID : Nat} {a : QueueEntry}
    (ha : a ∈ waitingIn (updateQueuePositions rows positionID) positionID) :
    ∃ r ∈ orderedWaiting rows positionID, core a = core r ∧
      a.QueuePosition = rankOf rows positionID r.ID := by
  rw [updateQueuePositions_eq_map hid,
    waitingIn_map (fun r _ => core_reRank rows positionID r)] at ha
  obtain ⟨r, hr, hra⟩ := List.mem_map.mp ha
  have hr2 := mem_waitingIn.mp hr
  refine ⟨r, mem_orderedWaiting.mpr hr2, ?_, ?_⟩
  · rw [← hra]; exact core_reRank rows positionID r
  · rw [← hra]; simp [reRank, hr2.2]

theorem positionScan_pos (candidateID : Nat) :
    ∀ (S : List QueueEntry) (k : Nat), (∃ e ∈ S, e.CandidateID = candidateID) →
      1 ≤ positionScan candidateID k S := by
  intro S
  induction S with
  | nil => intro k h; obtain ⟨e, he, _⟩ := h; cases he
  | cons h t ih =>
    intro k hex
    rw [positionScan]
    by_cases hc : h.CandidateID = candidateID
    · rw [if_pos hc]; omega
    · rw [if_neg hc]
      apply ih
      obtain ⟨e, he, hec⟩ := hex
      rcases List.mem_cons.mp he with rfl | h1
      · exact absurd hec hc
      · exact ⟨e, h1, hec⟩

theorem mem_candidateWaiting {rows : Rows} {candidateID : Nat} {e : QueueEntry} :
    e ∈ candidateWaiting rows candidateID ↔
      e ∈ rows ∧ e.CandidateID = candidateID ∧ e.Status = EntryStatus.waiting := by
  simp [candidateWaiting]

theorem getQueuePosition_pos {rows : Rows} {candidateID : Nat} {e : QueueEntry}
    (he : e ∈ candidateWaiting rows candidateID) :
    1 ≤ getQueuePosition rows e.PositionID candidateID := by
  have h := mem_candidateWaiting.mp he
  exact positionScan_pos candidateID _ 0
    ⟨e, mem_orderedWaiting.mpr ⟨h.1, rfl, h.2.2⟩, h.2.1⟩

theorem calculateSmartWaitTime_single {rows : Rows} (activity : ActivityControl) (now : Int)
    (positionID candidateID : Nat) (avgInterviewTime : Int)
    (h : (candidateWaiting rows candidateID).length ≤ 1) :
    calculateSmartWaitTime rows activity now positionID candidateID avgInterviewTime =
      { wait := if getQueuePosition rows positionID candidateID ≤ 0 then 0
          else (getQueuePosition rows positionID candidateID - 1) * avgInterviewTime
        rows := rows, resolved := none } := by
  unfold calculateSmartWaitTime
  simp only [h, if_true]
  split <;> rfl

theorem candidateQueuesLoop_single {rows : Rows} (activity : ActivityControl) (now : Int)
    (candidateID : Nat) (canSetPriority : Bool)
    (h : (candidateWaiting rows candidateID).length ≤ 1) :
    ∀ entries : List QueueEntry,
      (candidateQueuesLoop activity now candidateID canSetPriority entries rows).2 = rows ∧
      ∀ info ∈ (candidateQueuesLoop activity now candidateID canSetPriority entries rows).1,
        info.EstimatedWaitTime =
          (calculateSmartWaitTime rows activity now info.PositionID candidateID
            activity.AverageInterviewTime).wait := by
  intro entries
  induction entries with
  | nil => exact ⟨rfl, fun info hinfo => by cases hinfo⟩
  | cons e rest ih =>
    have hr : (calculateSmartWaitTime rows activity now e.PositionID candidateID
        activity.AverageInterviewTime).rows = rows := by
      rw [calculateSmartWaitTime_single activity now e.PositionID candidateID _ h]
    simp only [candidateQueuesLoop, hr]
    refine ⟨ih.1, ?_⟩
    intro info hinfo
    rcases List.mem_cons.mp hinfo with rfl | h1
    · rfl
    · exact ih.2 info h1

/-! ## Facts about `ResolveConflicts` -/

theorem reschedule_pos {activity : ActivityControl} {lastEndTime : Int} {c : conflictInfo}
    (rest : List conflictInfo)
    (h : c.EstimatedTime < lastEndTime + activity.BufferTime * Minute) :
    reschedule activity lastEndTime (c :: rest) =
      (c, lastEndTime + activity.BufferTime * Minute) ::
        reschedule activity
          (lastEndTime + activity.BufferTime * Minute + activity.AverageInterviewTime * Minute)
          rest := by
  rw [reschedule, if_pos h]

theorem reschedule_neg {activity : ActivityControl} {lastEndTime : Int} {c : conflictInfo}
    (rest : List conflictInfo)
    (h : ¬ c.EstimatedTime < lastEndTime + activity.BufferTime * Minute) :
    reschedule activity lastEndTime (c :: rest) = reschedule activity c.EndTime rest := by
  rw [reschedule, if_neg h]

theorem resolvedSlice_pos {activity : ActivityControl} {lastEndTime : Int} {c : conflictInfo}
    (rest : List conflictInfo)
    (h : c.EstimatedTime < lastEndTime + activity.BufferTime * Minute) :
    resolvedSlice activity lastEndTime (c :: rest) =
      { c with
        Entry := { c.Entry with
          EstimatedTime := some (lastEndTime + activity.BufferTime * Minute) }
        EstimatedTime := lastEndTime + activity.BufferTime * Minute
        EndTime := lastEndTime + activity.BufferTime * Minute +
          activity.AverageInterviewTime * Minute } ::
        resolvedSlice activity
          (lastEndTime + activity.BufferTime * Minute + activity.AverageInterviewTime * Minute)
          rest := by
  rw [resolvedSlice, if_pos h]

theorem resolvedSlice_neg {activity : ActivityControl} {lastEndTime : Int} {c : conflictInfo}
    (rest : List conflictInfo)
    (h : ¬ c.EstimatedTime < lastEndTime + activity.BufferTime * Minute) :
    resolvedSlice activity lastEndTime (c :: rest) =
      c :: resolvedSlice activity c.EndTime rest := by
  rw [resolvedSlice, if_neg h]

theorem walkStep_pos {activity : ActivityControl} {st : WalkState} {c : conflictInfo}
    (h : c.EstimatedTime < st.lastEndTime + activity.BufferTime * Minute) :
    walkStep activity st c =
      { rows := commit st.rows (c, st.lastEndTime + activity.BufferTime * Minute)
        hasConflicts := true
        conflictMessages := st.conflictMessages ++
          [messageOf (c, st.lastEndTime + activity.BufferTime * Minute)]
        lastEndTime := st.lastEndTime + activity.BufferTime * Minute +
          activity.AverageInterviewTime * Minute
        conflicts := st.conflicts ++
          [{ c with
            Entry := { c.Entry with
              EstimatedTime := some (st.lastEndTime + activity.BufferTime * Minute) }
            EstimatedTime := st.lastEndTime + activity.BufferTime * Minute
            EndTime := st.lastEndTime + activity.BufferTime * Minute +
              activity.AverageInterviewTime * Minute }] } := by
  unfold walkStep
  simp only [h, if_true]
  rfl

theorem walkStep_neg {activity : ActivityControl} {st : WalkState} {c : conflictInfo}
    (h : ¬ c.EstimatedTime < st.lastEndTime + activity.BufferTime * Minute) :
    walkStep activity st c =
      { st with lastEndTime := c.EndTime, conflicts := st.conflicts ++ [c] } := by
  unfold walkStep
  simp only [h, if_false]

theorem foldl_walkStep_rows (activity : ActivityControl) :
    ∀ (rest : List conflictInfo) (st : WalkState),
      (rest.foldl (walkStep activity) st).rows =
        (reschedule activity st.lastEndTime rest).foldl commit st.rows := by
  intro rest
  induction rest with
  | nil => intro st; rfl
  | cons c rest ih =>
    intro st
    rw [List.foldl_cons, ih]
    by_cases h : c.EstimatedTime < st.lastEndTime + activity.BufferTime * Minute
    · rw [walkStep_pos h, reschedule_pos rest h, List.foldl_cons]
    · rw [walkStep_neg h, reschedule_neg rest h]

theorem foldl_walkStep_messages (activity : ActivityControl) :
    ∀ (rest : List conflictInfo) (st : WalkState),
      (rest.foldl (walkStep activity) st).conflictMessages =
        st.conflictMessages ++ (reschedule activity st.lastEndTime rest).map messageOf := by
  intro rest
  induction rest with
  | nil => intro st; simp [reschedule]
  | cons c rest ih =>
    intro st
    rw [List.foldl_cons, ih]
    by_cases h : c.EstimatedTime < st.lastEndTime + activity.BufferTime * Minute
    · rw [walkStep_pos h, reschedule_pos rest h]
      simp
    · rw [walkStep_neg h, reschedule_neg rest h]

theorem foldl_walkStep_hasConflicts (activity : ActivityControl) :
    ∀ (rest : List conflictInfo) (st : WalkState),
      (rest.foldl (walkStep activity) st).hasConflicts =
        (st.hasConflicts || !(reschedule activity st.lastEndTime rest).isEmpty) := by
  intro rest
  induction rest with
  | nil => intro st; simp [reschedule]
  | cons c rest ih =>
    intro st
    rw [List.foldl_cons, ih]
    by_cases h : c.EstimatedTime < st.lastEndTime + activity.BufferTime * Minute
    · rw [walkStep_pos h, reschedule_pos rest h]
      simp
    · rw [walkStep_neg h, reschedule_neg rest h]

theorem foldl_walkStep_conflicts (activity : ActivityControl) :
    ∀ (rest : List conflictInfo) (st : WalkState),
      (rest.foldl (walkStep activity) st).conflicts =
        st.conflicts ++ resolvedSlice activity st.lastEndTime rest := by
  intro rest
  induction rest with
  | nil => intro st; simp [resolvedSlice]
  | cons c rest ih =>
    intro st
    rw [List.foldl_cons, ih]
    by_cases h : c.EstimatedTime < st.lastEndTime + activity.BufferTime * Minute
    · rw [walkStep_pos h, resolvedSlice_pos rest h]
      simp
    · rw [walkStep_neg h, resolvedSlice_neg rest h]
      simp

theorem core_writeStart (K : List (Nat × Nat × Int)) (r : QueueEntry) :
    core (writeStart K r) = core r := by
  unfold writeStart
  split <;> rfl

theorem core_rankTouched (rank : Nat → Nat → Int) (T : List Nat) (r : QueueEntry) :
    core (rankTouched rank T r) = core r := by
  unfold rankTouched
  split <;> rfl

theorem core_resolvedRow (rank : Nat → Nat → Int) (K : List (Nat × Nat × Int))
    (r : QueueEntry) : core (resolvedRow rank K r) = core r := by
  unfold resolvedRow
  rw [core_rankTouched, core_writeStart]

theorem map_ID_of_core {rows : Rows} {f : QueueEntry → QueueEntry}
    (hf : ∀ r ∈ rows, core (f r) = core r) :
    (rows.map f).map (fun e => e.ID) = rows.map (fun e => e.ID) := by
  rw [List.map_map]
  apply List.map_congr_left
  intro r hr
  exact core_ID (hf r hr)

theorem reRank_rankTouched (rank : Nat → Nat → Int) (T : List Nat) (positionID : Nat)
    (r : QueueEntry) :
    (if (rankTouched rank T r).PositionID = positionID ∧
        (rankTouched rank T r).Status = EntryStatus.waiting then
      { rankTouched rank T r with
        QueuePosition := rank positionID (rankTouched rank T r).ID }
    else rankTouched rank T r) = rankTouched rank (T ++ [positionID]) r := by
  unfold rankTouched
  by_cases hw : r.Status = EntryStatus.waiting
  · by_cases hT : r.PositionID ∈ T
    · by_cases hp : r.PositionID = positionID
      · subst hp; simp [hw, hT]
      · simp [hw, hT, hp]
    · by_cases hp : r.PositionID = positionID
      · subst hp; simp [hw, hT]
      · simp [hw, hT, hp]
  · simp [hw]

theorem commit_step {rows0 : Rows} (hid : (rows0.map (fun e => e.ID)).Nodup)
    (K : List (Nat × Nat × Int)) (e : QueueEntry) (new : Int)
    (he : e ∈ rows0) (hw : e.Status = EntryStatus.waiting)
    (hfresh : ∀ k ∈ K, k.1 ≠ e.ID) :
    updateQueuePositions
        (save (rows0.map (resolvedRow (rankOf rows0) K))
          { e with EstimatedTime := some new }) e.PositionID =
      rows0.map (resolvedRow (rankOf rows0) (K ++ [(e.ID, e.PositionID, new)])) := by
  have hsave : save (rows0.map (resolvedRow (rankOf rows0) K))
      { e with EstimatedTime := some new } =
      rows0.map (fun r => if r.ID = e.ID then { e with EstimatedTime := some new }
        else resolvedRow (rankOf rows0) K r) := by
    unfold save
    rw [List.map_map]
    apply List.map_congr_left
    intro r _
    simp only [Function.comp, core_ID (core_resolvedRow (rankOf rows0) K r)]
  have hH : ∀ r ∈ rows0, core ((fun r => if r.ID = e.ID then
      { e with EstimatedTime := some new } else resolvedRow (rankOf rows0) K r) r) = core r := by
    intro r hr
    by_cases h : r.ID = e.ID
    · have : r = e := eq_of_ID_eq hid hr he h
      subst this
      simp only [if_true]
      rfl
    · simp only [h, if_false]
      exact core_resolvedRow _ _ _
  rw [hsave, updateQueuePositions_eq_map (by rw [map_ID_of_core hH]; exact hid), List.map_map]
  apply List.map_congr_left
  intro r hr
  have hrank : ∀ id, rankOf (rows0.map (fun r => if r.ID = e.ID then
      { e with EstimatedTime := some new } else resolvedRow (rankOf rows0) K r))
      e.PositionID id = rankOf rows0 e.PositionID id := fun id => rankOf_map hH _ _
  simp only [Function.comp]
  unfold reRank
  rw [hrank]
  by_cases h : r.ID = e.ID
  · have : r = e := eq_of_ID_eq hid hr he h
    subst this
    have hfind : K.find? (fun k => decide (k.1 = r.ID)) = none := by
      rw [List.find?_eq_none]
      intro k hk
      simpa using hfresh k hk
    simp [resolvedRow, writeStart, rankTouched, hw, hfind, List.find?_append]
  · simp only [h, if_false]
    have hws : writeStart (K ++ [(e.ID, e.PositionID, new)]) r = writeStart K r := by
      unfold writeStart
      have hne : ¬ e.ID = r.ID := fun hh => h hh.symm
      rw [List.find?_append]
      simp [List.find?, hne]
    unfold resolvedRow
    rw [hws, List.map_append]
    exact reRank_rankTouched (rankOf rows0) _ e.PositionID (writeStart K r)

theorem resolvedRow_nil (rank : Nat → Nat → Int) (r : QueueEntry) :
    resolvedRow rank [] r = r := by
  simp [resolvedRow, writeStart, rankTouched]

theorem foldl_commit_eq_map {rows0 : Rows} (hid : (rows0.map (fun e => e.ID)).Nodup) :
    ∀ (Drest Ddone : List (conflictInfo × Int)),
      (∀ d ∈ Drest, d.1.Entry ∈ rows0 ∧ d.1.Entry.Status = EntryStatus.waiting) →
      ((Ddone ++ Drest).map (fun d => d.1.Entry.ID)).Nodup →
      Drest.foldl commit (rows0.map (resolvedRow (rankOf rows0) (decisionKeys Ddone))) =
        rows0.map (resolvedRow (rankOf rows0) (decisionKeys (Ddone ++ Drest))) := by
  intro Drest
  induction Drest with
  | nil => intro Ddone _ _; simp
  | cons d rest ih =>
    intro Ddone hmem hnd
    have hd := hmem d (List.mem_cons_self _ _)
    have hfresh : ∀ k ∈ decisionKeys Ddone, k.1 ≠ d.1.Entry.ID := by
      intro k hk hEq
      unfold decisionKeys at hk
      obtain ⟨d2, hd2, hk2⟩ := List.mem_map.mp hk
      rw [List.map_append, List.map_cons] at hnd
      have hdisj := (List.nodup_append.mp hnd).2.2
      have h1 : d2.1.Entry.ID ∈ Ddone.map (fun d => d.1.Entry.ID) :=
        List.mem_map_of_mem (fun d => d.1.Entry.ID) hd2
      have h2 : d2.1.Entry.ID ∈ d.1.Entry.ID :: rest.map (fun d => d.1.Entry.ID) := by
        rw [← hk2] at hEq
        simp only at hEq
        rw [hEq]
        exact List.mem_cons_self _ _
      exact hdisj h1 h2
    have hk : decisionKeys Ddone ++ [(d.1.Entry.ID, d.1.Entry.PositionID, d.2)] =
        decisionKeys (Ddone ++ [d]) := by
      simp [decisionKeys]
    have hstep : commit (rows0.map (resolvedRow (rankOf rows0) (decisionKeys Ddone))) d =
        rows0.map (resolvedRow (rankOf rows0) (decisionKeys (Ddone ++ [d]))) := by
      rw [← hk, ← commit_step hid (decisionKeys Ddone) d.1.Entry d.2 hd.1 hd.2 hfresh]
      rfl
    rw [List.foldl_cons, hstep, ih (Ddone ++ [d])
      (fun x hx => hmem x (List.mem_cons_of_mem _ hx))
      (by rw [List.append_assoc]; exact hnd)]
    rw [List.append_assoc]
    rfl

theorem reschedule_sublist (activity : ActivityControl) :
    ∀ (rest : List conflictInfo) (lastEndTime : Int),
      List.Sublist ((reschedule activity lastEndTime rest).map (fun d => d.1)) rest := by
  intro rest
  induction rest with
  | nil => intro _; simp [reschedule]
  | cons c rest ih =>
    intro lastEndTime
    by_cases h : c.EstimatedTime < lastEndTime + activity.BufferTime * Minute
    · rw [reschedule_pos rest h, List.map_cons]
      exact List.Sublist.cons₂ _ (ih _)
    · rw [reschedule_neg rest h]
      exact List.Sublist.cons _ (ih _)

theorem sortedConflicts_entries (rows : Rows) (activity : ActivityControl) (now : Int)
    (candidateID : Nat) :
    List.Perm ((sortedConflicts rows activity now candidateID).map (fun c => c.Entry))
      (candidateWaiting rows candidateID) := by
  unfold sortedConflicts sortConflicts
  have h := List.Perm.map (fun c : conflictInfo => c.Entry)
    (List.perm_insertionSort conflictLE
      ((candidateWaiting rows candidateID).map (naiveInfo rows activity now candidateID)))
  rw [List.map_map] at h
  have h2 : (candidateWaiting rows candidateID).map
      ((fun c : conflictInfo => c.Entry) ∘ naiveInfo rows activity now candidateID) =
      candidateWaiting rows candidateID := by
    conv_rhs => rw [← List.map_id (candidateWaiting rows candidateID)]
    apply List.map_congr_left
    intro r _
    rfl
  rw [h2] at h
  exact h

theorem nodup_candidateWaiting {rows : Rows} (hid : (rows.map (fun e => e.ID)).Nodup)
    (candidateID : Nat) : ((candidateWaiting rows candidateID).map (fun e => e.ID)).Nodup :=
  List.Nodup.sublist (List.Sublist.map _ (List.filter_sublist _)) hid

theorem decisions_sublist (rows : Rows) (activity : ActivityControl) (now : Int)
    (candidateID : Nat) :
    List.Sublist ((decisions rows activity now candidateID).map (fun d => d.1))
      (sortedConflicts rows activity now candidateID) := by
  unfold decisions
  cases hs : sortedConflicts rows activity now candidateID with
  | nil => simp
  | cons first rest =>
    exact List.Sublist.cons _ (reschedule_sublist activity rest first.EndTime)

theorem decisions_mem {rows : Rows} {activity : ActivityControl} {now : Int}
    {candidateID : Nat} {d : conflictInfo × Int}
    (hd : d ∈ decisions rows activity now candidateID) :
    d.1.Entry ∈ candidateWaiting rows candidateID := by
  have h1 : d.1 ∈ (decisions rows activity now candidateID).map (fun d => d.1) :=
    List.mem_map_of_mem (fun d => d.1) hd
  have h2 := (decisions_sublist rows activity now candidateID).subset h1
  have h3 : d.1.Entry ∈ (sortedConflicts rows activity now candidateID).map (fun c => c.Entry) :=
    List.mem_map_of_mem (fun c => c.Entry) h2
  exact (sortedConflicts_entries rows activity now candidateID).subset h3

theorem decisions_nodup {rows : Rows} (hid : (rows.map (fun e => e.ID)).Nodup)
    (activity : ActivityControl) (now : Int) (candidateID : Nat) :
    ((decisions rows activity now candidateID).map (fun d => d.1.Entry.ID)).Nodup := by
  have h1 := List.Sublist.map (fun c : conflictInfo => c.Entry.ID)
    (decisions_sublist rows activity now candidateID)
  rw [List.map_map] at h1
  have h2 := List.Perm.map (fun e : QueueEntry => e.ID)
    (sortedConflicts_entries rows activity now candidateID)
  rw [List.map_map] at h2
  have h3 : ((sortedConflicts rows activity now candidateID).map
      ((fun e : QueueEntry => e.ID) ∘ fun c => c.Entry)).Nodup :=
    (List.Perm.nodup_iff h2).mpr (nodup_candidateWaiting hid candidateID)
  exact List.Nodup.sublist h1 h3

theorem length_sortedConflicts (rows : Rows) (activity : ActivityControl) (now : Int)
    (candidateID : Nat) :
    (sortedConflicts rows activity now candidateID).length =
      (candidateWaiting rows candidateID).length := by
  unfold sortedConflicts sortConflicts
  rw [List.length_insertionSort, List.length_map]

theorem decisions_of_le_one {rows : Rows} {activity : ActivityControl} {now : Int}
    {candidateID : Nat} (h : (candidateWaiting rows candidateID).length ≤ 1) :
    decisions rows activity now candidateID = [] := by
  have hl := length_sortedConflicts rows activity now candidateID
  unfold decisions
  cases hs : sortedConflicts rows activity now candidateID with
  | nil => rfl
  | cons first rest =>
    rw [hs] at hl
    cases rest with
    | nil => rfl
    | cons c rest2 =>
      simp only [List.length_cons] at hl
      omega

/-- The table `ResolveConflicts` leaves, row by row. -/
theorem ResolveConflicts_rows {rows : Rows} (hid : (rows.map (fun e => e.ID)).Nodup)
    (activity : ActivityControl) (now : Int) (candidateID : Nat) :
    (ResolveConflicts rows activity now candidateID).2.2 =
      rows.map (resolvedRow (rankOf rows)
        (decisionKeys (decisions rows activity now candidateID))) := by
  unfold ResolveConflicts
  by_cases h : (candidateWaiting rows candidateID).length ≤ 1
  · rw [if_pos h, decisions_of_le_one h]
    simp only [decisionKeys, List.map_nil]
    conv_lhs => rw [← List.map_id rows]
    apply List.map_congr_left
    intro r _
    exact (resolvedRow_nil _ r).symm
  · rw [if_neg h]
    have hmem : ∀ d ∈ decisions rows activity now candidateID,
        d.1.Entry ∈ rows ∧ d.1.Entry.Status = EntryStatus.waiting := by
      intro d hd
      have := mem_candidateWaiting.mp (decisions_mem hd)
      exact ⟨this.1, this.2.2⟩
    have hmain := foldl_commit_eq_map hid (decisions rows activity now candidateID) []
      hmem (by simpa using decisions_nodup hid activity now candidateID)
    have hnil : rows.map (resolvedRow (rankOf rows) (decisionKeys [])) = rows := by
      conv_rhs => rw [← List.map_id rows]
      apply List.map_congr_left
      intro r _
      exact resolvedRow_nil _ r
    rw [hnil, List.nil_append] at hmain
    rw [← hmain]
    show (resolveWalk rows activity now candidateID).rows = _
    unfold resolveWalk decisions sortedConflicts
    cases hs : sortConflicts ((candidateWaiting rows candidateID).map
        (naiveInfo rows activity now candidateID)) with
    | nil => rfl
    | cons first rest =>
      simp only [walk]
      rw [foldl_walkStep_rows]

theorem ResolveConflicts_hasConflicts (rows : Rows) (activity : ActivityControl) (now : Int)
    (candidateID : Nat) :
    (ResolveConflicts rows activity now candidateID).1 =
      !(decisions rows activity now candidateID).isEmpty := by
  unfold ResolveConflicts
  by_cases h : (candidateWaiting rows candidateID).length ≤ 1
  · rw [if_pos h, decisions_of_le_one h]; rfl
  · rw [if_neg h]
    show (resolveWalk rows activity now candidateID).hasConflicts = _
    unfold resolveWalk decisions sortedConflicts
    cases hs : sortConflicts ((candidateWaiting rows candidateID).map
        (naiveInfo rows activity now candidateID)) with
    | nil => rfl
    | cons first rest =>
      simp only [walk]
      rw [foldl_walkStep_hasConflicts]
      simp

theorem ResolveConflicts_messages (rows : Rows) (activity : ActivityControl) (now : Int)
    (candidateID : Nat) :
    (ResolveConflicts rows activity now candidateID).2.1 =
      (decisions rows activity now candidateID).map messageOf := by
  unfold ResolveConflicts
  by_cases h : (candidateWaiting rows candidateID).length ≤ 1
  · rw [if_pos h, decisions_of_le_one h]; rfl
  · rw [if_neg h]
    show (resolveWalk rows activity now candidateID).conflictMessages = _
    unfold resolveWalk decisions sortedConflicts
    cases hs : sortConflicts ((candidateWaiting rows candidateID).map
        (naiveInfo rows activity now candidateID)) with
    | nil => rfl
    | cons first rest =>
      simp only [walk]
      rw [foldl_walkStep_messages]
      simp

theorem candidateWaiting_map {rows : Rows} {f : QueueEntry → QueueEntry}
    (hf : ∀ r ∈ rows, core (f r) = core r) (candidateID : Nat) :
    candidateWaiting (rows.map f) candidateID = (candidateWaiting rows candidateID).map f := by
  unfold candidateWaiting
  rw [List.filter_map]
  congr 1
  apply List.filter_congr
  intro r hr
  simp only [Function.comp, core_CandidateID (hf r hr), core_Status (hf r hr)]

theorem naiveInfo_map {rows : Rows} {f : QueueEntry → QueueEntry}
    (hf : ∀ r ∈ rows, core (f r) = core r) (activity : ActivityControl) (now : Int)
    (candidateID : Nat) {e : QueueEntry} (he : e ∈ rows) :
    naiveInfo (rows.map f) activity now candidateID (f e) =
      liftEntry f (naiveInfo rows activity now candidateID e) := by
  unfold naiveInfo liftEntry
  simp only [getQueuePosition_map hf, core_PositionID (hf e he), core_JoinTime (hf e he)]

theorem sortedConflicts_map {rows : Rows} {f : QueueEntry → QueueEntry}
    (hf : ∀ r ∈ rows, core (f r) = core r) (activity : ActivityControl) (now : Int)
    (candidateID : Nat) :
    sortedConflicts (rows.map f) activity now candidateID =
      (sortedConflicts rows activity now candidateID).map (liftEntry f) := by
  unfold sortedConflicts sortConflicts
  rw [candidateWaiting_map hf, List.map_map]
  have h1 : (candidateWaiting rows candidateID).map
      (naiveInfo (rows.map f) activity now candidateID ∘ f) =
      ((candidateWaiting rows candidateID).map (naiveInfo rows activity now candidateID)).map
        (liftEntry f) := by
    rw [List.map_map]
    apply List.map_congr_left
    intro e he
    exact naiveInfo_map hf activity now candidateID (mem_candidateWaiting.mp he).1
  rw [h1]
  symm
  apply List.map_insertionSort
  intro a ha b hb
  obtain ⟨ea, hea, rfl⟩ := List.mem_map.mp ha
  obtain ⟨eb, heb, rfl⟩ := List.mem_map.mp hb
  have h2 := core_IsHighPriority (hf ea (mem_candidateWaiting.mp hea).1)
  have h3 := core_IsHighPriority (hf eb (mem_candidateWaiting.mp heb).1)
  unfold conflictLE conflictLess liftEntry naiveInfo
  simp only [h2, h3]

theorem reschedule_map (activity : ActivityControl) (f : QueueEntry → QueueEntry) :
    ∀ (rest : List conflictInfo) (lastEndTime : Int),
      reschedule activity lastEndTime (rest.map (liftEntry f)) =
        (reschedule activity lastEndTime rest).map (fun d => (liftEntry f d.1, d.2)) := by
  intro rest
  induction rest with
  | nil => intro _; rfl
  | cons c rest ih =>
    intro lastEndTime
    rw [List.map_cons]
    by_cases h : c.EstimatedTime < lastEndTime + activity.BufferTime * Minute
    · have h2 : (liftEntry f c).EstimatedTime < lastEndTime + activity.BufferTime * Minute := h
      rw [reschedule_pos _ h, reschedule_pos _ h2, ih, List.map_cons]
    · have h2 : ¬ (liftEntry f c).EstimatedTime < lastEndTime + activity.BufferTime * Minute := h
      rw [reschedule_neg _ h, reschedule_neg _ h2]
      exact ih _

theorem decisions_map {rows : Rows} {f : QueueEntry → QueueEntry}
    (hf : ∀ r ∈ rows, core (f r) = core r) (activity : ActivityControl) (now : Int)
    (candidateID : Nat) :
    decisions (rows.map f) activity now candidateID =
      (decisions rows activity now candidateID).map (fun d => (liftEntry f d.1, d.2)) := by
  unfold decisions
  rw [sortedConflicts_map hf]
  cases hs : sortedConflicts rows activity now candidateID with
  | nil => rfl
  | cons first rest =>
    simp only [List.map_cons]
    exact reschedule_map activity f rest first.EndTime

theorem decisionKeys_map {rows : Rows} {f : QueueEntry → QueueEntry}
    (hf : ∀ r ∈ rows, core (f r) = core r) (activity : ActivityControl) (now : Int)
    (candidateID : Nat) :
    decisionKeys (decisions (rows.map f) activity now candidateID) =
      decisionKeys (decisions rows activity now candidateID) := by
  rw [decisions_map hf]
  unfold decisionKeys
  rw [List.map_map]
  apply List.map_congr_left
  intro d hd
  have hmem := (mem_candidateWaiting.mp (decisions_mem hd)).1
  simp only [Function.comp, liftEntry, core_ID (hf _ hmem), core_PositionID (hf _ hmem)]

theorem messages_map {rows : Rows} {f : QueueEntry → QueueEntry}
    (hf : ∀ r ∈ rows, core (f r) = core r) (activity : ActivityControl) (now : Int)
    (candidateID : Nat) :
    (decisions (rows.map f) activity now candidateID).map messageOf =
      (decisions rows activity now candidateID).map messageOf := by
  rw [decisions_map hf, List.map_map]
  apply List.map_congr_left
  intro d hd
  have hmem := (mem_candidateWaiting.mp (decisions_mem hd)).1
  simp only [Function.comp, messageOf, liftEntry, core_PositionID (hf _ hmem)]

theorem rankTouched_idem (rank : Nat → Nat → Int) (T : List Nat) (r : QueueEntry) :
    rankTouched rank T (rankTouched rank T r) = rankTouched rank T r := by
  unfold rankTouched
  by_cases hc : r.Status = EntryStatus.waiting ∧ r.PositionID ∈ T
  · simp [hc]
  · simp [hc]

theorem rankTouched_ID (rank : Nat → Nat → Int) (T : List Nat) (r : QueueEntry) :
    (rankTouched rank T r).ID = r.ID := core_ID (core_rankTouched rank T r)

theorem rankTouched_EstimatedTime (rank : Nat → Nat → Int) (T : List Nat) (r : QueueEntry) :
    (rankTouched rank T r).EstimatedTime = r.EstimatedTime := by
  unfold rankTouched
  split <;> rfl

theorem writeStart_rankTouched (rank : Nat → Nat → Int) (T : List Nat)
    (K : List (Nat × Nat × Int)) (r : QueueEntry) :
    writeStart K (rankTouched rank T (writeStart K r)) = rankTouched rank T (writeStart K r) := by
  have hID : (rankTouched rank T (writeStart K r)).ID = r.ID := by
    rw [rankTouched_ID]; exact core_ID (core_writeStart K r)
  have hE := rankTouched_EstimatedTime rank T (writeStart K r)
  generalize rankTouched rank T (writeStart K r) = y at hID hE
  cases y
  simp only at hID hE
  subst hID
  unfold writeStart at hE ⊢
  simp only
  cases hfind : K.find? (fun k => decide (k.1 = r.ID)) with
  | none => rfl
  | some k =>
    rw [hfind] at hE
    simp only at hE ⊢
    subst hE
    rfl

theorem resolvedRow_idem (rank : Nat → Nat → Int) (K : List (Nat × Nat × Int))
    (r : QueueEntry) :
    resolvedRow rank K (resolvedRow rank K r) = resolvedRow rank K r := by
  unfold resolvedRow
  rw [writeStart_rankTouched, rankTouched_idem]

/-- Conflict resolution on a table that differs from `rows` in stored ranks and
estimated starts only makes the reschedulings it makes on `rows`. -/
theorem ResolveConflicts_map {rows : Rows} (hid : (rows.map (fun e => e.ID)).Nodup)
    {f : QueueEntry → QueueEntry} (hf : ∀ r ∈ rows, core (f r) = core r)
    (activity : ActivityControl) (now : Int) (candidateID : Nat) :
    ResolveConflicts (rows.map f) activity now candidateID =
      ((ResolveConflicts rows activity now candidateID).1,
        (ResolveConflicts rows activity now candidateID).2.1,
        rows.map (fun r => resolvedRow (rankOf rows)
          (decisionKeys (decisions rows activity now candidateID)) (f r))) := by
  have hid2 : ((rows.map f).map (fun e => e.ID)).Nodup := by
    rw [map_ID_of_core hf]; exact hid
  have h1 := ResolveConflicts_rows hid2 activity now candidateID
  have h2 := ResolveConflicts_hasConflicts (rows.map f) activity now candidateID
  have h3 := ResolveConflicts_messages (rows.map f) activity now candidateID
  rw [decisionKeys_map hf] at h1
  rw [decisions_map hf] at h2
  rw [messages_map hf] at h3
  have hrank : rankOf (rows.map f) = rankOf rows := by
    funext p i
    exact rankOf_map hf p i
  rw [hrank, List.map_map] at h1
  rw [ResolveConflicts_hasConflicts rows, ResolveConflicts_messages rows]
  apply Prod.ext
  · rw [h2]
    cases decisions rows activity now candidateID <;> rfl
  · apply Prod.ext
    · exact h3
    · exact h1

theorem ResolveConflicts_idem {rows : Rows} (hid : (rows.map (fun e => e.ID)).Nodup)
    (activity : ActivityControl) (now : Int) (candidateID : Nat) :
    ResolveConflicts (ResolveConflicts rows activity now candidateID).2.2 activity now
        candidateID =
      ResolveConflicts rows activity now candidateID := by
  have h1 := ResolveConflicts_rows hid activity now candidateID
  rw [h1, ResolveConflicts_map hid (fun r _ => core_resolvedRow _ _ r)]
  apply Prod.ext
  · rfl
  · apply Prod.ext
    · rfl
    · simp only
      rw [h1]
      apply List.map_congr_left
      intro r _
      exact resolvedRow_idem _ _ r

theorem resolvedSlice_IDs (activity : ActivityControl) :
    ∀ (rest : List conflictInfo) (lastEndTime : Int),
      (resolvedSlice activity lastEndTime rest).map (fun c => c.Entry.ID) =
        rest.map (fun c => c.Entry.ID) := by
  intro rest
  induction rest with
  | nil => intro _; rfl
  | cons c rest ih =>
    intro lastEndTime
    by_cases h : c.EstimatedTime < lastEndTime + activity.BufferTime * Minute
    · rw [resolvedSlice_pos rest h, List.map_cons, List.map_cons, ih]
    · rw [resolvedSlice_neg rest h, List.map_cons, List.map_cons, ih]

theorem resolvedSlice_chain (activity : ActivityControl)
    (havg : 0 ≤ activity.AverageInterviewTime) (hbuf : 0 ≤ activity.BufferTime) :
    ∀ (rest : List conflictInfo) (lastEndTime : Int),
      (∀ c ∈ rest, c.EndTime = c.EstimatedTime + activity.AverageInterviewTime * Minute) →
      (∀ c ∈ resolvedSlice activity lastEndTime rest,
          lastEndTime + activity.BufferTime * Minute ≤ c.EstimatedTime ∧
          c.EndTime = c.EstimatedTime + activity.AverageInterviewTime * Minute) ∧
        (resolvedSlice activity lastEndTime rest).Pairwise
          (fun a b => a.EndTime + activity.BufferTime * Minute ≤ b.EstimatedTime) := by
  intro rest
  induction rest with
  | nil =>
    intro _ _
    refine ⟨?_, List.Pairwise.nil⟩
    intro c hc
    cases hc
  | cons c rest ih =>
    intro lastEndTime hend
    have hrest : ∀ x ∈ rest, x.EndTime = x.EstimatedTime + activity.AverageInterviewTime * Minute :=
      fun x hx => hend x (List.mem_cons_of_mem _ hx)
    have hc := hend c (List.mem_cons_self _ _)
    have hM : (0 : Int) < Minute := by unfold Minute; omega
    have ha : 0 ≤ activity.AverageInterviewTime * Minute := Int.mul_nonneg havg (le_of_lt hM)
    have hb : 0 ≤ activity.BufferTime * Minute := Int.mul_nonneg hbuf (le_of_lt hM)
    by_cases h : c.EstimatedTime < lastEndTime + activity.BufferTime * Minute
    · rw [resolvedSlice_pos rest h]
      obtain ⟨h1, h2⟩ := ih (lastEndTime + activity.BufferTime * Minute +
        activity.AverageInterviewTime * Minute) hrest
      refine ⟨?_, List.Pairwise.cons ?_ h2⟩
      · intro x hx
        rcases List.mem_cons.mp hx with rfl | hx2
        · exact ⟨le_refl _, rfl⟩
        · have := h1 x hx2
          exact ⟨by omega, this.2⟩
      · intro x hx
        exact (h1 x hx).1
    · rw [resolvedSlice_neg rest h]
      obtain ⟨h1, h2⟩ := ih c.EndTime hrest
      refine ⟨?_, List.Pairwise.cons ?_ h2⟩
      · intro x hx
        rcases List.mem_cons.mp hx with rfl | hx2
        · exact ⟨by omega, hc⟩
        · have := h1 x hx2
          exact ⟨by omega, this.2⟩
      · intro x hx
        exact (h1 x hx).1

theorem reschedule_IDs_subset (activity : ActivityControl) (rest : List conflictInfo)
    (lastEndTime : Int) {i : Nat}
    (hi : i ∈ (reschedule activity lastEndTime rest).map (fun d => d.1.Entry.ID)) :
    i ∈ rest.map (fun c => c.Entry.ID) := by
  have h := List.Sublist.map (fun c : conflictInfo => c.Entry.ID)
    (reschedule_sublist activity rest lastEndTime)
  rw [List.map_map] at h
  exact h.subset hi

theorem resolvedSlice_spec (activity : ActivityControl) :
    ∀ (rest : List conflictInfo) (lastEndTime : Int),
      (rest.map (fun c => c.Entry.ID)).Nodup →
      ∀ c2 ∈ resolvedSlice activity lastEndTime rest,
        ∃ c ∈ rest, c2.Entry.ID = c.Entry.ID ∧
          ((c2.EstimatedTime = c.EstimatedTime ∧
              c.Entry.ID ∉ (reschedule activity lastEndTime rest).map (fun d => d.1.Entry.ID))
            ∨ (c.EstimatedTime < c2.EstimatedTime ∧
              (c, c2.EstimatedTime) ∈ reschedule activity lastEndTime rest)) := by
  intro rest
  induction rest with
  | nil => intro _ _ c2 hc2; cases hc2
  | cons c rest ih =>
    intro lastEndTime hnd c2 hc2
    rw [List.map_cons] at hnd
    have hnd2 := List.nodup_cons.mp hnd
    by_cases h : c.EstimatedTime < lastEndTime + activity.BufferTime * Minute
    · rw [resolvedSlice_pos rest h] at hc2
      rw [reschedule_pos rest h]
      rcases List.mem_cons.mp hc2 with rfl | hc3
      · exact ⟨c, List.mem_cons_self _ _, rfl, Or.inr ⟨h, List.mem_cons_self _ _⟩⟩
      · obtain ⟨x, hx, hxid, hcase⟩ := ih _ hnd2.2 c2 hc3
        refine ⟨x, List.mem_cons_of_mem _ hx, hxid, ?_⟩
        rcases hcase with ⟨h1, h2⟩ | ⟨h1, h2⟩
        · left
          refine ⟨h1, ?_⟩
          rw [List.map_cons, List.mem_cons]
          rintro (h3 | h3)
          · exact hnd2.1 (h3 ▸ List.mem_map_of_mem (fun c => c.Entry.ID) hx)
          · exact h2 h3
        · exact Or.inr ⟨h1, List.mem_cons_of_mem _ h2⟩
    · rw [resolvedSlice_neg rest h] at hc2
      rw [reschedule_neg rest h]
      rcases List.mem_cons.mp hc2 with rfl | hc3
      · refine ⟨c2, List.mem_cons_self _ _, rfl, Or.inl ⟨rfl, ?_⟩⟩
        intro hin
        exact hnd2.1 (reschedule_IDs_subset activity rest _ hin)
      · obtain ⟨x, hx, hxid, hcase⟩ := ih _ hnd2.2 c2 hc3
        exact ⟨x, List.mem_cons_of_mem _ hx, hxid, hcase⟩

theorem writeStart_of_not_mem {K : List (Nat × Nat × Int)} {r : QueueEntry}
    (h : r.ID ∉ K.map (fun k => k.1)) : writeStart K r = r := by
  unfold writeStart
  have hfind : K.find? (fun k => decide (k.1 = r.ID)) = none := by
    rw [List.find?_eq_none]
    intro k hk hEq
    apply h
    have : k.1 = r.ID := by simpa using hEq
    rw [← this]
    exact List.mem_map_of_mem (fun k => k.1) hk
  rw [hfind]

theorem writeStart_of_mem : ∀ (K : List (Nat × Nat × Int)) (r : QueueEntry) (p : Nat) (t : Int),
    (K.map (fun k => k.1)).Nodup → (r.ID, p, t) ∈ K →
    (writeStart K r).EstimatedTime = some t := by
  intro K
  induction K with
  | nil => intro r p t _ h; cases h
  | cons k K ih =>
    intro r p t hnd hmem
    rw [List.map_cons] at hnd
    have hnd2 := List.nodup_cons.mp hnd
    by_cases hk : k.1 = r.ID
    · have hkeq : k = (r.ID, p, t) := by
        rcases List.mem_cons.mp hmem with h1 | h1
        · exact h1.symm
        · exfalso
          apply hnd2.1
          rw [hk]
          exact List.mem_map_of_mem (fun k => k.1) h1
      subst hkeq
      simp [writeStart, List.find?]
    · have hmem2 : (r.ID, p, t) ∈ K := by
        rcases List.mem_cons.mp hmem with h1 | h1
        · exact absurd (by rw [← h1]) hk
        · exact h1
      have := ih r p t hnd2.2 hmem2
      unfold writeStart at this ⊢
      simp only [List.find?, hk, decide_False]
      exact this

theorem resolvedRow_EstimatedTime (rank : Nat → Nat → Int) (K : List (Nat × Nat × Int))
    (r : QueueEntry) :
    (resolvedRow rank K r).EstimatedTime = (writeStart K r).EstimatedTime := by
  unfold resolvedRow
  exact rankTouched_EstimatedTime _ _ _

theorem mem_sortedConflicts {rows : Rows} {activity : ActivityControl} {now : Int}
    {candidateID : Nat} {c : conflictInfo}
    (hc : c ∈ sortedConflicts rows activity now candidateID) :
    ∃ e ∈ candidateWaiting rows candidateID, c = naiveInfo rows activity now candidateID e := by
  unfold sortedConflicts sortConflicts at hc
  rw [List.mem_insertionSort] at hc
  obtain ⟨e, he, hce⟩ := List.mem_map.mp hc
  exact ⟨e, he, hce.symm⟩

theorem sortedConflicts_nodup {rows : Rows} (hid : (rows.map (fun e => e.ID)).Nodup)
    (activity : ActivityControl) (now : Int) (candidateID : Nat) :
    ((sortedConflicts rows activity now candidateID).map (fun c => c.Entry.ID)).Nodup := by
  have h2 := List.Perm.map (fun e : QueueEntry => e.ID)
    (sortedConflicts_entries rows activity now candidateID)
  rw [List.map_map] at h2
  exact (List.Perm.nodup_iff h2).mpr (nodup_candidateWaiting hid candidateID)

theorem decisionKeys_IDs (D : List (conflictInfo × Int)) :
    (decisionKeys D).map (fun k => k.1) = D.map (fun d => d.1.Entry.ID) := by
  unfold decisionKeys
  rw [List.map_map]
  rfl

/-! ## Facts about `calculateSmartWaitTime` -/

theorem foldl_baseWaitTimes (rows : Rows) (candidateID : Nat) (avgInterviewTime : Int) :
    ∀ (cq : List QueueEntry) (m : Nat → Int) (p : Nat),
      cq.foldl
          (fun m entry => fun k =>
            if k = entry.PositionID then
              (getQueuePosition rows entry.PositionID candidateID - 1) * avgInterviewTime
            else m k) m p =
        if p ∈ cq.map (fun e => e.PositionID) then baseWait rows candidateID avgInterviewTime p
        else m p := by
  intro cq
  induction cq with
  | nil => intro m p; simp
  | cons e cq ih =>
    intro m p
    rw [List.foldl_cons, ih]
    by_cases h1 : p ∈ cq.map (fun e => e.PositionID)
    · have h2 : p ∈ (e :: cq).map (fun e => e.PositionID) := by
        rw [List.map_cons]; exact List.mem_cons_of_mem _ h1
      rw [if_pos h1, if_pos h2]
    · rw [if_neg h1]
      by_cases h3 : p = e.PositionID
      · have h2 : p ∈ (e :: cq).map (fun e => e.PositionID) := by
          rw [List.map_cons, h3]; exact List.mem_cons_self _ _
        rw [if_pos h2]
        simp only [h3, if_true, baseWait]
      · have h2 : p ∉ (e :: cq).map (fun e => e.PositionID) := by
          rw [List.map_cons, List.mem_cons]
          rintro (h | h)
          · exact h3 h
          · exact h1 h
        rw [if_neg h2]
        simp only [h3, if_false]

theorem baseWaitTimes_of_mem {rows : Rows} {candidateID : Nat} {avgInterviewTime : Int}
    {cq : List QueueEntry} {e : QueueEntry} (he : e ∈ cq) :
    baseWaitTimes rows candidateID avgInterviewTime cq e.PositionID =
      baseWait rows candidateID avgInterviewTime e.PositionID := by
  unfold baseWaitTimes
  rw [foldl_baseWaitTimes, if_pos (List.mem_map_of_mem (fun e => e.PositionID) he)]

theorem mem_of_find?_eq_some' {l : List QueueEntry} {p : QueueEntry → Bool} {e : QueueEntry}
    (h : l.find? p = some e) : e ∈ l ∧ p e = true :=
  ⟨List.mem_of_find?_eq_some h, List.find?_some h⟩

theorem regularScan_none (activity : ActivityControl) (avgInterviewTime : Int)
    (base : Nat → Int) (positionID : Nat) (cq : List QueueEntry) :
    ∀ l : List QueueEntry,
      (∀ p ∈ l, p.IsHighPriority = true →
        ¬ (base positionID + avgInterviewTime + activity.BufferTime ≤ base p.PositionID)) →
      regularScan activity avgInterviewTime base positionID cq l = none := by
  intro l
  induction l with
  | nil => intro _; rfl
  | cons e l ih =>
    intro h
    have he := h e (List.mem_cons_self _ _)
    have hl := ih (fun p hp => h p (List.mem_cons_of_mem _ hp))
    rw [regularScan]
    by_cases hp : e.IsHighPriority = true
    · simp only [hp, if_true, he hp, if_false]
      exact hl
    · simp only [hp, if_false]
      exact hl

theorem regularScan_some (activity : ActivityControl) (avgInterviewTime : Int)
    (base : Nat → Int) (positionID : Nat) (cq : List QueueEntry) :
    ∀ l : List QueueEntry,
      (∃ p ∈ l, p.IsHighPriority = true ∧
        base positionID + avgInterviewTime + activity.BufferTime ≤ base p.PositionID) →
      regularScan activity avgInterviewTime base positionID cq l =
        some (decide (simultaneousCount base positionID (base positionID) cq > 0)) := by
  intro l
  induction l with
  | nil => intro h; obtain ⟨p, hp, _⟩ := h; cases hp
  | cons e l ih =>
    intro h
    rw [regularScan]
    by_cases hp : e.IsHighPriority = true
    · by_cases hle : base positionID + avgInterviewTime + activity.BufferTime ≤
          base e.PositionID
      · simp only [hp, if_true, hle]
        by_cases hs : simultaneousCount base positionID (base positionID) cq > 0
        · simp [hs]
        · simp [hs]
      · simp only [hp, if_true, hle, if_false]
        apply ih
        obtain ⟨p, hpm, hp1, hp2⟩ := h
        rcases List.mem_cons.mp hpm with rfl | hpl
        · exact absurd hp2 hle
        · exact ⟨p, hpl, hp1, hp2⟩
    · simp only [hp, if_false]
      apply ih
      obtain ⟨p, hpm, hp1, hp2⟩ := h
      rcases List.mem_cons.mp hpm with rfl | hpl
      · exact absurd hp1 hp
      · exact ⟨p, hpl, hp1, hp2⟩

theorem currentIsHighPriority_of_find {positionID : Nat} {cq : List QueueEntry}
    {e : QueueEntry}
    (h : cq.find? (fun entry => decide (entry.PositionID = positionID)) = some e) :
    currentIsHighPriority positionID cq = e.IsHighPriority := by
  unfold currentIsHighPriority
  rw [h]

/-- The fast path and the fallback of `calculateSmartWaitTime` for a candidate
with at least two waiting entries, in terms of the two tests it makes. -/
theorem calculateSmartWaitTime_multi {rows : Rows} (activity : ActivityControl) (now : Int)
    (positionID candidateID : Nat) (avgInterviewTime : Int) {e : QueueEntry}
    (htwo : 2 ≤ (candidateWaiting rows candidateID).length)
    (hq : (candidateWaiting rows candidateID).find?
      (fun entry => decide (entry.PositionID = positionID)) = some e) :
    calculateSmartWaitTime rows activity now positionID candidateID avgInterviewTime =
      if (∀ o ∈ candidateWaiting rows candidateID, o.PositionID ≠ positionID →
            baseWait rows candidateID avgInterviewTime o.PositionID ≠
              baseWait rows candidateID avgInterviewTime positionID) ∧
          (e.IsHighPriority = true ∨ ∃ p ∈ candidateWaiting rows candidateID,
            p.IsHighPriority = true ∧
              baseWait rows candidateID avgInterviewTime positionID + avgInterviewTime +
                activity.BufferTime ≤ baseWait rows candidateID avgInterviewTime p.PositionID)
      then { wait := baseWait rows candidateID avgInterviewTime positionID, rows := rows,
             resolved := none }
      else calculateActualWaitTime rows activity now positionID candidateID
        avgInterviewTime := by
  have hmem := mem_of_find?_eq_some' hq
  have hepos : e.PositionID = positionID := by simpa using hmem.2
  have hlen : ¬ (candidateWaiting rows candidateID).length ≤ 1 := by omega
  have hbase : ∀ o ∈ candidateWaiting rows candidateID,
      baseWaitTimes rows candidateID avgInterviewTime (candidateWaiting rows candidateID)
        o.PositionID = baseWait rows candidateID avgInterviewTime o.PositionID :=
    fun o ho => baseWaitTimes_of_mem ho
  have hbasee : baseWaitTimes rows candidateID avgInterviewTime
      (candidateWaiting rows candidateID) positionID =
      baseWait rows candidateID avgInterviewTime positionID := by
    rw [← hepos]; exact hbase e hmem.1
  have hsim : (simultaneousCount
      (baseWaitTimes rows candidateID avgInterviewTime (candidateWaiting rows candidateID))
      positionID (baseWait rows candidateID avgInterviewTime positionID)
      (candidateWaiting rows candidateID) > 0) ↔
      ¬ (∀ o ∈ candidateWaiting rows candidateID, o.PositionID ≠ positionID →
            baseWait rows candidateID avgInterviewTime o.PositionID ≠
              baseWait rows candidateID avgInterviewTime positionID) := by
    unfold simultaneousCount
    rw [gt_iff_lt, List.countP_pos_iff]
    constructor
    · rintro ⟨o, ho, hp⟩ hall
      simp only [decide_eq_true_eq] at hp
      rw [hbase o ho] at hp
      exact hall o ho hp.1 hp.2
    · intro hn
      by_contra hex
      apply hn
      intro o ho hne hEq
      apply hex
      refine ⟨o, ho, ?_⟩
      simp only [decide_eq_true_eq]
      rw [hbase o ho]
      exact ⟨hne, hEq⟩
  have hcur := currentIsHighPriority_of_find hq
  by_cases hall : ∀ o ∈ candidateWaiting rows candidateID, o.PositionID ≠ positionID →
      baseWait rows candidateID avgInterviewTime o.PositionID ≠
        baseWait rows candidateID avgInterviewTime positionID
  · have hs0 : ¬ (simultaneousCount
        (baseWaitTimes rows candidateID avgInterviewTime (candidateWaiting rows candidateID))
        positionID (baseWait rows candidateID avgInterviewTime positionID)
        (candidateWaiting rows candidateID) > 0) := fun h => hsim.mp h hall
    by_cases hp : e.IsHighPriority = true
    · rw [if_pos ⟨hall, Or.inl hp⟩]
      unfold calculateSmartWaitTime
      simp only [hlen, if_false, hcur, hbasee, hp, hs0]
      simp
    · have hp2 : e.IsHighPriority = false := by
        cases h : e.IsHighPriority
        · rfl
        · exact absurd h hp
      by_cases hex : ∃ p ∈ candidateWaiting rows candidateID, p.IsHighPriority = true ∧
          baseWait rows candidateID avgInterviewTime positionID + avgInterviewTime +
            activity.BufferTime ≤ baseWait rows candidateID avgInterviewTime p.PositionID
      · rw [if_pos ⟨hall, Or.inr hex⟩]
        have hex2 : ∃ p ∈ candidateWaiting rows candidateID, p.IsHighPriority = true ∧
            baseWaitTimes rows candidateID avgInterviewTime (candidateWaiting rows candidateID)
              positionID + avgInterviewTime + activity.BufferTime ≤
            baseWaitTimes rows candidateID avgInterviewTime (candidateWaiting rows candidateID)
              p.PositionID := by
          obtain ⟨p, hpm, hp1, hp3⟩ := hex
          exact ⟨p, hpm, hp1, by rw [hbasee, hbase p hpm]; exact hp3⟩
        unfold calculateSmartWaitTime
        simp only [hlen, if_false, hcur, hp2, if_true,
          regularScan_some activity avgInterviewTime _ positionID _ _ hex2, hbasee, hs0,
          decide_False]
      · have hnot : ¬ ((∀ o ∈ candidateWaiting rows candidateID, o.PositionID ≠ positionID →
            baseWait rows candidateID avgInterviewTime o.PositionID ≠
              baseWait rows candidateID avgInterviewTime positionID) ∧
            (e.IsHighPriority = true ∨ ∃ p ∈ candidateWaiting rows candidateID,
              p.IsHighPriority = true ∧
                baseWait rows candidateID avgInterviewTime positionID + avgInterviewTime +
                  activity.BufferTime ≤
                  baseWait rows candidateID avgInterviewTime p.PositionID)) := by
          rintro ⟨_, h | h⟩
          · exact hp h
          · exact hex h
        rw [if_neg hnot]
        have hno : ∀ p ∈ candidateWaiting rows candidateID, p.IsHighPriority = true →
            ¬ (baseWaitTimes rows candidateID avgInterviewTime
              (candidateWaiting rows candidateID) positionID + avgInterviewTime +
              activity.BufferTime ≤
            baseWaitTimes rows candidateID avgInterviewTime (candidateWaiting rows candidateID)
              p.PositionID) := by
          intro p hpm hp1 hle
          apply hex
          exact ⟨p, hpm, hp1, by rw [hbasee, hbase p hpm] at hle; exact hle⟩
        unfold calculateSmartWaitTime
        simp only [hlen, if_false, hcur, hp2, if_true,
          regularScan_none activity avgInterviewTime _ positionID _ _ hno]
        simp
  · have hs1 : simultaneousCount
        (baseWaitTimes rows candidateID avgInterviewTime (candidateWaiting rows candidateID))
        positionID (baseWait rows candidateID avgInterviewTime positionID)
        (candidateWaiting rows candidateID) > 0 := hsim.mpr hall
    rw [if_neg (fun h => hall h.1)]
    by_cases hp : e.IsHighPriority = true
    · unfold calculateSmartWaitTime
      simp only [hlen, if_false, hcur, hbasee, hp, hs1]
      simp
    · have hp2 : e.IsHighPriority = false := by
        cases h : e.IsHighPriority
        · rfl
        · exact absurd h hp
      by_cases hex : ∃ p ∈ candidateWaiting rows candidateID, p.IsHighPriority = true ∧
          baseWaitTimes rows candidateID avgInterviewTime (candidateWaiting rows candidateID)
            positionID + avgInterviewTime + activity.BufferTime ≤
          baseWaitTimes rows candidateID avgInterviewTime (candidateWaiting rows candidateID)
            p.PositionID
      · unfold calculateSmartWaitTime
        simp only [hlen, if_false, hcur, hp2, if_true,
          regularScan_some activity avgInterviewTime _ positionID _ _ hex, hbasee, hs1,
          decide_True]
      · have hno : ∀ p ∈ candidateWaiting rows candidateID, p.IsHighPriority = true →
            ¬ (baseWaitTimes rows candidateID avgInterviewTime
              (candidateWaiting rows candidateID) positionID + avgInterviewTime +
              activity.BufferTime ≤
            baseWaitTimes rows candidateID avgInterviewTime (candidateWaiting rows candidateID)
              p.PositionID) := fun p hpm hp1 hle => hex ⟨p, hpm, hp1, hle⟩
        unfold calculateSmartWaitTime
        simp only [hlen, if_false, hcur, hp2, if_true,
          regularScan_none activity avgInterviewTime _ positionID _ _ hno]
        simp

theorem wholeMinutes_max (d : Int) :
    (if d > 0 then wholeMinutes d else 0) = max 0 (wholeMinutes d) := by
  have hM : (0 : Int) ≤ Minute := by unfold Minute; omega
  unfold wholeMinutes
  by_cases h : d > 0
  · rw [if_pos h]
    have := Int.tdiv_nonneg (le_of_lt h) hM
    omega
  · rw [if_neg h]
    have h1 : 0 ≤ -d := by omega
    have h2 := Int.tdiv_nonneg h1 hM
    rw [Int.neg_tdiv] at h2
    omega

theorem calculateActualWaitTime_multi (rows : Rows) (activity : ActivityControl) (now : Int)
    (positionID candidateID : Nat) (avgInterviewTime : Int)
    (h : ¬ (candidateWaiting (ResolveConflicts rows activity now candidateID).2.2
      candidateID).length ≤ 1) :
    calculateActualWaitTime rows activity now positionID candidateID avgInterviewTime =
      { wait :=
          match (candidateWaiting (ResolveConflicts rows activity now candidateID).2.2
              candidateID).find? (fun cq => decide (cq.PositionID = positionID)) with
          | some cq =>
            actualWait (ResolveConflicts rows activity now candidateID).2.2 now candidateID
              avgInterviewTime cq
          | none => 0
        rows := (ResolveConflicts rows activity now candidateID).2.2
        resolved := some ((ResolveConflicts rows activity now candidateID).1,
          (ResolveConflicts rows activity now candidateID).2.1) } := by
  unfold calculateActualWaitTime
  rcases hrc : ResolveConflicts rows activity now candidateID with ⟨hasConflicts, messages, rows1⟩
  rw [hrc] at h
  simp only at h ⊢
  rw [if_neg h]

/-- The conflict-resolved estimate for a candidate with at least two waiting
entries, read off the row of the queried entry after `ResolveConflicts`. -/
theorem calculateActualWaitTime_value {rows : Rows} (hid : (rows.map (fun e => e.ID)).Nodup)
    (activity : ActivityControl) (now : Int) (positionID candidateID : Nat)
    (avgInterviewTime : Int) {e : QueueEntry}
    (htwo : 2 ≤ (candidateWaiting rows candidateID).length)
    (hq : (candidateWaiting rows candidateID).find?
      (fun entry => decide (entry.PositionID = positionID)) = some e) :
    (candidateWaiting (ResolveConflicts rows activity now candidateID).2.2 candidateID).find?
        (fun entry => decide (entry.PositionID = positionID)) =
      some (resolvedRow (rankOf rows)
        (decisionKeys (decisions rows activity now candidateID)) e)
    ∧ calculateActualWaitTime rows activity now positionID candidateID avgInterviewTime =
      { wait :=
          match (resolvedRow (rankOf rows)
            (decisionKeys (decisions rows activity now candidateID)) e).EstimatedTime with
          | some t => max 0 (wholeMinutes (t - now))
          | none => (getQueuePosition rows positionID candidateID - 1) * avgInterviewTime
        rows := (ResolveConflicts rows activity now candidateID).2.2
        resolved := some ((ResolveConflicts rows activity now candidateID).1,
          (ResolveConflicts rows activity now candidateID).2.1) } := by
  have hrows := ResolveConflicts_rows hid activity now candidateID
  have hcore : ∀ r ∈ rows, core (resolvedRow (rankOf rows)
      (decisionKeys (decisions rows activity now candidateID)) r) = core r :=
    fun r _ => core_resolvedRow _ _ r
  have hcw : candidateWaiting (ResolveConflicts rows activity now candidateID).2.2 candidateID =
      (candidateWaiting rows candidateID).map (resolvedRow (rankOf rows)
        (decisionKeys (decisions rows activity now candidateID))) := by
    rw [hrows, candidateWaiting_map hcore]
  have hmem := mem_of_find?_eq_some' hq
  have hepos : e.PositionID = positionID := by simpa using hmem.2
  have hfind : (candidateWaiting (ResolveConflicts rows activity now candidateID).2.2
      candidateID).find? (fun entry => decide (entry.PositionID = positionID)) =
      some (resolvedRow (rankOf rows)
        (decisionKeys (decisions rows activity now candidateID)) e) := by
    rw [hcw, List.find?_map]
    have hfun : ((fun entry : QueueEntry => decide (entry.PositionID = positionID)) ∘
        resolvedRow (rankOf rows) (decisionKeys (decisions rows activity now candidateID))) =
        (fun entry : QueueEntry => decide (entry.PositionID = positionID)) := by
      funext r
      simp only [Function.comp, core_PositionID (core_resolvedRow _ _ r)]
    rw [hfun, hq]
    rfl
  refine ⟨hfind, ?_⟩
  have hlen : ¬ (candidateWaiting (ResolveConflicts rows activity now candidateID).2.2
      candidateID).length ≤ 1 := by
    rw [hcw, List.length_map]; omega
  rw [calculateActualWaitTime_multi rows activity now positionID candidateID avgInterviewTime
    hlen, hfind]
  simp only
  congr 1
  unfold actualWait
  have hpos2 : (resolvedRow (rankOf rows)
      (decisionKeys (decisions rows activity now candidateID)) e).PositionID = positionID := by
    rw [core_PositionID (core_resolvedRow _ _ e)]; exact hepos
  have hgqp : getQueuePosition (ResolveConflicts rows activity now candidateID).2.2 positionID
      candidateID = getQueuePosition rows positionID candidateID := by
    rw [hrows]; exact getQueuePosition_map hcore _ _
  rw [hpos2, hgqp]
  have hk : 1 ≤ getQueuePosition rows positionID candidateID := by
    rw [← hepos]; exact getQueuePosition_pos hmem.1
  cases hest : (resolvedRow (rankOf rows)
      (decisionKeys (decisions rows activity now candidateID)) e).EstimatedTime with
  | none =>
    simp only
    by_cases h1 : getQueuePosition rows positionID candidateID > 1
    · rw [if_pos h1]
    · rw [if_neg h1]
      have : getQueuePosition rows positionID candidateID = 1 := by omega
      rw [this]; simp
  | some t =>
    simp only
    exact wholeMinutes_max (t - now)

/-! ## Facts about the optimization advisor -/

theorem calculateActualWaitTime_after {rows : Rows} (hid : (rows.map (fun e => e.ID)).Nodup)
    (activity : ActivityControl) (now : Int) (positionID candidateID : Nat)
    (avgInterviewTime : Int) :
    calculateActualWaitTime (ResolveConflicts rows activity now candidateID).2.2 activity now
        positionID candidateID avgInterviewTime =
      calculateActualWaitTime rows activity now positionID candidateID avgInterviewTime := by
  unfold calculateActualWaitTime
  rw [ResolveConflicts_idem hid]

theorem calculateActualWaitTime_rows (rows : Rows) (activity : ActivityControl) (now : Int)
    (positionID candidateID : Nat) (avgInterviewTime : Int) :
    (calculateActualWaitTime rows activity now positionID candidateID avgInterviewTime).rows =
      (ResolveConflicts rows activity now candidateID).2.2 := by
  unfold calculateActualWaitTime
  rcases ResolveConflicts rows activity now candidateID with ⟨a, b, c⟩
  rfl

theorem ResolveConflicts_of_le_one {rows : Rows} {activity : ActivityControl} {now : Int}
    {candidateID : Nat} (h : (candidateWaiting rows candidateID).length ≤ 1) :
    ResolveConflicts rows activity now candidateID = (false, [], rows) := by
  unfold ResolveConflicts
  rw [if_pos h]

/-- The smart wait computed on the table conflict resolution leaves is the smart
wait computed before it; only the table returned differs. -/
theorem calculateSmartWaitTime_after {rows : Rows} (hid : (rows.map (fun e => e.ID)).Nodup)
    (activity : ActivityControl) (now : Int) (candidateID : Nat) (avgInterviewTime : Int)
    {e : QueueEntry} (he : e ∈ candidateWaiting rows candidateID) :
    (calculateSmartWaitTime (ResolveConflicts rows activity now candidateID).2.2 activity now
        e.PositionID candidateID avgInterviewTime).wait =
      (calculateSmartWaitTime rows activity now e.PositionID candidateID avgInterviewTime).wait
    ∧ (calculateSmartWaitTime (ResolveConflicts rows activity now candidateID).2.2 activity now
        e.PositionID candidateID avgInterviewTime).rows =
      (ResolveConflicts rows activity now candidateID).2.2 := by
  by_cases hone : (candidateWaiting rows candidateID).length ≤ 1
  · have hR : (ResolveConflicts rows activity now candidateID).2.2 = rows := by
      rw [ResolveConflicts_of_le_one hone]
    rw [hR]
    refine ⟨rfl, ?_⟩
    rw [calculateSmartWaitTime_single activity now e.PositionID candidateID _ hone]
  · have htwo : 2 ≤ (candidateWaiting rows candidateID).length := by omega
    have hrows := ResolveConflicts_rows hid activity now candidateID
    have hcore : ∀ r ∈ rows, core (resolvedRow (rankOf rows)
        (decisionKeys (decisions rows activity now candidateID)) r) = core r :=
      fun r _ => core_resolvedRow _ _ r
    have hcw : candidateWaiting (ResolveConflicts rows activity now candidateID).2.2
        candidateID = (candidateWaiting rows candidateID).map (resolvedRow (rankOf rows)
          (decisionKeys (decisions rows activity now candidateID))) := by
      rw [hrows, candidateWaiting_map hcore]
    have hbase : ∀ p, baseWait (ResolveConflicts rows activity now candidateID).2.2
        candidateID avgInterviewTime p = baseWait rows candidateID avgInterviewTime p := by
      intro p
      unfold baseWait
      rw [hrows, getQueuePosition_map hcore]
    obtain ⟨q, hq⟩ : ∃ q, (candidateWaiting rows candidateID).find?
        (fun entry => decide (entry.PositionID = e.PositionID)) = some q := by
      cases hf : (candidateWaiting rows candidateID).find?
          (fun entry => decide (entry.PositionID = e.PositionID)) with
      | some q => exact ⟨q, rfl⟩
      | none =>
        rw [List.find?_eq_none] at hf
        exact absurd (by simp) (hf e he)
    have hq2 := (calculateActualWaitTime_value hid activity now e.PositionID candidateID
      avgInterviewTime htwo hq).1
    have htwo2 : 2 ≤ (candidateWaiting (ResolveConflicts rows activity now candidateID).2.2
        candidateID).length := by
      rw [hcw, List.length_map]; exact htwo
    rw [calculateSmartWaitTime_multi activity now e.PositionID candidateID avgInterviewTime
      htwo2 hq2,
      calculateSmartWaitTime_multi activity now e.PositionID candidateID avgInterviewTime
      htwo hq]
    have hcond : ((∀ o ∈ candidateWaiting (ResolveConflicts rows activity now candidateID).2.2
          candidateID, o.PositionID ≠ e.PositionID →
            baseWait (ResolveConflicts rows activity now candidateID).2.2 candidateID
              avgInterviewTime o.PositionID ≠
            baseWait (ResolveConflicts rows activity now candidateID).2.2 candidateID
              avgInterviewTime e.PositionID) ∧
          ((resolvedRow (rankOf rows) (decisionKeys (decisions rows activity now candidateID))
              q).IsHighPriority = true ∨
            ∃ p ∈ candidateWaiting (ResolveConflicts rows activity now candidateID).2.2
              candidateID, p.IsHighPriority = true ∧
              baseWait (ResolveConflicts rows activity now candidateID).2.2 candidateID
                avgInterviewTime e.PositionID + avgInterviewTime + activity.BufferTime ≤
              baseWait (ResolveConflicts rows activity now candidateID).2.2 candidateID
                avgInterviewTime p.PositionID)) ↔
        ((∀ o ∈ candidateWaiting rows candidateID, o.PositionID ≠ e.PositionID →
            baseWait rows candidateID avgInterviewTime o.PositionID ≠
              baseWait rows candidateID avgInterviewTime e.PositionID) ∧
          (q.IsHighPriority = true ∨ ∃ p ∈ candidateWaiting rows candidateID,
            p.IsHighPriority = true ∧
              baseWait rows candidateID avgInterviewTime e.PositionID + avgInterviewTime +
                activity.BufferTime ≤
              baseWait rows candidateID avgInterviewTime p.PositionID)) := by
      simp only [hbase, hcw, List.mem_map, core_IsHighPriority (core_resolvedRow _ _ q)]
      constructor
      · rintro ⟨h1, h2⟩
        refine ⟨?_, ?_⟩
        · intro o ho hne
          have := h1 _ ⟨o, ho, rfl⟩
          rw [core_PositionID (core_resolvedRow _ _ o)] at this
          exact this hne
        · rcases h2 with h | ⟨p, ⟨o, ho, rfl⟩, hp1, hp2⟩
          · exact Or.inl h
          · rw [core_IsHighPriority (core_resolvedRow _ _ o)] at hp1
            rw [core_PositionID (core_resolvedRow _ _ o)] at hp2
            exact Or.inr ⟨o, ho, hp1, hp2⟩
      · rintro ⟨h1, h2⟩
        refine ⟨?_, ?_⟩
        · rintro _ ⟨o, ho, rfl⟩ hne
          rw [core_PositionID (core_resolvedRow _ _ o)] at hne ⊢
          exact h1 o ho hne
        · rcases h2 with h | ⟨p, hp, hp1, hp2⟩
          · exact Or.inl h
          · refine Or.inr ⟨_, ⟨p, hp, rfl⟩, ?_, ?_⟩
            · rw [core_IsHighPriority (core_resolvedRow _ _ p)]; exact hp1
            · rw [core_PositionID (core_resolvedRow _ _ p)]; exact hp2
    by_cases hc : ((∀ o ∈ candidateWaiting rows candidateID, o.PositionID ≠ e.PositionID →
            baseWait rows candidateID avgInterviewTime o.PositionID ≠
              baseWait rows candidateID avgInterviewTime e.PositionID) ∧
          (q.IsHighPriority = true ∨ ∃ p ∈ candidateWaiting rows candidateID,
            p.IsHighPriority = true ∧
              baseWait rows candidateID avgInterviewTime e.PositionID + avgInterviewTime +
                activity.BufferTime ≤
              baseWait rows candidateID avgInterviewTime p.PositionID))
    · rw [if_pos hc, if_pos (hcond.mpr hc)]
      exact ⟨hbase _, rfl⟩
    · rw [if_neg hc, if_neg (fun h => hc (hcond.mp h)),
        calculateActualWaitTime_after hid]
      refine ⟨rfl, ?_⟩
      rw [calculateActualWaitTime_rows]

theorem calculateSmartWaitTime_rows_cases (rows : Rows) (activity : ActivityControl)
    (now : Int) (positionID candidateID : Nat) (avgInterviewTime : Int) :
    (calculateSmartWaitTime rows activity now positionID candidateID avgInterviewTime).rows =
        rows
      ∨ (calculateSmartWaitTime rows activity now positionID candidateID
          avgInterviewTime).rows = (ResolveConflicts rows activity now candidateID).2.2 := by
  unfold calculateSmartWaitTime
  simp only
  repeat' split
  all_goals first
    | exact Or.inl rfl
    | exact Or.inr (calculateActualWaitTime_rows _ _ _ _ _ _)

theorem getQueuePosition_after {rows : Rows} (hid : (rows.map (fun e => e.ID)).Nodup)
    (activity : ActivityControl) (now : Int) (candidateID positionID c : Nat) :
    getQueuePosition (ResolveConflicts rows activity now candidateID).2.2 positionID c =
      getQueuePosition rows positionID c := by
  rw [ResolveConflicts_rows hid]
  exact getQueuePosition_map (fun r _ => core_resolvedRow _ _ r) _ _

theorem collectDetails_thread {rows : Rows} (hid : (rows.map (fun e => e.ID)).Nodup)
    (activity : ActivityControl) (now : Int) (candidateID : Nat) :
    ∀ (L : List QueueEntry) (rowsK : Rows),
      (∀ cq ∈ L, cq ∈ candidateWaiting rows candidateID) →
      (rowsK = rows ∨ rowsK = (ResolveConflicts rows activity now candidateID).2.2) →
      (collectDetails activity now candidateID L rowsK).1 =
          L.map (detailOf rows activity now candidateID)
        ∧ ((collectDetails activity now candidateID L rowsK).2 = rows
          ∨ (collectDetails activity now candidateID L rowsK).2 =
            (ResolveConflicts rows activity now candidateID).2.2) := by
  intro L
  induction L with
  | nil => intro rowsK _ hK; exact ⟨rfl, hK⟩
  | cons cq rest ih =>
    intro rowsK hmem hK
    have hcq := hmem cq (List.mem_cons_self _ _)
    have hwait : (calculateSmartWaitTime rowsK activity now cq.PositionID candidateID
        activity.AverageInterviewTime).wait =
        (calculateSmartWaitTime rows activity now cq.PositionID candidateID
          activity.AverageInterviewTime).wait := by
      rcases hK with rfl | rfl
      · rfl
      · exact (calculateSmartWaitTime_after hid activity now candidateID _ hcq).1
    have hnext : (calculateSmartWaitTime rowsK activity now cq.PositionID candidateID
        activity.AverageInterviewTime).rows = rows ∨
        (calculateSmartWaitTime rowsK activity now cq.PositionID candidateID
          activity.AverageInterviewTime).rows =
          (ResolveConflicts rows activity now candidateID).2.2 := by
      rcases hK with rfl | rfl
      · exact calculateSmartWaitTime_rows_cases _ _ _ _ _ _
      · exact Or.inr (calculateSmartWaitTime_after hid activity now candidateID _ hcq).2
    have hpos : getQueuePosition rowsK cq.PositionID candidateID =
        getQueuePosition rows cq.PositionID candidateID := by
      rcases hK with rfl | rfl
      · rfl
      · exact getQueuePosition_after hid activity now candidateID _ _
    obtain ⟨ih1, ih2⟩ := ih _ (fun x hx => hmem x (List.mem_cons_of_mem _ hx)) hnext
    simp only [collectDetails, List.map_cons]
    refine ⟨?_, ih2⟩
    rw [ih1, hwait, hpos]
    rfl

theorem findRegular_eq_find (i : Nat) (priorityQueue : queueDetail) :
    ∀ (l : List queueDetail) (j : Nat),
      (∀ (k : Nat) (r : queueDetail), l[k]? = some r → j + k = i → r.IsPriority = true) →
      findRegular i priorityQueue j l = l.find? (pairTest priorityQueue) := by
  intro l
  induction l with
  | nil => intro j _; rfl
  | cons r rest ih =>
    intro j hidx
    have hrest : ∀ (k : Nat) (x : queueDetail), rest[k]? = some x → j + 1 + k = i →
        x.IsPriority = true := by
      intro k x hx hk
      exact hidx (k + 1) x (by simpa using hx) (by omega)
    rw [findRegular, List.find?]
    by_cases hp : r.IsPriority = true
    · simp only [hp, true_or, if_true, pairTest, Bool.not_true, Bool.false_and]
      exact ih (j + 1) hrest
    · have hp2 : r.IsPriority = false := by
        cases h : r.IsPriority
        · rfl
        · exact absurd h hp
      have hij : ¬ i = j := by
        intro h
        exact hp (hidx 0 r (by simp) (by omega))
      by_cases hc : r.WaitTime = 0 ∧ priorityQueue.WaitTime > 0
      · simp [hp2, hij, hc, pairTest]
      · simp only [hp2, hij, or_self, if_false, hc, pairTest, Bool.not_false, Bool.true_and,
          decide_False]
        exact ih (j + 1) hrest

theorem findPair_some (queues : List queueDetail) :
    ∀ (l pre : List queueDetail) (p r : queueDetail), queues = pre ++ l →
      findPair queues pre.length l = some (p, r) →
      p ∈ l ∧ r ∈ queues ∧ p.IsPriority = true ∧ r.IsPriority = false ∧ r.WaitTime = 0 ∧
        p.WaitTime > 0 := by
  intro l
  induction l with
  | nil => intro pre p r _ h; cases h
  | cons x rest ih =>
    intro pre p r hq h
    have hq2 : queues = (pre ++ [x]) ++ rest := by rw [hq]; simp
    have hlen : (pre ++ [x]).length = pre.length + 1 := by simp
    rw [findPair] at h
    by_cases hx : x.IsPriority = true
    · rw [if_pos hx] at h
      have hidx : ∀ (k : Nat) (y : queueDetail), queues[k]? = some y → 0 + k = pre.length →
          y.IsPriority = true := by
        intro k y hy hk
        have hk2 : k = pre.length := by omega
        subst hk2
        rw [hq, List.getElem?_append_right (le_refl _)] at hy
        simp at hy
        rw [← hy]; exact hx
      rw [findRegular_eq_find _ _ _ _ hidx] at h
      cases hf : queues.find? (pairTest x) with
      | some y =>
        rw [hf] at h
        simp only [Option.some.injEq, Prod.mk.injEq] at h
        obtain ⟨rfl, rfl⟩ := h
        have hy := List.find?_some hf
        have hym := List.mem_of_find?_eq_some hf
        unfold pairTest at hy
        simp only [Bool.and_eq_true, Bool.not_eq_true', decide_eq_true_eq] at hy
        exact ⟨List.mem_cons_self _ _, hym, hx, hy.1, hy.2.1, hy.2.2⟩
      | none =>
        rw [hf] at h
        simp only at h
        rw [← hlen] at h
        have := ih (pre ++ [x]) p r hq2 h
        exact ⟨List.mem_cons_of_mem _ this.1, this.2⟩
    · rw [if_neg hx, ← hlen] at h
      have := ih (pre ++ [x]) p r hq2 h
      exact ⟨List.mem_cons_of_mem _ this.1, this.2⟩

theorem findPair_none (queues : List queueDetail) :
    ∀ (l pre : List queueDetail), queues = pre ++ l →
      findPair queues pre.length l = none →
      ∀ p ∈ l, p.IsPriority = true → ∀ r ∈ queues, r.IsPriority = false →
        ¬ (r.WaitTime = 0 ∧ p.WaitTime > 0) := by
  intro l
  induction l with
  | nil => intro pre _ _ p hp; cases hp
  | cons x rest ih =>
    intro pre hq h p hp hpp r hr hrp hc
    have hq2 : queues = (pre ++ [x]) ++ rest := by rw [hq]; simp
    have hlen : (pre ++ [x]).length = pre.length + 1 := by simp
    rw [findPair] at h
    by_cases hx : x.IsPriority = true
    · rw [if_pos hx] at h
      have hidx : ∀ (k : Nat) (y : queueDetail), queues[k]? = some y → 0 + k = pre.length →
          y.IsPriority = true := by
        intro k y hy hk
        have hk2 : k = pre.length := by omega
        subst hk2
        rw [hq, List.getElem?_append_right (le_refl _)] at hy
        simp at hy
        rw [← hy]; exact hx
      rw [findRegular_eq_find _ _ _ _ hidx] at h
      cases hf : queues.find? (pairTest x) with
      | some y => rw [hf] at h; cases h
      | none =>
        rw [hf] at h
        simp only at h
        rw [← hlen] at h
        rcases List.mem_cons.mp hp with rfl | hp2
        · rw [List.find?_eq_none] at hf
          apply hf r hr
          unfold pairTest
          simp [hrp, hc.1, hc.2]
        · exact ih (pre ++ [x]) hq2 h p hp2 hpp r hr hrp hc
    · rw [if_neg hx, ← hlen] at h
      rcases List.mem_cons.mp hp with rfl | hp2
      · exact hx hpp
      · exact ih (pre ++ [x]) hq2 h p hp2 hpp r hr hrp hc

theorem two_le_length_of_mem {l : List QueueEntry} {a b : QueueEntry} (ha : a ∈ l)
    (hb : b ∈ l) (hne : a ≠ b) : 2 ≤ l.length := by
  cases l with
  | nil => cases ha
  | cons x rest =>
    cases rest with
    | nil =>
      rw [List.mem_singleton] at ha hb
      exact absurd (ha.trans hb.symm) hne
    | cons y rest2 => simp

theorem CheckQueueOptimization_lt {rows : Rows} {activity : ActivityControl} {now : Int}
    {candidateID : Nat} (h : (candidateWaiting rows candidateID).length < 2) :
    CheckQueueOptimization rows activity now candidateID = (false, none, rows) := by
  unfold CheckQueueOptimization
  rw [if_pos h]

theorem CheckQueueOptimization_ge {rows : Rows} {activity : ActivityControl} {now : Int}
    {candidateID : Nat} (h : ¬ (candidateWaiting rows candidateID).length < 2) :
    CheckQueueOptimization rows activity now candidateID =
      match findPair
          (collectDetails activity now candidateID (candidateWaiting rows candidateID) rows).1 0
          (collectDetails activity now candidateID (candidateWaiting rows candidateID) rows).1
        with
      | some (priorityQueue, regularQueue) =>
        (true,
          some { priorityPositionID := priorityQueue.Entry.PositionID
                 priorityWaitTime := priorityQueue.WaitTime
                 regularPositionID := regularQueue.Entry.PositionID
                 regularWaitTime := regularQueue.WaitTime
                 timeSaved := priorityQueue.WaitTime },
          (collectDetails activity now candidateID (candidateWaiting rows candidateID) rows).2)
      | none =>
        (false, none,
          (collectDetails activity now candidateID (candidateWaiting rows candidateID) rows).2) := by
  unfold CheckQueueOptimization
  rw [if_neg h]

/-- The two outcomes of `CheckQueueOptimization`, with the smart waits computed
on the table it was called on. -/
theorem CheckQueueOptimization_cases {rows : Rows} (hid : (rows.map (fun e => e.ID)).Nodup)
    (activity : ActivityControl) (now : Int) (candidateID : Nat) :
    ((∃ P ∈ candidateWaiting rows candidateID, ∃ R ∈ candidateWaiting rows candidateID,
        P.IsHighPriority = true ∧ R.IsHighPriority = false
        ∧ (detailOf rows activity now candidateID P).WaitTime > 0
        ∧ (detailOf rows activity now candidateID R).WaitTime = 0
        ∧ (CheckQueueOptimization rows activity now candidateID).1 = true
        ∧ (CheckQueueOptimization rows activity now candidateID).2.1 =
          some { priorityPositionID := P.PositionID
                 priorityWaitTime := (detailOf rows activity now candidateID P).WaitTime
                 regularPositionID := R.PositionID
                 regularWaitTime := (detailOf rows activity now candidateID R).WaitTime
                 timeSaved := (detailOf rows activity now candidateID P).WaitTime })
      ∨ ((CheckQueueOptimization rows activity now candidateID).1 = false
        ∧ (CheckQueueOptimization rows activity now candidateID).2.1 = none
        ∧ ((candidateWaiting rows candidateID).length < 2
          ∨ ∀ P ∈ candidateWaiting rows candidateID, P.IsHighPriority = true →
              ∀ R ∈ candidateWaiting rows candidateID, R.IsHighPriority = false →
                ¬ ((detailOf rows activity now candidateID R).WaitTime = 0
                  ∧ (detailOf rows activity now candidateID P).WaitTime > 0))))
    ∧ ((CheckQueueOptimization rows activity now candidateID).2.2 = rows
      ∨ (CheckQueueOptimization rows activity now candidateID).2.2 =
        (ResolveConflicts rows activity now candidateID).2.2) := by
  by_cases hlen : (candidateWaiting rows candidateID).length < 2
  · rw [CheckQueueOptimization_lt hlen]
    exact ⟨Or.inr ⟨rfl, rfl, Or.inl hlen⟩, Or.inl rfl⟩
  · rw [CheckQueueOptimization_ge hlen]
    obtain ⟨hq, hrows1⟩ := collectDetails_thread hid activity now candidateID
      (candidateWaiting rows candidateID) rows (fun cq h => h) (Or.inl rfl)
    rw [hq]
    cases hfp : findPair ((candidateWaiting rows candidateID).map
        (detailOf rows activity now candidateID)) 0
        ((candidateWaiting rows candidateID).map (detailOf rows activity now candidateID)) with
    | some pr =>
      obtain ⟨p, r⟩ := pr
      refine ⟨Or.inl ?_, hrows1⟩
      obtain ⟨hp, hr, hpp, hrp, hr0, hp0⟩ := findPair_some _ _ [] p r rfl hfp
      obtain ⟨P, hP, rfl⟩ := List.mem_map.mp hp
      obtain ⟨R, hR, rfl⟩ := List.mem_map.mp hr
      exact ⟨P, hP, R, hR, hpp, hrp, hp0, hr0, rfl, rfl⟩
    | none =>
      refine ⟨Or.inr ⟨rfl, rfl, Or.inr ?_⟩, hrows1⟩
      intro P hP hPp R hR hRp
      exact findPair_none _ _ [] rfl hfp _ (List.mem_map_of_mem _ hP) hPp _
        (List.mem_map_of_mem _ hR) hRp

/-! ## Facts about `ApplyQueueOptimization` -/

theorem findWaiting_some {rows : Rows} {candidateID positionID : Nat} {e : QueueEntry}
    (h : findWaiting rows candidateID positionID = some e) :
    e ∈ rows ∧ e.CandidateID = candidateID ∧ e.PositionID = positionID ∧
      e.Status = EntryStatus.waiting := by
  unfold findWaiting at h
  have h1 := List.mem_of_find?_eq_some h
  have h2 := List.find?_some h
  simp only [decide_eq_true_eq] at h2
  exact ⟨h1, h2⟩

theorem mem_save {rows : Rows} {entry x : QueueEntry} (h : x ∈ save rows entry) :
    x = entry ∨ (x ∈ rows ∧ x.ID ≠ entry.ID) := by
  unfold save at h
  obtain ⟨r, hr, hrx⟩ := List.mem_map.mp h
  by_cases hid : r.ID = entry.ID
  · rw [if_pos hid] at hrx
    exact Or.inl hrx.symm
  · rw [if_neg hid] at hrx
    subst hrx
    exact Or.inr ⟨hr, hid⟩

theorem mem_save_self {rows : Rows} {entry r : QueueEntry} (hr : r ∈ rows)
    (h : r.ID = entry.ID) : entry ∈ save rows entry := by
  unfold save
  refine List.mem_map.mpr ⟨r, hr, ?_⟩
  rw [if_pos h]

theorem mem_save_of_ne {rows : Rows} {entry x : QueueEntry} (hx : x ∈ rows)
    (h : x.ID ≠ entry.ID) : x ∈ save rows entry := by
  unfold save
  refine List.mem_map.mpr ⟨x, hx, ?_⟩
  rw [if_neg h]

theorem insertionSort_head_of_strict_min {l : List QueueEntry} {m : QueueEntry} (hm : m ∈ l)
    (hmin : ∀ x ∈ l, x ≠ m → ¬ orderLE x m) :
    ∃ t, l.insertionSort orderLE = m :: t := by
  have hsorted : (l.insertionSort orderLE).Pairwise orderLE := List.sorted_insertionSort orderLE l
  have hmem : m ∈ l.insertionSort orderLE := (List.mem_insertionSort orderLE).mpr hm
  cases hs : l.insertionSort orderLE with
  | nil => rw [hs] at hmem; cases hmem
  | cons h t =>
    rw [hs] at hsorted hmem
    by_cases hhm : h = m
    · exact ⟨t, by rw [hhm]⟩
    · exfalso
      have hmt : m ∈ t := by
        rcases List.mem_cons.mp hmem with h1 | h1
        · exact absurd h1.symm hhm
        · exact h1
      have hle : orderLE h m := (List.pairwise_cons.mp hsorted).1 m hmt
      have hhl : h ∈ l := by
        rw [← List.mem_insertionSort orderLE, hs]
        exact List.mem_cons_self _ _
      exact hmin h hhl hhm hle

theorem calculateSmartWaitTime_rows_core {rows : Rows} (hid : (rows.map (fun e => e.ID)).Nodup)
    (activity : ActivityControl) (now : Int) (positionID candidateID : Nat)
    (avgInterviewTime : Int) {rowsK : Rows}
    (hK : rowsK = rows ∨ rowsK = (ResolveConflicts rows activity now candidateID).2.2) :
    (calculateSmartWaitTime rowsK activity now positionID candidateID avgInterviewTime).rows =
        rows
      ∨ (calculateSmartWaitTime rowsK activity now positionID candidateID
          avgInterviewTime).rows = (ResolveConflicts rows activity now candidateID).2.2 := by
  rcases hK with rfl | rfl
  · exact calculateSmartWaitTime_rows_cases _ _ _ _ _ _
  · rcases calculateSmartWaitTime_rows_cases
        (ResolveConflicts rows activity now candidateID).2.2 activity now positionID
        candidateID avgInterviewTime with h | h
    · exact Or.inr h
    · rw [ResolveConflicts_idem hid] at h
      exact Or.inr h

theorem core_of_thread {rows : Rows} (hid : (rows.map (fun e => e.ID)).Nodup)
    {activity : ActivityControl} {now : Int} {candidateID : Nat} {rowsK : Rows}
    (hK : rowsK = rows ∨ rowsK = (ResolveConflicts rows activity now candidateID).2.2) :
    ∃ g : QueueEntry → QueueEntry, (∀ r, core (g r) = core r) ∧ rowsK = rows.map g := by
  rcases hK with rfl | rfl
  · exact ⟨id, fun r => rfl, (List.map_id _).symm⟩
  · exact ⟨_, fun r => core_resolvedRow _ _ r, ResolveConflicts_rows hid activity now candidateID⟩

/-- What a successful `ApplyQueueOptimization` did. -/
theorem ApplyQueueOptimization_success {rows : Rows} {activity : ActivityControl} {now : Int}
    {candidateID regularPositionID priorityPositionID : Nat} {R P : QueueEntry}
    (hR : findWaiting rows candidateID regularPositionID = some R)
    (hP : findWaiting rows candidateID priorityPositionID = some P)
    (hok : (ApplyQueueOptimization rows activity now candidateID regularPositionID
      priorityPositionID).1 = none) :
    P.IsHighPriority = true
    ∧ (calculateSmartWaitTime rows activity now regularPositionID candidateID
        activity.AverageInterviewTime).wait <
      (calculateSmartWaitTime
        (calculateSmartWaitTime rows activity now regularPositionID candidateID
          activity.AverageInterviewTime).rows activity now priorityPositionID candidateID
        activity.AverageInterviewTime).wait
    ∧ (ApplyQueueOptimization rows activity now candidateID regularPositionID
        priorityPositionID).2 =
      updateQueuePositions
        (updateQueuePositions
          (save
            (save
              (calculateSmartWaitTime
                (calculateSmartWaitTime rows activity now regularPositionID candidateID
                  activity.AverageInterviewTime).rows activity now priorityPositionID
                candidateID activity.AverageInterviewTime).rows
              { R with JoinTime := P.JoinTime })
            { P with JoinTime := R.JoinTime +
                (activity.AverageInterviewTime + activity.BufferTime) * Minute })
          regularPositionID)
        priorityPositionID := by
  unfold ApplyQueueOptimization at hok ⊢
  rw [hR, hP] at hok ⊢
  simp only at hok ⊢
  by_cases hp : P.IsHighPriority = false
  · rw [if_pos hp] at hok
    cases hok
  · rw [if_neg hp] at hok ⊢
    by_cases hw : (calculateSmartWaitTime rows activity now regularPositionID candidateID
        activity.AverageInterviewTime).wait ≥
      (calculateSmartWaitTime
        (calculateSmartWaitTime rows activity now regularPositionID candidateID
          activity.AverageInterviewTime).rows activity now priorityPositionID candidateID
        activity.AverageInterviewTime).wait
    · rw [if_pos hw] at hok
      cases hok
    · rw [if_neg hw]
      refine ⟨?_, by omega, rfl⟩
      cases h : P.IsHighPriority
      · exact absurd h hp
      · rfl

theorem ApplyQueueOptimization_positions_differ {rows : Rows}
    (hid : (rows.map (fun e => e.ID)).Nodup) {activity : ActivityControl} {now : Int}
    {candidateID regularPositionID priorityPositionID : Nat} {R P : QueueEntry}
    (hR : findWaiting rows candidateID regularPositionID = some R)
    (hP : findWaiting rows candidateID priorityPositionID = some P)
    (hok : (ApplyQueueOptimization rows activity now candidateID regularPositionID
      priorityPositionID).1 = none) :
    regularPositionID ≠ priorityPositionID := by
  intro hEq
  subst hEq
  have hlt := (ApplyQueueOptimization_success hR hP hok).2.1
  have hRm := findWaiting_some hR
  have hcw : R ∈ candidateWaiting rows candidateID :=
    mem_candidateWaiting.mpr ⟨hRm.1, hRm.2.1, hRm.2.2.2⟩
  rcases calculateSmartWaitTime_rows_cases rows activity now regularPositionID candidateID
      activity.AverageInterviewTime with h | h
  · rw [h] at hlt
    exact lt_irrefl _ hlt
  · rw [h] at hlt
    have := (calculateSmartWaitTime_after hid activity now candidateID
      activity.AverageInterviewTime hcw).1
    rw [hRm.2.2.1] at this
    rw [this] at hlt
    exact lt_irrefl _ hlt

/-! ## Projections kept by the writes of the service -/

theorem map_proj_of_core {π : QueueEntry → QueueEntry} (hπ : ∀ e, π (core e) = π e)
    {rows rows2 : Rows} (h : rows2.map core = rows.map core) :
    rows2.map π = rows.map π := by
  have h1 : ∀ l : Rows, l.map π = (l.map core).map π := by
    intro l
    rw [List.map_map]
    apply List.map_congr_left
    intro e _
    exact (hπ e).symm
  rw [h1 rows2, h1 rows, h]

theorem map_ID_of_proj {π : QueueEntry → QueueEntry} (hID : ∀ e, (π e).ID = e.ID)
    {rows rows2 : Rows} (h : rows2.map π = rows.map π) :
    rows2.map (fun e => e.ID) = rows.map (fun e => e.ID) := by
  have h1 : ∀ l : Rows, l.map (fun e => e.ID) = (l.map π).map (fun e => e.ID) := by
    intro l
    rw [List.map_map]
    apply List.map_congr_left
    intro e _
    exact (hID e).symm
  rw [h1 rows2, h1 rows, h]

theorem mem_of_map_proj {π : QueueEntry → QueueEntry} {rows rows2 : Rows}
    (h : rows2.map π = rows.map π) {r : QueueEntry} (hr : r ∈ rows2) :
    ∃ r0 ∈ rows, π r = π r0 := by
  have h1 : π r ∈ rows2.map π := List.mem_map_of_mem π hr
  rw [h] at h1
  obtain ⟨r0, hr0, h0⟩ := List.mem_map.mp h1
  exact ⟨r0, hr0, h0.symm⟩

theorem mem_of_map_proj_rev {π : QueueEntry → QueueEntry} {rows rows2 : Rows}
    (h : rows2.map π = rows.map π) {r0 : QueueEntry} (hr : r0 ∈ rows) :
    ∃ r ∈ rows2, π r = π r0 := by
  have h1 : π r0 ∈ rows.map π := List.mem_map_of_mem π hr
  rw [← h] at h1
  obtain ⟨r, hr2, h0⟩ := List.mem_map.mp h1
  exact ⟨r, hr2, h0⟩

theorem save_map_proj {π : QueueEntry → QueueEntry} {rows : Rows} {entry : QueueEntry}
    (h : ∀ r ∈ rows, r.ID = entry.ID → π r = π entry) :
    (save rows entry).map π = rows.map π := by
  unfold save
  rw [List.map_map]
  apply List.map_congr_left
  intro r hr
  by_cases hid : r.ID = entry.ID
  · simp only [Function.comp, hid, if_true]
    exact (h r hr hid).symm
  · simp only [Function.comp, hid, if_false]

/-- Saving a copy of a row loaded earlier keeps a projection of the table,
when the copy and everything written in between kept it. -/
theorem save_stale {π : QueueEntry → QueueEntry} (hID : ∀ e, (π e).ID = e.ID)
    {rows0 rowsK : Rows} (hid : (rows0.map (fun e => e.ID)).Nodup)
    (hK : rowsK.map π = rows0.map π) {e0 entry : QueueEntry} (he : e0 ∈ rows0)
    (hee : π entry = π e0) :
    (save rowsK entry).map π = rows0.map π := by
  rw [← hK]
  apply save_map_proj
  intro r hr hrid
  obtain ⟨r0, hr0, h0⟩ := mem_of_map_proj hK hr
  have hid0 : r0.ID = e0.ID := by
    rw [← hID r0, ← h0, hID r, hrid, ← hID entry, hee, hID e0]
  have : r0 = e0 := eq_of_ID_eq hid hr0 he hid0
  rw [h0, this, hee]

theorem updateQueuePositions_map_core {rows : Rows} (hid : (rows.map (fun e => e.ID)).Nodup)
    (positionID : Nat) :
    (updateQueuePositions rows positionID).map core = rows.map core := by
  rw [updateQueuePositions_eq_map hid, List.map_map]
  apply List.map_congr_left
  intro r _
  exact core_reRank rows positionID r

theorem ResolveConflicts_map_core {rows : Rows} (hid : (rows.map (fun e => e.ID)).Nodup)
    (activity : ActivityControl) (now : Int) (candidateID : Nat) :
    (ResolveConflicts rows activity now candidateID).2.2.map core = rows.map core := by
  rw [ResolveConflicts_rows hid, List.map_map]
  apply List.map_congr_left
  intro r _
  exact core_resolvedRow _ _ r

theorem nodup_of_map_proj {π : QueueEntry → QueueEntry} (hID : ∀ e, (π e).ID = e.ID)
    {rows rows2 : Rows} (h : rows2.map π = rows.map π)
    (hid : (rows.map (fun e => e.ID)).Nodup) : (rows2.map (fun e => e.ID)).Nodup := by
  rw [map_ID_of_proj hID h]; exact hid

theorem core_ID_fun (e : QueueEntry) : (core e).ID = e.ID := rfl

theorem skeleton_ID_fun (e : QueueEntry) : (skeleton e).ID = e.ID := rfl

theorem skeleton_core (e : QueueEntry) : skeleton (core e) = skeleton e := rfl

theorem core_core (e : QueueEntry) : core (core e) = core e := rfl

theorem calculateSmartWaitTime_map_core {rows : Rows}
    (hid : (rows.map (fun e => e.ID)).Nodup) (activity : ActivityControl) (now : Int)
    (positionID candidateID : Nat) (avgInterviewTime : Int) :
    (calculateSmartWaitTime rows activity now positionID candidateID
      avgInterviewTime).rows.map core = rows.map core := by
  rcases calculateSmartWaitTime_rows_cases rows activity now positionID candidateID
      avgInterviewTime with h | h
  · rw [h]
  · rw [h]; exact ResolveConflicts_map_core hid activity now candidateID

theorem CheckQueueOptimization_map_core {rows : Rows}
    (hid : (rows.map (fun e => e.ID)).Nodup) (activity : ActivityControl) (now : Int)
    (candidateID : Nat) :
    (CheckQueueOptimization rows activity now candidateID).2.2.map core = rows.map core := by
  rcases (CheckQueueOptimization_cases hid activity now candidateID).2 with h | h
  · rw [h]
  · rw [h]; exact ResolveConflicts_map_core hid activity now candidateID

theorem ApplyQueueOptimization_found {rows : Rows} {activity : ActivityControl} {now : Int}
    {candidateID regularPositionID priorityPositionID : Nat}
    (hok : (ApplyQueueOptimization rows activity now candidateID regularPositionID
      priorityPositionID).1 = none) :
    ∃ R P, findWaiting rows candidateID regularPositionID = some R ∧
      findWaiting rows candidateID priorityPositionID = some P := by
  unfold ApplyQueueOptimization at hok
  cases hR : findWaiting rows candidateID regularPositionID with
  | none => rw [hR] at hok; cases hok
  | some R =>
    cases hP : findWaiting rows candidateID priorityPositionID with
    | none => rw [hR, hP] at hok; cases hok
    | some P => exact ⟨R, P, rfl, rfl⟩

/-- A rejected `ApplyQueueOptimization` leaves the table it was given or the
table its two wait computations left. -/
theorem ApplyQueueOptimization_rejected {rows : Rows} {activity : ActivityControl}
    {now : Int} {candidateID regularPositionID priorityPositionID : Nat}
    (herr : (ApplyQueueOptimization rows activity now candidateID regularPositionID
      priorityPositionID).1 ≠ none) :
    (ApplyQueueOptimization rows activity now candidateID regularPositionID
        priorityPositionID).2 = rows
      ∨ (ApplyQueueOptimization rows activity now candidateID regularPositionID
          priorityPositionID).2 =
        (calculateSmartWaitTime
          (calculateSmartWaitTime rows activity now regularPositionID candidateID
            activity.AverageInterviewTime).rows activity now priorityPositionID candidateID
          activity.AverageInterviewTime).rows := by
  unfold ApplyQueueOptimization at herr ⊢
  cases hR : findWaiting rows candidateID regularPositionID with
  | none => exact Or.inl rfl
  | some R =>
    cases hP : findWaiting rows candidateID priorityPositionID with
    | none => exact Or.inl rfl
    | some P =>
      rw [hR, hP] at herr
      simp only at herr ⊢
      by_cases hp : P.IsHighPriority = false
      · rw [if_pos hp]; exact Or.inl rfl
      · rw [if_neg hp] at herr ⊢
        by_cases hw : (calculateSmartWaitTime rows activity now regularPositionID candidateID
            activity.AverageInterviewTime).wait ≥
          (calculateSmartWaitTime
            (calculateSmartWaitTime rows activity now regularPositionID candidateID
              activity.AverageInterviewTime).rows activity now priorityPositionID candidateID
            activity.AverageInterviewTime).wait
        · rw [if_pos hw]; exact Or.inr rfl
        · rw [if_neg hw] at herr
          exact absurd rfl herr

theorem smartTwice_map_core {rows : Rows} (hid : (rows.map (fun e => e.ID)).Nodup)
    (activity : ActivityControl) (now : Int) (p1 p2 candidateID : Nat) :
    (calculateSmartWaitTime
        (calculateSmartWaitTime rows activity now p1 candidateID
          activity.AverageInterviewTime).rows activity now p2 candidateID
        activity.AverageInterviewTime).rows.map core = rows.map core := by
  have h1 := calculateSmartWaitTime_map_core hid activity now p1 candidateID
    activity.AverageInterviewTime
  have hid1 := nodup_of_map_proj core_ID_fun h1 hid
  rw [calculateSmartWaitTime_map_core hid1 activity now p2 candidateID
    activity.AverageInterviewTime, h1]

/-- The second wait `ApplyQueueOptimization` computes is the smart wait on the
table the call starts from. -/
theorem smartTwice_wait {rows : Rows} (hid : (rows.map (fun e => e.ID)).Nodup)
    (activity : ActivityControl) (now : Int) (p1 candidateID : Nat) {e : QueueEntry}
    (he : e ∈ candidateWaiting rows candidateID) :
    (calculateSmartWaitTime
        (calculateSmartWaitTime rows activity now p1 candidateID
          activity.AverageInterviewTime).rows activity now e.PositionID candidateID
        activity.AverageInterviewTime).wait =
      (calculateSmartWaitTime rows activity now e.PositionID candidateID
        activity.AverageInterviewTime).wait := by
  rcases calculateSmartWaitTime_rows_cases rows activity now p1 candidateID
      activity.AverageInterviewTime with h | h
  · rw [h]
  · rw [h]
    exact (calculateSmartWaitTime_after hid activity now candidateID _ he).1

theorem ApplyQueueOptimization_rows3_skeleton {rows rows2 : Rows}
    (hid : (rows.map (fun e => e.ID)).Nodup) (h2 : rows2.map core = rows.map core)
    {R P : QueueEntry} (hR : R ∈ rows) (hP : P ∈ rows) (tR tP : Int) :
    (save (save rows2 { R with JoinTime := tR }) { P with JoinTime := tP }).map skeleton =
      rows.map skeleton := by
  have h2s : rows2.map skeleton = rows.map skeleton := map_proj_of_core skeleton_core h2
  have h3 := save_stale skeleton_ID_fun hid h2s hR
    (show skeleton { R with JoinTime := tR } = skeleton R from rfl)
  exact save_stale skeleton_ID_fun hid h3 hP
    (show skeleton { P with JoinTime := tP } = skeleton P from rfl)

/-- `ApplyQueueOptimization` rewrites nothing but stored ranks, estimated starts
and join times. -/
theorem ApplyQueueOptimization_map_skeleton {rows : Rows}
    (hid : (rows.map (fun e => e.ID)).Nodup) (activity : ActivityControl) (now : Int)
    (candidateID regularPositionID priorityPositionID : Nat) :
    (ApplyQueueOptimization rows activity now candidateID regularPositionID
      priorityPositionID).2.map skeleton = rows.map skeleton := by
  have h2 := smartTwice_map_core hid activity now regularPositionID priorityPositionID
    candidateID
  by_cases hok : (ApplyQueueOptimization rows activity now candidateID regularPositionID
      priorityPositionID).1 = none
  · obtain ⟨R, P, hR, hP⟩ := ApplyQueueOptimization_found hok
    rw [(ApplyQueueOptimization_success hR hP hok).2.2]
    have h3 := ApplyQueueOptimization_rows3_skeleton hid h2 (findWaiting_some hR).1
      (findWaiting_some hP).1 P.JoinTime
      (R.JoinTime + (activity.AverageInterviewTime + activity.BufferTime) * Minute)
    have hid3 := nodup_of_map_proj skeleton_ID_fun h3 hid
    have h4 := updateQueuePositions_map_core hid3 regularPositionID
    have hid4 := nodup_of_map_proj core_ID_fun h4 hid3
    have h5 := updateQueuePositions_map_core hid4 priorityPositionID
    rw [map_proj_of_core skeleton_core h5, map_proj_of_core skeleton_core h4, h3]
  · rcases ApplyQueueOptimization_rejected hok with h | h
    · rw [h]
    · rw [h]; exact map_proj_of_core skeleton_core h2

theorem ApplyQueueOptimization_rejected_core {rows : Rows}
    (hid : (rows.map (fun e => e.ID)).Nodup) {activity : ActivityControl} {now : Int}
    {candidateID regularPositionID priorityPositionID : Nat}
    (herr : (ApplyQueueOptimization rows activity now candidateID regularPositionID
      priorityPositionID).1 ≠ none) :
    (ApplyQueueOptimization rows activity now candidateID regularPositionID
      priorityPositionID).2.map core = rows.map core := by
  rcases ApplyQueueOptimization_rejected herr with h | h
  · rw [h]
  · rw [h]
    exact smartTwice_map_core hid activity now regularPositionID priorityPositionID candidateID

theorem ApplyQueueOptimization_not_beneficial {rows : Rows} {activity : ActivityControl}
    {now : Int} {candidateID regularPositionID priorityPositionID : Nat} {R P : QueueEntry}
    (hR : findWaiting rows candidateID regularPositionID = some R)
    (hP : findWaiting rows candidateID priorityPositionID = some P)
    (hp : P.IsHighPriority = true)
    (hw : (calculateSmartWaitTime rows activity now regularPositionID candidateID
        activity.AverageInterviewTime).wait ≥
      (calculateSmartWaitTime
        (calculateSmartWaitTime rows activity now regularPositionID candidateID
          activity.AverageInterviewTime).rows activity now priorityPositionID candidateID
        activity.AverageInterviewTime).wait) :
    (ApplyQueueOptimization rows activity now candidateID regularPositionID
      priorityPositionID).1 = some OptimizationError.notBeneficial := by
  unfold ApplyQueueOptimization
  rw [hR, hP]
  simp only
  have hp2 : ¬ P.IsHighPriority = false := by rw [hp]; simp
  rw [if_neg hp2, if_pos hw]

theorem ApplyQueueOptimization_rows3_mem {rows rows2 : Rows}
    (h2 : rows2.map core = rows.map core) {R P : QueueEntry} (hR : R ∈ rows) (hP : P ∈ rows)
    (hne : R.ID ≠ P.ID) (tR tP : Int) :
    ({ R with JoinTime := tR } : QueueEntry) ∈
        save (save rows2 { R with JoinTime := tR }) { P with JoinTime := tP }
      ∧ ({ P with JoinTime := tP } : QueueEntry) ∈
        save (save rows2 { R with JoinTime := tR }) { P with JoinTime := tP } := by
  obtain ⟨rR, hrR, hcR⟩ := mem_of_map_proj_rev h2 hR
  obtain ⟨rP, hrP, hcP⟩ := mem_of_map_proj_rev h2 hP
  have hrRid : rR.ID = R.ID := core_ID hcR
  have hrPid : rP.ID = P.ID := core_ID hcP
  constructor
  · exact mem_save_of_ne (mem_save_self hrR hrRid) hne
  · have h1 : rP ∈ save rows2 { R with JoinTime := tR } := by
      apply mem_save_of_ne hrP
      intro h
      apply hne
      rw [← hrPid]
      exact h.symm
    exact mem_save_self h1 hrPid

/-! ### The ranking query reads only the key columns -/

theorem keys_eq {a b : QueueEntry} (h : keys a = keys b) :
    a.ID = b.ID ∧ a.CandidateID = b.CandidateID ∧ a.PositionID = b.PositionID
      ∧ a.Status = b.Status ∧ a.IsHighPriority = b.IsHighPriority
      ∧ a.PrioritySetTime = b.PrioritySetTime ∧ a.JoinTime = b.JoinTime := by
  unfold keys at h
  simp only [Prod.mk.injEq] at h
  exact h

theorem keys_orderLE {a b a2 b2 : QueueEntry} (ha : keys a2 = keys a) (hb : keys b2 = keys b) :
    orderLE a b ↔ orderLE a2 b2 := by
  obtain ⟨_, _, _, _, ha5, ha6, ha7⟩ := keys_eq ha
  obtain ⟨_, _, _, _, hb5, hb6, hb7⟩ := keys_eq hb
  unfold orderLE priorityKey nullKey setTimeKey
  rw [ha5, ha6, ha7, hb5, hb6, hb7]

theorem waitingIn_map_keys {rows : Rows} {f : QueueEntry → QueueEntry}
    (hf : ∀ r ∈ rows, keys (f r) = keys r) (positionID : Nat) :
    waitingIn (rows.map f) positionID = (waitingIn rows positionID).map f := by
  unfold waitingIn
  rw [List.filter_map]
  congr 1
  apply List.filter_congr
  intro r hr
  obtain ⟨_, _, h3, h4, _⟩ := keys_eq (hf r hr)
  simp only [Function.comp, h3, h4]

theorem orderedWaiting_map_keys {rows : Rows} {f : QueueEntry → QueueEntry}
    (hf : ∀ r ∈ rows, keys (f r) = keys r) (positionID : Nat) :
    orderedWaiting (rows.map f) positionID = (orderedWaiting rows positionID).map f := by
  unfold orderedWaiting
  rw [waitingIn_map_keys hf]
  symm
  apply List.map_insertionSort
  intro a ha b hb
  exact keys_orderLE (hf a (mem_waitingIn.mp ha).1) (hf b (mem_waitingIn.mp hb).1)

theorem positionScan_map_keys (candidateID : Nat) (f : QueueEntry → QueueEntry) :
    ∀ (S : List QueueEntry) (k : Nat), (∀ r ∈ S, keys (f r) = keys r) →
      positionScan candidateID k (S.map f) = positionScan candidateID k S := by
  intro S
  induction S with
  | nil => intro k _; rfl
  | cons e S ih =>
    intro k hf
    simp only [List.map_cons, positionScan]
    rw [(keys_eq (hf e (List.mem_cons_self _ _))).2.1,
      ih (k + 1) (fun r hr => hf r (List.mem_cons_of_mem _ hr))]

theorem getQueuePosition_map_keys {rows : Rows} {f : QueueEntry → QueueEntry}
    (hf : ∀ r ∈ rows, keys (f r) = keys r) (positionID candidateID : Nat) :
    getQueuePosition (rows.map f) positionID candidateID =
      getQueuePosition rows positionID candidateID := by
  unfold getQueuePosition
  rw [orderedWaiting_map_keys hf]
  exact positionScan_map_keys candidateID f _ 0
    (fun r hr => hf r (mem_orderedWaiting.mp hr).1)

/-- Saving a row that differs from the stored one only outside the key columns
leaves every rank of the ranking query as it was. -/
theorem getQueuePosition_save_keys {rows : Rows} (hid : (rows.map (fun e => e.ID)).Nodup)
    {e0 entry : QueueEntry} (he : e0 ∈ rows) (hk : keys entry = keys e0)
    (positionID candidateID : Nat) :
    getQueuePosition (save rows entry) positionID candidateID =
      getQueuePosition rows positionID candidateID := by
  unfold save
  apply getQueuePosition_map_keys
  intro r hr
  by_cases h : r.ID = entry.ID
  · rw [if_pos h]
    have h0 : r = e0 := eq_of_ID_eq hid hr he (h.trans (keys_eq hk).1)
    rw [h0, hk]
  · rw [if_neg h]

theorem getQueuePosition_of_map_core {rows rows2 : Rows}
    (h : rows2.map core = rows.map core) (positionID candidateID : Nat) :
    getQueuePosition rows2 positionID candidateID =
      getQueuePosition rows positionID candidateID := by
  have h1 : ∀ l : Rows, getQueuePosition (l.map core) positionID candidateID =
      getQueuePosition l positionID candidateID :=
    fun l => getQueuePosition_map (fun r _ => core_core r) positionID candidateID
  rw [← h1 rows2, h, h1 rows]

/-! ### `ProcessJumpAhead` -/

theorem findBetterPos_cases (activity : ActivityControl) (currentPos threshold : Int) :
    ∀ l : List QueueEntry,
      findBetterPos activity currentPos threshold l = 0 ∨
      ∃ t ∈ l, findBetterPos activity currentPos threshold l = t.QueuePosition + 1 ∧
        (currentPos - t.QueuePosition) * activity.AverageInterviewTime ≥ threshold := by
  intro l
  induction l with
  | nil => exact Or.inl rfl
  | cons e rest ih =>
    unfold findBetterPos
    by_cases h : (currentPos - e.QueuePosition) * activity.AverageInterviewTime ≥ threshold
    · right
      refine ⟨e, List.mem_cons_self _ _, ?_, h⟩
      simp only [h, if_true]
    · simp only [h, if_false]
      rcases ih with h0 | ⟨t, ht, h1, h2⟩
      · exact Or.inl h0
      · exact Or.inr ⟨t, List.mem_cons_of_mem _ ht, h1, h2⟩

theorem findBetterPos_none (activity : ActivityControl) (currentPos threshold : Int) :
    ∀ l : List QueueEntry,
      (∀ t ∈ l, (currentPos - t.QueuePosition) * activity.AverageInterviewTime < threshold) →
      findBetterPos activity currentPos threshold l = 0 := by
  intro l
  induction l with
  | nil => intro _; rfl
  | cons e rest ih =>
    intro h
    unfold findBetterPos
    have he := h e (List.mem_cons_self _ _)
    have hn : ¬ (currentPos - e.QueuePosition) * activity.AverageInterviewTime ≥ threshold := by
      omega
    simp only [hn, if_false]
    exact ih (fun t ht => h t (List.mem_cons_of_mem _ ht))

theorem mem_entriesAhead {rows : Rows} {positionID : Nat} {currentPos : Int} {t : QueueEntry} :
    t ∈ entriesAhead rows positionID currentPos ↔
      t ∈ rows ∧ t.PositionID = positionID ∧ t.Status = EntryStatus.waiting ∧
        t.QueuePosition < currentPos := by
  unfold entriesAhead
  rw [(List.perm_insertionSort rankDescLE _).mem_iff, List.mem_filter]
  simp only [decide_eq_true_eq]

/-- What a successful `ProcessJumpAhead` did. -/
theorem ProcessJumpAhead_success {rows : Rows} {activity : ActivityControl}
    {candidateID positionID : Nat}
    (hok : (ProcessJumpAhead rows activity candidateID positionID).1 = true) :
    ∃ entry, findWaiting rows candidateID positionID = some entry
      ∧ entry.JumpAheadUsed = false
      ∧ 1 < getQueuePosition rows positionID candidateID
      ∧ 0 < findBetterPos activity (getQueuePosition rows positionID candidateID)
          (activity.AverageInterviewTime + activity.BufferTime)
          (entriesAhead rows positionID (getQueuePosition rows positionID candidateID))
      ∧ findBetterPos activity (getQueuePosition rows positionID candidateID)
          (activity.AverageInterviewTime + activity.BufferTime)
          (entriesAhead rows positionID (getQueuePosition rows positionID candidateID))
          < getQueuePosition rows positionID candidateID
      ∧ ProcessJumpAhead rows activity candidateID positionID =
          (true, JumpMessage.successful,
            updateQueuePositions (save rows { entry with
              QueuePosition := findBetterPos activity
                (getQueuePosition rows positionID candidateID)
                (activity.AverageInterviewTime + activity.BufferTime)
                (entriesAhead rows positionID (getQueuePosition rows positionID candidateID)),
              JumpAheadUsed := true }) positionID) := by
  unfold ProcessJumpAhead at hok ⊢
  cases hf : findWaiting rows candidateID positionID with
  | none => rw [hf] at hok; simp at hok
  | some entry =>
    rw [hf] at hok
    simp only at hok ⊢
    by_cases hj : entry.JumpAheadUsed = true
    · rw [if_pos hj] at hok; simp at hok
    · rw [if_neg hj] at hok ⊢
      by_cases hc : getQueuePosition rows positionID candidateID ≤ 1
      · rw [if_pos hc] at hok; simp at hok
      · rw [if_neg hc] at hok ⊢
        by_cases hb : findBetterPos activity (getQueuePosition rows positionID candidateID)
            (activity.AverageInterviewTime + activity.BufferTime)
            (entriesAhead rows positionID (getQueuePosition rows positionID candidateID)) > 0 ∧
            findBetterPos activity (getQueuePosition rows positionID candidateID)
            (activity.AverageInterviewTime + activity.BufferTime)
            (entriesAhead rows positionID (getQueuePosition rows positionID candidateID)) <
              getQueuePosition rows positionID candidateID
        · rw [if_pos hb]
          refine ⟨entry, rfl, ?_, by omega, hb.1, hb.2, rfl⟩
          cases h : entry.JumpAheadUsed
          · rfl
          · exact absurd h hj
        · rw [if_neg hb] at hok; simp at hok

/-- A `ProcessJumpAhead` that reports failure leaves the table as it was. -/
theorem ProcessJumpAhead_failure {rows : Rows} {activity : ActivityControl}
    {candidateID positionID : Nat}
    (hno : (ProcessJumpAhead rows activity candidateID positionID).1 = false) :
    (ProcessJumpAhead rows activity candidateID positionID).2.2 = rows := by
  unfold ProcessJumpAhead at hno ⊢
  cases hf : findWaiting rows candidateID positionID with
  | none => rfl
  | some entry =>
    rw [hf] at hno
    simp only at hno ⊢
    by_cases hj : entry.JumpAheadUsed = true
    · rw [if_pos hj]
    · rw [if_neg hj] at hno ⊢
      by_cases hc : getQueuePosition rows positionID candidateID ≤ 1
      · rw [if_pos hc]
      · rw [if_neg hc] at hno ⊢
        by_cases hb : findBetterPos activity (getQueuePosition rows positionID candidateID)
            (activity.AverageInterviewTime + activity.BufferTime)
            (entriesAhead rows positionID (getQueuePosition rows positionID candidateID)) > 0 ∧
            findBetterPos activity (getQueuePosition rows positionID candidateID)
            (activity.AverageInterviewTime + activity.BufferTime)
            (entriesAhead rows positionID (getQueuePosition rows positionID candidateID)) <
              getQueuePosition rows positionID candidateID
        · rw [if_pos hb] at hno; simp at hno
        · rw [if_neg hb]

theorem ProcessJumpAhead_used {rows : Rows} (activity : ActivityControl)
    {candidateID positionID : Nat} {entry : QueueEntry}
    (hf : findWaiting rows candidateID positionID = some entry)
    (hj : entry.JumpAheadUsed = true) :
    ProcessJumpAhead rows activity candidateID positionID =
      (false, JumpMessage.alreadyUsed, rows) := by
  unfold ProcessJumpAhead
  rw [hf]
  simp only
  rw [if_pos hj]

/-- The rank recomputation that closes a successful `ProcessJumpAhead` puts every
rank of the position back where the ordering rule has it: the rank of the
candidate is what it was before the call. -/
theorem ProcessJumpAhead_getQueuePosition {rows : Rows}
    (hid : (rows.map (fun e => e.ID)).Nodup) (activity : ActivityControl)
    (candidateID positionID : Nat) (p c : Nat) :
    getQueuePosition (ProcessJumpAhead rows activity candidateID positionID).2.2 p c =
      getQueuePosition rows p c := by
  cases hok : (ProcessJumpAhead rows activity candidateID positionID).1 with
  | false => rw [ProcessJumpAhead_failure hok]
  | true =>
    obtain ⟨entry, hf, _, _, _, _, hres⟩ := ProcessJumpAhead_success hok
    rw [hres]
    have he := (findWaiting_some hf).1
    have hid1 : ((save rows { entry with
        QueuePosition := findBetterPos activity
          (getQueuePosition rows positionID candidateID)
          (activity.AverageInterviewTime + activity.BufferTime)
          (entriesAhead rows positionID (getQueuePosition rows positionID candidateID)),
        JumpAheadUsed := true }).map (fun e => e.ID)).Nodup := by
      rw [save_map_ID]; exact hid
    rw [getQueuePosition_of_map_core (updateQueuePositions_map_core hid1 positionID)]
    exact getQueuePosition_save_keys hid he (by rfl) p c

/-! ### `JoinQueue` -/

theorem le_foldl_max : ∀ (l : List Nat) (a : Nat),
    a ≤ l.foldl max a ∧ ∀ x ∈ l, x ≤ l.foldl max a := by
  intro l
  induction l with
  | nil =>
    intro a
    refine ⟨le_refl a, ?_⟩
    intro x hx
    cases hx
  | cons h t ih =>
    intro a
    simp only [List.foldl_cons]
    obtain ⟨h1, h2⟩ := ih (max a h)
    refine ⟨le_trans (le_max_left a h) h1, ?_⟩
    intro x hx
    rcases List.mem_cons.mp hx with hx | hx
    · rw [hx]
      exact le_trans (le_max_right a h) h1
    · exact h2 x hx

theorem ID_lt_nextID {rows : Rows} {e : QueueEntry} (he : e ∈ rows) : e.ID < nextID rows := by
  unfold nextID
  have h := (le_foldl_max (rows.map (fun e => e.ID)) 0).2 e.ID
    (List.mem_map_of_mem (fun e => e.ID) he)
  omega

theorem nodup_append_fresh {rows : Rows} (hid : (rows.map (fun e => e.ID)).Nodup)
    {entry : QueueEntry} (hfresh : ∀ e ∈ rows, e.ID ≠ entry.ID) :
    ((rows ++ [entry]).map (fun e => e.ID)).Nodup := by
  rw [List.map_append, List.map_singleton]
  apply List.Nodup.append hid (List.nodup_singleton _)
  intro x hx hx2
  obtain ⟨e, he, hex⟩ := List.mem_map.mp hx
  rw [List.mem_singleton] at hx2
  exact hfresh e he (hex.trans hx2)

theorem joinedEntry_fresh (rows : Rows) (activity : ActivityControl) (now : Int)
    (candidateID positionID : Nat) :
    ∀ e ∈ rows, e.ID ≠ (joinedEntry rows activity now candidateID positionID).ID := by
  intro e he h
  have h1 := ID_lt_nextID he
  have h2 : (joinedEntry rows activity now candidateID positionID).ID = nextID rows := rfl
  omega

theorem JoinQueue_error {rows : Rows} (activity : ActivityControl) (now resolveNow : Int)
    {candidateID positionID : Nat}
    (h : ∃ e ∈ rows, e.CandidateID = candidateID ∧ e.PositionID = positionID ∧ nonTerminal e) :
    JoinQueue rows activity now resolveNow candidateID positionID =
      (some JoinError.alreadyInQueue, rows) := by
  unfold JoinQueue
  cases hf : rows.find? (fun e => e.CandidateID = candidateID ∧ e.PositionID = positionID ∧
      nonTerminal e) with
  | some _ => rfl
  | none =>
    exfalso
    obtain ⟨e, he, hp⟩ := h
    have := List.find?_eq_none.mp hf e he
    simp only [decide_eq_true_eq] at this
    exact this hp

theorem JoinQueue_ok {rows : Rows} (activity : ActivityControl) (now resolveNow : Int)
    {candidateID positionID : Nat}
    (h : ¬ ∃ e ∈ rows, e.CandidateID = candidateID ∧ e.PositionID = positionID ∧
      nonTerminal e) :
    JoinQueue rows activity now resolveNow candidateID positionID =
      (none, (ResolveConflicts
        (updateQueuePositions
          (rows ++ [joinedEntry rows activity now candidateID positionID]) positionID)
        activity resolveNow candidateID).2.2) := by
  unfold JoinQueue
  cases hf : rows.find? (fun e => e.CandidateID = candidateID ∧ e.PositionID = positionID ∧
      nonTerminal e) with
  | none => rfl
  | some x =>
    exfalso
    apply h
    have h1 := List.mem_of_find?_eq_some hf
    have h2 := List.find?_some hf
    simp only [decide_eq_true_eq] at h2
    exact ⟨x, h1, h2⟩

theorem JoinQueue_map_core {rows : Rows} (hid : (rows.map (fun e => e.ID)).Nodup)
    (activity : ActivityControl) (now resolveNow : Int) {candidateID positionID : Nat}
    (h : ¬ ∃ e ∈ rows, e.CandidateID = candidateID ∧ e.PositionID = positionID ∧
      nonTerminal e) :
    (JoinQueue rows activity now resolveNow candidateID positionID).2.map core =
      (rows ++ [joinedEntry rows activity now candidateID positionID]).map core := by
  rw [JoinQueue_ok activity now resolveNow h]
  have hid1 := nodup_append_fresh hid
    (joinedEntry_fresh rows activity now candidateID positionID)
  have h1 := updateQueuePositions_map_core hid1 positionID
  have hid2 := nodup_of_map_proj core_ID_fun h1 hid1
  exact (ResolveConflicts_map_core hid2 activity resolveNow candidateID).trans h1

/-! ### `SetHighPriority` -/

theorem SetHighPriority_windowClosing {rows : Rows} {activity : ActivityControl} {now : Int}
    (candidateID positionID : Nat) (h : activity.EndTime - now < 30 * Minute) :
    SetHighPriority rows activity now candidateID positionID =
      (some PriorityError.windowClosing, rows) := by
  unfold SetHighPriority
  rw [if_pos h]

theorem SetHighPriority_quotaExceeded {rows : Rows} {activity : ActivityControl} {now : Int}
    {candidateID : Nat} (positionID : Nat) (h : ¬ activity.EndTime - now < 30 * Minute)
    (hq : usedCount rows candidateID ≥ activity.HighPriorityQuota) :
    SetHighPriority rows activity now candidateID positionID =
      (some PriorityError.quotaExceeded, rows) := by
  unfold SetHighPriority
  rw [if_neg h, if_pos hq]

theorem SetHighPriority_notInQueue {rows : Rows} {activity : ActivityControl} {now : Int}
    {candidateID positionID : Nat} (h : ¬ activity.EndTime - now < 30 * Minute)
    (hq : ¬ usedCount rows candidateID ≥ activity.HighPriorityQuota)
    (hf : findWaiting rows candidateID positionID = none) :
    SetHighPriority rows activity now candidateID positionID =
      (some PriorityError.notInQueue, rows) := by
  unfold SetHighPriority
  rw [if_neg h, if_neg hq, hf]

theorem SetHighPriority_alreadyPriority {rows : Rows} {activity : ActivityControl} {now : Int}
    {candidateID positionID : Nat} {entry : QueueEntry}
    (h : ¬ activity.EndTime - now < 30 * Minute)
    (hq : ¬ usedCount rows candidateID ≥ activity.HighPriorityQuota)
    (hf : findWaiting rows candidateID positionID = some entry)
    (hp : entry.IsHighPriority = true) :
    SetHighPriority rows activity now candidateID positionID =
      (some PriorityError.alreadyPriority, rows) := by
  unfold SetHighPriority
  rw [if_neg h, if_neg hq, hf]
  simp only
  rw [if_pos hp]

theorem SetHighPriority_ok {rows : Rows} {activity : ActivityControl} {now : Int}
    {candidateID positionID : Nat} {entry : QueueEntry}
    (h : ¬ activity.EndTime - now < 30 * Minute)
    (hq : ¬ usedCount rows candidateID ≥ activity.HighPriorityQuota)
    (hf : findWaiting rows candidateID positionID = some entry)
    (hp : ¬ entry.IsHighPriority = true) :
    SetHighPriority rows activity now candidateID positionID =
      if (CheckQueueOptimization
          (updateQueuePositions (save rows (prioritized entry now)) positionID)
          activity now candidateID).1 = false then
        (none, (ResolveConflicts
          (CheckQueueOptimization
            (updateQueuePositions (save rows (prioritized entry now)) positionID)
            activity now candidateID).2.2 activity now candidateID).2.2)
      else
        (none, (CheckQueueOptimization
          (updateQueuePositions (save rows (prioritized entry now)) positionID)
          activity now candidateID).2.2) := by
  unfold SetHighPriority
  rw [if_neg h, if_neg hq, hf]
  simp only
  rw [if_neg hp]
  rfl

theorem SetHighPriority_ok_fst {rows : Rows} {activity : ActivityControl} {now : Int}
    {candidateID positionID : Nat} {entry : QueueEntry}
    (h : ¬ activity.EndTime - now < 30 * Minute)
    (hq : ¬ usedCount rows candidateID ≥ activity.HighPriorityQuota)
    (hf : findWaiting rows candidateID positionID = some entry)
    (hp : ¬ entry.IsHighPriority = true) :
    (SetHighPriority rows activity now candidateID positionID).1 = none := by
  rw [SetHighPriority_ok h hq hf hp]
  split <;> rfl

theorem SetHighPriority_map_core {rows : Rows} (hid : (rows.map (fun e => e.ID)).Nodup)
    {activity : ActivityControl} {now : Int}
    {candidateID positionID : Nat} {entry : QueueEntry}
    (h : ¬ activity.EndTime - now < 30 * Minute)
    (hq : ¬ usedCount rows candidateID ≥ activity.HighPriorityQuota)
    (hf : findWaiting rows candidateID positionID = some entry)
    (hp : ¬ entry.IsHighPriority = true) :
    (SetHighPriority rows activity now candidateID positionID).2.map core =
      (save rows (prioritized entry now)).map core := by
  rw [SetHighPriority_ok h hq hf hp]
  have hid1 : ((save rows (prioritized entry now)).map (fun e => e.ID)).Nodup := by
    rw [save_map_ID]; exact hid
  have h1 := updateQueuePositions_map_core hid1 positionID
  have hid2 := nodup_of_map_proj core_ID_fun h1 hid1
  have h2 := CheckQueueOptimization_map_core hid2 activity now candidateID
  have hid3 := nodup_of_map_proj core_ID_fun h2 hid2
  have h3 := ResolveConflicts_map_core hid3 activity now candidateID
  split
  · exact h3.trans (h2.trans h1)
  · exact h2.trans h1

/-- The four ways `SetHighPriority` ends, in the order of its checks. -/
theorem SetHighPriority_cases (rows : Rows) (activity : ActivityControl) (now : Int)
    (candidateID positionID : Nat) :
    (activity.EndTime - now < 30 * Minute ∧
        SetHighPriority rows activity now candidateID positionID =
          (some PriorityError.windowClosing, rows))
      ∨ (¬ activity.EndTime - now < 30 * Minute ∧
        usedCount rows candidateID ≥ activity.HighPriorityQuota ∧
        SetHighPriority rows activity now candidateID positionID =
          (some PriorityError.quotaExceeded, rows))
      ∨ (¬ activity.EndTime - now < 30 * Minute ∧
        ¬ usedCount rows candidateID ≥ activity.HighPriorityQuota ∧
        findWaiting rows candidateID positionID = none ∧
        SetHighPriority rows activity now candidateID positionID =
          (some PriorityError.notInQueue, rows))
      ∨ (∃ entry, ¬ activity.EndTime - now < 30 * Minute ∧
        ¬ usedCount rows candidateID ≥ activity.HighPriorityQuota ∧
        findWaiting rows candidateID positionID = some entry ∧
        entry.IsHighPriority = true ∧
        SetHighPriority rows activity now candidateID positionID =
          (some PriorityError.alreadyPriority, rows))
      ∨ (∃ entry, ¬ activity.EndTime - now < 30 * Minute ∧
        ¬ usedCount rows candidateID ≥ activity.HighPriorityQuota ∧
        findWaiting rows candidateID positionID = some entry ∧
        ¬ entry.IsHighPriority = true ∧
        (SetHighPriority rows activity now candidateID positionID).1 = none) := by
  by_cases h : activity.EndTime - now < 30 * Minute
  · exact Or.inl ⟨h, SetHighPriority_windowClosing candidateID positionID h⟩
  · by_cases hq : usedCount rows candidateID ≥ activity.HighPriorityQuota
    · exact Or.inr (Or.inl ⟨h, hq, SetHighPriority_quotaExceeded positionID h hq⟩)
    · cases hf : findWaiting rows candidateID positionID with
      | none => exact Or.inr (Or.inr (Or.inl ⟨h, hq, rfl, SetHighPriority_notInQueue h hq hf⟩))
      | some entry =>
        by_cases hp : entry.IsHighPriority = true
        · exact Or.inr (Or.inr (Or.inr (Or.inl
            ⟨entry, h, hq, rfl, hp, SetHighPriority_alreadyPriority h hq hf hp⟩)))
        · exact Or.inr (Or.inr (Or.inr (Or.inr
            ⟨entry, h, hq, rfl, hp, SetHighPriority_ok_fst h hq hf hp⟩)))

theorem findWaiting_none {rows : Rows} {candidateID positionID : Nat} :
    findWaiting rows candidateID positionID = none ↔
      ¬ ∃ e ∈ rows, e.CandidateID = candidateID ∧ e.PositionID = positionID ∧
        e.Status = EntryStatus.waiting := by
  unfold findWaiting
  rw [List.find?_eq_none]
  simp only [decide_eq_true_eq, not_exists, not_and]

/-! ### Rows over time -/

theorem evolves_refl (a : QueueEntry) : Evolves a a :=
  ⟨rfl, rfl, rfl, fun h => ⟨h, rfl⟩, fun h => h⟩

theorem evolves_trans {a b c : QueueEntry} (hab : Evolves a b) (hbc : Evolves b c) :
    Evolves a c := by
  obtain ⟨h1, h2, h3, h4, h5⟩ := hab
  obtain ⟨k1, k2, k3, k4, k5⟩ := hbc
  refine ⟨k1.trans h1, k2.trans h2, k3.trans h3, ?_, fun h => k5 (h5 h)⟩
  intro h
  obtain ⟨hb, hp⟩ := h4 h
  obtain ⟨hc, hq⟩ := k4 hb
  exact ⟨hc, hq.trans hp⟩

theorem skeleton_fields {a b : QueueEntry} (h : skeleton a = skeleton b) :
    a.ID = b.ID ∧ a.CandidateID = b.CandidateID ∧ a.PositionID = b.PositionID
      ∧ a.IsHighPriority = b.IsHighPriority ∧ a.PrioritySetTime = b.PrioritySetTime
      ∧ a.JumpAheadUsed = b.JumpAheadUsed ∧ a.Status = b.Status := by
  cases a
  cases b
  unfold skeleton at h
  simp only [QueueEntry.mk.injEq] at h
  obtain ⟨c1, c2, c3, _, c5, c6, _, _, _, c10, c11, _⟩ := h
  exact ⟨c1, c2, c3, c5, c6, c11, c10⟩

theorem evolves_of_skeleton {a b b2 : QueueEntry} (hab : Evolves a b)
    (h : skeleton b2 = skeleton b) : Evolves a b2 := by
  obtain ⟨s1, s2, s3, s4, s5, s6, _⟩ := skeleton_fields h
  obtain ⟨h1, h2, h3, h4, h5⟩ := hab
  refine ⟨s1.trans h1, s2.trans h2, s3.trans h3, ?_, ?_⟩
  · intro ha
    obtain ⟨hb, hp⟩ := h4 ha
    exact ⟨s4.trans hb, s5.trans hp⟩
  · intro ha
    exact s6.trans (h5 ha)

theorem priorityTimed_of_skeleton {b b2 : QueueEntry} (h : skeleton b2 = skeleton b)
    (hb : PriorityTimed b) : PriorityTimed b2 := by
  obtain ⟨_, _, _, s4, s5, _, _⟩ := skeleton_fields h
  unfold PriorityTimed at hb ⊢
  rw [s4, s5]
  exact hb

theorem later_trans {r1 r2 r3 : Rows} (h12 : Later r1 r2) (h23 : Later r2 r3) :
    Later r1 r3 := by
  intro a ha
  obtain ⟨b, hb, hab⟩ := h12 a ha
  obtain ⟨c, hc, hbc⟩ := h23 b hb
  exact ⟨c, hc, evolves_trans hab hbc⟩

theorem advances_refl {rows : Rows} (hid : (rows.map (fun e => e.ID)).Nodup) :
    Advances rows rows :=
  ⟨hid, fun a ha => ⟨a, ha, evolves_refl a⟩, fun h => h⟩

theorem advances_trans {r1 r2 r3 : Rows} (h12 : Advances r1 r2) (h23 : Advances r2 r3) :
    Advances r1 r3 :=
  ⟨h23.1, later_trans h12.2.1 h23.2.1, fun h => h23.2.2 (h12.2.2 h)⟩

theorem advances_of_map_skeleton {rows mid rows2 : Rows}
    (h : rows2.map skeleton = mid.map skeleton) (hg : Advances rows mid) :
    Advances rows rows2 := by
  refine ⟨nodup_of_map_proj skeleton_ID_fun h hg.1, ?_, ?_⟩
  · intro a ha
    obtain ⟨b, hb, hab⟩ := hg.2.1 a ha
    obtain ⟨b2, hb2, hs⟩ := mem_of_map_proj_rev h hb
    exact ⟨b2, hb2, evolves_of_skeleton hab hs⟩
  · intro hall e he
    obtain ⟨e0, he0, hs⟩ := mem_of_map_proj h he
    exact priorityTimed_of_skeleton hs (hg.2.2 hall e0 he0)

theorem advances_of_map_core {rows mid rows2 : Rows}
    (h : rows2.map core = mid.map core) (hg : Advances rows mid) :
    Advances rows rows2 :=
  advances_of_map_skeleton (map_proj_of_core skeleton_core h) hg

theorem advances_save {rows : Rows} (hid : (rows.map (fun e => e.ID)).Nodup)
    {e0 entry : QueueEntry} (he : e0 ∈ rows) (hev : Evolves e0 entry)
    (ht : PriorityTimed e0 → PriorityTimed entry) : Advances rows (save rows entry) := by
  refine ⟨by rw [save_map_ID]; exact hid, ?_, ?_⟩
  · intro a ha
    by_cases h : a.ID = entry.ID
    · have : a = e0 := eq_of_ID_eq hid ha he (h.trans hev.1)
      rw [this]
      exact ⟨entry, mem_save_self he hev.1.symm, hev⟩
    · exact ⟨a, mem_save_of_ne ha h, evolves_refl a⟩
  · intro hall e hmem
    rcases mem_save hmem with h | ⟨h, _⟩
    · rw [h]
      exact ht (hall e0 he)
    · exact hall e h

theorem advances_append {rows : Rows} (hid : (rows.map (fun e => e.ID)).Nodup)
    {entry : QueueEntry} (hfresh : ∀ e ∈ rows, e.ID ≠ entry.ID) (ht : PriorityTimed entry) :
    Advances rows (rows ++ [entry]) := by
  refine ⟨nodup_append_fresh hid hfresh, ?_, ?_⟩
  · intro a ha
    exact ⟨a, List.mem_append_left _ ha, evolves_refl a⟩
  · intro hall e he
    rcases List.mem_append.mp he with h | h
    · exact hall e h
    · rw [List.mem_singleton.mp h]
      exact ht

theorem advances_map {rows : Rows} (hid : (rows.map (fun e => e.ID)).Nodup)
    (f : QueueEntry → QueueEntry)
    (hf : ∀ r, Evolves r (f r) ∧ (PriorityTimed r → PriorityTimed (f r))) :
    Advances rows (rows.map f) := by
  refine ⟨?_, ?_, ?_⟩
  · rw [List.map_map]
    have : rows.map ((fun e => e.ID) ∘ f) = rows.map (fun e => e.ID) := by
      apply List.map_congr_left
      intro r _
      exact (hf r).1.1
    rw [this]
    exact hid
  · intro a ha
    exact ⟨f a, List.mem_map_of_mem f ha, (hf a).1⟩
  · intro hall e he
    obtain ⟨r, hr, hre⟩ := List.mem_map.mp he
    rw [← hre]
    exact (hf r).2 (hall r hr)

/-- Rewriting the status of a row is a later state of it. -/
theorem evolves_status (r : QueueEntry) (s : EntryStatus) :
    Evolves r { r with Status := s } ∧
      (PriorityTimed r → PriorityTimed { r with Status := s }) :=
  ⟨⟨rfl, rfl, rfl, fun h => ⟨h, rfl⟩, fun h => h⟩, fun h => h⟩

/-! ### Every operation advances the table -/

theorem delayLoop_map_skeleton {rows0 : Rows} (hid : (rows0.map (fun e => e.ID)).Nodup)
    (minutes : Int) :
    ∀ (l : List QueueEntry) (rowsK : Rows), (∀ e ∈ l, e ∈ rows0) →
      rowsK.map skeleton = rows0.map skeleton →
      (delayLoop minutes l rowsK).map skeleton = rows0.map skeleton := by
  intro l
  induction l with
  | nil => intro rowsK _ hK; exact hK
  | cons e rest ih =>
    intro rowsK hl hK
    unfold delayLoop
    apply ih _ (fun x hx => hl x (List.mem_cons_of_mem _ hx))
    have hsk : ∀ (x : QueueEntry) (t d : Int),
        skeleton { x with JoinTime := t, DelayUsed := d } = skeleton x := fun _ _ _ => rfl
    have h1 := save_stale skeleton_ID_fun hid hK (hl e (List.mem_cons_self _ _))
      (hsk e (e.JoinTime + minutes * Minute) (e.DelayUsed + 1))
    have hid1 := nodup_of_map_proj skeleton_ID_fun h1 hid
    exact (map_proj_of_core skeleton_core
      (updateQueuePositions_map_core hid1 _)).trans h1

theorem ProcessDelay_map_skeleton {rows : Rows} (hid : (rows.map (fun e => e.ID)).Nodup)
    (candidateID : Nat) (minutes : Int) :
    (ProcessDelay rows candidateID minutes).map skeleton = rows.map skeleton := by
  unfold ProcessDelay
  exact delayLoop_map_skeleton hid minutes _ rows
    (fun e he => (mem_candidateWaiting.mp he).1) rfl

theorem LeaveQueue_rows (rows : Rows) (candidateID positionID : Nat) :
    (LeaveQueue rows candidateID positionID).2 = rows.map (fun e =>
      if e.CandidateID = candidateID ∧ e.PositionID = positionID ∧
          e.Status = EntryStatus.waiting then
        { e with Status := EntryStatus.left }
      else e) := by
  unfold LeaveQueue
  simp only
  split <;> rfl

/-- The leave handler writes the status column only: every row keeps its stored
rank. -/
theorem LeaveQueue_map_rank (rows : Rows) (candidateID positionID : Nat) :
    (LeaveQueue rows candidateID positionID).2.map (fun e => (e.ID, e.QueuePosition)) =
      rows.map (fun e => (e.ID, e.QueuePosition)) := by
  rw [LeaveQueue_rows, List.map_map]
  apply List.map_congr_left
  intro r _
  simp only [Function.comp]
  split <;> rfl

theorem step_advances {rows : Rows} (hid : (rows.map (fun e => e.ID)).Nodup)
    (op : Operation) : Advances rows (step rows op) := by
  cases op with
  | joinQueue activity now resolveNow candidateID positionID =>
    show Advances rows (JoinQueue rows activity now resolveNow candidateID positionID).2
    by_cases h : ∃ e ∈ rows, e.CandidateID = candidateID ∧ e.PositionID = positionID ∧
        nonTerminal e
    · rw [JoinQueue_error activity now resolveNow h]
      exact advances_refl hid
    · refine advances_of_map_core (JoinQueue_map_core hid activity now resolveNow h)
        (advances_append hid (joinedEntry_fresh rows activity now candidateID positionID) ?_)
      unfold PriorityTimed joinedEntry
      simp
  | setHighPriority activity now candidateID positionID =>
    show Advances rows (SetHighPriority rows activity now candidateID positionID).2
    rcases SetHighPriority_cases rows activity now candidateID positionID with
      ⟨_, hr⟩ | ⟨_, _, hr⟩ | ⟨_, _, _, hr⟩ | ⟨entry, _, _, _, _, hr⟩ |
      ⟨entry, h, hq, hf, hp, _⟩
    · rw [hr]; exact advances_refl hid
    · rw [hr]; exact advances_refl hid
    · rw [hr]; exact advances_refl hid
    · rw [hr]; exact advances_refl hid
    · refine advances_of_map_core (SetHighPriority_map_core hid h hq hf hp)
        (advances_save hid (findWaiting_some hf).1 ?_ ?_)
      · exact ⟨rfl, rfl, rfl, fun h1 => absurd h1 hp, fun h1 => h1⟩
      · intro _
        unfold PriorityTimed prioritized
        simp
  | leave candidateID positionID =>
    show Advances rows (LeaveQueue rows candidateID positionID).2
    rw [LeaveQueue_rows]
    apply advances_map hid
    intro r
    split
    · exact evolves_status r EntryStatus.left
    · exact ⟨evolves_refl r, fun h => h⟩
  | processDelay candidateID minutes =>
    exact advances_of_map_skeleton (ProcessDelay_map_skeleton hid candidateID minutes)
      (advances_refl hid)
  | processJumpAhead activity candidateID positionID =>
    show Advances rows (ProcessJumpAhead rows activity candidateID positionID).2.2
    cases hok : (ProcessJumpAhead rows activity candidateID positionID).1 with
    | false =>
      rw [ProcessJumpAhead_failure hok]
      exact advances_refl hid
    | true =>
      obtain ⟨entry, hf, _, _, _, _, hres⟩ := ProcessJumpAhead_success hok
      rw [hres]
      have hs := advances_save hid (findWaiting_some hf).1
        (show Evolves entry { entry with
          QueuePosition := findBetterPos activity
            (getQueuePosition rows positionID candidateID)
            (activity.AverageInterviewTime + activity.BufferTime)
            (entriesAhead rows positionID (getQueuePosition rows positionID candidateID)),
          JumpAheadUsed := true } from
          ⟨rfl, rfl, rfl, fun h1 => ⟨h1, rfl⟩, fun _ => rfl⟩)
        (fun h1 => h1)
      exact advances_of_map_core (updateQueuePositions_map_core hs.1 positionID) hs
  | applyQueueOptimization activity now candidateID regularPositionID priorityPositionID =>
    exact advances_of_map_skeleton
      (ApplyQueueOptimization_map_skeleton hid activity now candidateID regularPositionID
        priorityPositionID)
      (advances_refl hid)
  | resolveConflicts activity now candidateID =>
    exact advances_of_map_core (ResolveConflicts_map_core hid activity now candidateID)
      (advances_refl hid)
  | startInterview candidateID positionID =>
    show Advances rows (StartInterview rows candidateID positionID)
    unfold StartInterview
    apply advances_map hid
    intro r
    split
    · exact evolves_status r EntryStatus.interviewing
    · exact ⟨evolves_refl r, fun h => h⟩
  | endInterview candidateID positionID =>
    show Advances rows (EndInterview rows candidateID positionID)
    unfold EndInterview
    apply advances_map hid
    intro r
    split
    · exact evolves_status r EntryStatus.completed
    · exact ⟨evolves_refl r, fun h => h⟩

theorem run_advances : ∀ (ops : List Operation) {rows : Rows},
    (rows.map (fun e => e.ID)).Nodup → Advances rows (run rows ops) := by
  intro ops
  induction ops with
  | nil => intro rows hid; exact advances_refl hid
  | cons op rest ih =>
    intro rows hid
    have h1 := step_advances hid op
    exact advances_trans h1 (ih h1.1)

theorem core_JumpAheadUsed {a b : QueueEntry} (h : core a = core b) :
    a.JumpAheadUsed = b.JumpAheadUsed :=
  show (core a).JumpAheadUsed = (core b).JumpAheadUsed from
    congrArg QueueEntry.JumpAheadUsed h

/-! ### Naive starts and the starts written -/

theorem Minute_pos : 0 < Minute := by
  unfold Minute
  decide

theorem naiveInfo_Entry (rows : Rows) (activity : ActivityControl) (now : Int)
    (candidateID : Nat) (e : QueueEntry) :
    (naiveInfo rows activity now candidateID e).Entry = e := rfl

theorem naiveInfo_EndTime (rows : Rows) (activity : ActivityControl) (now : Int)
    (candidateID : Nat) (e : QueueEntry) :
    (naiveInfo rows activity now candidateID e).EndTime =
      (naiveInfo rows activity now candidateID e).EstimatedTime +
        activity.AverageInterviewTime * Minute := rfl

theorem naiveInfo_EstimatedTime (rows : Rows) (activity : ActivityControl) (now : Int)
    (candidateID : Nat) (e : QueueEntry) :
    (naiveInfo rows activity now candidateID e).EstimatedTime =
      max (now + max 0 ((getQueuePosition rows e.PositionID candidateID - 1) *
            activity.AverageInterviewTime) * Minute)
        (if e.JoinTime < now then e.JoinTime + 24 * Hour else e.JoinTime) := by
  unfold naiveInfo
  simp only
  have hw : (if (getQueuePosition rows e.PositionID candidateID - 1) *
        activity.AverageInterviewTime < 0 then 0
      else (getQueuePosition rows e.PositionID candidateID - 1) *
        activity.AverageInterviewTime) =
      max 0 ((getQueuePosition rows e.PositionID candidateID - 1) *
        activity.AverageInterviewTime) := by
    by_cases h : (getQueuePosition rows e.PositionID candidateID - 1) *
        activity.AverageInterviewTime < 0
    · rw [if_pos h, max_eq_left (le_of_lt h)]
    · rw [if_neg h, max_eq_right (not_lt.mp h)]
  rw [hw]
  by_cases h : now + max 0 ((getQueuePosition rows e.PositionID candidateID - 1) *
      activity.AverageInterviewTime) * Minute >
      (if e.JoinTime < now then e.JoinTime + 24 * Hour else e.JoinTime)
  · rw [if_pos h, max_eq_left (le_of_lt h)]
  · rw [if_neg h, max_eq_right (not_lt.mp h)]

theorem naiveInfo_ge_now (rows : Rows) (activity : ActivityControl) (now : Int)
    (candidateID : Nat) (e : QueueEntry) :
    now ≤ (naiveInfo rows activity now candidateID e).EstimatedTime := by
  rw [naiveInfo_EstimatedTime]
  have h1 : 0 ≤ max 0 ((getQueuePosition rows e.PositionID candidateID - 1) *
      activity.AverageInterviewTime) * Minute :=
    mul_nonneg (le_max_left _ _) (le_of_lt Minute_pos)
  exact le_trans (by omega) (le_max_left _ _)

theorem reschedule_later (activity : ActivityControl) :
    ∀ (rest : List conflictInfo) (lastEndTime : Int),
      ∀ d ∈ reschedule activity lastEndTime rest, d.1.EstimatedTime < d.2 := by
  intro rest
  induction rest with
  | nil => intro lastEndTime d hd; simp [reschedule] at hd
  | cons c rest ih =>
    intro lastEndTime d hd
    by_cases h : c.EstimatedTime < lastEndTime + activity.BufferTime * Minute
    · rw [reschedule_pos rest h] at hd
      rcases List.mem_cons.mp hd with h1 | h1
      · rw [h1]
        exact h
      · exact ih _ d h1
    · rw [reschedule_neg rest h] at hd
      exact ih _ d hd

theorem decisions_later {rows : Rows} {activity : ActivityControl} {now : Int}
    {candidateID : Nat} {d : conflictInfo × Int}
    (hd : d ∈ decisions rows activity now candidateID) :
    d.1 = naiveInfo rows activity now candidateID d.1.Entry ∧ d.1.EstimatedTime < d.2 := by
  constructor
  · have h1 : d.1 ∈ (decisions rows activity now candidateID).map (fun d => d.1) :=
      List.mem_map_of_mem (fun d => d.1) hd
    have h2 := (decisions_sublist rows activity now candidateID).subset h1
    obtain ⟨e, _, he⟩ := mem_sortedConflicts h2
    rw [he, naiveInfo_Entry]
  · unfold decisions at hd
    cases hs : sortedConflicts rows activity now candidateID with
    | nil => rw [hs] at hd; cases hd
    | cons first rest =>
      rw [hs] at hd
      exact reschedule_later activity rest first.EndTime d hd

theorem writeStart_cases (K : List (Nat × Nat × Int)) (r : QueueEntry) :
    writeStart K r = r ∨
      ∃ k ∈ K, k.1 = r.ID ∧ writeStart K r = { r with EstimatedTime := some k.2.2 } := by
  unfold writeStart
  cases hf : K.find? (fun k => k.1 = r.ID) with
  | none => exact Or.inl rfl
  | some k =>
    right
    have h1 := List.mem_of_find?_eq_some hf
    have h2 := List.find?_some hf
    simp only [decide_eq_true_eq] at h2
    exact ⟨k, h1, h2, rfl⟩

/-- What `ResolveConflicts` leaves in the estimated-start column of a row: what
was there, or the start of the rescheduling decided for that row. -/
theorem ResolveConflicts_row_cases {rows : Rows} (hid : (rows.map (fun e => e.ID)).Nodup)
    (activity : ActivityControl) (now : Int) (candidateID : Nat) :
    ∀ r2 ∈ (ResolveConflicts rows activity now candidateID).2.2,
      ∃ r ∈ rows, core r2 = core r ∧
        (r2.EstimatedTime = r.EstimatedTime ∨
          ∃ d ∈ decisions rows activity now candidateID,
            d.1.Entry = r ∧ r2.EstimatedTime = some d.2) := by
  intro r2 hr2
  rw [ResolveConflicts_rows hid] at hr2
  obtain ⟨r, hr, hrr⟩ := List.mem_map.mp hr2
  refine ⟨r, hr, ?_, ?_⟩
  · rw [← hrr]
    exact core_resolvedRow _ _ r
  · rw [← hrr, resolvedRow_EstimatedTime]
    rcases writeStart_cases (decisionKeys (decisions rows activity now candidateID)) r with
      h | ⟨k, hk, hkid, h⟩
    · rw [h]
      exact Or.inl rfl
    · right
      unfold decisionKeys at hk
      obtain ⟨d, hd, hdk⟩ := List.mem_map.mp hk
      have hdr : d.1.Entry = r := by
        apply eq_of_ID_eq hid (mem_candidateWaiting.mp (decisions_mem hd)).1 hr
        rw [← hkid, ← hdk]
      refine ⟨d, hd, hdr, ?_⟩
      rw [h, ← hdk]

/-! ### Stored ranks that agree with the ordering rule -/

theorem map_eq_self_iff {f : QueueEntry → QueueEntry} {l : Rows} :
    l.map f = l ↔ ∀ x ∈ l, f x = x := by
  constructor
  · intro h x hx
    have h2 : l.map f = l.map id := by rw [h, List.map_id]
    exact List.map_inj_left.mp h2 x hx
  · intro h
    have h2 : l.map f = l.map id := List.map_inj_left.mpr h
    rw [h2, List.map_id]

/-- A rank recomputation changes nothing exactly when the stored ranks are the
ranks of the ordering rule. -/
theorem ranked_iff {rows : Rows} (hid : (rows.map (fun e => e.ID)).Nodup)
    (positionID : Nat) :
    updateQueuePositions rows positionID = rows ↔ Ranked rows positionID := by
  rw [updateQueuePositions_eq_map hid, map_eq_self_iff]
  unfold Ranked
  constructor
  · intro h r hr hp hs
    have h1 := h r hr
    unfold reRank at h1
    rw [if_pos ⟨hp, hs⟩] at h1
    have h2 := congrArg QueueEntry.QueuePosition h1
    exact h2.symm
  · intro h r hr
    unfold reRank
    by_cases hc : r.PositionID = positionID ∧ r.Status = EntryStatus.waiting
    · rw [if_pos hc]
      have h1 := h r hr hc.1 hc.2
      cases r
      simp only at h1 ⊢
      rw [← h1]
    · rw [if_neg hc]

theorem rankOf_pos (rows : Rows) (positionID id : Nat) : 1 ≤ rankOf rows positionID id := by
  unfold rankOf
  omega

theorem rankOf_head {rows : Rows} {positionID : Nat} {h : QueueEntry} {tl : List QueueEntry}
    (ho : orderedWaiting rows positionID = h :: tl) : rankOf rows positionID h.ID = 1 := by
  unfold rankOf
  rw [ho, List.map_cons, List.indexOf_cons_self]
  rfl

/-- When the candidate is ranked second or later, the first entry of the
position is a waiting row of stored rank 1. -/
theorem exists_front {rows : Rows} {positionID candidateID : Nat}
    (hr : Ranked rows positionID) (h2 : 2 ≤ getQueuePosition rows positionID candidateID) :
    ∃ h ∈ rows, h.PositionID = positionID ∧ h.Status = EntryStatus.waiting ∧
      h.QueuePosition = 1 := by
  unfold getQueuePosition at h2
  cases ho : orderedWaiting rows positionID with
  | nil =>
    rw [ho] at h2
    simp [positionScan] at h2
  | cons h tl =>
    have hm : h ∈ orderedWaiting rows positionID := by rw [ho]; exact List.mem_cons_self _ _
    obtain ⟨h1, h3, h4⟩ := mem_orderedWaiting.mp hm
    exact ⟨h, h1, h3, h4, (hr h h1 h3 h4).trans (rankOf_head ho)⟩

theorem findBetterPos_zero (activity : ActivityControl) (currentPos threshold : Int) :
    ∀ l : List QueueEntry, (∀ t ∈ l, 0 ≤ t.QueuePosition) →
      findBetterPos activity currentPos threshold l = 0 →
      ∀ t ∈ l, (currentPos - t.QueuePosition) * activity.AverageInterviewTime < threshold := by
  intro l
  induction l with
  | nil => intro _ _ t ht; cases ht
  | cons e rest ih =>
    intro hnn h0 t ht
    unfold findBetterPos at h0
    by_cases h : (currentPos - e.QueuePosition) * activity.AverageInterviewTime ≥ threshold
    · simp only [h, if_true] at h0
      have := hnn e (List.mem_cons_self _ _)
      omega
    · simp only [h, if_false] at h0
      rcases List.mem_cons.mp ht with h1 | h1
      · rw [h1]
        omega
      · exact ih (fun x hx => hnn x (List.mem_cons_of_mem _ hx)) h0 t h1

theorem ProcessJumpAhead_applies {rows : Rows} (activity : ActivityControl)
    {candidateID positionID : Nat} {entry : QueueEntry}
    (hf : findWaiting rows candidateID positionID = some entry)
    (hj : entry.JumpAheadUsed = false)
    (h1 : 1 < getQueuePosition rows positionID candidateID)
    (hb : findBetterPos activity (getQueuePosition rows positionID candidateID)
        (activity.AverageInterviewTime + activity.BufferTime)
        (entriesAhead rows positionID (getQueuePosition rows positionID candidateID)) > 0 ∧
      findBetterPos activity (getQueuePosition rows positionID candidateID)
        (activity.AverageInterviewTime + activity.BufferTime)
        (entriesAhead rows positionID (getQueuePosition rows positionID candidateID)) <
        getQueuePosition rows positionID candidateID) :
    (ProcessJumpAhead rows activity candidateID positionID).1 = true := by
  unfold ProcessJumpAhead
  rw [hf]
  simp only
  rw [if_neg (by rw [hj]; decide), if_neg (by omega), if_pos hb]

/-- Exact applicability of the jump on a position with consistent stored ranks. -/
theorem ProcessJumpAhead_iff {rows : Rows} {activity : ActivityControl}
    {candidateID positionID : Nat} {entry : QueueEntry}
    (hr : Ranked rows positionID)
    (havg : 0 < activity.AverageInterviewTime) (hbuf : 0 < activity.BufferTime)
    (hf : findWaiting rows candidateID positionID = some entry)
    (hj : entry.JumpAheadUsed = false) :
    (ProcessJumpAhead rows activity candidateID positionID).1 = true ↔
      2 ≤ getQueuePosition rows positionID candidateID ∧
        (getQueuePosition rows positionID candidateID - 1) * activity.AverageInterviewTime ≥
          activity.AverageInterviewTime + activity.BufferTime := by
  have hqp : ∀ t ∈ entriesAhead rows positionID (getQueuePosition rows positionID candidateID),
      1 ≤ t.QueuePosition := by
    intro t ht
    obtain ⟨h1, h2, h3, _⟩ := mem_entriesAhead.mp ht
    rw [hr t h1 h2 h3]
    exact rankOf_pos rows positionID t.ID
  constructor
  · intro hok
    obtain ⟨_, _, _, h1, hpos, _, _⟩ := ProcessJumpAhead_success hok
    refine ⟨by omega, ?_⟩
    rcases findBetterPos_cases activity (getQueuePosition rows positionID candidateID)
        (activity.AverageInterviewTime + activity.BufferTime)
        (entriesAhead rows positionID (getQueuePosition rows positionID candidateID))
      with h0 | ⟨t, ht, _, hsave⟩
    · rw [h0] at hpos
      exact absurd hpos (lt_irrefl 0)
    · have hq := hqp t ht
      have hle : (getQueuePosition rows positionID candidateID - t.QueuePosition) *
          activity.AverageInterviewTime ≤
          (getQueuePosition rows positionID candidateID - 1) *
            activity.AverageInterviewTime :=
        mul_le_mul_of_nonneg_right (by omega) (le_of_lt havg)
      omega
  · rintro ⟨h2, hsave⟩
    obtain ⟨h, hh, hp, hs, hq⟩ := exists_front hr h2
    have hmem : h ∈ entriesAhead rows positionID
        (getQueuePosition rows positionID candidateID) :=
      mem_entriesAhead.mpr ⟨hh, hp, hs, by omega⟩
    apply ProcessJumpAhead_applies activity hf hj (by omega)
    rcases findBetterPos_cases activity (getQueuePosition rows positionID candidateID)
        (activity.AverageInterviewTime + activity.BufferTime)
        (entriesAhead rows positionID (getQueuePosition rows positionID candidateID))
      with h0 | ⟨t, ht, hval, hts⟩
    · exfalso
      have := findBetterPos_zero activity _ _ _ (fun t ht => by have := hqp t ht; omega)
        h0 h hmem
      rw [hq] at this
      omega
    · have hq1 := hqp t ht
      rw [hval]
      refine ⟨by omega, ?_⟩
      by_contra hnot
      have hle : (getQueuePosition rows positionID candidateID - t.QueuePosition) *
          activity.AverageInterviewTime ≤ 1 * activity.AverageInterviewTime :=
        mul_le_mul_of_nonneg_right (by omega) (le_of_lt havg)
      omega

/-! ### Counting non-terminal high-priority entries -/

theorem length_filter_map_eq (p : QueueEntry → Bool) (g : QueueEntry → QueueEntry) :
    ∀ (l : Rows), (∀ r ∈ l, p (g r) = p r) →
      ((l.map g).filter p).length = (l.filter p).length := by
  intro l
  induction l with
  | nil => intro _; rfl
  | cons a t ih =>
    intro h
    have ha := h a (List.mem_cons_self _ _)
    have ht := ih (fun r hr => h r (List.mem_cons_of_mem _ hr))
    simp only [List.map_cons, List.filter_cons, ha]
    split <;> simp [ht]

theorem length_filter_map_le (p : QueueEntry → Bool) (g : QueueEntry → QueueEntry) :
    ∀ (l : Rows), (∀ r ∈ l, p (g r) = true → p r = true) →
      ((l.map g).filter p).length ≤ (l.filter p).length := by
  intro l
  induction l with
  | nil => intro _; exact le_refl _
  | cons a t ih =>
    intro h
    have ha := h a (List.mem_cons_self _ _)
    have ht := ih (fun r hr => h r (List.mem_cons_of_mem _ hr))
    simp only [List.map_cons, List.filter_cons]
    by_cases h1 : p (g a) = true
    · rw [if_pos h1, if_pos (ha h1)]
      simp only [List.length_cons]
      omega
    · rw [if_neg h1]
      split
      · simp only [List.length_cons]
        omega
      · exact ht

theorem length_filter_map_le_succ (p : QueueEntry → Bool) (g : QueueEntry → QueueEntry)
    (i : Nat) (hg : ∀ r, r.ID ≠ i → g r = r) :
    ∀ (l : Rows), (l.map (fun e => e.ID)).Nodup →
      ((l.map g).filter p).length ≤ (l.filter p).length + 1 := by
  intro l
  induction l with
  | nil => intro _; simp
  | cons a t ih =>
    intro hnd
    rw [List.map_cons] at hnd
    obtain ⟨hnot, hnd2⟩ := List.nodup_cons.mp hnd
    by_cases ha : a.ID = i
    · have ht : t.map g = t := by
        apply map_eq_self_iff.mpr
        intro x hx
        apply hg
        intro hxi
        apply hnot
        rw [ha, ← hxi]
        exact List.mem_map_of_mem (fun e => e.ID) hx
      simp only [List.map_cons, List.filter_cons, ht]
      split <;> split <;> (try simp only [List.length_cons]) <;> omega
    · have := ih hnd2
      simp only [List.map_cons, List.filter_cons, hg a ha]
      split <;> (try simp only [List.length_cons]) <;> omega

theorem usedCount_of_map_skeleton {rows rows2 : Rows}
    (h : rows2.map skeleton = rows.map skeleton) (c : Nat) :
    usedCount rows2 c = usedCount rows c := by
  have h1 : ∀ l : Rows, usedCount l c = usedCount (l.map skeleton) c := by
    intro l
    unfold usedCount
    rw [length_filter_map_eq
      (fun e => decide (e.CandidateID = c ∧ e.IsHighPriority = true ∧ nonTerminal e))
      skeleton l (fun r _ => rfl)]
  rw [h1 rows2, h, ← h1 rows]

theorem usedCount_of_map_core {rows rows2 : Rows}
    (h : rows2.map core = rows.map core) (c : Nat) :
    usedCount rows2 c = usedCount rows c :=
  usedCount_of_map_skeleton (map_proj_of_core skeleton_core h) c

theorem usedCount_append {rows : Rows} {e : QueueEntry} (he : e.IsHighPriority = false)
    (c : Nat) : usedCount (rows ++ [e]) c = usedCount rows c := by
  unfold usedCount
  rw [List.filter_append]
  simp [he]

theorem save_eq_map (rows : Rows) (entry : QueueEntry) :
    save rows entry = rows.map (fun r => if r.ID = entry.ID then entry else r) := rfl

theorem usedCount_save_eq {rows : Rows} (hid : (rows.map (fun e => e.ID)).Nodup)
    (entry : QueueEntry) {e0 : QueueEntry} (he : e0 ∈ rows) (hID : entry.ID = e0.ID) (c : Nat)
    (hp : (decide (entry.CandidateID = c ∧ entry.IsHighPriority = true ∧ nonTerminal entry)) =
      decide (e0.CandidateID = c ∧ e0.IsHighPriority = true ∧ nonTerminal e0)) :
    usedCount (save rows entry) c = usedCount rows c := by
  unfold usedCount
  rw [save_eq_map, length_filter_map_eq _ _ rows]
  intro r hr
  by_cases h : r.ID = entry.ID
  · rw [if_pos h]
    have : r = e0 := eq_of_ID_eq hid hr he (h.trans hID)
    rw [this]
    exact hp
  · rw [if_neg h]

theorem usedCount_save_le_succ {rows : Rows} (hid : (rows.map (fun e => e.ID)).Nodup)
    (entry : QueueEntry) (c : Nat) :
    usedCount (save rows entry) c ≤ usedCount rows c + 1 := by
  unfold usedCount
  rw [save_eq_map]
  have := length_filter_map_le_succ
    (fun e => decide (e.CandidateID = c ∧ e.IsHighPriority = true ∧ nonTerminal e))
    (fun r => if r.ID = entry.ID then entry else r) entry.ID
    (fun r hr => by simp only [hr, if_false]) rows hid
  omega

theorem usedCount_map_le {rows : Rows} (f : QueueEntry → QueueEntry) (c : Nat)
    (hf : ∀ r, (f r).CandidateID = c ∧ (f r).IsHighPriority = true ∧ nonTerminal (f r) →
      r.CandidateID = c ∧ r.IsHighPriority = true ∧ nonTerminal r) :
    usedCount (rows.map f) c ≤ usedCount rows c := by
  unfold usedCount
  have := length_filter_map_le
    (fun e => decide (e.CandidateID = c ∧ e.IsHighPriority = true ∧ nonTerminal e))
    f rows
    (fun r _ h => by
      simp only [decide_eq_true_eq] at h ⊢
      exact hf r h)
  omega

theorem usedCount_step {rows : Rows} (hid : (rows.map (fun e => e.ID)).Nodup) (q : Int)
    (op : Operation) (hq : op.underQuota q) (hno : ¬ op.isInterview)
    (h0 : ∀ c, usedCount rows c ≤ q) : ∀ c, usedCount (step rows op) c ≤ q := by
  intro c
  cases op with
  | joinQueue activity now resolveNow candidateID positionID =>
    show usedCount (JoinQueue rows activity now resolveNow candidateID positionID).2 c ≤ q
    by_cases h : ∃ e ∈ rows, e.CandidateID = candidateID ∧ e.PositionID = positionID ∧
        nonTerminal e
    · rw [JoinQueue_error activity now resolveNow h]
      exact h0 c
    · rw [usedCount_of_map_core (JoinQueue_map_core hid activity now resolveNow h) c,
        usedCount_append (show (joinedEntry rows activity now candidateID
          positionID).IsHighPriority = false from rfl)]
      exact h0 c
  | setHighPriority activity now candidateID positionID =>
    show usedCount (SetHighPriority rows activity now candidateID positionID).2 c ≤ q
    have hquota : activity.HighPriorityQuota = q := hq
    rcases SetHighPriority_cases rows activity now candidateID positionID with
      ⟨_, hr⟩ | ⟨_, _, hr⟩ | ⟨_, _, _, hr⟩ | ⟨entry, _, _, _, _, hr⟩ |
      ⟨entry, h, hlt, hf, hp, _⟩
    · rw [hr]; exact h0 c
    · rw [hr]; exact h0 c
    · rw [hr]; exact h0 c
    · rw [hr]; exact h0 c
    · rw [usedCount_of_map_core (SetHighPriority_map_core hid h hlt hf hp) c]
      obtain ⟨he, hc, _, _⟩ := findWaiting_some hf
      by_cases hcc : c = candidateID
      · have := usedCount_save_le_succ hid (prioritized entry now) c
        rw [hcc] at this ⊢
        omega
      · rw [usedCount_save_eq hid (prioritized entry now) he rfl c]
        · exact h0 c
        · have h1 : ¬ (prioritized entry now).CandidateID = c := by
            show ¬ entry.CandidateID = c
            rw [hc]
            exact fun h2 => hcc h2.symm
          have h2 : ¬ entry.CandidateID = c := by
            rw [hc]
            exact fun h2 => hcc h2.symm
          simp [h1, h2]
  | leave candidateID positionID =>
    show usedCount (LeaveQueue rows candidateID positionID).2 c ≤ q
    rw [LeaveQueue_rows]
    refine le_trans (usedCount_map_le _ c ?_) (h0 c)
    intro r hr
    split at hr
    · exact absurd rfl hr.2.2.2
    · exact hr
  | processDelay candidateID minutes =>
    show usedCount (ProcessDelay rows candidateID minutes) c ≤ q
    rw [usedCount_of_map_skeleton (ProcessDelay_map_skeleton hid candidateID minutes) c]
    exact h0 c
  | processJumpAhead activity candidateID positionID =>
    show usedCount (ProcessJumpAhead rows activity candidateID positionID).2.2 c ≤ q
    cases hok : (ProcessJumpAhead rows activity candidateID positionID).1 with
    | false =>
      rw [ProcessJumpAhead_failure hok]
      exact h0 c
    | true =>
      obtain ⟨entry, hf, _, _, _, _, hres⟩ := ProcessJumpAhead_success hok
      rw [hres]
      have hid1 : ((save rows { entry with
          QueuePosition := findBetterPos activity
            (getQueuePosition rows positionID candidateID)
            (activity.AverageInterviewTime + activity.BufferTime)
            (entriesAhead rows positionID (getQueuePosition rows positionID candidateID)),
          JumpAheadUsed := true }).map (fun e => e.ID)).Nodup := by
        rw [save_map_ID]; exact hid
      have hsave : ∀ b : Int, usedCount (save rows { entry with
          QueuePosition := b, JumpAheadUsed := true }) c = usedCount rows c := fun b =>
        usedCount_save_eq hid { entry with QueuePosition := b, JumpAheadUsed := true }
          (findWaiting_some hf).1 rfl c rfl
      rw [usedCount_of_map_core (updateQueuePositions_map_core hid1 positionID) c, hsave]
      exact h0 c
  | applyQueueOptimization activity now candidateID regularPositionID priorityPositionID =>
    show usedCount (ApplyQueueOptimization rows activity now candidateID regularPositionID
      priorityPositionID).2 c ≤ q
    rw [usedCount_of_map_skeleton (ApplyQueueOptimization_map_skeleton hid activity now
      candidateID regularPositionID priorityPositionID) c]
    exact h0 c
  | resolveConflicts activity now candidateID =>
    show usedCount (ResolveConflicts rows activity now candidateID).2.2 c ≤ q
    rw [usedCount_of_map_core (ResolveConflicts_map_core hid activity now candidateID) c]
    exact h0 c
  | startInterview candidateID positionID => exact absurd trivial hno
  | endInterview candidateID positionID => exact absurd trivial hno

theorem usedCount_run (q : Int) : ∀ (ops : List Operation) {rows : Rows},
    (rows.map (fun e => e.ID)).Nodup →
    (∀ op ∈ ops, op.underQuota q) → (∀ op ∈ ops, ¬ op.isInterview) →
    (∀ c, usedCount rows c ≤ q) → ∀ c, usedCount (run rows ops) c ≤ q := by
  intro ops
  induction ops with
  | nil => intro rows _ _ _ h0; exact h0
  | cons op rest ih =>
    intro rows hid hq hno h0
    exact ih (step_advances hid op).1
      (fun o ho => hq o (List.mem_cons_of_mem _ ho))
      (fun o ho => hno o (List.mem_cons_of_mem _ ho))
      (usedCount_step hid q op (hq op (List.mem_cons_self _ _))
        (hno op (List.mem_cons_self _ _)) h0)

/-! ### `ProcessDelay` -/

theorem bump_ID (minutes : Int) (L : List Nat) (r : QueueEntry) :
    (bump minutes L r).ID = r.ID := by
  unfold bump
  split <;> rfl

theorem map_ID_of_map_core_bump {rows0 rowsK : Rows} {minutes : Int} {done : List Nat}
    (hK : rowsK.map core = rows0.map (fun r => core (bump minutes done r))) :
    rowsK.map (fun e => e.ID) = rows0.map (fun e => e.ID) := by
  have h1 : rowsK.map (fun e => e.ID) = (rowsK.map core).map (fun e => e.ID) := by
    rw [List.map_map]; rfl
  rw [h1, hK, List.map_map]
  apply List.map_congr_left
  intro r _
  exact bump_ID minutes done r

theorem delayLoop_map_core {rows0 : Rows} (hid : (rows0.map (fun e => e.ID)).Nodup)
    (minutes : Int) :
    ∀ (l : List QueueEntry) (done : List Nat) (rowsK : Rows), (∀ e ∈ l, e ∈ rows0) →
      (l.map (fun e => e.ID)).Nodup → (∀ e ∈ l, e.ID ∉ done) →
      rowsK.map core = rows0.map (fun r => core (bump minutes done r)) →
      (delayLoop minutes l rowsK).map core =
        rows0.map (fun r => core (bump minutes (done ++ l.map (fun e => e.ID)) r)) := by
  intro l
  induction l with
  | nil =>
    intro done rowsK _ _ _ hK
    simp only [List.map_nil, List.append_nil]
    exact hK
  | cons e rest ih =>
    intro done rowsK hl hnd hdone hK
    unfold delayLoop
    rw [List.map_cons] at hnd
    obtain ⟨hnot, hnd2⟩ := List.nodup_cons.mp hnd
    have he := hl e (List.mem_cons_self _ _)
    have hidK : (rowsK.map (fun e => e.ID)).Nodup := by
      rw [map_ID_of_map_core_bump hK]; exact hid
    have hsave : (save rowsK { e with
          JoinTime := e.JoinTime + minutes * Minute, DelayUsed := e.DelayUsed + 1 }).map core =
        rows0.map (fun r => core (bump minutes (done ++ [e.ID]) r)) := by
      have h1 : (save rowsK { e with
          JoinTime := e.JoinTime + minutes * Minute, DelayUsed := e.DelayUsed + 1 }).map core =
          (rowsK.map core).map (fun c => if c.ID = e.ID then
            core { e with
              JoinTime := e.JoinTime + minutes * Minute, DelayUsed := e.DelayUsed + 1 }
            else c) := by
        rw [save_eq_map, List.map_map, List.map_map]
        apply List.map_congr_left
        intro r _
        show core (if r.ID = e.ID then _ else r) = if (core r).ID = e.ID then _ else core r
        by_cases h : r.ID = e.ID
        · rw [if_pos h, if_pos (show (core r).ID = e.ID from h)]
        · rw [if_neg h, if_neg (show ¬ (core r).ID = e.ID from h)]
      rw [h1, hK, List.map_map]
      apply List.map_congr_left
      intro r hr
      simp only [Function.comp]
      by_cases h : r.ID = e.ID
      · have hre : r = e := eq_of_ID_eq hid hr he h
        have hb : (core (bump minutes done r)).ID = e.ID := (bump_ID minutes done r).trans h
        rw [if_pos hb, hre]
        unfold bump
        rw [if_pos (List.mem_append_right _ (List.mem_singleton_self _))]
      · have hb : ¬ (core (bump minutes done r)).ID = e.ID := fun h2 =>
          h ((bump_ID minutes done r).symm.trans h2)
        rw [if_neg hb]
        unfold bump
        by_cases hd : r.ID ∈ done
        · rw [if_pos hd, if_pos (List.mem_append_left _ hd)]
        · have : r.ID ∉ done ++ [e.ID] := by
            intro h2
            rcases List.mem_append.mp h2 with h3 | h3
            · exact hd h3
            · exact h (List.mem_singleton.mp h3)
          rw [if_neg hd, if_neg this]
    have hid1 : ((save rowsK { e with
        JoinTime := e.JoinTime + minutes * Minute,
        DelayUsed := e.DelayUsed + 1 }).map (fun e => e.ID)).Nodup := by
      rw [save_map_ID]; exact hidK
    have hupd := (updateQueuePositions_map_core hid1 e.PositionID).trans hsave
    have hrest := ih (done ++ [e.ID]) _ (fun x hx => hl x (List.mem_cons_of_mem _ hx)) hnd2
      ?_ hupd
    · rw [hrest, List.map_cons, List.append_assoc]
      rfl
    · intro x hx hmem
      rcases List.mem_append.mp hmem with h3 | h3
      · exact hdone x (List.mem_cons_of_mem _ hx) h3
      · apply hnot
        rw [← List.mem_singleton.mp h3]
        exact List.mem_map_of_mem (fun e => e.ID) hx

theorem ProcessDelay_map_core {rows : Rows} (hid : (rows.map (fun e => e.ID)).Nodup)
    (candidateID : Nat) (minutes : Int) :
    (ProcessDelay rows candidateID minutes).map core =
      (rows.map (delayedRow minutes candidateID)).map core := by
  unfold ProcessDelay
  rw [delayLoop_map_core hid minutes (candidateWaiting rows candidateID) [] rows
    (fun e he => (mem_candidateWaiting.mp he).1) (nodup_candidateWaiting hid candidateID)
    (fun _ _ h => by cases h)
    (by
      apply List.map_congr_left
      intro r _
      unfold bump
      rw [if_neg (List.not_mem_nil _)]),
    List.map_map]
  apply List.map_congr_left
  intro r hr
  simp only [Function.comp, List.nil_append]
  unfold bump delayedRow
  by_cases h : r.CandidateID = candidateID ∧ r.Status = EntryStatus.waiting
  · rw [if_pos h, if_pos (List.mem_map_of_mem (fun e => e.ID)
      (mem_candidateWaiting.mpr ⟨hr, h.1, h.2⟩))]
  · have : r.ID ∉ (candidateWaiting rows candidateID).map (fun e => e.ID) := by
      intro hm
      obtain ⟨e, he, hee⟩ := List.mem_map.mp hm
      obtain ⟨h1, h2, h3⟩ := mem_candidateWaiting.mp he
      have : e = r := eq_of_ID_eq hid h1 hr hee
      rw [this] at h2 h3
      exact h ⟨h2, h3⟩
    rw [if_neg h, if_neg this]

theorem ProcessDelay_none {rows : Rows} {candidateID : Nat} (minutes : Int)
    (h : ∀ e ∈ rows, ¬ (e.CandidateID = candidateID ∧ e.Status = EntryStatus.waiting)) :
    ProcessDelay rows candidateID minutes = rows := by
  unfold ProcessDelay
  have : candidateWaiting rows candidateID = [] := by
    apply List.eq_nil_iff_forall_not_mem.mpr
    intro e he
    obtain ⟨h1, h2, h3⟩ := mem_candidateWaiting.mp he
    exact h e h1 ⟨h2, h3⟩
  rw [this]
  rfl

/-! ### Ranks of one position while another is rewritten -/

theorem ranked_update {rows : Rows} (hid : (rows.map (fun e => e.ID)).Nodup)
    (positionID : Nat) : Ranked (updateQueuePositions rows positionID) positionID := by
  rw [updateQueuePositions_eq_map hid]
  intro r2 hr2 hp hs
  obtain ⟨r, hr, hrr⟩ := List.mem_map.mp hr2
  have hc := core_reRank rows positionID r
  rw [hrr] at hc
  have hp0 : r.PositionID = positionID := (core_PositionID hc).symm.trans hp
  have hs0 : r.Status = EntryStatus.waiting := (core_Status hc).symm.trans hs
  rw [rankOf_map (fun x _ => core_reRank rows positionID x), core_ID hc, ← hrr]
  unfold reRank
  rw [if_pos ⟨hp0, hs0⟩]

theorem ranked_of_waitingIn_eq {rows rows2 : Rows} {positionID : Nat}
    (h : waitingIn rows2 positionID = waitingIn rows positionID)
    (hr : Ranked rows positionID) : Ranked rows2 positionID := by
  intro r hr2 hp hs
  have hm : r ∈ waitingIn rows2 positionID := mem_waitingIn.mpr ⟨hr2, hp, hs⟩
  rw [h] at hm
  have h1 := hr r (mem_waitingIn.mp hm).1 hp hs
  rw [h1]
  unfold rankOf orderedWaiting
  rw [h]

theorem waitingIn_map_other {rows : Rows} {g : QueueEntry → QueueEntry} {positionID : Nat}
    (hg : ∀ r ∈ rows, g r = r ∨ (r.PositionID ≠ positionID ∧ (g r).PositionID ≠ positionID)) :
    waitingIn (rows.map g) positionID = waitingIn rows positionID := by
  unfold waitingIn
  rw [List.filter_map]
  have h1 : rows.filter ((fun e => decide (e.PositionID = positionID ∧
      e.Status = EntryStatus.waiting)) ∘ g) =
      rows.filter (fun e => decide (e.PositionID = positionID ∧
        e.Status = EntryStatus.waiting)) := by
    apply List.filter_congr
    intro r hr
    rcases hg r hr with h | ⟨h2, h3⟩
    · simp only [Function.comp, h]
    · simp only [Function.comp, h2, h3, false_and]
  rw [h1]
  apply map_eq_self_iff.mpr
  intro r hr
  obtain ⟨hr1, hr2⟩ := List.mem_filter.mp hr
  simp only [decide_eq_true_eq] at hr2
  rcases hg r hr1 with h | ⟨h2, _⟩
  · exact h
  · exact absurd hr2.1 h2

theorem waitingIn_save_other {rows : Rows} {entry : QueueEntry} {positionID : Nat}
    (h1 : ∀ r ∈ rows, r.ID = entry.ID → r.PositionID ≠ positionID)
    (h2 : entry.PositionID ≠ positionID) :
    waitingIn (save rows entry) positionID = waitingIn rows positionID := by
  rw [save_eq_map]
  apply waitingIn_map_other
  intro r hr
  by_cases h : r.ID = entry.ID
  · right
    rw [if_pos h]
    exact ⟨h1 r hr h, h2⟩
  · left
    rw [if_neg h]

theorem waitingIn_update_other {rows : Rows} (hid : (rows.map (fun e => e.ID)).Nodup)
    {positionID other : Nat} (hne : other ≠ positionID) :
    waitingIn (updateQueuePositions rows other) positionID = waitingIn rows positionID := by
  rw [updateQueuePositions_eq_map hid]
  apply waitingIn_map_other
  intro r _
  unfold reRank
  by_cases h : r.PositionID = other ∧ r.Status = EntryStatus.waiting
  · right
    rw [if_pos h]
    have : r.PositionID ≠ positionID := by rw [h.1]; exact hne
    exact ⟨this, this⟩
  · left
    rw [if_neg h]

theorem delayLoop_ranked {rows0 : Rows} (hid : (rows0.map (fun e => e.ID)).Nodup)
    (minutes : Int) :
    ∀ (l : List QueueEntry) (rowsK : Rows), (∀ e ∈ l, e ∈ rows0) →
      rowsK.map skeleton = rows0.map skeleton →
      ∀ P, (Ranked rowsK P ∨ P ∈ l.map (fun e => e.PositionID)) →
        Ranked (delayLoop minutes l rowsK) P := by
  intro l
  induction l with
  | nil =>
    intro rowsK _ _ P hP
    rcases hP with h | h
    · exact h
    · cases h
  | cons e rest ih =>
    intro rowsK hl hK P hP
    unfold delayLoop
    have he := hl e (List.mem_cons_self _ _)
    have hsk : ∀ (x : QueueEntry) (t d : Int),
        skeleton { x with JoinTime := t, DelayUsed := d } = skeleton x := fun _ _ _ => rfl
    have h1 := save_stale skeleton_ID_fun hid hK he
      (hsk e (e.JoinTime + minutes * Minute) (e.DelayUsed + 1))
    have hid1 := nodup_of_map_proj skeleton_ID_fun h1 hid
    have h2 := (map_proj_of_core skeleton_core
      (updateQueuePositions_map_core hid1 e.PositionID)).trans h1
    apply ih _ (fun x hx => hl x (List.mem_cons_of_mem _ hx)) h2
    by_cases hPe : e.PositionID = P
    · left
      rw [← hPe]
      exact ranked_update hid1 e.PositionID
    · rcases hP with h | h
      · left
        apply ranked_of_waitingIn_eq _ h
        rw [waitingIn_update_other hid1 hPe]
        apply waitingIn_save_other
        · intro r hr hrid
          obtain ⟨r0, hr0, hs⟩ := mem_of_map_proj hK hr
          obtain ⟨s1, _, s3, _⟩ := skeleton_fields hs
          have : r0 = e := eq_of_ID_eq hid hr0 he (s1.symm.trans hrid)
          rw [s3, this]
          exact hPe
        · exact hPe
      · right
        rw [List.map_cons] at h
        rcases List.mem_cons.mp h with h3 | h3
        · exact absurd h3.symm hPe
        · exact h3

theorem ProcessDelay_ranked {rows : Rows} (hid : (rows.map (fun e => e.ID)).Nodup)
    (candidateID : Nat) (minutes : Int) {e : QueueEntry}
    (he : e ∈ candidateWaiting rows candidateID) :
    updateQueuePositions (ProcessDelay rows candidateID minutes) e.PositionID =
      ProcessDelay rows candidateID minutes := by
  have hidF := nodup_of_map_proj skeleton_ID_fun
    (ProcessDelay_map_skeleton hid candidateID minutes) hid
  rw [ranked_iff hidF]
  unfold ProcessDelay
  exact delayLoop_ranked hid minutes _ rows (fun x hx => (mem_candidateWaiting.mp hx).1) rfl
    e.PositionID (Or.inr (List.mem_map_of_mem (fun e => e.PositionID) he))

/-! ### The walk of `ResolveConflicts`, step by step -/

theorem reschedule_append (activity : ActivityControl) :
    ∀ (pre l : List conflictInfo) (st : WalkState),
      reschedule activity st.lastEndTime (pre ++ l) =
        reschedule activity st.lastEndTime pre ++
          reschedule activity (pre.foldl (walkStep activity) st).lastEndTime l := by
  intro pre
  induction pre with
  | nil => intro l st; simp [reschedule]
  | cons x xs ih =>
    intro l st
    rw [List.cons_append, List.foldl_cons]
    by_cases h : x.EstimatedTime < st.lastEndTime + activity.BufferTime * Minute
    · have hL : (walkStep activity st x).lastEndTime =
          st.lastEndTime + activity.BufferTime * Minute +
            activity.AverageInterviewTime * Minute := by rw [walkStep_pos h]
      rw [reschedule_pos _ h, reschedule_pos _ h, ← hL, ih l (walkStep activity st x)]
      rfl
    · have hL : (walkStep activity st x).lastEndTime = x.EndTime := by rw [walkStep_neg h]
      rw [reschedule_neg _ h, reschedule_neg _ h, ← hL, ih l (walkStep activity st x)]

theorem mem_reschedule_iff (activity : ActivityControl) :
    ∀ (rest : List conflictInfo) (st : WalkState) (c : conflictInfo) (t : Int),
      (c, t) ∈ reschedule activity st.lastEndTime rest ↔
        ∃ pre post, rest = pre ++ c :: post ∧
          c.EstimatedTime <
            (pre.foldl (walkStep activity) st).lastEndTime + activity.BufferTime * Minute ∧
          t = (pre.foldl (walkStep activity) st).lastEndTime + activity.BufferTime * Minute := by
  intro rest st c t
  constructor
  · revert st
    induction rest with
    | nil => intro st h; simp [reschedule] at h
    | cons x xs ih =>
      intro st hmem
      by_cases h : x.EstimatedTime < st.lastEndTime + activity.BufferTime * Minute
      · have hL : (walkStep activity st x).lastEndTime =
            st.lastEndTime + activity.BufferTime * Minute +
              activity.AverageInterviewTime * Minute := by rw [walkStep_pos h]
        rw [reschedule_pos _ h] at hmem
        rcases List.mem_cons.mp hmem with h1 | h1
        · have hc : c = x := congrArg Prod.fst h1
          have ht : t = st.lastEndTime + activity.BufferTime * Minute := congrArg Prod.snd h1
          refine ⟨[], xs, by rw [hc]; rfl, ?_, ht⟩
          rw [hc]
          exact h
        · rw [← hL] at h1
          obtain ⟨pre, post, hsplit, hlt, ht⟩ := ih (walkStep activity st x) h1
          exact ⟨x :: pre, post, by rw [hsplit]; rfl, hlt, ht⟩
      · have hL : (walkStep activity st x).lastEndTime = x.EndTime := by rw [walkStep_neg h]
        rw [reschedule_neg _ h, ← hL] at hmem
        obtain ⟨pre, post, hsplit, hlt, ht⟩ := ih (walkStep activity st x) hmem
        exact ⟨x :: pre, post, by rw [hsplit]; rfl, hlt, ht⟩
  · rintro ⟨pre, post, hsplit, hlt, ht⟩
    rw [hsplit, reschedule_append, reschedule_pos _ hlt, ht]
    exact List.mem_append_right _ (List.mem_cons_self _ _)

theorem not_mem_reschedule_of_split (activity : ActivityControl)
    {pre post : List conflictInfo} {c : conflictInfo} (st : WalkState)
    (hnd : ((pre ++ c :: post).map (fun c => c.Entry.ID)).Nodup)
    (h : ¬ c.EstimatedTime <
      (pre.foldl (walkStep activity) st).lastEndTime + activity.BufferTime * Minute) :
    c.Entry.ID ∉ (reschedule activity st.lastEndTime (pre ++ c :: post)).map
      (fun d => d.1.Entry.ID) := by
  rw [reschedule_append, reschedule_neg _ h, List.map_append]
  rw [List.map_append, List.map_cons] at hnd
  have h1 := List.nodup_append.mp hnd
  have h2 := List.nodup_cons.mp h1.2.1
  intro hmem
  rcases List.mem_append.mp hmem with h3 | h3
  · exact h1.2.2 (reschedule_IDs_subset activity pre _ h3) (List.mem_cons_self _ _)
  · exact h2.1 (reschedule_IDs_subset activity post _ h3)

theorem decisions_eq {rows : Rows} {activity : ActivityControl} {now : Int}
    {candidateID : Nat} {first : conflictInfo} {rest : List conflictInfo}
    (hs : sortedConflicts rows activity now candidateID = first :: rest) :
    decisions rows activity now candidateID =
      reschedule activity (walkStart rows first).lastEndTime rest := by
  unfold decisions
  rw [hs]
  rfl

/-- The row of a rescheduled entry carries the start decided for it. -/
theorem ResolveConflicts_row_written {rows : Rows} (hid : (rows.map (fun e => e.ID)).Nodup)
    {activity : ActivityControl} {now : Int} {candidateID : Nat} {d : conflictInfo × Int}
    (hd : d ∈ decisions rows activity now candidateID) :
    ∃ r2 ∈ (ResolveConflicts rows activity now candidateID).2.2,
      r2.ID = d.1.Entry.ID ∧ r2.EstimatedTime = some d.2 := by
  have he := (mem_candidateWaiting.mp (decisions_mem hd)).1
  refine ⟨resolvedRow (rankOf rows) (decisionKeys (decisions rows activity now candidateID))
    d.1.Entry, ?_, core_ID (core_resolvedRow _ _ _), ?_⟩
  · rw [ResolveConflicts_rows hid]
    exact List.mem_map_of_mem _ he
  · rw [resolvedRow_EstimatedTime]
    apply writeStart_of_mem _ _ d.1.Entry.PositionID
    · rw [decisionKeys_IDs]
      exact decisions_nodup hid activity now candidateID
    · unfold decisionKeys
      exact List.mem_map_of_mem (fun d => (d.1.Entry.ID, d.1.Entry.PositionID, d.2)) hd

/-- The row of an entry that was not rescheduled keeps its estimated start. -/
theorem ResolveConflicts_row_kept {rows : Rows} (hid : (rows.map (fun e => e.ID)).Nodup)
    {activity : ActivityControl} {now : Int} {candidateID : Nat} {e : QueueEntry}
    (he : e ∈ rows)
    (hno : e.ID ∉ (decisions rows activity now candidateID).map (fun d => d.1.Entry.ID)) :
    ∃ r2 ∈ (ResolveConflicts rows activity now candidateID).2.2,
      r2.ID = e.ID ∧ r2.EstimatedTime = e.EstimatedTime := by
  refine ⟨resolvedRow (rankOf rows) (decisionKeys (decisions rows activity now candidateID))
    e, ?_, core_ID (core_resolvedRow _ _ _), ?_⟩
  · rw [ResolveConflicts_rows hid]
    exact List.mem_map_of_mem _ he
  · rw [resolvedRow_EstimatedTime, writeStart_of_not_mem]
    rw [decisionKeys_IDs]
    exact hno

/-! ### The order of the sorted slice -/

theorem conflictLE_iff (a b : conflictInfo) :
    conflictLE a b ↔
      (a.Entry.IsHighPriority = true ∧ b.Entry.IsHighPriority = false) ∨
        (a.Entry.IsHighPriority = b.Entry.IsHighPriority ∧
          a.EstimatedTime ≤ b.EstimatedTime) := by
  unfold conflictLE conflictLess
  cases ha : a.Entry.IsHighPriority <;> cases hb : b.Entry.IsHighPriority <;> simp

theorem conflictLE_total (a b : conflictInfo) : conflictLE a b ∨ conflictLE b a := by
  rw [conflictLE_iff, conflictLE_iff]
  cases ha : a.Entry.IsHighPriority <;> cases hb : b.Entry.IsHighPriority <;> simp <;>
    exact le_total _ _

theorem conflictLE_trans (a b c : conflictInfo) (hab : conflictLE a b) (hbc : conflictLE b c) :
    conflictLE a c := by
  rw [conflictLE_iff] at hab hbc ⊢
  cases ha : a.Entry.IsHighPriority <;> cases hb : b.Entry.IsHighPriority <;>
    cases hc : c.Entry.IsHighPriority <;> simp [ha, hb, hc] at hab hbc ⊢ <;> omega

theorem sortConflicts_sorted (l : List conflictInfo) :
    (sortConflicts l).Pairwise conflictLE :=
  @List.sorted_insertionSort _ conflictLE _ ⟨conflictLE_total⟩ ⟨conflictLE_trans⟩ l

/-- Two lists with the same records, both in the order of the comparator, are
equal when the comparator separates any two different records. -/
theorem eq_of_perm_of_pairwise :
    ∀ (l1 l2 : List conflictInfo), List.Perm l1 l2 →
      l1.Pairwise conflictLE → l2.Pairwise conflictLE →
      (∀ a ∈ l1, ∀ b ∈ l1, conflictLE a b → conflictLE b a → a = b) → l1 = l2 := by
  intro l1
  induction l1 with
  | nil => intro l2 hp _ _ _; exact (List.Perm.nil_eq hp)
  | cons a t ih =>
    intro l2 hp h1 h2 hanti
    cases l2 with
    | nil => exact absurd (List.Perm.eq_nil hp) (List.cons_ne_nil _ _)
    | cons b u =>
      have hb : b ∈ a :: t := hp.symm.subset (List.mem_cons_self _ _)
      have ha : a ∈ b :: u := hp.subset (List.mem_cons_self _ _)
      have hab : a = b := by
        rcases List.mem_cons.mp hb with h | h
        · exact h.symm
        · rcases List.mem_cons.mp ha with h3 | h3
          · exact h3
          · exact hanti a (List.mem_cons_self _ _) b hb
              ((List.pairwise_cons.mp h1).1 b h) ((List.pairwise_cons.mp h2).1 a h3)
      subst hab
      rw [ih u (List.Perm.cons_inv hp) (List.pairwise_cons.mp h1).2
        (List.pairwise_cons.mp h2).2
        (fun x hx y hy => hanti x (List.mem_cons_of_mem _ hx) y (List.mem_cons_of_mem _ hy))]

/-! ### A candidate with two waiting entries -/

theorem decisions_two {rows : Rows} {activity : ActivityControl} {now : Int}
    {candidateID : Nat} {first second : conflictInfo}
    (hs : sortedConflicts rows activity now candidateID = [first, second]) :
    decisions rows activity now candidateID =
      if second.EstimatedTime < first.EndTime + activity.BufferTime * Minute then
        [(second, first.EndTime + activity.BufferTime * Minute)]
      else [] := by
  unfold decisions
  rw [hs]
  simp only
  by_cases h : second.EstimatedTime < first.EndTime + activity.BufferTime * Minute
  · rw [if_pos h, reschedule_pos _ h]
    rfl
  · rw [if_neg h, reschedule_neg _ h]
    rfl

theorem ResolveConflicts_of_no_decisions {rows : Rows}
    (hid : (rows.map (fun e => e.ID)).Nodup) {activity : ActivityControl} {now : Int}
    {candidateID : Nat} (h : decisions rows activity now candidateID = []) :
    ResolveConflicts rows activity now candidateID = (false, [], rows) := by
  have h1 := ResolveConflicts_hasConflicts rows activity now candidateID
  have h2 := ResolveConflicts_messages rows activity now candidateID
  have h3 := ResolveConflicts_rows hid activity now candidateID
  rw [h] at h1 h2 h3
  have h4 : rows.map (resolvedRow (rankOf rows) (decisionKeys [])) = rows := by
    apply map_eq_self_iff.mpr
    intro r _
    exact resolvedRow_nil _ r
  rw [h4] at h3
  have hext : ResolveConflicts rows activity now candidateID =
      ((ResolveConflicts rows activity now candidateID).1,
        (ResolveConflicts rows activity now candidateID).2.1,
        (ResolveConflicts rows activity now candidateID).2.2) := rfl
  rw [hext, h1, h2, h3]
  rfl

theorem naiveInfo_front {rows : Rows} {activity : ActivityControl} {now : Int}
    {candidateID : Nat} {e : QueueEntry}
    (h1 : getQueuePosition rows e.PositionID candidateID = 1) :
    (naiveInfo rows activity now candidateID e).EstimatedTime =
      max now (if e.JoinTime < now then e.JoinTime + 24 * Hour else e.JoinTime) := by
  rw [naiveInfo_EstimatedTime, h1]
  simp

/-! ### The order of the load -/

theorem ResolveConflicts_eq_resolveLoaded (rows : Rows) (activity : ActivityControl)
    (now : Int) (candidateID : Nat) :
    ResolveConflicts rows activity now candidateID =
      resolveLoaded rows activity now candidateID (candidateWaiting rows candidateID) := rfl

theorem sortConflicts_perm {rows : Rows} {activity : ActivityControl} {now : Int}
    {candidateID : Nat} {l1 l2 : List QueueEntry} (hp : List.Perm l1 l2)
    (hsep : ∀ a ∈ l1, ∀ b ∈ l1, a.IsHighPriority = b.IsHighPriority →
      (naiveInfo rows activity now candidateID a).EstimatedTime =
        (naiveInfo rows activity now candidateID b).EstimatedTime → a = b) :
    sortConflicts (l1.map (naiveInfo rows activity now candidateID)) =
      sortConflicts (l2.map (naiveInfo rows activity now candidateID)) := by
  apply eq_of_perm_of_pairwise _ _ _ (sortConflicts_sorted _) (sortConflicts_sorted _)
  · intro a ha b hb hab hba
    have ha1 : a ∈ l1.map (naiveInfo rows activity now candidateID) :=
      (List.perm_insertionSort conflictLE _).subset ha
    have hb1 : b ∈ l1.map (naiveInfo rows activity now candidateID) :=
      (List.perm_insertionSort conflictLE _).subset hb
    obtain ⟨ea, hea, rfl⟩ := List.mem_map.mp ha1
    obtain ⟨eb, heb, rfl⟩ := List.mem_map.mp hb1
    rw [conflictLE_iff] at hab hba
    simp only [naiveInfo_Entry] at hab hba
    have hkey : ea.IsHighPriority = eb.IsHighPriority ∧
        (naiveInfo rows activity now candidateID ea).EstimatedTime =
          (naiveInfo rows activity now candidateID eb).EstimatedTime := by
      rcases hab with ⟨h1, h2⟩ | ⟨h1, h2⟩
      · rcases hba with ⟨h3, _⟩ | ⟨h3, _⟩
        · rw [h2] at h3; cases h3
        · rw [h1, h2] at h3; cases h3
      · rcases hba with ⟨h3, h4⟩ | ⟨_, h4⟩
        · rw [h3, h4] at h1; cases h1
        · exact ⟨h1, le_antisymm h2 h4⟩
    rw [hsep ea hea eb heb hkey.1 hkey.2]
  · exact ((List.perm_insertionSort conflictLE _).trans
      (hp.map (naiveInfo rows activity now candidateID))).trans
      (List.perm_insertionSort conflictLE _).symm

/-! ### `SetHighPriority` with an optimization pending -/

theorem updateQueuePositions_map_start {rows : Rows} (hid : (rows.map (fun e => e.ID)).Nodup)
    (positionID : Nat) :
    (updateQueuePositions rows positionID).map (fun e => (e.ID, e.EstimatedTime)) =
      rows.map (fun e => (e.ID, e.EstimatedTime)) := by
  rw [updateQueuePositions_eq_map hid, List.map_map]
  apply List.map_congr_left
  intro r _
  simp only [Function.comp]
  unfold reRank
  split <;> rfl

theorem save_map_start {rows : Rows} (hid : (rows.map (fun e => e.ID)).Nodup)
    (entry : QueueEntry) {e0 : QueueEntry} (he : e0 ∈ rows) (hID : entry.ID = e0.ID)
    (hE : entry.EstimatedTime = e0.EstimatedTime) :
    (save rows entry).map (fun e => (e.ID, e.EstimatedTime)) =
      rows.map (fun e => (e.ID, e.EstimatedTime)) := by
  rw [save_eq_map, List.map_map]
  apply List.map_congr_left
  intro r hr
  simp only [Function.comp]
  by_cases h : r.ID = entry.ID
  · rw [if_pos h]
    have : r = e0 := eq_of_ID_eq hid hr he (h.trans hID)
    rw [this, hID, hE]
  · rw [if_neg h]

theorem decisions_of_no_conflict {rows : Rows} {activity : ActivityControl} {now : Int}
    {candidateID : Nat} (h : (ResolveConflicts rows activity now candidateID).1 = false) :
    decisions rows activity now candidateID = [] := by
  rw [ResolveConflicts_hasConflicts] at h
  cases hd : decisions rows activity now candidateID with
  | nil => rfl
  | cons d ds => rw [hd] at h; simp at h

theorem SetHighPriority_pending {rows : Rows} {activity : ActivityControl} {now : Int}
    {candidateID positionID : Nat} {entry : QueueEntry}
    (h : ¬ activity.EndTime - now < 30 * Minute)
    (hq : ¬ usedCount rows candidateID ≥ activity.HighPriorityQuota)
    (hf : findWaiting rows candidateID positionID = some entry)
    (hp : ¬ entry.IsHighPriority = true)
    (hopt : (CheckQueueOptimization
      (updateQueuePositions (save rows (prioritized entry now)) positionID)
      activity now candidateID).1 = true) :
    SetHighPriority rows activity now candidateID positionID =
      (none, (CheckQueueOptimization
        (updateQueuePositions (save rows (prioritized entry now)) positionID)
        activity now candidateID).2.2) := by
  rw [SetHighPriority_ok h hq hf hp, hopt]
  rfl

/-! ### A candidate alone at the front of two positions -/

theorem sortedConflicts_pair {rows : Rows} {activity : ActivityControl} {now : Int}
    {candidateID : Nat} {a b : QueueEntry}
    (hcw : candidateWaiting rows candidateID = [a, b])
    (hle : conflictLE (naiveInfo rows activity now candidateID a)
      (naiveInfo rows activity now candidateID b)) :
    sortedConflicts rows activity now candidateID =
      [naiveInfo rows activity now candidateID a, naiveInfo rows activity now candidateID b] := by
  unfold sortedConflicts sortConflicts
  rw [hcw]
  show List.orderedInsert conflictLE (naiveInfo rows activity now candidateID a)
    (List.orderedInsert conflictLE (naiveInfo rows activity now candidateID b) []) = _
  rw [List.orderedInsert_nil]
  exact List.orderedInsert_of_le conflictLE [] hle

theorem decisions_pair_none {rows : Rows} {activity : ActivityControl} {now : Int}
    {candidateID : Nat} {a b : QueueEntry}
    (hcw : candidateWaiting rows candidateID = [a, b])
    (hle : conflictLE (naiveInfo rows activity now candidateID a)
      (naiveInfo rows activity now candidateID b))
    (hno : ¬ (naiveInfo rows activity now candidateID b).EstimatedTime <
      (naiveInfo rows activity now candidateID a).EndTime + activity.BufferTime * Minute) :
    decisions rows activity now candidateID = [] := by
  rw [decisions_two (sortedConflicts_pair hcw hle), if_neg hno]

theorem baseWait_front {rows : Rows} {candidateID positionID : Nat} (avgInterviewTime : Int)
    (h : getQueuePosition rows positionID candidateID = 1) :
    baseWait rows candidateID avgInterviewTime positionID = 0 := by
  unfold baseWait
  rw [h]
  simp

/-- With two waiting entries, both first in their positions and without an
estimated start, and no conflict between them, the wait reported for each is 0. -/
theorem smartWait_pair_zero {rows : Rows} (hid : (rows.map (fun e => e.ID)).Nodup)
    {activity : ActivityControl} {now : Int} {candidateID : Nat} {a b : QueueEntry}
    (avgInterviewTime : Int)
    (hcw : candidateWaiting rows candidateID = [a, b])
    (hpos : a.PositionID ≠ b.PositionID)
    (hra : getQueuePosition rows a.PositionID candidateID = 1)
    (hrb : getQueuePosition rows b.PositionID candidateID = 1)
    (hea : a.EstimatedTime = none) (heb : b.EstimatedTime = none)
    (hdec : decisions rows activity now candidateID = []) :
    (calculateSmartWaitTime rows activity now a.PositionID candidateID avgInterviewTime).wait = 0
      ∧ (calculateSmartWaitTime rows activity now b.PositionID candidateID
          avgInterviewTime).wait = 0 := by
  have htwo : 2 ≤ (candidateWaiting rows candidateID).length := by rw [hcw]; exact le_refl 2
  have hqa : (candidateWaiting rows candidateID).find?
      (fun entry => decide (entry.PositionID = a.PositionID)) = some a := by
    rw [hcw, List.find?_cons_of_pos _ (by simp)]
  have hqb : (candidateWaiting rows candidateID).find?
      (fun entry => decide (entry.PositionID = b.PositionID)) = some b := by
    rw [hcw, List.find?_cons_of_neg _ (by simpa using hpos), List.find?_cons_of_pos _ (by simp)]
  have hma : a ∈ candidateWaiting rows candidateID := by rw [hcw]; exact List.mem_cons_self _ _
  have hmb : b ∈ candidateWaiting rows candidateID := by
    rw [hcw]; exact List.mem_cons_of_mem _ (List.mem_cons_self _ _)
  have hrow : ∀ e : QueueEntry, resolvedRow (rankOf rows)
      (decisionKeys (decisions rows activity now candidateID)) e = e := by
    intro e
    rw [hdec]
    exact resolvedRow_nil _ e
  constructor
  · rw [calculateSmartWaitTime_multi activity now a.PositionID candidateID avgInterviewTime
      htwo hqa, if_neg, (calculateActualWaitTime_value hid activity now a.PositionID
        candidateID avgInterviewTime htwo hqa).2]
    · simp only [hrow, hea, hra]
      simp
    · intro hc
      exact hc.1 b hmb (fun h => hpos h.symm)
        ((baseWait_front avgInterviewTime hrb).trans (baseWait_front avgInterviewTime hra).symm)
  · rw [calculateSmartWaitTime_multi activity now b.PositionID candidateID avgInterviewTime
      htwo hqb, if_neg, (calculateActualWaitTime_value hid activity now b.PositionID
        candidateID avgInterviewTime htwo hqb).2]
    · simp only [hrow, heb, hrb]
      simp
    · intro hc
      exact hc.1 a hma hpos
        ((baseWait_front avgInterviewTime hra).trans (baseWait_front avgInterviewTime hrb).symm)

theorem CheckQueueOptimization_no_priority {rows : Rows}
    (hid : (rows.map (fun e => e.ID)).Nodup) (activity : ActivityControl) (now : Int)
    {candidateID : Nat}
    (hno : ∀ e ∈ candidateWaiting rows candidateID, e.IsHighPriority = false) :
    (CheckQueueOptimization rows activity now candidateID).1 = false := by
  rcases (CheckQueueOptimization_cases hid activity now candidateID).1 with
    ⟨P, hP, _, _, hp, _⟩ | ⟨h, _⟩
  · rw [hno P hP] at hp
    cases hp
  · exact h

/-! ### Joining a position where nobody waits -/

theorem updateQueuePositions_append_front {rows : Rows} {e : QueueEntry}
    (hid : ((rows ++ [e]).map (fun e => e.ID)).Nodup)
    (hs : e.Status = EntryStatus.waiting)
    (hempty : ∀ r ∈ rows, r.PositionID = e.PositionID → r.Status ≠ EntryStatus.waiting) :
    updateQueuePositions (rows ++ [e]) e.PositionID =
      rows ++ [{ e with QueuePosition := 1 }] := by
  have hw : waitingIn (rows ++ [e]) e.PositionID = [e] := by
    unfold waitingIn
    rw [List.filter_append]
    have h1 : rows.filter (fun x => decide (x.PositionID = e.PositionID ∧
        x.Status = EntryStatus.waiting)) = [] := by
      apply List.filter_eq_nil_iff.mpr
      intro r hr hp
      simp only [decide_eq_true_eq] at hp
      exact hempty r hr hp.1 hp.2
    rw [h1]
    simp [hs]
  have hrank : rankOf (rows ++ [e]) e.PositionID e.ID = 1 := by
    unfold rankOf orderedWaiting
    rw [hw]
    simp [List.insertionSort]
  rw [updateQueuePositions_eq_map hid, List.map_append]
  congr 1
  · apply map_eq_self_iff.mpr
    intro r hr
    unfold reRank
    by_cases hc : r.PositionID = e.PositionID ∧ r.Status = EntryStatus.waiting
    · exact absurd hc.2 (hempty r hr hc.1)
    · rw [if_neg hc]
  · simp only [List.map_cons, List.map_nil]
    unfold reRank
    rw [if_pos ⟨rfl, hs⟩, hrank]

theorem candidateWaiting_of_none {rows : Rows} {candidateID : Nat}
    (h : ∀ e ∈ rows, e.CandidateID ≠ candidateID) : candidateWaiting rows candidateID = [] := by
  unfold candidateWaiting
  apply List.filter_eq_nil_iff.mpr
  intro r hr hp
  simp only [decide_eq_true_eq] at hp
  exact h r hr hp.1

theorem JoinQueue_empty_position {rows : Rows} (hid : (rows.map (fun e => e.ID)).Nodup)
    (activity : ActivityControl) (now resolveNow : Int) {candidateID positionID : Nat}
    (hnone : ¬ ∃ e ∈ rows, e.CandidateID = candidateID ∧ e.PositionID = positionID ∧
      nonTerminal e)
    (hempty : ∀ r ∈ rows, r.PositionID = positionID → r.Status ≠ EntryStatus.waiting) :
    JoinQueue rows activity now resolveNow candidateID positionID =
      (none, (ResolveConflicts
        (rows ++ [joinedFront rows activity now candidateID positionID])
        activity resolveNow candidateID).2.2) := by
  rw [JoinQueue_ok activity now resolveNow hnone]
  have h := updateQueuePositions_append_front
    (nodup_append_fresh hid (joinedEntry_fresh rows activity now candidateID positionID))
    (show (joinedEntry rows activity now candidateID positionID).Status =
      EntryStatus.waiting from rfl) hempty
  have h2 : updateQueuePositions
      (rows ++ [joinedEntry rows activity now candidateID positionID]) positionID =
      rows ++ [joinedFront rows activity now candidateID positionID] := h
  rw [h2]

theorem front_pair_table {rows : Rows} {candidateID A B : Nat} {a b : QueueEntry}
    (hc : ∀ e ∈ rows, e.CandidateID ≠ candidateID)
    (hA : ∀ r ∈ rows, r.PositionID = A → r.Status ≠ EntryStatus.waiting)
    (hB : ∀ r ∈ rows, r.PositionID = B → r.Status ≠ EntryStatus.waiting)
    (hAB : A ≠ B)
    (ha : a.CandidateID = candidateID ∧ a.PositionID = A ∧ a.Status = EntryStatus.waiting)
    (hb : b.CandidateID = candidateID ∧ b.PositionID = B ∧ b.Status = EntryStatus.waiting) :
    candidateWaiting (rows ++ [a] ++ [b]) candidateID = [a, b]
      ∧ getQueuePosition (rows ++ [a] ++ [b]) A candidateID = 1
      ∧ getQueuePosition (rows ++ [a] ++ [b]) B candidateID = 1 := by
  have hfA : rows.filter (fun x => decide (x.PositionID = A ∧
      x.Status = EntryStatus.waiting)) = [] := by
    apply List.filter_eq_nil_iff.mpr
    intro r hr hp
    simp only [decide_eq_true_eq] at hp
    exact hA r hr hp.1 hp.2
  have hfB : rows.filter (fun x => decide (x.PositionID = B ∧
      x.Status = EntryStatus.waiting)) = [] := by
    apply List.filter_eq_nil_iff.mpr
    intro r hr hp
    simp only [decide_eq_true_eq] at hp
    exact hB r hr hp.1 hp.2
  have hBA : ¬ B = A := fun h => hAB h.symm
  refine ⟨?_, ?_, ?_⟩
  · unfold candidateWaiting
    rw [List.filter_append, List.filter_append]
    have := candidateWaiting_of_none hc
    unfold candidateWaiting at this
    rw [this]
    simp [ha.1, ha.2.2, hb.1, hb.2.2]
  · unfold getQueuePosition orderedWaiting waitingIn
    rw [List.filter_append, List.filter_append, hfA]
    simp [ha.2.1, ha.2.2, hb.2.1, hBA, List.insertionSort, positionScan, ha.1]
  · unfold getQueuePosition orderedWaiting waitingIn
    rw [List.filter_append, List.filter_append, hfB]
    simp [ha.2.1, hb.2.2, hb.2.1, hAB, List.insertionSort, positionScan, hb.1]

theorem naiveInfo_front_rolled {rows : Rows} (activity : ActivityControl) {now : Int}
    {candidateID : Nat} {e : QueueEntry}
    (h1 : getQueuePosition rows e.PositionID candidateID = 1)
    (hlt : e.JoinTime < now) (hle : now ≤ e.JoinTime + 24 * Hour) :
    (naiveInfo rows activity now candidateID e).EstimatedTime = e.JoinTime + 24 * Hour := by
  rw [naiveInfo_front h1, if_pos hlt, max_eq_right hle]

/-- Two entries of a candidate, both first in their positions, the second
joined at least `averageInterviewTime + bufferTime` minutes after the first:
read within 24 hours of the first join, the naive starts are not in conflict. -/
theorem decisions_pair_apart {rows : Rows} {activity : ActivityControl} {now : Int}
    {candidateID : Nat} {a b : QueueEntry}
    (hcw : candidateWaiting rows candidateID = [a, b])
    (hra : getQueuePosition rows a.PositionID candidateID = 1)
    (hrb : getQueuePosition rows b.PositionID candidateID = 1)
    (hpa : a.IsHighPriority = false) (hpb : b.IsHighPriority = false)
    (havg : 0 ≤ activity.AverageInterviewTime) (hbuf : 0 ≤ activity.BufferTime)
    (hgap : a.JoinTime + activity.AverageInterviewTime * Minute +
      activity.BufferTime * Minute ≤ b.JoinTime)
    (hlt : b.JoinTime < now) (hle : now ≤ a.JoinTime + 24 * Hour) :
    decisions rows activity now candidateID = [] := by
  have h1 : 0 ≤ activity.AverageInterviewTime * Minute :=
    mul_nonneg havg (le_of_lt Minute_pos)
  have h2 : 0 ≤ activity.BufferTime * Minute := mul_nonneg hbuf (le_of_lt Minute_pos)
  have hea := naiveInfo_front_rolled activity hra
    (show a.JoinTime < now by omega) hle
  have heb := naiveInfo_front_rolled activity hrb hlt
    (show now ≤ b.JoinTime + 24 * Hour by omega)
  apply decisions_pair_none hcw
  · rw [conflictLE_iff]
    right
    rw [naiveInfo_Entry, naiveInfo_Entry, hea, heb, hpa, hpb]
    exact ⟨rfl, by omega⟩
  · rw [naiveInfo_EndTime, hea, heb]
    omega

/-! ### Two entries at the front, joined one after the other -/

/-- Two non-priority entries of a candidate, both first in their positions, the
second joined no earlier than the first; read after the second join and within
24 hours of the first, the second is rescheduled exactly when it joined less
than `averageInterviewTime + bufferTime` minutes after the first. -/
theorem decisions_front_pair {rows : Rows} {activity : ActivityControl} {now : Int}
    {candidateID : Nat} {a b : QueueEntry}
    (hcw : candidateWaiting rows candidateID = [a, b])
    (hra : getQueuePosition rows a.PositionID candidateID = 1)
    (hrb : getQueuePosition rows b.PositionID candidateID = 1)
    (hpa : a.IsHighPriority = false) (hpb : b.IsHighPriority = false)
    (hjoin : a.JoinTime ≤ b.JoinTime)
    (hlt : b.JoinTime < now) (hle : now ≤ a.JoinTime + 24 * Hour) :
    decisions rows activity now candidateID =
      if b.JoinTime < a.JoinTime + activity.AverageInterviewTime * Minute +
          activity.BufferTime * Minute then
        [(naiveInfo rows activity now candidateID b,
          a.JoinTime + 24 * Hour + activity.AverageInterviewTime * Minute +
            activity.BufferTime * Minute)]
      else [] := by
  have hea := naiveInfo_front_rolled activity hra
    (show a.JoinTime < now by omega) hle
  have heb := naiveInfo_front_rolled activity hrb hlt
    (show now ≤ b.JoinTime + 24 * Hour by omega)
  have hle2 : conflictLE (naiveInfo rows activity now candidateID a)
      (naiveInfo rows activity now candidateID b) := by
    rw [conflictLE_iff]
    right
    rw [naiveInfo_Entry, naiveInfo_Entry, hea, heb, hpa, hpb]
    exact ⟨rfl, by omega⟩
  rw [decisions_two (sortedConflicts_pair hcw hle2), naiveInfo_EndTime, hea, heb]
  by_cases h : b.JoinTime < a.JoinTime + activity.AverageInterviewTime * Minute +
      activity.BufferTime * Minute
  · rw [if_pos h, if_pos (by omega)]
  · rw [if_neg h, if_neg (by omega)]

theorem rankOf_front_pair_second {rows : Rows} {A B : Nat} {a b : QueueEntry}
    (hB : ∀ r ∈ rows, r.PositionID = B → r.Status ≠ EntryStatus.waiting)
    (hAB : A ≠ B) (ha : a.PositionID = A)
    (hb : b.PositionID = B ∧ b.Status = EntryStatus.waiting) :
    rankOf (rows ++ [a] ++ [b]) B b.ID = 1 := by
  have hfB : rows.filter (fun x => decide (x.PositionID = B ∧
      x.Status = EntryStatus.waiting)) = [] := by
    apply List.filter_eq_nil_iff.mpr
    intro r hr hp
    simp only [decide_eq_true_eq] at hp
    exact hB r hr hp.1 hp.2
  have ho : orderedWaiting (rows ++ [a] ++ [b]) B = [b] := by
    unfold orderedWaiting waitingIn
    rw [List.filter_append, List.filter_append, hfB]
    simp [ha, hb.1, hb.2, hAB, List.insertionSort]
  exact rankOf_head ho

/-- The table conflict resolution leaves when it reschedules the second of two
front entries: only the estimated start of that row changes. -/
theorem resolved_front_pair {rows : Rows} {A B : Nat} {a b : QueueEntry} {c : conflictInfo}
    (S : Int)
    (hid : ((rows ++ [a] ++ [b]).map (fun e => e.ID)).Nodup)
    (hB : ∀ r ∈ rows, r.PositionID = B → r.Status ≠ EntryStatus.waiting)
    (hAB : A ≠ B) (ha : a.PositionID = A)
    (hb : b.PositionID = B ∧ b.Status = EntryStatus.waiting)
    (hq : b.QueuePosition = 1) (hc : c.Entry = b) :
    (rows ++ [a] ++ [b]).map
        (resolvedRow (rankOf (rows ++ [a] ++ [b])) (decisionKeys [(c, S)])) =
      rows ++ [a] ++ [{ b with EstimatedTime := some S }] := by
  have hrank := rankOf_front_pair_second hB hAB ha hb
  have hK : decisionKeys [(c, S)] = [(b.ID, B, S)] := by
    unfold decisionKeys
    simp [hc, hb.1]
  have hdis : ∀ r ∈ rows ++ [a], r.ID ≠ b.ID := by
    intro r hr h
    rw [List.map_append] at hid
    have hd := (List.nodup_append.mp hid).2.2
    exact hd (List.mem_map_of_mem (fun e : QueueEntry => e.ID) hr) (by simp [h])
  have hother : ∀ r : QueueEntry, r.ID ≠ b.ID →
      ¬ (r.Status = EntryStatus.waiting ∧ r.PositionID = B) →
      resolvedRow (rankOf (rows ++ [a] ++ [b])) [(b.ID, B, S)] r = r := by
    intro r hne hnw
    unfold resolvedRow
    rw [writeStart_of_not_mem (by simpa using hne)]
    unfold rankTouched
    rw [if_neg]
    simpa using hnw
  rw [hK, List.map_append, List.map_append]
  congr 1
  · congr 1
    · apply map_eq_self_iff.mpr
      intro r hr
      exact hother r (hdis r (List.mem_append_left _ hr))
        (fun h => hB r hr h.2 h.1)
    · simp only [List.map_cons, List.map_nil]
      rw [hother a (hdis a (List.mem_append_right _ (List.mem_singleton_self a)))
        (fun h => hAB (ha.symm.trans h.2))]
  · simp only [List.map_cons, List.map_nil]
    congr 1
    unfold resolvedRow writeStart rankTouched
    simp only [List.find?_cons_of_pos, decide_True, List.map_cons, List.map_nil,
      List.mem_singleton, hb.1, hb.2, and_self, if_true, hrank]
    cases b
    simp only at hq
    subst hq
    rfl

theorem wholeMinutes_ge {k d : Int} (h : k * Minute ≤ d) (hd : 0 ≤ d) : k ≤ wholeMinutes d := by
  unfold wholeMinutes
  rw [Int.tdiv_eq_ediv hd (le_of_lt Minute_pos)]
  exact Int.le_ediv_of_mul_le Minute_pos h

/-- With two waiting entries, both first in their positions, the first without
an estimated start and the second rescheduled to `S` by the conflict resolution
the estimate runs: the wait reported for the first is 0 and the wait reported for
the second is the whole minutes to `S`. -/
theorem smartWait_pair_conflict {rows : Rows} (hid : (rows.map (fun e => e.ID)).Nodup)
    {activity : ActivityControl} {now : Int} {candidateID : Nat} {a b : QueueEntry}
    {c : conflictInfo} {S : Int} (avgInterviewTime : Int)
    (hcw : candidateWaiting rows candidateID = [a, b])
    (hpos : a.PositionID ≠ b.PositionID) (hne : a.ID ≠ b.ID)
    (hra : getQueuePosition rows a.PositionID candidateID = 1)
    (hrb : getQueuePosition rows b.PositionID candidateID = 1)
    (hea : a.EstimatedTime = none) (hc : c.Entry = b)
    (hdec : decisions rows activity now candidateID = [(c, S)]) :
    (calculateSmartWaitTime rows activity now a.PositionID candidateID avgInterviewTime).wait = 0
      ∧ (calculateSmartWaitTime rows activity now b.PositionID candidateID
          avgInterviewTime).wait = max 0 (wholeMinutes (S - now)) := by
  have htwo : 2 ≤ (candidateWaiting rows candidateID).length := by rw [hcw]; exact le_refl 2
  have hqa : (candidateWaiting rows candidateID).find?
      (fun entry => decide (entry.PositionID = a.PositionID)) = some a := by
    rw [hcw, List.find?_cons_of_pos _ (by simp)]
  have hqb : (candidateWaiting rows candidateID).find?
      (fun entry => decide (entry.PositionID = b.PositionID)) = some b := by
    rw [hcw, List.find?_cons_of_neg _ (by simpa using hpos), List.find?_cons_of_pos _ (by simp)]
  have hma : a ∈ candidateWaiting rows candidateID := by rw [hcw]; exact List.mem_cons_self _ _
  have hmb : b ∈ candidateWaiting rows candidateID := by
    rw [hcw]; exact List.mem_cons_of_mem _ (List.mem_cons_self _ _)
  have hK : decisionKeys (decisions rows activity now candidateID) =
      [(b.ID, b.PositionID, S)] := by
    rw [hdec]
    unfold decisionKeys
    simp [hc]
  have hwa : (resolvedRow (rankOf rows)
      (decisionKeys (decisions rows activity now candidateID)) a).EstimatedTime = none := by
    rw [resolvedRow_EstimatedTime, hK, writeStart_of_not_mem (by simpa using hne), hea]
  have hwb : (resolvedRow (rankOf rows)
      (decisionKeys (decisions rows activity now candidateID)) b).EstimatedTime = some S := by
    rw [resolvedRow_EstimatedTime, hK]
    exact writeStart_of_mem _ b b.PositionID S (by simp) (List.mem_singleton_self _)
  constructor
  · rw [calculateSmartWaitTime_multi activity now a.PositionID candidateID avgInterviewTime
      htwo hqa, if_neg, (calculateActualWaitTime_value hid activity now a.PositionID
        candidateID avgInterviewTime htwo hqa).2]
    · simp only [hwa, hra]
      simp
    · intro hc
      exact hc.1 b hmb (fun h => hpos h.symm)
        ((baseWait_front avgInterviewTime hrb).trans (baseWait_front avgInterviewTime hra).symm)
  · rw [calculateSmartWaitTime_multi activity now b.PositionID candidateID avgInterviewTime
      htwo hqb, if_neg, (calculateActualWaitTime_value hid activity now b.PositionID
        candidateID avgInterviewTime htwo hqb).2]
    · simp only [hwb]
    · intro hc
      exact hc.1 a hma hpos
        ((baseWait_front avgInterviewTime hra).trans (baseWait_front avgInterviewTime hrb).symm)

/-! ## Ranking -/

/-- C1: after `updateQueuePositions`, the stored queue positions of the waiting
rows of the position are the numbers `1..N`, each used once, where `N` is the
number of those rows; every row of another position and every row that is not
waiting is left as it was. -/
theorem updateQueuePositions_ranks_permutation (rows : Rows) (positionID : Nat)
    (hid : (rows.map (fun e => e.ID)).Nodup) :
    List.Perm
        ((waitingIn (updateQueuePositions rows positionID) positionID).map
          (fun e => e.QueuePosition))
        ((List.range' 1 (waitingIn rows positionID).length).map (fun n => ((n : Nat) : Int)))
      ∧ (waitingIn (updateQueuePositions rows positionID) positionID).map (fun e => e.ID) =
          (waitingIn rows positionID).map (fun e => e.ID)
      ∧ ∀ (i : Nat) (r : QueueEntry), rows[i]? = some r →
          ¬(r.PositionID = positionID ∧ r.Status = EntryStatus.waiting) →
          (updateQueuePositions rows positionID)[i]? = some r := by
  refine ⟨?_, ?_, ?_⟩
  · have hperm := (List.perm_insertionSort orderLE
      (waitingIn (updateQueuePositions rows positionID) positionID)).symm
    have h := List.Perm.map (fun e : QueueEntry => e.QueuePosition) hperm
    have h2 := orderedWaiting_update_ranks hid positionID
    unfold orderedWaiting at h2
    rw [h2] at h
    have h3 : (List.range' 1 (waitingIn rows positionID).length).map
        (fun n => ((n : Nat) : Int)) =
        (List.range (waitingIn rows positionID).length).map (fun n => ((n : Nat) : Int) + 1) := by
      rw [List.range'_eq_map_range, List.map_map]
      apply List.map_congr_left
      intro n _
      simp only [Function.comp]
      push_cast
      omega
    rw [h3]
    exact h
  · rw [updateQueuePositions_eq_map hid,
      waitingIn_map (fun r _ => core_reRank rows positionID r), List.map_map]
    apply List.map_congr_left
    intro r _
    exact core_ID (core_reRank rows positionID r)
  · intro i r hr hnt
    rw [updateQueuePositions_eq_map hid, List.getElem?_map, hr]
    simp [reRank, hnt]

/-- Witness for C1 on a table with three waiting rows at position 10. -/
theorem updateQueuePositions_ranks_permutation_witness :
    List.Perm
        ((waitingIn (updateQueuePositions exampleTable 10) 10).map (fun e => e.QueuePosition))
        ((List.range' 1 (waitingIn exampleTable 10).length).map (fun n => ((n : Nat) : Int)))
      ∧ (waitingIn (updateQueuePositions exampleTable 10) 10).map (fun e => e.ID) =
          (waitingIn exampleTable 10).map (fun e => e.ID)
      ∧ ∀ (i : Nat) (r : QueueEntry), exampleTable[i]? = some r →
          ¬(r.PositionID = 10 ∧ r.Status = EntryStatus.waiting) →
          (updateQueuePositions exampleTable 10)[i]? = some r :=
  updateQueuePositions_ranks_permutation exampleTable 10 (by decide)

/-- C2: after `updateQueuePositions`, for two waiting rows `a`, `b` of the
position with a smaller stored rank on `a`: it is not the case that `b` is high
priority and `a` is not; if both are high priority, the priority-set time of `a`
is not later than that of `b`; if both are non-priority, or both are high
priority with the same priority-set time, the join time of `a` is not later than
that of `b`.  The stored rank of a row is the value `getQueuePosition` returns
for its candidate (when the candidate has no second waiting row there), on the
table after the update and on the table before it.  The table is taken with
distinct primary keys and with no priority-set time on non-priority rows. -/
theorem updateQueuePositions_follows_ordering (rows : Rows) (positionID : Nat)
    (hid : (rows.map (fun e => e.ID)).Nodup)
    (hnull : ∀ e ∈ rows, e.IsHighPriority = false → e.PrioritySetTime = none) :
    (∀ a ∈ waitingIn (updateQueuePositions rows positionID) positionID,
      ∀ b ∈ waitingIn (updateQueuePositions rows positionID) positionID,
        a.QueuePosition < b.QueuePosition →
          ¬(b.IsHighPriority = true ∧ a.IsHighPriority = false)
          ∧ (a.IsHighPriority = true → b.IsHighPriority = true →
              ∀ ta tb, a.PrioritySetTime = some ta → b.PrioritySetTime = some tb → ta ≤ tb)
          ∧ ((a.IsHighPriority = false ∧ b.IsHighPriority = false)
                ∨ (a.IsHighPriority = true ∧ b.IsHighPriority = true
                    ∧ a.PrioritySetTime = b.PrioritySetTime) →
              a.JoinTime ≤ b.JoinTime))
      ∧ (∀ e ∈ waitingIn (updateQueuePositions rows positionID) positionID,
          (∀ x ∈ waitingIn (updateQueuePositions rows positionID) positionID,
            x.CandidateID = e.CandidateID → x = e) →
          getQueuePosition (updateQueuePositions rows positionID) positionID e.CandidateID =
              e.QueuePosition
            ∧ getQueuePosition rows positionID e.CandidateID = e.QueuePosition) := by
  constructor
  · intro a ha b hb hlt
    obtain ⟨ra, hra, hca, hqa⟩ := mem_update_waiting hid ha
    obtain ⟨rb, hrb, hcb, hqb⟩ := mem_update_waiting hid hb
    rw [hqa, hqb] at hlt
    unfold rankOf at hlt
    have hidx : ((orderedWaiting rows positionID).map (fun e => e.ID)).indexOf ra.ID <
        ((orderedWaiting rows positionID).map (fun e => e.ID)).indexOf rb.ID := by omega
    have hsorted : (orderedWaiting rows positionID).Pairwise orderLE :=
      List.sorted_insertionSort orderLE _
    have hle : orderLE ra rb :=
      rel_of_indexOf_lt _ (nodup_orderedWaiting hid positionID) hsorted ra hra rb hrb hidx
    have hna := hnull ra (mem_orderedWaiting.mp hra).1
    have hnb := hnull rb (mem_orderedWaiting.mp hrb).1
    rw [core_IsHighPriority hca, core_IsHighPriority hcb, core_PrioritySetTime hca,
      core_PrioritySetTime hcb, core_JoinTime hca, core_JoinTime hcb]
    unfold orderLE priorityKey nullKey setTimeKey at hle
    refine ⟨?_, ?_, ?_⟩
    · rintro ⟨h1, h2⟩
      rw [h1, h2] at hle
      simp at hle
    · intro h1 h2 ta tb hta htb
      rw [h1, h2, hta, htb] at hle
      simp at hle
      omega
    · rintro (⟨h1, h2⟩ | ⟨h1, h2, h3⟩)
      · rw [h1, h2, hna h1, hnb h2] at hle
        simp at hle
        exact hle
      · rw [h1, h2, h3] at hle
        simp at hle
        exact hle
  · intro e he huniq
    have hid2 : ((updateQueuePositions rows positionID).map (fun e => e.ID)).Nodup := by
      rw [updateQueuePositions_map_ID hid]; exact hid
    have hmem : e ∈ orderedWaiting (updateQueuePositions rows positionID) positionID :=
      mem_orderedWaiting.mpr (mem_waitingIn.mp he)
    have hscan := positionScan_unique _ 0 e (nodup_orderedWaiting hid2 positionID) hmem
      (fun x hx => huniq x (mem_waitingIn.mpr (mem_orderedWaiting.mp hx)))
    obtain ⟨r, _, hc, hq⟩ := mem_update_waiting hid he
    have hrank : e.QueuePosition = rankOf (updateQueuePositions rows positionID) positionID e.ID := by
      rw [hq, updateQueuePositions_eq_map hid,
        rankOf_map (fun r _ => core_reRank rows positionID r), core_ID hc]
    have h1 : getQueuePosition (updateQueuePositions rows positionID) positionID e.CandidateID =
        e.QueuePosition := by
      rw [hrank]
      unfold getQueuePosition rankOf
      rw [hscan]
      simp
    refine ⟨h1, ?_⟩
    rw [← h1, updateQueuePositions_eq_map hid,
      getQueuePosition_map (fun r _ => core_reRank rows positionID r)]

/-- Witness for C2 on the example table. -/
theorem updateQueuePositions_follows_ordering_witness :
    (∀ a ∈ waitingIn (updateQueuePositions exampleTable 10) 10,
      ∀ b ∈ waitingIn (updateQueuePositions exampleTable 10) 10,
        a.QueuePosition < b.QueuePosition →
          ¬(b.IsHighPriority = true ∧ a.IsHighPriority = false)
          ∧ (a.IsHighPriority = true → b.IsHighPriority = true →
              ∀ ta tb, a.PrioritySetTime = some ta → b.PrioritySetTime = some tb → ta ≤ tb)
          ∧ ((a.IsHighPriority = false ∧ b.IsHighPriority = false)
                ∨ (a.IsHighPriority = true ∧ b.IsHighPriority = true
                    ∧ a.PrioritySetTime = b.PrioritySetTime) →
              a.JoinTime ≤ b.JoinTime))
      ∧ (∀ e ∈ waitingIn (updateQueuePositions exampleTable 10) 10,
          (∀ x ∈ waitingIn (updateQueuePositions exampleTable 10) 10,
            x.CandidateID = e.CandidateID → x = e) →
          getQueuePosition (updateQueuePositions exampleTable 10) 10 e.CandidateID =
              e.QueuePosition
            ∧ getQueuePosition exampleTable 10 e.CandidateID = e.QueuePosition) :=
  updateQueuePositions_follows_ordering exampleTable 10 (by decide) (by decide)

/-! ## Wait estimate of a single-queue candidate -/

/-- C3 fails as stated: candidate 2 holds one waiting entry, at rank 2, with one
delay used; with 8-minute interviews the claim gives `(2-1)*8 + 10*1 = 18`
minutes, the service reports 8. -/
theorem smartWait_single_ignores_delay :
    (candidateWaiting delayedTable 2).map (fun e => (e.PositionID, e.DelayUsed)) = [(10, 1)]
      ∧ getQueuePosition delayedTable 10 2 = 2
      ∧ (calculateSmartWaitTime delayedTable seededActivity (20 * Minute) 10 2 8).wait = 8
      ∧ (calculateSmartWaitTime delayedTable seededActivity (20 * Minute) 10 2 8).wait
          ≠ (2 - 1) * 8 + 10 * 1
      ∧ (GetCandidateQueues delayedTable seededActivity (20 * Minute) 2).1.map
          (fun info => info.EstimatedWaitTime) = [8] := by
  decide

/-- C3, amended: for a candidate whose only waiting entry `e` stands at rank
`k` of its position, `k ≥ 1` and the wait the service reports for that entry
(`calculateSmartWaitTime`, and every `estimated_wait_time` that
`GetCandidateQueues` returns for that position) is `(k-1) * averageInterviewTime`
minutes whatever the delay-used count, so rank 1 gives 0; neither call changes
the table.  Adding `10 * d` is what the helper `estimateWaitTimeWithDelay` does,
which no path of the service calls. -/
theorem smartWait_single_queue (rows : Rows) (activity : ActivityControl) (now : Int)
    (candidateID : Nat) (e : QueueEntry)
    (hone : candidateWaiting rows candidateID = [e]) :
    1 ≤ getQueuePosition rows e.PositionID candidateID
      ∧ calculateSmartWaitTime rows activity now e.PositionID candidateID
          activity.AverageInterviewTime =
        { wait := (getQueuePosition rows e.PositionID candidateID - 1) *
            activity.AverageInterviewTime
          rows := rows, resolved := none }
      ∧ (getQueuePosition rows e.PositionID candidateID = 1 →
          (calculateSmartWaitTime rows activity now e.PositionID candidateID
            activity.AverageInterviewTime).wait = 0)
      ∧ (GetCandidateQueues rows activity now candidateID).2 = rows
      ∧ (∀ info ∈ (GetCandidateQueues rows activity now candidateID).1,
          info.PositionID = e.PositionID →
          info.EstimatedWaitTime =
            (getQueuePosition rows e.PositionID candidateID - 1) *
              activity.AverageInterviewTime)
      ∧ estimateWaitTimeWithDelay (getQueuePosition rows e.PositionID candidateID)
          activity.AverageInterviewTime e =
        (getQueuePosition rows e.PositionID candidateID - 1) * activity.AverageInterviewTime
          + 10 * e.DelayUsed := by
  have hmem : e ∈ candidateWaiting rows candidateID := by rw [hone]; exact List.mem_singleton_self e
  have hk := getQueuePosition_pos hmem
  have hlen : (candidateWaiting rows candidateID).length ≤ 1 := by rw [hone]; simp
  have hsmart : calculateSmartWaitTime rows activity now e.PositionID candidateID
      activity.AverageInterviewTime =
      { wait := (getQueuePosition rows e.PositionID candidateID - 1) *
          activity.AverageInterviewTime
        rows := rows, resolved := none } := by
    rw [calculateSmartWaitTime_single activity now e.PositionID candidateID _ hlen]
    have : ¬ getQueuePosition rows e.PositionID candidateID ≤ 0 := by omega
    simp only [this, if_false]
  refine ⟨hk, hsmart, ?_, ?_, ?_, ?_⟩
  · intro h1
    rw [hsmart, h1]
    simp
  · exact (candidateQueuesLoop_single activity now candidateID _ hlen _).1
  · intro info hinfo hpos
    have h := (candidateQueuesLoop_single activity now candidateID
      (decide (activity.EndTime - now ≥ 30 * Minute)) hlen
      (rows.filter (fun e => e.CandidateID = candidateID ∧
        e.Status ≠ EntryStatus.completed ∧ e.Status ≠ EntryStatus.left))).2 info hinfo
    rw [h, hpos, hsmart]
  · unfold estimateWaitTimeWithDelay
    by_cases h1 : getQueuePosition rows e.PositionID candidateID > 1
    · simp only [h1, if_true]; ring
    · have : getQueuePosition rows e.PositionID candidateID = 1 := by omega
      rw [this]; simp; ring

/-- Witness for the amended C3 on the table of the counterexample. -/
theorem smartWait_single_queue_witness :
    candidateWaiting delayedTable 2 =
        [{ waitingRow 2 2 10 false none (12 * Minute) with DelayUsed := 1 }]
      ∧ (calculateSmartWaitTime delayedTable seededActivity (20 * Minute) 10 2 8).wait = 8 :=
  ⟨by decide,
    by
      have h := (smartWait_single_queue delayedTable seededActivity (20 * Minute) 2
        { waitingRow 2 2 10 false none (12 * Minute) with DelayUsed := 1 } (by decide)).2.1
      have hk : getQueuePosition delayedTable 10 2 = 2 := by decide
      simpa [seededActivity, waitingRow, hk] using congrArg WaitResult.wait h⟩

/-! ## Conflict resolution -/

/-- C4 fails as stated: candidate 1 of the example table waits at positions 10
and 20; the first run reschedules the entry at position 10, and the second run,
at the same instant, reports a conflict again, with a message. -/
theorem ResolveConflicts_rerun_reports_conflict :
    (ResolveConflicts exampleTable seededActivity (20 * Minute) 1).1 = true
      ∧ (ResolveConflicts (ResolveConflicts exampleTable seededActivity (20 * Minute) 1).2.2
          seededActivity (20 * Minute) 1).1 = true
      ∧ (ResolveConflicts (ResolveConflicts exampleTable seededActivity (20 * Minute) 1).2.2
          seededActivity (20 * Minute) 1).2.1 ≠ [] := by
  decide

/-- C4, amended: for every table (with distinct primary keys), activity
configuration, instant and candidate, a second run of `ResolveConflicts` right
after the first returns the flag and the messages the first run returned and
leaves the table as the first run left it, estimated start times and stored
ranks included; so it returns `hasConflicts = false` exactly when the first did. -/
theorem ResolveConflicts_second_run (rows : Rows) (activity : ActivityControl) (now : Int)
    (candidateID : Nat) (hid : (rows.map (fun e => e.ID)).Nodup) :
    (ResolveConflicts (ResolveConflicts rows activity now candidateID).2.2 activity now
        candidateID).2.2 = (ResolveConflicts rows activity now candidateID).2.2
      ∧ (ResolveConflicts (ResolveConflicts rows activity now candidateID).2.2 activity now
          candidateID).1 = (ResolveConflicts rows activity now candidateID).1
      ∧ (ResolveConflicts (ResolveConflicts rows activity now candidateID).2.2 activity now
          candidateID).2.1 = (ResolveConflicts rows activity now candidateID).2.1 := by
  rw [ResolveConflicts_idem hid]
  exact ⟨rfl, rfl, rfl⟩

/-- Witness for the amended C4 on the example table. -/
theorem ResolveConflicts_second_run_witness :
    (ResolveConflicts (ResolveConflicts exampleTable seededActivity (20 * Minute) 1).2.2
        seededActivity (20 * Minute) 1).2.2 =
        (ResolveConflicts exampleTable seededActivity (20 * Minute) 1).2.2
      ∧ (ResolveConflicts (ResolveConflicts exampleTable seededActivity (20 * Minute) 1).2.2
          seededActivity (20 * Minute) 1).1 =
        (ResolveConflicts exampleTable seededActivity (20 * Minute) 1).1
      ∧ (ResolveConflicts (ResolveConflicts exampleTable seededActivity (20 * Minute) 1).2.2
          seededActivity (20 * Minute) 1).2.1 =
        (ResolveConflicts exampleTable seededActivity (20 * Minute) 1).2.1 :=
  ResolveConflicts_second_run exampleTable seededActivity (20 * Minute) 1 (by decide)

/-- C5: for a candidate with at least two waiting entries, a positive average
interview time and a non-negative buffer, take the slice `conflicts` as the walk
of `ResolveConflicts` leaves it: it holds each waiting entry of the candidate
once; the start of a record is the naive start of its entry when the entry was
not rescheduled (and then nothing was written on its row) and otherwise the
estimated start newly written on its row, later than the naive start; the end
is the start plus the average interview time; and of any two records the one
processed later starts no earlier than the end of the other plus the buffer. -/
theorem ResolveConflicts_intervals_separated (rows : Rows) (activity : ActivityControl)
    (now : Int) (candidateID : Nat) (hid : (rows.map (fun e => e.ID)).Nodup)
    (htwo : 2 ≤ (candidateWaiting rows candidateID).length)
    (havg : 0 < activity.AverageInterviewTime) (hbuf : 0 ≤ activity.BufferTime) :
    List.Perm ((resolveWalk rows activity now candidateID).conflicts.map (fun c => c.Entry.ID))
        ((candidateWaiting rows candidateID).map (fun e => e.ID))
      ∧ (∀ c ∈ (resolveWalk rows activity now candidateID).conflicts,
          c.EndTime = c.EstimatedTime + activity.AverageInterviewTime * Minute
          ∧ ∃ e ∈ candidateWaiting rows candidateID, e.ID = c.Entry.ID
            ∧ ∃ r ∈ (ResolveConflicts rows activity now candidateID).2.2, r.ID = e.ID
              ∧ ((c.EstimatedTime = (naiveInfo rows activity now candidateID e).EstimatedTime
                    ∧ r.EstimatedTime = e.EstimatedTime)
                ∨ ((naiveInfo rows activity now candidateID e).EstimatedTime < c.EstimatedTime
                    ∧ r.EstimatedTime = some c.EstimatedTime)))
      ∧ (resolveWalk rows activity now candidateID).conflicts.Pairwise
          (fun a b => a.EndTime + activity.BufferTime * Minute ≤ b.EstimatedTime
            ∧ a.EstimatedTime < a.EndTime) := by
  have hperm := sortedConflicts_entries rows activity now candidateID
  have hndS := sortedConflicts_nodup hid activity now candidateID
  have hrows := ResolveConflicts_rows hid activity now candidateID
  have hKnd : ((decisionKeys (decisions rows activity now candidateID)).map
      (fun k => k.1)).Nodup := by
    rw [decisionKeys_IDs]; exact decisions_nodup hid activity now candidateID
  have hmemS : ∀ c ∈ sortedConflicts rows activity now candidateID,
      ∃ e ∈ candidateWaiting rows candidateID,
        c = naiveInfo rows activity now candidateID e := fun c hc => mem_sortedConflicts hc
  have hdec : decisions rows activity now candidateID =
      match sortedConflicts rows activity now candidateID with
      | [] => []
      | first :: rest => reschedule activity first.EndTime rest := rfl
  have hwalk : resolveWalk rows activity now candidateID =
      walk activity rows (sortedConflicts rows activity now candidateID) := rfl
  have hM : (0 : Int) < Minute := by unfold Minute; omega
  have hpos : 0 < activity.AverageInterviewTime * Minute := Int.mul_pos havg hM
  rw [hwalk]
  cases hs : sortedConflicts rows activity now candidateID with
  | nil =>
    have hl := length_sortedConflicts rows activity now candidateID
    rw [hs] at hl
    simp only [List.length_nil] at hl
    omega
  | cons first rest =>
    rw [hs] at hperm hndS hmemS hdec
    simp only at hdec
    have hconf : (walk activity rows (first :: rest)).conflicts =
        first :: resolvedSlice activity first.EndTime rest := by
      simp only [walk]
      rw [foldl_walkStep_conflicts]
      rfl
    rw [hconf]
    rw [List.map_cons] at hndS
    have hndS2 := List.nodup_cons.mp hndS
    have hendS : ∀ c ∈ rest,
        c.EndTime = c.EstimatedTime + activity.AverageInterviewTime * Minute := by
      intro c hc
      obtain ⟨e, _, rfl⟩ := hmemS c (List.mem_cons_of_mem _ hc)
      rfl
    have hchain := resolvedSlice_chain activity (le_of_lt havg) hbuf rest first.EndTime hendS
    have hfinal : ∀ e ∈ candidateWaiting rows candidateID,
        resolvedRow (rankOf rows) (decisionKeys (decisions rows activity now candidateID)) e ∈
          (ResolveConflicts rows activity now candidateID).2.2 := by
      intro e he
      rw [hrows]
      exact List.mem_map_of_mem _ (mem_candidateWaiting.mp he).1
    refine ⟨?_, ?_, ?_⟩
    · rw [List.map_cons, resolvedSlice_IDs]
      have h := List.Perm.map (fun e : QueueEntry => e.ID) hperm
      rw [List.map_map] at h
      exact h
    · intro c hc
      rcases List.mem_cons.mp hc with rfl | hc2
      · obtain ⟨e, he, hce⟩ := hmemS c (List.mem_cons_self _ _)
        refine ⟨by rw [hce]; rfl, e, he, by rw [hce]; rfl, _, hfinal e he,
          core_ID (core_resolvedRow _ _ e), Or.inl ⟨by rw [hce], ?_⟩⟩
        rw [resolvedRow_EstimatedTime, writeStart_of_not_mem]
        rw [decisionKeys_IDs, hdec]
        intro hin
        have := reschedule_IDs_subset activity rest _ hin
        apply hndS2.1
        rw [hce]
        exact this
      · obtain ⟨x, hx, hxid, hcase⟩ := resolvedSlice_spec activity rest first.EndTime hndS2.2 c hc2
        obtain ⟨e, he, hxe⟩ := hmemS x (List.mem_cons_of_mem _ hx)
        have hxE : x.Entry = e := by rw [hxe]; rfl
        refine ⟨(hchain.1 c hc2).2, e, he, by rw [hxid, hxE], _, hfinal e he,
          core_ID (core_resolvedRow _ _ e), ?_⟩
        rcases hcase with ⟨h1, h2⟩ | ⟨h1, h2⟩
        · left
          refine ⟨by rw [h1, hxe], ?_⟩
          rw [resolvedRow_EstimatedTime, writeStart_of_not_mem]
          rw [decisionKeys_IDs, hdec, ← hxE]
          exact h2
        · right
          refine ⟨by rw [← hxe]; exact h1, ?_⟩
          rw [resolvedRow_EstimatedTime]
          apply writeStart_of_mem _ e e.PositionID c.EstimatedTime hKnd
          rw [hdec]
          unfold decisionKeys
          refine List.mem_map.mpr ⟨(x, c.EstimatedTime), h2, ?_⟩
          simp only [hxE]
    · have hfirst : first.EstimatedTime < first.EndTime := by
        obtain ⟨e, _, hce⟩ := hmemS first (List.mem_cons_self _ _)
        have : first.EndTime = first.EstimatedTime + activity.AverageInterviewTime * Minute := by
          rw [hce]; rfl
        omega
      refine List.Pairwise.cons ?_ ?_
      · intro x hx
        exact ⟨(hchain.1 x hx).1, hfirst⟩
      · refine List.Pairwise.imp_of_mem ?_ hchain.2
        intro a b ha _ hab
        refine ⟨hab, ?_⟩
        have := (hchain.1 a ha).2
        omega

/-- Witness for C5: candidate 1 of the example table, whose entry at position 10
is rescheduled behind the one at position 20. -/
theorem ResolveConflicts_intervals_separated_witness :
    2 ≤ (candidateWaiting exampleTable 1).length
      ∧ 0 < seededActivity.AverageInterviewTime ∧ 0 ≤ seededActivity.BufferTime
      ∧ (resolveWalk exampleTable seededActivity (20 * Minute) 1).conflicts.Pairwise
          (fun a b => a.EndTime + seededActivity.BufferTime * Minute ≤ b.EstimatedTime
            ∧ a.EstimatedTime < a.EndTime) :=
  ⟨by decide, by decide, by decide,
    (ResolveConflicts_intervals_separated exampleTable seededActivity (20 * Minute) 1
      (by decide) (by decide) (by decide) (by decide)).2.2⟩

/-! ## Smart wait estimate of a multi-queue candidate -/

/-- C6: for a candidate with at least two waiting entries and a queried entry
`e` (the candidate's entry at the queried position) whose base wait
`(rank-1) * averageInterviewTime` is not the base wait of any entry the
candidate holds at another position: if `e` is high priority, or `e` is
non-priority and some priority entry of the candidate has a base wait exceeding
the queried base wait plus the average interview time plus the buffer, then
`calculateSmartWaitTime` returns the base wait of `e`, does not call
`ResolveConflicts` and leaves the table as it is. -/
theorem calculateSmartWaitTime_fast_path (rows : Rows) (activity : ActivityControl)
    (now : Int) (positionID candidateID : Nat) (avgInterviewTime : Int) (e : QueueEntry)
    (htwo : 2 ≤ (candidateWaiting rows candidateID).length)
    (hq : (candidateWaiting rows candidateID).find?
      (fun entry => decide (entry.PositionID = positionID)) = some e)
    (hshare : ∀ o ∈ candidateWaiting rows candidateID, o.PositionID ≠ positionID →
      (getQueuePosition rows o.PositionID candidateID - 1) * avgInterviewTime ≠
        (getQueuePosition rows positionID candidateID - 1) * avgInterviewTime)
    (hcase : e.IsHighPriority = true ∨
      (e.IsHighPriority = false ∧ ∃ p ∈ candidateWaiting rows candidateID,
        p.IsHighPriority = true ∧
          (getQueuePosition rows positionID candidateID - 1) * avgInterviewTime +
              avgInterviewTime + activity.BufferTime <
            (getQueuePosition rows p.PositionID candidateID - 1) * avgInterviewTime)) :
    calculateSmartWaitTime rows activity now positionID candidateID avgInterviewTime =
      { wait := (getQueuePosition rows positionID candidateID - 1) * avgInterviewTime
        rows := rows
        resolved := none } := by
  rw [calculateSmartWaitTime_multi activity now positionID candidateID avgInterviewTime htwo hq]
  rw [if_pos]
  · rfl
  · refine ⟨hshare, ?_⟩
    rcases hcase with h | ⟨_, p, hp, hp1, hp2⟩
    · exact Or.inl h
    · exact Or.inr ⟨p, hp, hp1, le_of_lt hp2⟩

/-- Witness for C6: the regular entry of candidate 1 in the optimization table
(base wait 0, the priority entry has base wait 16 > 0 + 8 + 5). -/
theorem calculateSmartWaitTime_fast_path_witness :
    calculateSmartWaitTime optimizationTable seededActivity (20 * Minute) 20 1 8 =
      { wait := (getQueuePosition optimizationTable 20 1 - 1) * 8
        rows := optimizationTable
        resolved := none } :=
  calculateSmartWaitTime_fast_path optimizationTable seededActivity (20 * Minute) 20 1 8
    (waitingRow 4 1 20 false none (4 * Minute)) (by decide) (by decide) (by decide)
    (by decide)

/-- C7 fails as stated, at the boundary: with 5-minute interviews and a
5-minute buffer, candidate 1 of the optimization table holds a regular entry with
base wait 0 and a priority entry with base wait 10 = 0 + 5 + 5.  No priority
entry's base wait exceeds 0 + 5 + 5 and the queried regular entry is
non-priority, so the claim promises the conflict-resolved estimate (1433
minutes here); the service returns the base wait 0 and does not call
`ResolveConflicts`. -/
theorem calculateSmartWaitTime_boundary_takes_fast_path :
    (candidateWaiting optimizationTable 1).length = 2
      ∧ (candidateWaiting optimizationTable 1).find?
          (fun entry => decide (entry.PositionID = 20)) =
        some (waitingRow 4 1 20 false none (4 * Minute))
      ∧ (∀ p ∈ candidateWaiting optimizationTable 1, p.IsHighPriority = true →
          ¬ (baseWait optimizationTable 1 5 p.PositionID >
            baseWait optimizationTable 1 5 20 + 5 + boundaryActivity.BufferTime))
      ∧ calculateSmartWaitTime optimizationTable boundaryActivity (20 * Minute) 20 1 5 =
          { wait := 0, rows := optimizationTable, resolved := none }
      ∧ (calculateActualWaitTime optimizationTable boundaryActivity (20 * Minute) 20 1 5).wait
          = 1433
      ∧ calculateSmartWaitTime optimizationTable boundaryActivity (20 * Minute) 20 1 5 ≠
          calculateActualWaitTime optimizationTable boundaryActivity (20 * Minute) 20 1 5 := by
  decide

/-- C7, amended: for a candidate with at least two waiting entries and queried
entry `e`, whenever another position's entry of the candidate shares the base
wait of `e`, or `e` is non-priority and no priority entry of the candidate has a
base wait of at least the queried base wait plus the average interview time
plus the buffer, `calculateSmartWaitTime` returns the conflict-resolved
estimate: it runs `ResolveConflicts` for the candidate and then returns
`max(0, estimatedStart - now)` in whole minutes if the row of the queried entry
then has an estimated start time, and `(rank-1) * averageInterviewTime`
otherwise. -/
theorem calculateSmartWaitTime_fallback (rows : Rows) (activity : ActivityControl)
    (now : Int) (positionID candidateID : Nat) (avgInterviewTime : Int) (e : QueueEntry)
    (hid : (rows.map (fun e => e.ID)).Nodup)
    (htwo : 2 ≤ (candidateWaiting rows candidateID).length)
    (hq : (candidateWaiting rows candidateID).find?
      (fun entry => decide (entry.PositionID = positionID)) = some e)
    (hfall : (∃ o ∈ candidateWaiting rows candidateID, o.PositionID ≠ positionID ∧
        (getQueuePosition rows o.PositionID candidateID - 1) * avgInterviewTime =
          (getQueuePosition rows positionID candidateID - 1) * avgInterviewTime)
      ∨ (e.IsHighPriority = false ∧ ∀ p ∈ candidateWaiting rows candidateID,
          p.IsHighPriority = true →
            (getQueuePosition rows p.PositionID candidateID - 1) * avgInterviewTime <
              (getQueuePosition rows positionID candidateID - 1) * avgInterviewTime +
                avgInterviewTime + activity.BufferTime)) :
    calculateSmartWaitTime rows activity now positionID candidateID avgInterviewTime =
        calculateActualWaitTime rows activity now positionID candidateID avgInterviewTime
      ∧ (calculateSmartWaitTime rows activity now positionID candidateID
          avgInterviewTime).rows = (ResolveConflicts rows activity now candidateID).2.2
      ∧ (calculateSmartWaitTime rows activity now positionID candidateID
          avgInterviewTime).resolved =
        some ((ResolveConflicts rows activity now candidateID).1,
          (ResolveConflicts rows activity now candidateID).2.1)
      ∧ ∃ e1, (candidateWaiting (ResolveConflicts rows activity now candidateID).2.2
            candidateID).find? (fun entry => decide (entry.PositionID = positionID)) = some e1
          ∧ e1.ID = e.ID
          ∧ (calculateSmartWaitTime rows activity now positionID candidateID
              avgInterviewTime).wait =
            match e1.EstimatedTime with
            | some t => max 0 (wholeMinutes (t - now))
            | none => (getQueuePosition rows positionID candidateID - 1) * avgInterviewTime := by
  have hsmart : calculateSmartWaitTime rows activity now positionID candidateID
      avgInterviewTime =
      calculateActualWaitTime rows activity now positionID candidateID avgInterviewTime := by
    rw [calculateSmartWaitTime_multi activity now positionID candidateID avgInterviewTime
      htwo hq]
    rw [if_neg]
    rintro ⟨hall, hor⟩
    rcases hfall with ⟨o, ho, hne, hEq⟩ | ⟨hnp, hno⟩
    · exact hall o ho hne hEq
    · rcases hor with h | ⟨p, hp, hp1, hp2⟩
      · rw [hnp] at h; cases h
      · have := hno p hp hp1
        unfold baseWait at hp2
        omega
  have hval := calculateActualWaitTime_value hid activity now positionID candidateID
    avgInterviewTime htwo hq
  rw [hsmart, hval.2]
  exact ⟨rfl, rfl, rfl, _, hval.1, core_ID (core_resolvedRow _ _ e), rfl⟩

/-- Witness for the amended C7: candidate 1 of the example table holds two
non-priority entries; the estimate for position 10 is conflict-resolved. -/
theorem calculateSmartWaitTime_fallback_witness :
    (calculateSmartWaitTime exampleTable seededActivity (20 * Minute) 10 1 8).rows =
        (ResolveConflicts exampleTable seededActivity (20 * Minute) 1).2.2
      ∧ (calculateSmartWaitTime exampleTable seededActivity (20 * Minute) 10 1 8).resolved =
        some ((ResolveConflicts exampleTable seededActivity (20 * Minute) 1).1,
          (ResolveConflicts exampleTable seededActivity (20 * Minute) 1).2.1) :=
  ⟨(calculateSmartWaitTime_fallback exampleTable seededActivity (20 * Minute) 10 1 8
      (waitingRow 1 1 10 false none (5 * Minute)) (by decide) (by decide) (by decide)
      (Or.inr (by decide))).2.1,
    (calculateSmartWaitTime_fallback exampleTable seededActivity (20 * Minute) 10 1 8
      (waitingRow 1 1 10 false none (5 * Minute)) (by decide) (by decide) (by decide)
      (Or.inr (by decide))).2.2.1⟩

/-! ## Optimization advisor -/

/-- C8: `CheckQueueOptimization` returns a suggestion if and only if the
candidate has at least two waiting entries and among them a high-priority entry
`P` with smart-estimated wait `> 0` and a non-priority entry `R` with
smart-estimated wait `0`; the suggestion names such a pair, `P` as priority
position and `R` as regular position, and its `time_saved` is the smart wait of
`P`; a candidate with no priority entry gets no suggestion.  On the
optimization table (`P` priority at rank 3, `R` regular at rank 1, 8-minute
interviews, 5-minute buffer) the suggestion has time saved 16. -/
theorem CheckQueueOptimization_suggests_iff (rows : Rows) (activity : ActivityControl)
    (now : Int) (candidateID : Nat) (hid : (rows.map (fun e => e.ID)).Nodup) :
    ((CheckQueueOptimization rows activity now candidateID).1 = true ↔
        2 ≤ (candidateWaiting rows candidateID).length
        ∧ ∃ P ∈ candidateWaiting rows candidateID, ∃ R ∈ candidateWaiting rows candidateID,
          P.IsHighPriority = true ∧ R.IsHighPriority = false
          ∧ (calculateSmartWaitTime rows activity now P.PositionID candidateID
              activity.AverageInterviewTime).wait > 0
          ∧ (calculateSmartWaitTime rows activity now R.PositionID candidateID
              activity.AverageInterviewTime).wait = 0)
      ∧ ((CheckQueueOptimization rows activity now candidateID).1 = true ↔
          (CheckQueueOptimization rows activity now candidateID).2.1 ≠ none)
      ∧ (∀ s, (CheckQueueOptimization rows activity now candidateID).2.1 = some s →
          ∃ P ∈ candidateWaiting rows candidateID, ∃ R ∈ candidateWaiting rows candidateID,
            P.IsHighPriority = true ∧ R.IsHighPriority = false
            ∧ (calculateSmartWaitTime rows activity now P.PositionID candidateID
                activity.AverageInterviewTime).wait > 0
            ∧ (calculateSmartWaitTime rows activity now R.PositionID candidateID
                activity.AverageInterviewTime).wait = 0
            ∧ s.priorityPositionID = P.PositionID ∧ s.regularPositionID = R.PositionID
            ∧ s.timeSaved = (calculateSmartWaitTime rows activity now P.PositionID candidateID
                activity.AverageInterviewTime).wait)
      ∧ ((∀ e ∈ candidateWaiting rows candidateID, e.IsHighPriority = false) →
          (CheckQueueOptimization rows activity now candidateID).1 = false
          ∧ (CheckQueueOptimization rows activity now candidateID).2.1 = none)
      ∧ CheckQueueOptimization optimizationTable seededActivity (20 * Minute) 1 =
          (true,
            some { priorityPositionID := 10, priorityWaitTime := 16, regularPositionID := 20,
                   regularWaitTime := 0, timeSaved := 16 },
            optimizationTable) := by
  have hcases := (CheckQueueOptimization_cases hid activity now candidateID).1
  refine ⟨?_, ?_, ?_, ?_, by decide⟩
  · constructor
    · intro h
      rcases hcases with ⟨P, hP, R, hR, hPp, hRp, hP0, hR0, _, _⟩ | ⟨hf, _, _⟩
      · have hne : P ≠ R := by
          intro hEq
          rw [hEq, hRp] at hPp
          cases hPp
        exact ⟨two_le_length_of_mem hP hR hne, P, hP, R, hR, hPp, hRp, hP0, hR0⟩
      · rw [hf] at h; cases h
    · rintro ⟨h2, P, hP, R, hR, hPp, hRp, hP0, hR0⟩
      rcases hcases with ⟨_, _, _, _, _, _, _, _, ht, _⟩ | ⟨_, _, hl | hno⟩
      · exact ht
      · omega
      · exact absurd ⟨hR0, hP0⟩ (hno P hP hPp R hR hRp)
  · constructor
    · intro h
      rcases hcases with ⟨_, _, _, _, _, _, _, _, _, hs⟩ | ⟨hf, _, _⟩
      · rw [hs]; simp
      · rw [hf] at h; cases h
    · intro h
      rcases hcases with ⟨_, _, _, _, _, _, _, _, ht, _⟩ | ⟨_, hn, _⟩
      · exact ht
      · exact absurd hn h
  · intro s hs
    rcases hcases with ⟨P, hP, R, hR, hPp, hRp, hP0, hR0, _, hsug⟩ | ⟨_, hn, _⟩
    · rw [hsug] at hs
      simp only [Option.some.injEq] at hs
      subst hs
      exact ⟨P, hP, R, hR, hPp, hRp, hP0, hR0, rfl, rfl, rfl⟩
    · rw [hn] at hs; cases hs
  · intro hall
    rcases hcases with ⟨P, hP, _, _, hPp, _⟩ | ⟨hf, hn, _⟩
    · rw [hall P hP] at hPp; cases hPp
    · exact ⟨hf, hn⟩

/-- Witness for C8 on the optimization table. -/
theorem CheckQueueOptimization_suggests_iff_witness :
    (CheckQueueOptimization optimizationTable seededActivity (20 * Minute) 1).1 = true ↔
        2 ≤ (candidateWaiting optimizationTable 1).length
        ∧ ∃ P ∈ candidateWaiting optimizationTable 1, ∃ R ∈ candidateWaiting optimizationTable 1,
          P.IsHighPriority = true ∧ R.IsHighPriority = false
          ∧ (calculateSmartWaitTime optimizationTable seededActivity (20 * Minute) P.PositionID 1
              seededActivity.AverageInterviewTime).wait > 0
          ∧ (calculateSmartWaitTime optimizationTable seededActivity (20 * Minute) R.PositionID 1
              seededActivity.AverageInterviewTime).wait = 0 :=
  (CheckQueueOptimization_suggests_iff optimizationTable seededActivity (20 * Minute) 1
    (by decide)).1

/-- C9, the code at a failing input: in the swap table candidate 1's regular
entry (row 4) joined position 20 at minute 1 and is first there, ahead of
candidate 4 who joined at minute 50; its priority entry (row 3) joined position
10 at minute 100 and waits 16 minutes.  `CheckQueueOptimization` suggests exactly
this pair and leaves the table as it is, and `ApplyQueueOptimization` for the
pair succeeds; the regular entry gets the join time of the priority entry
(minute 100) and the rank recomputation puts it second at position 20, behind
candidate 4: the entry that was first in its position before the swap is second
after it. -/
theorem ApplyQueueOptimization_suggested_swap_demotes_regular :
    CheckQueueOptimization swapTable seededActivity (200 * Minute) 1 =
        (true,
          some { priorityPositionID := 10, priorityWaitTime := 16, regularPositionID := 20,
                 regularWaitTime := 0, timeSaved := 16 },
          swapTable)
      ∧ getQueuePosition swapTable 20 1 = 1
      ∧ (ApplyQueueOptimization swapTable seededActivity (200 * Minute) 1 20 10).1 = none
      ∧ (ApplyQueueOptimization swapTable seededActivity (200 * Minute) 1 20 10).2.map
          (fun e => (e.ID, e.CandidateID, e.PositionID, e.QueuePosition, e.JoinTime)) =
        [(1, 2, 10, 1, 50 * Minute), (2, 3, 10, 2, 60 * Minute), (3, 1, 10, 3, 14 * Minute),
          (4, 1, 20, 2, 100 * Minute), (5, 4, 20, 1, 50 * Minute)]
      ∧ getQueuePosition
          (ApplyQueueOptimization swapTable seededActivity (200 * Minute) 1 20 10).2
          20 1 = 2 := by
  decide

/-- C10, the code at a failing input: in the swap table candidate 1 joined the
regular position 20 at minute 1 and the priority position 10 at minute 100.
`ApplyQueueOptimization` succeeds and leaves the regular entry (row 4) with join
time minute 100 and the priority entry (row 3) with join time minute
1 + 8 + 5 = 14: the priority entry's time is not at least the regular entry's
time after the swap plus 13 minutes, it is even earlier than the regular
entry's. -/
theorem ApplyQueueOptimization_swap_when_regular_joined_first :
    (ApplyQueueOptimization swapTable seededActivity (200 * Minute) 1 20 10).1 = none
      ∧ (ApplyQueueOptimization swapTable seededActivity (200 * Minute) 1 20 10).2.map
          (fun e => (e.ID, e.JoinTime)) =
        [(1, 50 * Minute), (2, 60 * Minute), (3, 14 * Minute), (4, 100 * Minute),
          (5, 50 * Minute)]
      ∧ ¬ (14 * Minute ≥ 100 * Minute +
          (seededActivity.AverageInterviewTime + seededActivity.BufferTime) * Minute)
      ∧ (14 : Int) * Minute < 100 * Minute := by
  decide

/-- C11: on success, `ApplyQueueOptimization` leaves the regular entry with the
join time the priority entry had before the call and the priority entry with
the join time the regular entry had before the call plus
`averageInterviewTime + bufferTime` minutes; every other row keeps its join
time.  (`R` and `P` are the two entries as the call finds them; the table has
distinct primary keys.) -/
theorem ApplyQueueOptimization_join_times (rows : Rows) (activity : ActivityControl)
    (now : Int) (candidateID regularPositionID priorityPositionID : Nat) (R P : QueueEntry)
    (hid : (rows.map (fun e => e.ID)).Nodup)
    (hR : findWaiting rows candidateID regularPositionID = some R)
    (hP : findWaiting rows candidateID priorityPositionID = some P)
    (hok : (ApplyQueueOptimization rows activity now candidateID regularPositionID
      priorityPositionID).1 = none) :
    (∃ r ∈ (ApplyQueueOptimization rows activity now candidateID regularPositionID
          priorityPositionID).2, r.ID = R.ID ∧ r.JoinTime = P.JoinTime)
      ∧ (∃ r ∈ (ApplyQueueOptimization rows activity now candidateID regularPositionID
          priorityPositionID).2, r.ID = P.ID ∧
          r.JoinTime = R.JoinTime +
            (activity.AverageInterviewTime + activity.BufferTime) * Minute)
      ∧ (∀ r ∈ (ApplyQueueOptimization rows activity now candidateID regularPositionID
          priorityPositionID).2, r.ID ≠ R.ID → r.ID ≠ P.ID →
          ∃ r0 ∈ rows, r0.ID = r.ID ∧ r0.JoinTime = r.JoinTime)
      ∧ ((ApplyQueueOptimization rows activity now candidateID regularPositionID
          priorityPositionID).2.map (fun e => e.ID)).Nodup := by
  have hne := ApplyQueueOptimization_positions_differ hid hR hP hok
  have hRm := findWaiting_some hR
  have hPm := findWaiting_some hP
  have hIDne : R.ID ≠ P.ID := by
    intro h
    have : R = P := eq_of_ID_eq hid hRm.1 hPm.1 h
    rw [this, hPm.2.2.1] at hRm
    exact hne hRm.2.2.1.symm
  have h2 := smartTwice_map_core hid activity now regularPositionID priorityPositionID
    candidateID
  have h3 := ApplyQueueOptimization_rows3_skeleton hid h2 hRm.1 hPm.1 P.JoinTime
    (R.JoinTime + (activity.AverageInterviewTime + activity.BufferTime) * Minute)
  have hid3 := nodup_of_map_proj skeleton_ID_fun h3 hid
  have h4 := updateQueuePositions_map_core hid3 regularPositionID
  have hid4 := nodup_of_map_proj core_ID_fun h4 hid3
  have h5 := updateQueuePositions_map_core hid4 priorityPositionID
  have hid5 := nodup_of_map_proj core_ID_fun h5 hid4
  have h45 := h5.trans h4
  rw [(ApplyQueueOptimization_success hR hP hok).2.2]
  obtain ⟨hRmem, hPmem⟩ := ApplyQueueOptimization_rows3_mem h2 hRm.1 hPm.1 hIDne P.JoinTime
    (R.JoinTime + (activity.AverageInterviewTime + activity.BufferTime) * Minute)
  refine ⟨?_, ?_, ?_, hid5⟩
  · obtain ⟨r, hr, hc⟩ := mem_of_map_proj_rev h45 hRmem
    exact ⟨r, hr, (core_ID hc :),
      (core_JoinTime hc :)⟩
  · obtain ⟨r, hr, hc⟩ := mem_of_map_proj_rev h45 hPmem
    exact ⟨r, hr, (core_ID hc :),
      (core_JoinTime hc :)⟩
  · intro r hr hnR hnP
    obtain ⟨x, hx, hc⟩ := mem_of_map_proj h45 hr
    rcases mem_save hx with h | ⟨h, _⟩
    · exfalso
      rw [h] at hc
      exact hnP ((core_ID hc :))
    · rcases mem_save h with h1 | ⟨h1, _⟩
      · exfalso
        rw [h1] at hc
        exact hnR ((core_ID hc :))
      · obtain ⟨r0, hr0, hc0⟩ := mem_of_map_proj h2 h1
        exact ⟨r0, hr0, (core_ID (hc.trans hc0)).symm, (core_JoinTime (hc.trans hc0)).symm⟩

/-- Witness for C11: the swap in the optimization table. -/
theorem ApplyQueueOptimization_join_times_witness :
    (ApplyQueueOptimization optimizationTable seededActivity (200 * Minute) 1 20 10).1 = none
      ∧ (∃ r ∈ (ApplyQueueOptimization optimizationTable seededActivity (200 * Minute)
          1 20 10).2, r.ID = 4 ∧ r.JoinTime = 3 * Minute)
      ∧ (∃ r ∈ (ApplyQueueOptimization optimizationTable seededActivity (200 * Minute)
          1 20 10).2, r.ID = 3 ∧ r.JoinTime = 4 * Minute + (8 + 5) * Minute) :=
  ⟨by decide,
    (ApplyQueueOptimization_join_times optimizationTable seededActivity (200 * Minute) 1 20 10
      (waitingRow 4 1 20 false none (4 * Minute))
      (waitingRow 3 1 10 true (some (3 * Minute)) (3 * Minute))
      (by decide) (by decide) (by decide) (by decide)).1,
    (ApplyQueueOptimization_join_times optimizationTable seededActivity (200 * Minute) 1 20 10
      (waitingRow 4 1 20 false none (4 * Minute))
      (waitingRow 3 1 10 true (some (3 * Minute)) (3 * Minute))
      (by decide) (by decide) (by decide) (by decide)).2.1⟩

/-- C12: `ApplyQueueOptimization` answers `optimization not beneficial` whenever
both designated entries exist as waiting entries, the designated priority entry
is high priority and the smart-estimated wait of the regular entry is not
strictly less than that of the priority entry; whenever the call is rejected,
for any reason, every row keeps its join time; and a call that names the same
position as regular and as priority is never accepted. -/
theorem ApplyQueueOptimization_rejections (rows : Rows) (activity : ActivityControl)
    (now : Int) (candidateID regularPositionID priorityPositionID : Nat)
    (hid : (rows.map (fun e => e.ID)).Nodup) :
    (∀ R P, findWaiting rows candidateID regularPositionID = some R →
        findWaiting rows candidateID priorityPositionID = some P →
        P.IsHighPriority = true →
        ¬ ((calculateSmartWaitTime rows activity now regularPositionID candidateID
              activity.AverageInterviewTime).wait <
            (calculateSmartWaitTime rows activity now priorityPositionID candidateID
              activity.AverageInterviewTime).wait) →
        (ApplyQueueOptimization rows activity now candidateID regularPositionID
          priorityPositionID).1 = some OptimizationError.notBeneficial)
      ∧ ((ApplyQueueOptimization rows activity now candidateID regularPositionID
            priorityPositionID).1 ≠ none →
          (ApplyQueueOptimization rows activity now candidateID regularPositionID
            priorityPositionID).2.map (fun e => (e.ID, e.JoinTime)) =
          rows.map (fun e => (e.ID, e.JoinTime)))
      ∧ (ApplyQueueOptimization rows activity now candidateID regularPositionID
          regularPositionID).1 ≠ none := by
  refine ⟨?_, ?_, ?_⟩
  · intro R P hR hP hp hw
    apply ApplyQueueOptimization_not_beneficial hR hP hp
    have hPm := findWaiting_some hP
    have hcw : P ∈ candidateWaiting rows candidateID :=
      mem_candidateWaiting.mpr ⟨hPm.1, hPm.2.1, hPm.2.2.2⟩
    have := smartTwice_wait hid activity now regularPositionID candidateID hcw
    rw [hPm.2.2.1] at this
    rw [this]
    omega
  · intro herr
    have h := ApplyQueueOptimization_rejected_core hid herr
    have h1 : ∀ l : Rows, l.map (fun e => (e.ID, e.JoinTime)) =
        (l.map core).map (fun e => (e.ID, e.JoinTime)) := by
      intro l
      rw [List.map_map]
      rfl
    rw [h1, h, ← h1]
  · intro hok
    obtain ⟨R, P, hR, hP⟩ := ApplyQueueOptimization_found hok
    exact ApplyQueueOptimization_positions_differ hid hR hP hok rfl

/-- Witness for C12: in the optimization table, naming position 10 (where
candidate 1 holds a priority entry, wait 16) both as regular and as priority
is answered `optimization not beneficial` and changes no join time. -/
theorem ApplyQueueOptimization_rejections_witness :
    (ApplyQueueOptimization optimizationTable seededActivity (200 * Minute) 1 10 10).1 =
        some OptimizationError.notBeneficial
      ∧ (ApplyQueueOptimization optimizationTable seededActivity (200 * Minute) 1 10 10).2.map
          (fun e => (e.ID, e.JoinTime)) =
        optimizationTable.map (fun e => (e.ID, e.JoinTime))
      ∧ (ApplyQueueOptimization optimizationTable seededActivity (200 * Minute) 1 10 10).1 ≠
        none :=
  ⟨(ApplyQueueOptimization_rejections optimizationTable seededActivity (200 * Minute) 1 10 10
      (by decide)).1
      (waitingRow 3 1 10 true (some (3 * Minute)) (3 * Minute))
      (waitingRow 3 1 10 true (some (3 * Minute)) (3 * Minute))
      (by decide) (by decide) (by decide) (by decide),
    (ApplyQueueOptimization_rejections optimizationTable seededActivity (200 * Minute) 1 10 10
      (by decide)).2.1 (by decide),
    (ApplyQueueOptimization_rejections optimizationTable seededActivity (200 * Minute) 1 10 10
      (by decide)).2.2⟩

/-- C13: `ApplyQueueOptimization` leaves priority status and identity untouched:
whether it succeeds or fails, every row has afterwards the high-priority flag,
priority-set time, status, candidate and position it had before. -/
theorem ApplyQueueOptimization_keeps_identity (rows : Rows) (activity : ActivityControl)
    (now : Int) (candidateID regularPositionID priorityPositionID : Nat)
    (hid : (rows.map (fun e => e.ID)).Nodup) :
    (ApplyQueueOptimization rows activity now candidateID regularPositionID
        priorityPositionID).2.map
        (fun e => (e.ID, e.IsHighPriority, e.PrioritySetTime, e.Status, e.CandidateID,
          e.PositionID)) =
      rows.map (fun e => (e.ID, e.IsHighPriority, e.PrioritySetTime, e.Status, e.CandidateID,
        e.PositionID)) := by
  have h := ApplyQueueOptimization_map_skeleton hid activity now candidateID
    regularPositionID priorityPositionID
  have h1 : ∀ l : Rows, l.map
      (fun e => (e.ID, e.IsHighPriority, e.PrioritySetTime, e.Status, e.CandidateID,
        e.PositionID)) =
      (l.map skeleton).map
        (fun e => (e.ID, e.IsHighPriority, e.PrioritySetTime, e.Status, e.CandidateID,
          e.PositionID)) := by
    intro l
    rw [List.map_map]
    rfl
  rw [h1, h, ← h1]

/-- Witness for C13: the successful swap in the optimization table. -/
theorem ApplyQueueOptimization_keeps_identity_witness :
    (ApplyQueueOptimization optimizationTable seededActivity (200 * Minute) 1 20 10).2.map
        (fun e => (e.ID, e.IsHighPriority, e.PrioritySetTime, e.Status, e.CandidateID,
          e.PositionID)) =
      optimizationTable.map (fun e => (e.ID, e.IsHighPriority, e.PrioritySetTime, e.Status,
        e.CandidateID, e.PositionID)) :=
  ApplyQueueOptimization_keeps_identity optimizationTable seededActivity (200 * Minute) 1 20 10
    (by decide)

/-! ## Jump-ahead -/

/-- C14, the code at a failing input: in the ranked table (the ranks are the
ones `updateQueuePositions` stores) candidate 1 is third at position 10.
`ProcessJumpAhead` finds the insertion point behind the first entry (saving
16 >= 13), writes rank 2, reports success and consumes the jump; the rank
recomputation it then runs orders the rows by priority and join time again, so
the stored rank of the candidate is 3 afterwards and `getQueuePosition` answers
3 as before: the rank did not get smaller. -/
theorem ProcessJumpAhead_success_keeps_rank :
    rankedTable = updateQueuePositions (updateQueuePositions exampleTable 10) 20
      ∧ getQueuePosition rankedTable 10 1 = 3
      ∧ (ProcessJumpAhead rankedTable seededActivity 1 10).1 = true
      ∧ (ProcessJumpAhead rankedTable seededActivity 1 10).2.1 = JumpMessage.successful
      ∧ getQueuePosition (ProcessJumpAhead rankedTable seededActivity 1 10).2.2 10 1 = 3
      ∧ (ProcessJumpAhead rankedTable seededActivity 1 10).2.2.map
          (fun e => (e.ID, e.QueuePosition, e.JumpAheadUsed)) =
        [(1, 3, true), (2, 1, false), (3, 2, false), (4, 1, false)] := by
  decide

/-- C15: whenever `ProcessJumpAhead` applies a jump there is a waiting entry `t`
of the position, of stored rank below the candidate's rank, behind which the
candidate is inserted (the rank written is `t.QueuePosition + 1`), and the time
saved relative to it, `(currentRank - t.QueuePosition) * averageInterviewTime`,
is at least `averageInterviewTime + bufferTime`; when the saving is below that
threshold for every waiting entry ahead, no jump is applied and the table stays
as it was. -/
theorem ProcessJumpAhead_saving (rows : Rows) (activity : ActivityControl)
    (candidateID positionID : Nat) :
    ((ProcessJumpAhead rows activity candidateID positionID).1 = true →
        ∃ entry t, findWaiting rows candidateID positionID = some entry
          ∧ t ∈ rows ∧ t.PositionID = positionID ∧ t.Status = EntryStatus.waiting
          ∧ t.QueuePosition < getQueuePosition rows positionID candidateID
          ∧ (getQueuePosition rows positionID candidateID - t.QueuePosition) *
              activity.AverageInterviewTime ≥
            activity.AverageInterviewTime + activity.BufferTime
          ∧ (ProcessJumpAhead rows activity candidateID positionID).2.2 =
            updateQueuePositions (save rows { entry with
              QueuePosition := t.QueuePosition + 1, JumpAheadUsed := true }) positionID)
      ∧ ((∀ t ∈ rows, t.PositionID = positionID → t.Status = EntryStatus.waiting →
            t.QueuePosition < getQueuePosition rows positionID candidateID →
            (getQueuePosition rows positionID candidateID - t.QueuePosition) *
                activity.AverageInterviewTime <
              activity.AverageInterviewTime + activity.BufferTime) →
          (ProcessJumpAhead rows activity candidateID positionID).1 = false
            ∧ (ProcessJumpAhead rows activity candidateID positionID).2.2 = rows) := by
  constructor
  · intro hok
    obtain ⟨entry, hf, _, _, hpos, _, hres⟩ := ProcessJumpAhead_success hok
    rcases findBetterPos_cases activity (getQueuePosition rows positionID candidateID)
        (activity.AverageInterviewTime + activity.BufferTime)
        (entriesAhead rows positionID (getQueuePosition rows positionID candidateID))
      with h0 | ⟨t, ht, h1, h2⟩
    · rw [h0] at hpos
      exact absurd hpos (lt_irrefl 0)
    · have hm := mem_entriesAhead.mp ht
      refine ⟨entry, t, hf, hm.1, hm.2.1, hm.2.2.1, hm.2.2.2, h2, ?_⟩
      rw [hres, h1]
  · intro hall
    have hnone := findBetterPos_none activity (getQueuePosition rows positionID candidateID)
      (activity.AverageInterviewTime + activity.BufferTime)
      (entriesAhead rows positionID (getQueuePosition rows positionID candidateID))
      (fun t ht => by
        have hm := mem_entriesAhead.mp ht
        exact hall t hm.1 hm.2.1 hm.2.2.1 hm.2.2.2)
    have hno : (ProcessJumpAhead rows activity candidateID positionID).1 = false := by
      cases hok : (ProcessJumpAhead rows activity candidateID positionID).1 with
      | false => rfl
      | true =>
        obtain ⟨_, _, _, _, hpos, _, _⟩ := ProcessJumpAhead_success hok
        rw [hnone] at hpos
        exact absurd hpos (lt_irrefl 0)
    exact ⟨hno, ProcessJumpAhead_failure hno⟩

/-- Witness for C15: candidate 1, third at position 10 of the ranked table, is
granted a jump (saving 16 against the entry of rank 1); candidate 3, second
there, is not (saving 8 against the threshold 13). -/
theorem ProcessJumpAhead_saving_witness :
    (∃ entry t, findWaiting rankedTable 1 10 = some entry
        ∧ t ∈ rankedTable ∧ t.PositionID = 10 ∧ t.Status = EntryStatus.waiting
        ∧ t.QueuePosition < getQueuePosition rankedTable 10 1
        ∧ (getQueuePosition rankedTable 10 1 - t.QueuePosition) *
            seededActivity.AverageInterviewTime ≥
          seededActivity.AverageInterviewTime + seededActivity.BufferTime
        ∧ (ProcessJumpAhead rankedTable seededActivity 1 10).2.2 =
          updateQueuePositions (save rankedTable { entry with
            QueuePosition := t.QueuePosition + 1, JumpAheadUsed := true }) 10)
      ∧ ((ProcessJumpAhead rankedTable seededActivity 3 10).1 = false
        ∧ (ProcessJumpAhead rankedTable seededActivity 3 10).2.2 = rankedTable) :=
  ⟨(ProcessJumpAhead_saving rankedTable seededActivity 1 10).1 (by decide),
    (ProcessJumpAhead_saving rankedTable seededActivity 3 10).2 (by decide)⟩

/-- C16: jump-ahead is one-time per entry.  On a waiting entry whose
jump-ahead-used flag is set `ProcessJumpAhead` answers
`(false, Jump ahead already used)` and leaves the table as it was; a successful
jump leaves the flag set on the row of the entry it loaded; no request of the
service clears a set flag; so after a successful jump, whatever requests follow,
every `ProcessJumpAhead` call that loads the same entry (same primary key, still
waiting) answers already-used and changes nothing.  (Tables with distinct
primary keys.) -/
theorem ProcessJumpAhead_one_time (rows : Rows) (activity : ActivityControl)
    (candidateID positionID : Nat) (hid : (rows.map (fun e => e.ID)).Nodup) :
    (∀ entry, findWaiting rows candidateID positionID = some entry →
        entry.JumpAheadUsed = true →
        ProcessJumpAhead rows activity candidateID positionID =
          (false, JumpMessage.alreadyUsed, rows))
      ∧ ((ProcessJumpAhead rows activity candidateID positionID).1 = true →
          ∃ entry, findWaiting rows candidateID positionID = some entry
            ∧ (∃ r ∈ (ProcessJumpAhead rows activity candidateID positionID).2.2,
                r.ID = entry.ID ∧ r.JumpAheadUsed = true)
            ∧ ∀ (ops : List Operation) (activity2 : ActivityControl) (entry2 : QueueEntry),
                findWaiting (run (ProcessJumpAhead rows activity candidateID positionID).2.2 ops)
                  candidateID positionID = some entry2 →
                entry2.ID = entry.ID →
                ProcessJumpAhead
                    (run (ProcessJumpAhead rows activity candidateID positionID).2.2 ops)
                    activity2 candidateID positionID =
                  (false, JumpMessage.alreadyUsed,
                    run (ProcessJumpAhead rows activity candidateID positionID).2.2 ops))
      ∧ (∀ (ops : List Operation), ∀ a ∈ rows, a.JumpAheadUsed = true →
          ∃ b ∈ run rows ops, b.ID = a.ID ∧ b.JumpAheadUsed = true) := by
  refine ⟨?_, ?_, ?_⟩
  · intro entry hf hj
    exact ProcessJumpAhead_used activity hf hj
  · intro hok
    obtain ⟨entry, hf, _, _, _, _, hres⟩ := ProcessJumpAhead_success hok
    have hadv : Advances rows (ProcessJumpAhead rows activity candidateID positionID).2.2 :=
      step_advances hid (Operation.processJumpAhead activity candidateID positionID)
    have hmem : ∃ r ∈ (ProcessJumpAhead rows activity candidateID positionID).2.2,
        r.ID = entry.ID ∧ r.JumpAheadUsed = true := by
      rw [hres]
      have hid1 : ((save rows { entry with
          QueuePosition := findBetterPos activity
            (getQueuePosition rows positionID candidateID)
            (activity.AverageInterviewTime + activity.BufferTime)
            (entriesAhead rows positionID (getQueuePosition rows positionID candidateID)),
          JumpAheadUsed := true }).map (fun e => e.ID)).Nodup := by
        rw [save_map_ID]; exact hid
      obtain ⟨r, hr, hc⟩ := mem_of_map_proj_rev
        (updateQueuePositions_map_core hid1 positionID)
        (mem_save_self (findWaiting_some hf).1 rfl)
      exact ⟨r, hr, (core_ID hc :), (core_JumpAheadUsed hc :)⟩
    refine ⟨entry, hf, hmem, ?_⟩
    intro ops activity2 entry2 hf2 hid2
    obtain ⟨r, hr, hrid, hrj⟩ := hmem
    have hrun := run_advances ops hadv.1
    obtain ⟨b, hb, hev⟩ := hrun.2.1 r hr
    have hbe : b = entry2 :=
      eq_of_ID_eq hrun.1 hb (findWaiting_some hf2).1 (hev.1.trans (hrid.trans hid2.symm))
    apply ProcessJumpAhead_used activity2 hf2
    rw [← hbe]
    exact hev.2.2.2.2 hrj
  · intro ops a ha hj
    obtain ⟨b, hb, hev⟩ := (run_advances ops hid).2.1 a ha
    exact ⟨b, hb, hev.1, hev.2.2.2.2 hj⟩

/-- Witness for C16: candidate 1 jumps at position 10 of the ranked table; after
candidate 4 joined the position and candidate 1 asked for a delay, a second
jump request of candidate 1 is answered already-used. -/
theorem ProcessJumpAhead_one_time_witness :
    ∃ entry, findWaiting rankedTable 1 10 = some entry
      ∧ (∃ r ∈ (ProcessJumpAhead rankedTable seededActivity 1 10).2.2,
          r.ID = entry.ID ∧ r.JumpAheadUsed = true)
      ∧ ∀ (ops : List Operation) (activity2 : ActivityControl) (entry2 : QueueEntry),
          findWaiting (run (ProcessJumpAhead rankedTable seededActivity 1 10).2.2 ops)
            1 10 = some entry2 →
          entry2.ID = entry.ID →
          ProcessJumpAhead (run (ProcessJumpAhead rankedTable seededActivity 1 10).2.2 ops)
              activity2 1 10 =
            (false, JumpMessage.alreadyUsed,
              run (ProcessJumpAhead rankedTable seededActivity 1 10).2.2 ops) :=
  (ProcessJumpAhead_one_time rankedTable seededActivity 1 10 (by decide)).2.1 (by decide)

/-- C30: exact applicability of jump-ahead.  On a table with distinct primary
keys where the stored ranks of the position are the ranks of the ordering rule
(a rank recomputation would change nothing), with `averageInterviewTime > 0` and
`bufferTime > 0`, for a candidate whose waiting entry at the position has its
jump-ahead unused and whose rank there is `r` (`getQueuePosition`, which is the
stored rank of the entry when the candidate has no second waiting row there):
`ProcessJumpAhead` reports success iff `r >= 2` and
`(r - 1) * averageInterviewTime >= averageInterviewTime + bufferTime`; when it
reports failure the table is exactly as it was (flag, ranks, join times). -/
theorem ProcessJumpAhead_exact (rows : Rows) (activity : ActivityControl)
    (candidateID positionID : Nat) (entry : QueueEntry)
    (hid : (rows.map (fun e => e.ID)).Nodup)
    (hranks : updateQueuePositions rows positionID = rows)
    (havg : 0 < activity.AverageInterviewTime) (hbuf : 0 < activity.BufferTime)
    (hf : findWaiting rows candidateID positionID = some entry)
    (hj : entry.JumpAheadUsed = false) :
    ((ProcessJumpAhead rows activity candidateID positionID).1 = true ↔
        2 ≤ getQueuePosition rows positionID candidateID ∧
          (getQueuePosition rows positionID candidateID - 1) * activity.AverageInterviewTime ≥
            activity.AverageInterviewTime + activity.BufferTime)
      ∧ ((ProcessJumpAhead rows activity candidateID positionID).1 = false →
          (ProcessJumpAhead rows activity candidateID positionID).2.2 = rows)
      ∧ ((∀ x ∈ rows, x.CandidateID = candidateID → x.PositionID = positionID →
            x.Status = EntryStatus.waiting → x = entry) →
          getQueuePosition rows positionID candidateID = entry.QueuePosition) := by
  have hr : Ranked rows positionID := (ranked_iff hid positionID).mp hranks
  refine ⟨ProcessJumpAhead_iff hr havg hbuf hf hj, ProcessJumpAhead_failure, ?_⟩
  intro huniq
  obtain ⟨he, hc, hp, hs⟩ := findWaiting_some hf
  have hmem : entry ∈ orderedWaiting rows positionID := mem_orderedWaiting.mpr ⟨he, hp, hs⟩
  have hscan := positionScan_unique (orderedWaiting rows positionID) 0 entry
    (nodup_orderedWaiting hid positionID) hmem
    (fun x hx hxc => by
      obtain ⟨h1, h2, h3⟩ := mem_orderedWaiting.mp hx
      exact huniq x h1 (hxc.trans hc) h2 h3)
  rw [hc] at hscan
  unfold getQueuePosition
  rw [hscan, hr entry he hp hs]
  unfold rankOf
  simp

/-- Witness for C30: in the ranked table (average 8, buffer 5) candidate 1,
third at position 10, is granted the jump since 2 * 8 >= 13; candidate 3,
second there, is not since 1 * 8 < 13, and the table stays as it was. -/
theorem ProcessJumpAhead_exact_witness :
    ((ProcessJumpAhead rankedTable seededActivity 1 10).1 = true ↔
        2 ≤ getQueuePosition rankedTable 10 1 ∧
          (getQueuePosition rankedTable 10 1 - 1) * seededActivity.AverageInterviewTime ≥
            seededActivity.AverageInterviewTime + seededActivity.BufferTime)
      ∧ (ProcessJumpAhead rankedTable seededActivity 3 10).2.2 = rankedTable :=
  ⟨(ProcessJumpAhead_exact rankedTable seededActivity 1 10
      { waitingRow 1 1 10 false none (5 * Minute) with QueuePosition := 3 }
      (by decide) (by decide) (by decide) (by decide) (by decide) (by decide)).1,
    (ProcessJumpAhead_exact rankedTable seededActivity 3 10
      { waitingRow 3 3 10 false none (2 * Minute) with QueuePosition := 2 }
      (by decide) (by decide) (by decide) (by decide) (by decide) (by decide)).2.1
      (by decide)⟩

/-! ## Joining and priority -/

/-- C17: `JoinQueue` fails with `already in queue` exactly when the table holds an
entry of the pair whose status is neither completed nor left, and then leaves the
table as it was; otherwise the table afterwards is the old rows (each with the
columns it had, stored rank and estimated start apart, which the rank
recomputation and the conflict resolution that follow may rewrite) followed by
exactly one new row: of the pair, with a fresh key, status waiting, not high
priority, no priority-set time, delay count 0, jump-ahead unused, joined at the
clock reading `now` of the call, and active iff the candidate's count of active non-terminal
entries before the call is strictly below the active-queue limit. -/
theorem JoinQueue_contract (rows : Rows) (activity : ActivityControl) (now resolveNow : Int)
    (candidateID positionID : Nat) (hid : (rows.map (fun e => e.ID)).Nodup) :
    ((JoinQueue rows activity now resolveNow candidateID positionID).1 = some JoinError.alreadyInQueue ↔
        ∃ e ∈ rows, e.CandidateID = candidateID ∧ e.PositionID = positionID ∧ nonTerminal e)
      ∧ ((JoinQueue rows activity now resolveNow candidateID positionID).1 ≠ none →
          (JoinQueue rows activity now resolveNow candidateID positionID).2 = rows)
      ∧ ((JoinQueue rows activity now resolveNow candidateID positionID).1 = none →
          ∃ old new, (JoinQueue rows activity now resolveNow candidateID positionID).2 = old ++ [new]
            ∧ old.map (fun e => (e.ID, e.CandidateID, e.PositionID, e.IsHighPriority,
                  e.PrioritySetTime, e.JoinTime, e.IsActive, e.Status, e.JumpAheadUsed,
                  e.DelayUsed)) =
                rows.map (fun e => (e.ID, e.CandidateID, e.PositionID, e.IsHighPriority,
                  e.PrioritySetTime, e.JoinTime, e.IsActive, e.Status, e.JumpAheadUsed,
                  e.DelayUsed))
            ∧ (∀ e ∈ rows, e.ID ≠ new.ID)
            ∧ new.CandidateID = candidateID ∧ new.PositionID = positionID
            ∧ new.Status = EntryStatus.waiting ∧ new.IsHighPriority = false
            ∧ new.PrioritySetTime = none ∧ new.DelayUsed = 0 ∧ new.JumpAheadUsed = false
            ∧ new.JoinTime = now
            ∧ (new.IsActive = true ↔
                activeCount rows candidateID < activity.ActiveQueueLimit)) := by
  by_cases h : ∃ e ∈ rows, e.CandidateID = candidateID ∧ e.PositionID = positionID ∧
      nonTerminal e
  · have hres := JoinQueue_error activity now resolveNow h
    rw [hres]
    refine ⟨⟨fun _ => h, fun _ => rfl⟩, fun _ => rfl, ?_⟩
    intro hn
    cases hn
  · have hfst : (JoinQueue rows activity now resolveNow candidateID positionID).1 = none := by
      rw [JoinQueue_ok activity now resolveNow h]
    refine ⟨⟨?_, fun h2 => absurd h2 h⟩, fun h2 => absurd hfst h2, ?_⟩
    · intro h2
      rw [hfst] at h2
      cases h2
    · intro _
      have hm := JoinQueue_map_core hid activity now resolveNow h
      rw [List.map_append] at hm
      obtain ⟨old, l2, hres, h1, h2⟩ := List.map_eq_append_iff.mp hm
      cases l2 with
      | nil => simp at h2
      | cons new t =>
        simp only [List.map_cons, List.map_nil, List.cons.injEq, List.map_eq_nil_iff] at h2
        obtain ⟨hc, ht⟩ := h2
        subst ht
        have hproj : ∀ l : Rows,
            l.map (fun e => (e.ID, e.CandidateID, e.PositionID, e.IsHighPriority,
              e.PrioritySetTime, e.JoinTime, e.IsActive, e.Status, e.JumpAheadUsed,
              e.DelayUsed)) =
            (l.map core).map (fun e => (e.ID, e.CandidateID, e.PositionID, e.IsHighPriority,
              e.PrioritySetTime, e.JoinTime, e.IsActive, e.Status, e.JumpAheadUsed,
              e.DelayUsed)) := by
          intro l
          rw [List.map_map]
          rfl
        have hnew : new = { joinedEntry rows activity now candidateID positionID with
            QueuePosition := new.QueuePosition, EstimatedTime := new.EstimatedTime } := by
          cases new
          unfold core at hc
          simp only [QueueEntry.mk.injEq] at hc ⊢
          obtain ⟨c1, c2, c3, _, c5, c6, c7, _, c9, c10, c11, c12⟩ := hc
          exact ⟨c1, c2, c3, trivial, c5, c6, c7, trivial, c9, c10, c11, c12⟩
        refine ⟨old, new, hres, ?_, ?_, ?_⟩
        · rw [hproj old, h1, ← hproj rows]
        · intro e he
          rw [hnew]
          exact joinedEntry_fresh rows activity now candidateID positionID e he
        · rw [hnew]
          refine ⟨rfl, rfl, rfl, rfl, rfl, rfl, rfl, rfl, ?_⟩
          show decide (activeCount rows candidateID < activity.ActiveQueueLimit) = true ↔ _
          rw [decide_eq_true_eq]

/-- Witness for C17: candidate 3 joins position 20 of the ranked table at minute
50 and gets the new row 5; joining position 10, where the candidate waits, is
refused. -/
theorem JoinQueue_contract_witness :
    (∃ old new, (JoinQueue rankedTable seededActivity (50 * Minute) (51 * Minute) 3 20).2 = old ++ [new]
        ∧ old.map (fun e => (e.ID, e.CandidateID, e.PositionID, e.IsHighPriority,
              e.PrioritySetTime, e.JoinTime, e.IsActive, e.Status, e.JumpAheadUsed,
              e.DelayUsed)) =
            rankedTable.map (fun e => (e.ID, e.CandidateID, e.PositionID, e.IsHighPriority,
              e.PrioritySetTime, e.JoinTime, e.IsActive, e.Status, e.JumpAheadUsed,
              e.DelayUsed))
        ∧ (∀ e ∈ rankedTable, e.ID ≠ new.ID)
        ∧ new.CandidateID = 3 ∧ new.PositionID = 20
        ∧ new.Status = EntryStatus.waiting ∧ new.IsHighPriority = false
        ∧ new.PrioritySetTime = none ∧ new.DelayUsed = 0 ∧ new.JumpAheadUsed = false
        ∧ new.JoinTime = 50 * Minute
        ∧ (new.IsActive = true ↔
            activeCount rankedTable 3 < seededActivity.ActiveQueueLimit))
      ∧ (JoinQueue rankedTable seededActivity (50 * Minute) (51 * Minute) 3 10).1 =
        some JoinError.alreadyInQueue :=
  ⟨(JoinQueue_contract rankedTable seededActivity (50 * Minute) (51 * Minute) 3 20 (by decide)).2.2
      (by decide),
    (JoinQueue_contract rankedTable seededActivity (50 * Minute) (51 * Minute) 3 10 (by decide)).1.mpr
      ⟨{ waitingRow 3 3 10 false none (2 * Minute) with QueuePosition := 2 },
        by decide, by decide⟩⟩

/-- C18: `SetHighPriority` succeeds iff at least 30 minutes remain before the
window end, the candidate's count of non-terminal high-priority entries is below
the quota, a waiting entry of the pair exists and the one the call loads (the
first by primary key) is not yet high priority.  A failing call answers by the
first check that fails, in the order window closing, quota exceeded, not in
queue, already priority, and leaves the table as it was. -/
theorem SetHighPriority_contract (rows : Rows) (activity : ActivityControl) (now : Int)
    (candidateID positionID : Nat) :
    ((SetHighPriority rows activity now candidateID positionID).1 = none ↔
        activity.EndTime - now ≥ 30 * Minute
          ∧ usedCount rows candidateID < activity.HighPriorityQuota
          ∧ ∃ entry, findWaiting rows candidateID positionID = some entry
            ∧ entry.IsHighPriority = false)
      ∧ (activity.EndTime - now < 30 * Minute →
          (SetHighPriority rows activity now candidateID positionID).1 =
            some PriorityError.windowClosing)
      ∧ (activity.EndTime - now ≥ 30 * Minute →
          usedCount rows candidateID ≥ activity.HighPriorityQuota →
          (SetHighPriority rows activity now candidateID positionID).1 =
            some PriorityError.quotaExceeded)
      ∧ (activity.EndTime - now ≥ 30 * Minute →
          usedCount rows candidateID < activity.HighPriorityQuota →
          (¬ ∃ e ∈ rows, e.CandidateID = candidateID ∧ e.PositionID = positionID ∧
            e.Status = EntryStatus.waiting) →
          (SetHighPriority rows activity now candidateID positionID).1 =
            some PriorityError.notInQueue)
      ∧ (activity.EndTime - now ≥ 30 * Minute →
          usedCount rows candidateID < activity.HighPriorityQuota →
          ∀ entry, findWaiting rows candidateID positionID = some entry →
            entry.IsHighPriority = true →
            (SetHighPriority rows activity now candidateID positionID).1 =
              some PriorityError.alreadyPriority)
      ∧ ((SetHighPriority rows activity now candidateID positionID).1 ≠ none →
          (SetHighPriority rows activity now candidateID positionID).2 = rows) := by
  refine ⟨⟨?_, ?_⟩, ?_, ?_, ?_, ?_, ?_⟩
  · intro hok
    rcases SetHighPriority_cases rows activity now candidateID positionID with
      ⟨_, hr⟩ | ⟨_, _, hr⟩ | ⟨_, _, _, hr⟩ | ⟨entry, _, _, _, _, hr⟩ |
      ⟨entry, h, hq, hf, hp, _⟩
    · rw [hr] at hok; cases hok
    · rw [hr] at hok; cases hok
    · rw [hr] at hok; cases hok
    · rw [hr] at hok; cases hok
    · refine ⟨by omega, by omega, entry, hf, ?_⟩
      cases hv : entry.IsHighPriority
      · rfl
      · exact absurd hv hp
  · rintro ⟨h, hq, entry, hf, hp⟩
    exact SetHighPriority_ok_fst (by omega) (by omega) hf (by rw [hp]; decide)
  · intro h
    rw [SetHighPriority_windowClosing candidateID positionID h]
  · intro h hq
    rw [SetHighPriority_quotaExceeded positionID (by omega) hq]
  · intro h hq hnone
    rw [SetHighPriority_notInQueue (by omega) (by omega) (findWaiting_none.mpr hnone)]
  · intro h hq entry hf hp
    rw [SetHighPriority_alreadyPriority (by omega) (by omega) hf hp]
  · intro herr
    rcases SetHighPriority_cases rows activity now candidateID positionID with
      ⟨_, hr⟩ | ⟨_, _, hr⟩ | ⟨_, _, _, hr⟩ | ⟨entry, _, _, _, _, hr⟩ |
      ⟨entry, _, _, _, _, hr⟩
    · rw [hr]
    · rw [hr]
    · rw [hr]
    · rw [hr]
    · exact absurd hr herr

/-- Witness for C18: in the ranked table, 50 minutes into a window of 1000,
candidate 3 (no priority entry yet, quota 2) is granted priority at position 10;
candidate 2, already priority there, is answered `already priority`; ten minutes
before the window end the answer is `window closing`. -/
theorem SetHighPriority_contract_witness :
    (SetHighPriority rankedTable seededActivity (50 * Minute) 3 10).1 = none
      ∧ (SetHighPriority rankedTable seededActivity (50 * Minute) 2 10).1 =
        some PriorityError.alreadyPriority
      ∧ (SetHighPriority rankedTable seededActivity (990 * Minute) 2 10).1 =
        some PriorityError.windowClosing
      ∧ (SetHighPriority rankedTable seededActivity (990 * Minute) 2 10).2 = rankedTable :=
  ⟨(SetHighPriority_contract rankedTable seededActivity (50 * Minute) 3 10).1.mpr
      ⟨by decide, by decide,
        { waitingRow 3 3 10 false none (2 * Minute) with QueuePosition := 2 },
        by decide, by decide⟩,
    (SetHighPriority_contract rankedTable seededActivity (50 * Minute) 2 10).2.2.2.2.1
      (by decide) (by decide)
      { waitingRow 2 2 10 true (some (7 * Minute)) (9 * Minute) with QueuePosition := 1 }
      (by decide) (by decide),
    (SetHighPriority_contract rankedTable seededActivity (990 * Minute) 2 10).2.1 (by decide),
    (SetHighPriority_contract rankedTable seededActivity (990 * Minute) 2 10).2.2.2.2.2
      (by decide)⟩

/-- C19: in every state reachable from the empty table by `JoinQueue`,
`SetHighPriority`, leave, `ProcessDelay`, `ProcessJumpAhead`,
`ApplyQueueOptimization`, `ResolveConflicts` (and the two interview handlers,
which write the status), the primary keys are distinct and every row has a
priority-set time iff it is high priority; and from any table with distinct
primary keys, a row that is high priority is still high priority, with the same
priority-set time, after any sequence of these requests. -/
theorem priority_set_time_invariant :
    (∀ (ops : List Operation),
        ((run [] ops).map (fun e => e.ID)).Nodup
          ∧ ∀ e ∈ run [] ops, (e.IsHighPriority = true ↔ e.PrioritySetTime ≠ none))
      ∧ (∀ (rows : Rows), (rows.map (fun e => e.ID)).Nodup →
          ∀ (ops : List Operation), ∀ a ∈ rows, a.IsHighPriority = true →
            ∃ b ∈ run rows ops, b.ID = a.ID ∧ b.IsHighPriority = true
              ∧ b.PrioritySetTime = a.PrioritySetTime) := by
  constructor
  · intro ops
    have h := run_advances ops (show (([] : Rows).map (fun e => e.ID)).Nodup from
      List.nodup_nil)
    refine ⟨h.1, ?_⟩
    intro e he
    have ht : PriorityTimed e := h.2.2 (fun x hx => by cases hx) e he
    exact ht
  · intro rows hid ops a ha hp
    obtain ⟨b, hb, hev⟩ := (run_advances ops hid).2.1 a ha
    exact ⟨b, hb, hev.1, (hev.2.2.2.1 hp).1, (hev.2.2.2.1 hp).2⟩

/-- Witness for C19: three candidates join, candidate 2 takes priority at minute
4, then leaves; its row is high priority with priority-set time minute 4 before
and after the leave, and every row satisfies the invariant. -/
theorem priority_set_time_invariant_witness :
    (∀ e ∈ run [] [Operation.joinQueue seededActivity (1 * Minute) (1 * Minute + 1) 1 10,
        Operation.joinQueue seededActivity (2 * Minute) (2 * Minute + 1) 2 10,
        Operation.setHighPriority seededActivity (4 * Minute) 2 10,
        Operation.leave 2 10],
        (e.IsHighPriority = true ↔ e.PrioritySetTime ≠ none))
      ∧ ∃ b ∈ run rankedTable [Operation.leave 2 10, Operation.processDelay 2 10],
          b.ID = 2 ∧ b.IsHighPriority = true ∧ b.PrioritySetTime = some (7 * Minute) :=
  ⟨(priority_set_time_invariant.1 _).2,
    priority_set_time_invariant.2 rankedTable (by decide) _
      { waitingRow 2 2 10 true (some (7 * Minute)) (9 * Minute) with QueuePosition := 1 }
      (by decide) rfl⟩

/-! ## Leaving -/

/-- C20, the code at a failing input: candidates 1, 2 and 3 joined position 10
(the joined table is what three `JoinQueue` calls leave, with stored ranks 1, 2,
3).  The leave handler for candidate 1 succeeds and sets that row to `left`, and
writes nothing else: the two rows still waiting keep the stored ranks 2 and 3,
which are not the ranks 1 and 2 that the rank recomputation would store. -/
theorem LeaveQueue_keeps_stale_ranks :
    run [] [Operation.joinQueue seededActivity (1 * Minute) (1 * Minute + 1) 1 10,
        Operation.joinQueue seededActivity (2 * Minute) (2 * Minute + 1) 2 10,
        Operation.joinQueue seededActivity (3 * Minute) (3 * Minute + 1) 3 10] = joinedTable
      ∧ (LeaveQueue joinedTable 1 10).1 = true
      ∧ (LeaveQueue joinedTable 1 10).2.map (fun e => (e.ID, e.Status, e.QueuePosition)) =
        [(1, EntryStatus.left, 1), (2, EntryStatus.waiting, 2), (3, EntryStatus.waiting, 3)]
      ∧ (waitingIn (LeaveQueue joinedTable 1 10).2 10).map (fun e => e.QueuePosition) = [2, 3]
      ∧ (waitingIn (updateQueuePositions (LeaveQueue joinedTable 1 10).2 10) 10).map
          (fun e => e.QueuePosition) = [1, 2] := by
  decide

/-! ## Conflict resolution, the walk -/

/-- C29: `ResolveConflicts` never moves an interview earlier.  The naive start it
computes for an entry of the candidate is the later of
`now + max(0, (rank - 1) * averageInterviewTime)` minutes and the join time
(rolled forward 24 hours when the join time is before `now`), and it is never
earlier than `now`; every row of the table afterwards either keeps the estimated
start it had or is a waiting entry of the candidate that carries a newly written
estimated start strictly later than its naive start.  (Tables with distinct
primary keys.) -/
theorem ResolveConflicts_never_earlier (rows : Rows) (activity : ActivityControl)
    (now : Int) (candidateID : Nat) (hid : (rows.map (fun e => e.ID)).Nodup) :
    (∀ e ∈ candidateWaiting rows candidateID,
        (naiveInfo rows activity now candidateID e).EstimatedTime =
            max (now + max 0 ((getQueuePosition rows e.PositionID candidateID - 1) *
                  activity.AverageInterviewTime) * Minute)
              (if e.JoinTime < now then e.JoinTime + 24 * Hour else e.JoinTime)
          ∧ now ≤ (naiveInfo rows activity now candidateID e).EstimatedTime)
      ∧ ∀ r2 ∈ (ResolveConflicts rows activity now candidateID).2.2,
          ∃ r ∈ rows, r.ID = r2.ID ∧
            (r2.EstimatedTime = r.EstimatedTime ∨
              (r ∈ candidateWaiting rows candidateID ∧
                ∃ t, r2.EstimatedTime = some t ∧
                  (naiveInfo rows activity now candidateID r).EstimatedTime < t)) := by
  constructor
  · intro e _
    exact ⟨naiveInfo_EstimatedTime rows activity now candidateID e,
      naiveInfo_ge_now rows activity now candidateID e⟩
  · intro r2 hr2
    obtain ⟨r, hr, hc, hcase⟩ := ResolveConflicts_row_cases hid activity now candidateID r2 hr2
    refine ⟨r, hr, (core_ID hc).symm, ?_⟩
    rcases hcase with h | ⟨d, hd, hdr, h⟩
    · exact Or.inl h
    · right
      have hl := decisions_later hd
      have hm := decisions_mem hd
      rw [hdr] at hm
      refine ⟨hm, d.2, h, ?_⟩
      rw [← hdr, ← hl.1]
      exact hl.2

/-- Witness for C29: in the optimization table, at minute 200, the conflict
resolution for candidate 1 writes an estimated start on row 4, later than the
naive start of that row. -/
theorem ResolveConflicts_never_earlier_witness :
    (optimizationTable.map (fun e => e.ID)).Nodup
      ∧ (∀ r2 ∈ (ResolveConflicts optimizationTable seededActivity (200 * Minute) 1).2.2,
        ∃ r ∈ optimizationTable, r.ID = r2.ID ∧
          (r2.EstimatedTime = r.EstimatedTime ∨
            (r ∈ candidateWaiting optimizationTable 1 ∧
              ∃ t, r2.EstimatedTime = some t ∧
                (naiveInfo optimizationTable seededActivity (200 * Minute) 1 r).EstimatedTime
                  < t))) :=
  ⟨by decide,
    (ResolveConflicts_never_earlier optimizationTable seededActivity (200 * Minute) 1
      (by decide)).2⟩

/-! ## Terminal states and the quota -/

/-- C24, the code at a failing input: candidate 1 joined position 10, left and
joined again (the rejoined table is what these three requests leave: row 1 with
status `left`, row 2 waiting).  `StartInterview` for the pair writes
`interviewing` on both rows, the `left` one included, and `EndInterview` then
writes `completed` on both: the status of a row that was `left` has changed
twice. -/
theorem StartInterview_revives_left_entry :
    run [] [Operation.joinQueue seededActivity (1 * Minute) (1 * Minute + 1) 1 10,
        Operation.leave 1 10,
        Operation.joinQueue seededActivity (5 * Minute) (5 * Minute + 1) 1 10] = rejoinedTable
      ∧ rejoinedTable.map (fun e => (e.ID, e.Status)) =
        [(1, EntryStatus.left), (2, EntryStatus.waiting)]
      ∧ (StartInterview rejoinedTable 1 10).map (fun e => (e.ID, e.Status)) =
        [(1, EntryStatus.interviewing), (2, EntryStatus.interviewing)]
      ∧ (EndInterview (StartInterview rejoinedTable 1 10) 1 10).map
          (fun e => (e.ID, e.Status)) =
        [(1, EntryStatus.completed), (2, EntryStatus.completed)] := by
  decide

/-- C28: the quota invariant.  For a fixed quota `q`, from a table with distinct
primary keys in which every candidate has at most `q` non-terminal high-priority
entries, any sequence of `JoinQueue`, `SetHighPriority` (run under quota `q`),
leave, `ProcessDelay`, `ProcessJumpAhead`, `ApplyQueueOptimization` and
`ResolveConflicts` requests leads to a table in which every candidate still has
at most `q` non-terminal high-priority entries. -/
theorem quota_invariant (q : Int) (rows : Rows) (ops : List Operation)
    (hid : (rows.map (fun e => e.ID)).Nodup)
    (hstart : ∀ c, usedCount rows c ≤ q)
    (hquota : ∀ op ∈ ops, op.underQuota q)
    (hops : ∀ op ∈ ops, ¬ op.isInterview) :
    ∀ c, usedCount (run rows ops) c ≤ q :=
  usedCount_run q ops hid hquota hops hstart

/-- Witness for C28: candidate 1 joins position 10 and is granted priority
there, under quota 2; the count of the candidate is 1 afterwards. -/
theorem quota_invariant_witness :
    (∀ c, usedCount (run []
        [Operation.joinQueue seededActivity (1 * Minute) (1 * Minute + 1) 1 10,
          Operation.setHighPriority seededActivity (4 * Minute) 1 10]) c ≤ 2)
      ∧ usedCount (run []
        [Operation.joinQueue seededActivity (1 * Minute) (1 * Minute + 1) 1 10,
          Operation.setHighPriority seededActivity (4 * Minute) 1 10]) 1 = 1 :=
  ⟨quota_invariant 2 [] _ (by decide) (fun _ => show (0 : Int) ≤ 2 by decide) (by decide)
      (by decide),
    by decide⟩

/-! ## Delay -/

/-- C21: `ProcessDelay(candidate, minutes)` adds exactly `minutes` minutes to the
join time and exactly 1 to the delay count of every waiting row of the candidate
and leaves the join time and delay count of every other row as they were (no row
changes its key, candidate, position or status); afterwards the stored ranks of
every position where the candidate waits are the recomputed ones (a further
`updateQueuePositions` changes nothing); and when the candidate has no waiting
row the table is returned as it was.  (Tables with distinct primary keys; the
call has no error result.) -/
theorem ProcessDelay_contract (rows : Rows) (candidateID : Nat) (minutes : Int)
    (hid : (rows.map (fun e => e.ID)).Nodup) :
    (ProcessDelay rows candidateID minutes).map (fun e => (e.ID, e.JoinTime, e.DelayUsed)) =
        rows.map (fun e =>
          (e.ID,
            if e.CandidateID = candidateID ∧ e.Status = EntryStatus.waiting then
              e.JoinTime + minutes * Minute else e.JoinTime,
            if e.CandidateID = candidateID ∧ e.Status = EntryStatus.waiting then
              e.DelayUsed + 1 else e.DelayUsed))
      ∧ (ProcessDelay rows candidateID minutes).map
          (fun e => (e.ID, e.CandidateID, e.PositionID, e.Status)) =
        rows.map (fun e => (e.ID, e.CandidateID, e.PositionID, e.Status))
      ∧ (∀ e ∈ rows, e.CandidateID = candidateID → e.Status = EntryStatus.waiting →
          updateQueuePositions (ProcessDelay rows candidateID minutes) e.PositionID =
            ProcessDelay rows candidateID minutes)
      ∧ ((∀ e ∈ rows, ¬ (e.CandidateID = candidateID ∧ e.Status = EntryStatus.waiting)) →
          ProcessDelay rows candidateID minutes = rows) := by
  refine ⟨?_, ?_, ?_, ?_⟩
  · have h := ProcessDelay_map_core hid candidateID minutes
    have h1 : ∀ l : Rows, l.map (fun e => (e.ID, e.JoinTime, e.DelayUsed)) =
        (l.map core).map (fun e => (e.ID, e.JoinTime, e.DelayUsed)) := by
      intro l
      rw [List.map_map]
      rfl
    rw [h1, h, ← h1, List.map_map]
    apply List.map_congr_left
    intro r _
    simp only [Function.comp]
    unfold delayedRow
    by_cases hc : r.CandidateID = candidateID ∧ r.Status = EntryStatus.waiting
    · rw [if_pos hc, if_pos hc, if_pos hc]
    · rw [if_neg hc, if_neg hc, if_neg hc]
  · have h := ProcessDelay_map_skeleton hid candidateID minutes
    have h1 : ∀ l : Rows, l.map (fun e => (e.ID, e.CandidateID, e.PositionID, e.Status)) =
        (l.map skeleton).map (fun e => (e.ID, e.CandidateID, e.PositionID, e.Status)) := by
      intro l
      rw [List.map_map]
      rfl
    rw [h1, h, ← h1]
  · intro e he hc hs
    exact ProcessDelay_ranked hid candidateID minutes
      (mem_candidateWaiting.mpr ⟨he, hc, hs⟩)
  · exact ProcessDelay_none minutes

/-- Witness for C21: candidate 1 of the ranked table (waiting at positions 10 and
20) asks for a delay of 15 minutes; candidate 9, who waits nowhere, gets the
table back. -/
theorem ProcessDelay_contract_witness :
    (ProcessDelay rankedTable 1 15).map (fun e => (e.ID, e.JoinTime, e.DelayUsed)) =
        [(1, 20 * Minute, 1), (2, 9 * Minute, 0), (3, 2 * Minute, 0), (4, 18 * Minute, 1)]
      ∧ updateQueuePositions (ProcessDelay rankedTable 1 15) 10 = ProcessDelay rankedTable 1 15
      ∧ ProcessDelay rankedTable 9 15 = rankedTable :=
  ⟨(ProcessDelay_contract rankedTable 1 15 (by decide)).1.trans (by decide),
    (ProcessDelay_contract rankedTable 1 15 (by decide)).2.2.1
      { waitingRow 1 1 10 false none (5 * Minute) with QueuePosition := 3 }
      (by decide) rfl rfl,
    (ProcessDelay_contract rankedTable 9 15 (by decide)).2.2.2 (by decide)⟩

/-- C25: the walk of `ResolveConflicts`.  The records are processed in the sorted
order (a high-priority record never after a non-priority one; within the same
priority, naive start ascending), each record carrying the naive start and end of
its entry, and `lastEndTime` starts as the naive end of the first record.  The
first entry is never rescheduled.  For a later record `c`, with `st` the
variables of the loop when it reaches `c`: if the naive start of `c` is strictly
before `st.lastEndTime + bufferTime`, the estimated start of its entry ends up
exactly `st.lastEndTime + bufferTime` and `lastEndTime` becomes that value plus
`averageInterviewTime`; otherwise the step writes nothing, the entry keeps the
estimated start it had and `lastEndTime` becomes the naive end of `c`.
`hasConflicts` is true iff some record was rescheduled, and there is one message
per rescheduled record.  (Tables with distinct primary keys.) -/
theorem ResolveConflicts_walk (rows : Rows) (activity : ActivityControl) (now : Int)
    (candidateID : Nat) (first : conflictInfo) (rest : List conflictInfo)
    (hid : (rows.map (fun e => e.ID)).Nodup)
    (hs : sortedConflicts rows activity now candidateID = first :: rest) :
    ((first :: rest).Pairwise (fun a b =>
          (a.Entry.IsHighPriority = true ∧ b.Entry.IsHighPriority = false) ∨
            (a.Entry.IsHighPriority = b.Entry.IsHighPriority ∧
              a.EstimatedTime ≤ b.EstimatedTime))
        ∧ ∀ c ∈ first :: rest, c.Entry ∈ candidateWaiting rows candidateID ∧
            c = naiveInfo rows activity now candidateID c.Entry)
      ∧ (∃ r2 ∈ (ResolveConflicts rows activity now candidateID).2.2,
          r2.ID = first.Entry.ID ∧ r2.EstimatedTime = first.Entry.EstimatedTime)
      ∧ (∀ pre c post, rest = pre ++ c :: post →
          (c.EstimatedTime <
                (pre.foldl (walkStep activity) (walkStart rows first)).lastEndTime +
                  activity.BufferTime * Minute →
              (walkStep activity (pre.foldl (walkStep activity) (walkStart rows first))
                  c).lastEndTime =
                (pre.foldl (walkStep activity) (walkStart rows first)).lastEndTime +
                  activity.BufferTime * Minute + activity.AverageInterviewTime * Minute
              ∧ ∃ r2 ∈ (ResolveConflicts rows activity now candidateID).2.2,
                  r2.ID = c.Entry.ID ∧ r2.EstimatedTime =
                    some ((pre.foldl (walkStep activity) (walkStart rows first)).lastEndTime +
                      activity.BufferTime * Minute))
          ∧ (¬ c.EstimatedTime <
                (pre.foldl (walkStep activity) (walkStart rows first)).lastEndTime +
                  activity.BufferTime * Minute →
              (walkStep activity (pre.foldl (walkStep activity) (walkStart rows first))
                  c).lastEndTime = c.EndTime
              ∧ (walkStep activity (pre.foldl (walkStep activity) (walkStart rows first))
                  c).rows = (pre.foldl (walkStep activity) (walkStart rows first)).rows
              ∧ ∃ r2 ∈ (ResolveConflicts rows activity now candidateID).2.2,
                  r2.ID = c.Entry.ID ∧ r2.EstimatedTime = c.Entry.EstimatedTime))
      ∧ ((ResolveConflicts rows activity now candidateID).1 = true ↔
          ∃ pre c post, rest = pre ++ c :: post ∧
            c.EstimatedTime <
              (pre.foldl (walkStep activity) (walkStart rows first)).lastEndTime +
                activity.BufferTime * Minute)
      ∧ (ResolveConflicts rows activity now candidateID).2.1.length =
          (decisions rows activity now candidateID).length
      ∧ ((decisions rows activity now candidateID).map (fun d => d.1.Entry.ID)).Nodup
      ∧ (∀ c t, (c, t) ∈ decisions rows activity now candidateID ↔
          ∃ pre post, rest = pre ++ c :: post ∧
            c.EstimatedTime <
              (pre.foldl (walkStep activity) (walkStart rows first)).lastEndTime +
                activity.BufferTime * Minute ∧
            t = (pre.foldl (walkStep activity) (walkStart rows first)).lastEndTime +
              activity.BufferTime * Minute) := by
  have hdec := decisions_eq hs
  have hnd := sortedConflicts_nodup hid activity now candidateID
  rw [hs, List.map_cons] at hnd
  have hnd2 := List.nodup_cons.mp hnd
  have hmemEntry : ∀ c ∈ first :: rest, c.Entry ∈ candidateWaiting rows candidateID ∧
      c = naiveInfo rows activity now candidateID c.Entry := by
    intro c hc
    rw [← hs] at hc
    obtain ⟨e, he, hce⟩ := mem_sortedConflicts hc
    rw [hce, naiveInfo_Entry]
    exact ⟨he, rfl⟩
  refine ⟨⟨?_, hmemEntry⟩, ?_, ?_, ?_, ?_, decisions_nodup hid activity now candidateID, ?_⟩
  · have hsorted := sortConflicts_sorted ((candidateWaiting rows candidateID).map
      (naiveInfo rows activity now candidateID))
    have hs2 : sortConflicts ((candidateWaiting rows candidateID).map
        (naiveInfo rows activity now candidateID)) = first :: rest := hs
    rw [hs2] at hsorted
    exact hsorted.imp (fun {a b} h => (conflictLE_iff a b).mp h)
  · apply ResolveConflicts_row_kept hid
      (mem_candidateWaiting.mp (hmemEntry first (List.mem_cons_self _ _)).1).1
    rw [hdec]
    intro hmem
    exact hnd2.1 (reschedule_IDs_subset activity rest _ hmem)
  · intro pre c post hsplit
    have hcmem : c ∈ first :: rest := by
      rw [hsplit]
      exact List.mem_cons_of_mem _ (List.mem_append_right _ (List.mem_cons_self _ _))
    constructor
    · intro hlt
      refine ⟨by rw [walkStep_pos hlt], ?_⟩
      have hd : (c, (pre.foldl (walkStep activity) (walkStart rows first)).lastEndTime +
          activity.BufferTime * Minute) ∈ decisions rows activity now candidateID := by
        rw [hdec]
        exact (mem_reschedule_iff activity rest (walkStart rows first) c _).mpr
          ⟨pre, post, hsplit, hlt, rfl⟩
      exact ResolveConflicts_row_written hid hd
    · intro hge
      refine ⟨by rw [walkStep_neg hge], by rw [walkStep_neg hge], ?_⟩
      apply ResolveConflicts_row_kept hid (mem_candidateWaiting.mp (hmemEntry c hcmem).1).1
      rw [hdec, hsplit]
      apply not_mem_reschedule_of_split activity (walkStart rows first) _ hge
      rw [← hsplit]
      exact hnd2.2
  · rw [ResolveConflicts_hasConflicts, hdec]
    constructor
    · intro h
      cases hr : reschedule activity (walkStart rows first).lastEndTime rest with
      | nil => rw [hr] at h; simp at h
      | cons d ds =>
        have hd : (d.1, d.2) ∈ reschedule activity (walkStart rows first).lastEndTime rest := by
          rw [hr]
          exact List.mem_cons_self _ _
        obtain ⟨pre, post, hsplit, hlt, _⟩ :=
          (mem_reschedule_iff activity rest (walkStart rows first) d.1 d.2).mp hd
        exact ⟨pre, d.1, post, hsplit, hlt⟩
    · rintro ⟨pre, c, post, hsplit, hlt⟩
      have hd := (mem_reschedule_iff activity rest (walkStart rows first) c _).mpr
        ⟨pre, post, hsplit, hlt, rfl⟩
      cases hr : reschedule activity (walkStart rows first).lastEndTime rest with
      | nil => rw [hr] at hd; cases hd
      | cons d ds => rfl
  · rw [ResolveConflicts_messages, List.length_map]
  · intro c t
    rw [hdec]
    exact mem_reschedule_iff activity rest (walkStart rows first) c t

/-- Witness for C25: in the optimization table at minute 200 the sorted slice of
candidate 1 is the record of row 3 (high priority) followed by the record of
row 4. -/
theorem ResolveConflicts_walk_witness :
    (ResolveConflicts optimizationTable seededActivity (200 * Minute) 1).1 = true ↔
      ∃ pre c post,
        [naiveInfo optimizationTable seededActivity (200 * Minute) 1
            (waitingRow 4 1 20 false none (4 * Minute))] = pre ++ c :: post ∧
          c.EstimatedTime <
            (pre.foldl (walkStep seededActivity)
              (walkStart optimizationTable
                (naiveInfo optimizationTable seededActivity (200 * Minute) 1
                  (waitingRow 3 1 10 true (some (3 * Minute)) (3 * Minute))))).lastEndTime +
              seededActivity.BufferTime * Minute :=
  (ResolveConflicts_walk optimizationTable seededActivity (200 * Minute) 1
    (naiveInfo optimizationTable seededActivity (200 * Minute) 1
      (waitingRow 3 1 10 true (some (3 * Minute)) (3 * Minute)))
    [naiveInfo optimizationTable seededActivity (200 * Minute) 1
      (waitingRow 4 1 20 false none (4 * Minute))]
    (by decide) (by decide)).2.2.2.1

/-! ## Two entries at the front -/

/-- C22 fails as stated: in the two-front table candidate 1 holds exactly two
waiting entries, both at rank 1, at positions 10 and 20, joined an hour apart.
At minute 100 the naive starts are the join times rolled forward 24 hours, an
hour apart, and `ResolveConflicts` reports no conflict and writes nothing. -/
theorem ResolveConflicts_front_entries_apart :
    (candidateWaiting twoFrontTable 1).length = 2
      ∧ getQueuePosition twoFrontTable 10 1 = 1
      ∧ getQueuePosition twoFrontTable 20 1 = 1
      ∧ ResolveConflicts twoFrontTable seededActivity (100 * Minute) 1 =
        (false, [], twoFrontTable) := by
  decide

/-- C22, amended: for a candidate holding exactly two waiting entries, both at
rank 1, with `first` and `second` their records in the resolver's processing
order: the naive start of each is the later of `now` and its join time (rolled
forward 24 hours when the join time is before `now`); `ResolveConflicts` reports
a conflict iff the naive start of the second is strictly before the naive end of
the first plus `bufferTime`, and then sets the estimated start of the second
entry to the end of the first plus `bufferTime`; otherwise it reports no
conflict, returns no message and leaves the table as it was.  (Tables with
distinct primary keys.) -/
theorem ResolveConflicts_two_front_entries (rows : Rows) (activity : ActivityControl)
    (now : Int) (candidateID : Nat) (first second : conflictInfo)
    (hid : (rows.map (fun e => e.ID)).Nodup)
    (hs : sortedConflicts rows activity now candidateID = [first, second])
    (h1 : getQueuePosition rows first.Entry.PositionID candidateID = 1)
    (h2 : getQueuePosition rows second.Entry.PositionID candidateID = 1) :
    (candidateWaiting rows candidateID).length = 2
      ∧ first.EstimatedTime = max now
          (if first.Entry.JoinTime < now then first.Entry.JoinTime + 24 * Hour
            else first.Entry.JoinTime)
      ∧ second.EstimatedTime = max now
          (if second.Entry.JoinTime < now then second.Entry.JoinTime + 24 * Hour
            else second.Entry.JoinTime)
      ∧ first.EndTime = first.EstimatedTime + activity.AverageInterviewTime * Minute
      ∧ ((ResolveConflicts rows activity now candidateID).1 = true ↔
          second.EstimatedTime < first.EndTime + activity.BufferTime * Minute)
      ∧ (second.EstimatedTime < first.EndTime + activity.BufferTime * Minute →
          ∃ r2 ∈ (ResolveConflicts rows activity now candidateID).2.2,
            r2.ID = second.Entry.ID ∧
              r2.EstimatedTime = some (first.EndTime + activity.BufferTime * Minute))
      ∧ (¬ second.EstimatedTime < first.EndTime + activity.BufferTime * Minute →
          ResolveConflicts rows activity now candidateID = (false, [], rows)) := by
  have hmem : ∀ c ∈ [first, second], c = naiveInfo rows activity now candidateID c.Entry := by
    intro c hc
    rw [← hs] at hc
    obtain ⟨e, _, hce⟩ := mem_sortedConflicts hc
    rw [hce, naiveInfo_Entry]
  have hf := hmem first (List.mem_cons_self _ _)
  have hsnd := hmem second (List.mem_cons_of_mem _ (List.mem_cons_self _ _))
  have hdec := decisions_two hs
  refine ⟨?_, ?_, ?_, ?_, ?_, ?_, ?_⟩
  · rw [← length_sortedConflicts rows activity now candidateID, hs]
    rfl
  · rw [hf, naiveInfo_Entry]
    exact naiveInfo_front h1
  · rw [hsnd, naiveInfo_Entry]
    exact naiveInfo_front h2
  · rw [hf]
    rfl
  · rw [ResolveConflicts_hasConflicts, hdec]
    by_cases h : second.EstimatedTime < first.EndTime + activity.BufferTime * Minute
    · rw [if_pos h]
      simp [h]
    · rw [if_neg h]
      simp [h]
  · intro h
    have hd : (second, first.EndTime + activity.BufferTime * Minute) ∈
        decisions rows activity now candidateID := by
      rw [hdec, if_pos h]
      exact List.mem_cons_self _ _
    exact ResolveConflicts_row_written hid hd
  · intro h
    apply ResolveConflicts_of_no_decisions hid
    rw [hdec, if_neg h]

/-- Witness for C22 amended: the two entries of the close-front table were
joined five minutes apart; at minute 100 the second is rescheduled to the end of
the first plus the buffer. -/
theorem ResolveConflicts_two_front_entries_witness :
    ∃ r2 ∈ (ResolveConflicts closeFrontTable seededActivity (100 * Minute) 1).2.2,
      r2.ID = 2 ∧ r2.EstimatedTime =
        some (24 * Hour + seededActivity.AverageInterviewTime * Minute +
          seededActivity.BufferTime * Minute) :=
  (ResolveConflicts_two_front_entries closeFrontTable seededActivity (100 * Minute) 1
    (naiveInfo closeFrontTable seededActivity (100 * Minute) 1
      { waitingRow 1 1 10 false none 0 with QueuePosition := 1 })
    (naiveInfo closeFrontTable seededActivity (100 * Minute) 1
      { waitingRow 2 1 20 false none (5 * Minute) with QueuePosition := 1 })
    (by decide) (by decide) (by decide) (by decide)).2.2.2.2.2.1 (by decide)

/-! ## The order of the load -/

/-- C26 fails as stated: in the tie table the two waiting entries of candidate 1
are both non-priority with the same naive start (same join time, rank 1).  At
minute 100, when the storage returns row 1 before row 2, row 2 is rescheduled
and row 1 is not; when it returns row 2 before row 1, row 1 is rescheduled and
row 2 is not. -/
theorem resolveLoaded_depends_on_order :
    (resolveLoaded tieTable seededActivity (100 * Minute) 1
        [{ waitingRow 1 1 10 false none 0 with QueuePosition := 1 },
          { waitingRow 2 1 20 false none 0 with QueuePosition := 1 }]).2.2.map
          (fun e => (e.ID, e.EstimatedTime)) =
        [(1, none), (2, some (24 * Hour + 13 * Minute))]
      ∧ (resolveLoaded tieTable seededActivity (100 * Minute) 1
          [{ waitingRow 2 1 20 false none 0 with QueuePosition := 1 },
            { waitingRow 1 1 10 false none 0 with QueuePosition := 1 }]).2.2.map
          (fun e => (e.ID, e.EstimatedTime)) =
        [(1, some (24 * Hour + 13 * Minute)), (2, none)] := by
  decide

/-- C26, amended: `ResolveConflicts` does not depend on the order in which the
storage returns the candidate's entries whenever the comparator separates them,
that is, no two different entries of the candidate have the same priority flag
and the same naive start: for the same table, activity configuration and `now`,
any two orderings of the loaded entries then give the same `hasConflicts`, the
same messages and the same table, hence the same estimated start on every
entry. -/
theorem resolveLoaded_order_independent (rows : Rows) (activity : ActivityControl)
    (now : Int) (candidateID : Nat) (entries1 entries2 : List QueueEntry)
    (hperm : List.Perm entries1 entries2)
    (hsep : ∀ a ∈ entries1, ∀ b ∈ entries1, a.IsHighPriority = b.IsHighPriority →
      (naiveInfo rows activity now candidateID a).EstimatedTime =
        (naiveInfo rows activity now candidateID b).EstimatedTime → a = b) :
    resolveLoaded rows activity now candidateID entries1 =
      resolveLoaded rows activity now candidateID entries2 := by
  unfold resolveLoaded
  rw [hperm.length_eq, sortConflicts_perm hperm hsep]

/-- Witness for C26 amended: the two entries of the two-front table have naive
starts an hour apart; loading them in either order gives what
`ResolveConflicts` gives. -/
theorem resolveLoaded_order_independent_witness :
    resolveLoaded twoFrontTable seededActivity (100 * Minute) 1
        (candidateWaiting twoFrontTable 1) =
      resolveLoaded twoFrontTable seededActivity (100 * Minute) 1
        (candidateWaiting twoFrontTable 1).reverse :=
  resolveLoaded_order_independent twoFrontTable seededActivity (100 * Minute) 1
    (candidateWaiting twoFrontTable 1) (candidateWaiting twoFrontTable 1).reverse
    (List.reverse_perm _).symm (by decide)

/-! ## Priority with an optimization pending -/

/-- C27, the code at a failing input: in the pending table, at minute 200,
candidate 1 is granted priority at position 10 and `CheckQueueOptimization` then
reports an available optimization (priority wait 16 at position 10, regular wait
0 at position 20), so the guarded `ResolveConflicts` call of `SetHighPriority` is
skipped.  No row had an estimated start before the call, and after it row 5 (the
candidate's entry at position 30) has one: the wait estimates computed inside
`CheckQueueOptimization` fell back to the conflict-resolved estimate, which runs
`ResolveConflicts`, although the optimization is pending. -/
theorem SetHighPriority_pending_writes_start :
    (SetHighPriority pendingTable seededActivity (200 * Minute) 1 10).1 = none
      ∧ (CheckQueueOptimization
          (updateQueuePositions
            (save pendingTable
              (prioritized { waitingRow 3 1 10 false none (3 * Minute) with QueuePosition := 3 }
                (200 * Minute))) 10)
          seededActivity (200 * Minute) 1).1 = true
      ∧ pendingTable.map (fun e => (e.ID, e.EstimatedTime)) =
        [(1, none), (2, none), (3, none), (4, none), (5, none)]
      ∧ (SetHighPriority pendingTable seededActivity (200 * Minute) 1 10).2.map
          (fun e => (e.ID, e.EstimatedTime)) =
        [(1, none), (2, none), (3, none), (4, none), (5, some (1553 * Minute))] := by
  have h1 : updateQueuePositions
      (save pendingTable
        (prioritized { waitingRow 3 1 10 false none (3 * Minute) with QueuePosition := 3 }
          (200 * Minute))) 10 = grantedTable := by decide
  have hopt : (CheckQueueOptimization
      (updateQueuePositions
        (save pendingTable
          (prioritized { waitingRow 3 1 10 false none (3 * Minute) with QueuePosition := 3 }
            (200 * Minute))) 10)
      seededActivity (200 * Minute) 1).1 = true := by
    rw [h1]
    decide
  have hres := SetHighPriority_pending
    (show ¬ seededActivity.EndTime - 200 * Minute < 30 * Minute by decide)
    (show ¬ usedCount pendingTable 1 ≥ seededActivity.HighPriorityQuota by decide)
    (show findWaiting pendingTable 1 10 =
      some { waitingRow 3 1 10 false none (3 * Minute) with QueuePosition := 3 } by decide)
    (by decide) hopt
  refine ⟨by rw [hres], hopt, by decide, ?_⟩
  rw [hres, h1]
  decide

/-! ## Joining two empty positions -/

/-- C23 fails as stated: candidate 1, with no other entry, joins the empty
position 10 at minute 0 and the empty position 20 at minute 5 (each call reading
the clock again a nanosecond later for its conflict resolution).  Both entries
have rank 1, but the naive starts (the join times rolled forward 24 hours) are
five minutes apart, less than 8 + 5: the conflict resolution of the second join
reports a conflict and reschedules the second entry, and the wait reported for
position 20 at minute 6 is 1447 minutes, not 0. -/
theorem JoinQueue_close_joins_conflict :
    JoinQueue [] seededActivity 0 1 1 10 =
        (none, [{ waitingRow 1 1 10 false none 0 with QueuePosition := 1 }])
      ∧ JoinQueue [{ waitingRow 1 1 10 false none 0 with QueuePosition := 1 }]
          seededActivity (5 * Minute) (5 * Minute + 1) 1 20 = (none, closeJoinedTable)
      ∧ getQueuePosition closeJoinedTable 10 1 = 1
      ∧ getQueuePosition closeJoinedTable 20 1 = 1
      ∧ (ResolveConflicts
          [{ waitingRow 1 1 10 false none 0 with QueuePosition := 1 },
            { waitingRow 2 1 20 false none (5 * Minute) with QueuePosition := 1 }]
          seededActivity (5 * Minute + 1) 1).1 = true
      ∧ (calculateSmartWaitTime closeJoinedTable seededActivity (6 * Minute) 20 1
          seededActivity.AverageInterviewTime).wait = 1447 := by
  refine ⟨by decide, ?_, by decide, by decide, by decide, by decide⟩
  rw [JoinQueue_empty_position (by decide) seededActivity (5 * Minute) (5 * Minute + 1)
    (by decide) (by decide)]
  rw [show [{ waitingRow 1 1 10 false none 0 with QueuePosition := 1 }] ++
      [joinedFront [{ waitingRow 1 1 10 false none 0 with QueuePosition := 1 }]
        seededActivity (5 * Minute) 1 20] =
      [{ waitingRow 1 1 10 false none 0 with QueuePosition := 1 },
        { waitingRow 2 1 20 false none (5 * Minute) with QueuePosition := 1 }] from by decide]
  decide

/-- C23, amended: a candidate with no other entries joins a position `A` where
nobody waits, at `nowA`, and then another position `B` where nobody waits, at
`nowB ≥ nowA` (neither made priority); the conflict resolution of the second
join reads the clock at `resolveNowB` and the wait report at `reportNow`, both
after `nowB` and within 24 hours of `nowA`.  Then both joins succeed, both
entries have rank 1, the wait reported for `A` is 0 and no optimization is
suggested.  The conflict resolution run by the second join reports a conflict
iff the second join came less than `averageInterviewTime + bufferTime` minutes
after the first.  If it did not, nothing is rescheduled and the wait reported
for `B` is 0.  If it did, the estimated start of the `B` entry is set to
`nowA` + 24 hours + `averageInterviewTime + bufferTime` minutes, nothing else
changes, and the wait reported for `B` is the whole minutes from `reportNow` to
that start, which is at least `averageInterviewTime + bufferTime > 0`.  (Tables
with distinct primary keys; `joinedFront` is the row a join creates, at rank 1.) -/
theorem JoinQueue_two_empty_positions (rows : Rows) (activity : ActivityControl)
    (nowA resolveNowA nowB resolveNowB reportNow : Int) (candidateID A B : Nat)
    (hid : (rows.map (fun e => e.ID)).Nodup)
    (hc : ∀ e ∈ rows, e.CandidateID ≠ candidateID)
    (hA : ∀ r ∈ rows, r.PositionID = A → r.Status ≠ EntryStatus.waiting)
    (hB : ∀ r ∈ rows, r.PositionID = B → r.Status ≠ EntryStatus.waiting)
    (hAB : A ≠ B)
    (hjoin : nowA ≤ nowB)
    (hresolve : nowB < resolveNowB ∧ resolveNowB ≤ nowA + 24 * Hour)
    (hreport : nowB < reportNow ∧ reportNow ≤ nowA + 24 * Hour) :
    JoinQueue rows activity nowA resolveNowA candidateID A =
        (none, rows ++ [joinedFront rows activity nowA candidateID A])
      ∧ JoinQueue (rows ++ [joinedFront rows activity nowA candidateID A]) activity nowB
          resolveNowB candidateID B =
        (none, rows ++ [joinedFront rows activity nowA candidateID A] ++
          [if nowB < nowA + activity.AverageInterviewTime * Minute + activity.BufferTime * Minute then
            { joinedFront (rows ++ [joinedFront rows activity nowA candidateID A]) activity nowB candidateID B with
              EstimatedTime := some (nowA + 24 * Hour + activity.AverageInterviewTime * Minute + activity.BufferTime * Minute) }
          else joinedFront (rows ++ [joinedFront rows activity nowA candidateID A]) activity nowB candidateID B])
      ∧ ((ResolveConflicts (rows ++ [joinedFront rows activity nowA candidateID A] ++
            [joinedFront (rows ++ [joinedFront rows activity nowA candidateID A]) activity nowB candidateID B])
          activity resolveNowB candidateID).1 = true ↔
        nowB < nowA + activity.AverageInterviewTime * Minute + activity.BufferTime * Minute)
      ∧ getQueuePosition (JoinQueue (rows ++ [joinedFront rows activity nowA candidateID A]) activity nowB resolveNowB candidateID B).2 A candidateID = 1
      ∧ getQueuePosition (JoinQueue (rows ++ [joinedFront rows activity nowA candidateID A]) activity nowB resolveNowB candidateID B).2 B candidateID = 1
      ∧ (calculateSmartWaitTime (JoinQueue (rows ++ [joinedFront rows activity nowA candidateID A]) activity nowB resolveNowB candidateID B).2
          activity reportNow A candidateID activity.AverageInterviewTime).wait = 0
      ∧ (calculateSmartWaitTime (JoinQueue (rows ++ [joinedFront rows activity nowA candidateID A]) activity nowB resolveNowB candidateID B).2
          activity reportNow B candidateID activity.AverageInterviewTime).wait =
        (if nowB < nowA + activity.AverageInterviewTime * Minute + activity.BufferTime * Minute then
          wholeMinutes (nowA + 24 * Hour + activity.AverageInterviewTime * Minute + activity.BufferTime * Minute - reportNow)
        else 0)
      ∧ (nowB < nowA + activity.AverageInterviewTime * Minute + activity.BufferTime * Minute →
        0 < activity.AverageInterviewTime + activity.BufferTime ∧
          activity.AverageInterviewTime + activity.BufferTime ≤
            wholeMinutes (nowA + 24 * Hour + activity.AverageInterviewTime * Minute + activity.BufferTime * Minute - reportNow))
      ∧ (CheckQueueOptimization (JoinQueue (rows ++ [joinedFront rows activity nowA candidateID A]) activity nowB resolveNowB candidateID B).2
          activity reportNow candidateID).1 = false := by
  have hnoneA : ¬ ∃ e ∈ rows, e.CandidateID = candidateID ∧ e.PositionID = A ∧
      nonTerminal e := fun ⟨e, he, h1, _⟩ => hc e he h1
  have hfirst : JoinQueue rows activity nowA resolveNowA candidateID A =
      (none, rows ++ [joinedFront rows activity nowA candidateID A]) := by
    rw [JoinQueue_empty_position hid activity nowA resolveNowA hnoneA hA,
      ResolveConflicts_of_le_one]
    unfold candidateWaiting
    rw [List.filter_append]
    have := candidateWaiting_of_none hc
    unfold candidateWaiting at this
    rw [this, List.nil_append]
    exact List.length_filter_le _ _
  set a := joinedFront rows activity nowA candidateID A with ha
  have hid1 : ((rows ++ [a]).map (fun e => e.ID)).Nodup :=
    nodup_append_fresh hid (joinedEntry_fresh rows activity nowA candidateID A)
  have hnoneB : ¬ ∃ e ∈ rows ++ [a],
      e.CandidateID = candidateID ∧ e.PositionID = B ∧ nonTerminal e := by
    rintro ⟨e, he, h1, h2, _⟩
    rcases List.mem_append.mp he with h | h
    · exact hc e h h1
    · rw [List.mem_singleton.mp h] at h2
      exact hAB h2
  have hB1 : ∀ r ∈ rows ++ [a], r.PositionID = B → r.Status ≠ EntryStatus.waiting := by
    intro r hr hp
    rcases List.mem_append.mp hr with h | h
    · exact hB r h hp
    · rw [List.mem_singleton.mp h] at hp
      exact absurd hp hAB
  have hJ := JoinQueue_empty_position hid1 activity nowB resolveNowB hnoneB hB1
  set b := joinedFront (rows ++ [a]) activity nowB candidateID B with hb
  have hfresh : ∀ e ∈ rows ++ [a], e.ID ≠ b.ID :=
    joinedEntry_fresh (rows ++ [a]) activity nowB candidateID B
  have hne : a.ID ≠ b.ID := hfresh a (List.mem_append_right _ (List.mem_singleton_self a))
  have hidT : ((rows ++ [a] ++ [b]).map (fun e => e.ID)).Nodup :=
    nodup_append_fresh hid1 hfresh
  obtain ⟨hcw, hra, hrb⟩ := front_pair_table hc hA hB hAB
    (show a.CandidateID = candidateID ∧ a.PositionID = A ∧
      a.Status = EntryStatus.waiting from ⟨rfl, rfl, rfl⟩)
    (show b.CandidateID = candidateID ∧ b.PositionID = B ∧
      b.Status = EntryStatus.waiting from ⟨rfl, rfl, rfl⟩)
  have hdec : ∀ n, nowB < n → n ≤ nowA + 24 * Hour →
      decisions (rows ++ [a] ++ [b]) activity n candidateID =
        if nowB < nowA + activity.AverageInterviewTime * Minute + activity.BufferTime * Minute then
          [(naiveInfo (rows ++ [a] ++ [b]) activity n candidateID b,
            nowA + 24 * Hour + activity.AverageInterviewTime * Minute + activity.BufferTime * Minute)]
        else [] :=
    fun n h1 h2 => decisions_front_pair hcw hra hrb rfl rfl hjoin h1 h2
  have hnopri : ∀ T : Rows, (T.map (fun e => e.ID)).Nodup →
      (∀ e ∈ candidateWaiting T candidateID, e.IsHighPriority = false) →
      (CheckQueueOptimization T activity reportNow candidateID).1 = false :=
    fun T h1 h2 => CheckQueueOptimization_no_priority h1 activity reportNow h2
  by_cases hclose : nowB < nowA + activity.AverageInterviewTime * Minute + activity.BufferTime * Minute
  · have hd := hdec resolveNowB hresolve.1 hresolve.2
    rw [if_pos hclose] at hd
    set b1 : QueueEntry := { b with EstimatedTime := some (nowA + 24 * Hour + activity.AverageInterviewTime * Minute + activity.BufferTime * Minute) } with hb1
    have hrows : (ResolveConflicts (rows ++ [a] ++ [b]) activity resolveNowB candidateID).2.2 =
        rows ++ [a] ++ [b1] := by
      rw [ResolveConflicts_rows hidT, hd]
      exact resolved_front_pair _ hidT hB hAB rfl ⟨rfl, rfl⟩ rfl (naiveInfo_Entry _ _ _ _ _)
    have hflag : (ResolveConflicts (rows ++ [a] ++ [b]) activity resolveNowB candidateID).1 =
        true := by
      rw [ResolveConflicts_hasConflicts, hd]
      rfl
    rw [hrows] at hJ
    have hidT1 : (List.map (fun e : QueueEntry => e.ID) (rows ++ [a] ++ [b1])).Nodup :=
      nodup_append_fresh hid1 hfresh
    obtain ⟨hcw1, hra1, hrb1⟩ := front_pair_table hc hA hB hAB
      (show a.CandidateID = candidateID ∧ a.PositionID = A ∧
        a.Status = EntryStatus.waiting from ⟨rfl, rfl, rfl⟩)
      (show b1.CandidateID = candidateID ∧ b1.PositionID = B ∧
        b1.Status = EntryStatus.waiting from ⟨rfl, rfl, rfl⟩)
    have hd1 : decisions (rows ++ [a] ++ [b1]) activity reportNow candidateID =
        if nowB < nowA + activity.AverageInterviewTime * Minute + activity.BufferTime * Minute then
          [(naiveInfo (rows ++ [a] ++ [b1]) activity reportNow candidateID b1,
            nowA + 24 * Hour + activity.AverageInterviewTime * Minute + activity.BufferTime * Minute)]
        else [] :=
      decisions_front_pair hcw1 hra1 hrb1 rfl rfl hjoin hreport.1 hreport.2
    rw [if_pos hclose] at hd1
    have hwait := smartWait_pair_conflict hidT1 activity.AverageInterviewTime hcw1 hAB hne
      hra1 hrb1 rfl (naiveInfo_Entry _ _ _ _ _) hd1
    have hpos : 0 < activity.AverageInterviewTime + activity.BufferTime := by
      have h1 : 0 < (activity.AverageInterviewTime + activity.BufferTime) * Minute := by
        rw [add_mul]
        omega
      exact (mul_pos_iff_of_pos_right Minute_pos).mp h1
    have hge : activity.AverageInterviewTime + activity.BufferTime ≤
        wholeMinutes (nowA + 24 * Hour + activity.AverageInterviewTime * Minute + activity.BufferTime * Minute - reportNow) := by
      apply wholeMinutes_ge
      · rw [add_mul]
        omega
      · have h1 : 0 < (activity.AverageInterviewTime + activity.BufferTime) * Minute :=
          mul_pos hpos Minute_pos
        rw [add_mul] at h1
        omega
    rw [hJ]
    simp only [if_pos hclose]
    refine ⟨hfirst, trivial, ⟨fun _ => hclose, fun _ => hflag⟩, hra1, hrb1, hwait.1, ?_,
      fun _ => ⟨hpos, hge⟩, ?_⟩
    · exact hwait.2.trans (max_eq_right (le_trans (le_of_lt hpos) hge))
    · apply hnopri _ hidT1
      intro e he
      rw [hcw1] at he
      rcases List.mem_cons.mp he with h | h
      · rw [h]; rfl
      · rw [List.mem_singleton.mp h]; rfl
  · have hd := hdec resolveNowB hresolve.1 hresolve.2
    rw [if_neg hclose] at hd
    have hrc := ResolveConflicts_of_no_decisions hidT hd
    have hd1 := hdec reportNow hreport.1 hreport.2
    rw [if_neg hclose] at hd1
    have hwait := smartWait_pair_zero hidT activity.AverageInterviewTime hcw
      (show a.PositionID ≠ b.PositionID from hAB) hra hrb rfl rfl hd1
    rw [hrc] at hJ
    rw [hJ, hrc]
    simp only [if_neg hclose]
    refine ⟨hfirst, trivial, ⟨fun h => absurd h (by decide), fun h => absurd h hclose⟩,
      hra, hrb, hwait.1, hwait.2, fun h => absurd h hclose, ?_⟩
    apply hnopri _ hidT
    intro e he
    rw [hcw] at he
    rcases List.mem_cons.mp he with h | h
    · rw [h]; rfl
    · rw [List.mem_singleton.mp h]; rfl

/-- Witness for C23 amended: candidate 1 joins the empty positions 10 and 20 of
an empty table.  When the joins are an hour apart, the wait reported for
position 20 a minute later is 0; when they are five minutes apart, it is 1447
minutes. -/
theorem JoinQueue_two_empty_positions_witness :
    (calculateSmartWaitTime
        (JoinQueue ([] ++ [joinedFront [] seededActivity 0 1 10]) seededActivity
          (60 * Minute) (60 * Minute + 1) 1 20).2
        seededActivity (61 * Minute) 20 1 seededActivity.AverageInterviewTime).wait = 0
      ∧ (calculateSmartWaitTime
        (JoinQueue ([] ++ [joinedFront [] seededActivity 0 1 10]) seededActivity
          (5 * Minute) (5 * Minute + 1) 1 20).2
        seededActivity (6 * Minute) 20 1 seededActivity.AverageInterviewTime).wait = 1447 :=
  ⟨(JoinQueue_two_empty_positions [] seededActivity 0 1 (60 * Minute) (60 * Minute + 1)
      (61 * Minute) 1 10 20 (by decide) (by decide) (by decide) (by decide) (by decide)
      (by decide) (by decide) (by decide)).2.2.2.2.2.2.1.trans (by decide),
    (JoinQueue_two_empty_positions [] seededActivity 0 1 (5 * Minute) (5 * Minute + 1)
      (6 * Minute) 1 10 20 (by decide) (by decide) (by decide) (by decide) (by decide)
      (by decide) (by decide) (by decide)).2.2.2.2.2.2.1.trans (by decide)⟩

end QueueService
